import Mathlib

/-!
# RVX: voxel import (rectangle merge) and mesh buffer packing

A shallow embedding of `src/rvx/rvx.c` (vertex packing, `rvx_emit_voxel`,
`rvx_get_edge_length`, `rvx_update_edge_buffer`, `rvx_model_populate_buffer`)
and of `src/rvx-toolkit/VOXLoader.cpp` (`GetOffset`, `AllVoxelsSameColor`,
`RemoveVoxels`, the merge loops of `ImportVOX`).

Conventions of the embedding.

* C `int` values are `Int`, unsigned bytes are `Nat`.  A conversion to a
  narrower type is written out (`toInt16`, `toUInt8`, `% 2 ^ 32`).
* `float` variables of the source only ever hold integers of small magnitude
  (voxel coordinates), for which float arithmetic is exact; they are `Int`.
* A vertex buffer is the list of the fields written into it, in order; every
  field knows its width in bytes (`short` is 2 bytes, `int`, `uint32_t` and
  `float` are 4 bytes).
* A result of type `Option` is `none` when the C code has no defined result:
  an access outside the voxel copy, or a loop that does not terminate.
-/

namespace rvx

/-! ## Machine integers -/

/-- Conversion of an integer to `int16_t` / `short` (two's complement wrap). -/
def toInt16 (v : Int) : Int := (v + 32768) % 65536 - 32768

/-- Conversion of an integer to `uint8_t`. -/
def toUInt8 (v : Int) : Nat := (v % 256).toNat

/-! ## Data model of `rvx.h` -/

/-- The struct `voxel_struct` (`Voxel`): one merged rectangle. -/
structure Voxel where
  colorIndex : Nat
  sx : Int
  ex : Int
  y : Int
  sz : Int
  ez : Int
  ext : Int
  deriving DecidableEq, Repr

/-- The struct `voxelf_struct` (`Voxelf`): `sx`, `ex` are floats, the other
coordinates are `int16_t`. -/
structure Voxelf where
  colorIndex : Nat
  sx : Int
  ex : Int
  y : Int
  sz : Int
  ez : Int
  deriving DecidableEq, Repr

/-- The struct `color_struct` (`Color4`), four unsigned bytes. -/
structure Color4 where
  r : Nat
  g : Nat
  b : Nat
  a : Nat
  deriving DecidableEq, Repr

/-- The struct `rvx_edge_struct` (`RVX_EDGE`), also the class `Edge` of `Scene.h`
(where the field `no` is called `m_no`). -/
structure RVX_EDGE where
  no : Int
  area_no : Int
  sx : Int
  ex : Int
  sy : Int
  ey : Int
  sz : Int
  ez : Int
  edge_dir : Int
  edge_width : Int
  edge_height : Int
  spacing : Int
  top_left_col : Nat
  top_right_col : Nat
  bottom_left_col : Nat
  bottom_right_col : Nat
  deriving DecidableEq, Repr

/-- One field written into a vertex buffer: a `short` or a 32-bit word. -/
inductive Field where
  | i16 (v : Int)
  | u32 (v : Nat)
  deriving DecidableEq, Repr

/-- Width of a written field in bytes. -/
def Field.size : Field → Nat
  | .i16 _ => 2
  | .u32 _ => 4

/-- Number of bytes a sequence of writes advanced the vertex pointer by. -/
def bufferBytes (buf : List Field) : Nat := (buf.map Field.size).sum

/-- The `Color4 palette[256]` argument; only indices below 256 are ever read. -/
abbrev Palette := Nat → Color4

/-- The parts of `rvx_model_struct` (`RVX_MODEL`) that the buffer builder reads or
writes.  `edges` is the array `edges[0 .. numEdges-1]`; a buffer is `none` for
a null pointer and otherwise holds what was last written at its start. -/
structure RVX_MODEL where
  numVoxels : Int
  buffer : Option (List Field)
  bufferSize : Int
  edges : List RVX_EDGE
  edgeBuffer : Option (List Field)
  edgeBufferSize : Int
  modelLength : Int
  edgesLength : Int
  deriving DecidableEq, Repr

/-- The field `numEdges`: the length of the edge array. -/
def RVX_MODEL.numEdges (m : RVX_MODEL) : Int := m.edges.length

/-! ## Constants of `rvx.c` -/

/-- The value of `sizeof(float)`. -/
def sizeof_float : Nat := 4

/-- The macro `RVX_VERTEX_SIZE`: `(2 + 1) * sizeof(float)`. -/
def RVX_VERTEX_SIZE : Nat := (2 + 1) * sizeof_float

/-- The macro `RVX_EDGE_VERTEX_SIZE`: `(2 + 1 + 1) * sizeof(float)`. -/
def RVX_EDGE_VERTEX_SIZE : Nat := (2 + 1 + 1) * sizeof_float

/-- The macro `RVX_EDGE_LENGTH`. -/
def RVX_EDGE_LENGTH : Nat := 6

/-- The macro `RVX_VOXEL_LENGTH`. -/
def RVX_VOXEL_LENGTH : Nat := 6

/-- The macro `RVX_VOXEL_SIZE`. -/
def RVX_VOXEL_SIZE : Nat := RVX_VOXEL_LENGTH * RVX_VERTEX_SIZE

/-- The macro `RVX_EDGE_SIZE`. -/
def RVX_EDGE_SIZE : Nat := RVX_EDGE_LENGTH * RVX_EDGE_VERTEX_SIZE

/-- The constant `ALIGN_LEFT`. -/
def ALIGN_LEFT : Nat := 1

/-- The constant `ALIGN_RIGHT`. -/
def ALIGN_RIGHT : Nat := 2

/-- The constant `ALIGN_BOTTOM`. -/
def ALIGN_BOTTOM : Nat := 4

/-- The constant `ALIGN_TOP`. -/
def ALIGN_TOP : Nat := 8

/-! ## Vertex packing -/

/-- The colour word of `qlVertex3f` / `qlVertex7f`:
`(ci << 24) + (c->b << 16) + (c->g << 8) + (c->r)` stored in a 32-bit word. -/
def colorWord (ci : Nat) (c : Color4) : Nat :=
  ((ci <<< 24) + (c.b <<< 16) + (c.g <<< 8) + c.r) % 2 ^ 32

/-- The four `short` writes shared by `qlVertex3f` and `qlVertex7f`:
`(short)x`, `(short)y`, `(short)(z * 16.0f)`, `1`. -/
def positionBlock (x y z : Int) : List Field :=
  [.i16 (toInt16 x), .i16 (toInt16 y), .i16 (toInt16 (z * 16)), .i16 1]

/-- The function `qlVertex3f`: appends one plain voxel vertex.  `ci` is a
`uint8_t` parameter. -/
def qlVertex3f (x y z : Int) (ci : Nat) (c : Color4) (buf : List Field) : List Field :=
  buf ++ (positionBlock x y z ++ [.u32 (colorWord (ci % 256) c)])

/-- The second word of `qlVertex7f`:
`(alignFlags << 24) + (edgeHeight << 16) + (edgeSpacing << 8) + edgeWidth`. -/
def edgeWord (edgeWidth edgeSpacing edgeHeight alignFlags : Nat) : Nat :=
  ((alignFlags <<< 24) + (edgeHeight <<< 16) + (edgeSpacing <<< 8) + edgeWidth) % 2 ^ 32

/-- The function `qlVertex7f`: appends one edge vertex.  `ci`, `edgeWidth`,
`edgeSpacing`, `edgeHeight` and `alignFlags` are `uint8_t` parameters. -/
def qlVertex7f (x y z : Int) (ci : Nat) (c : Color4)
    (edgeWidth edgeSpacing edgeHeight alignFlags : Nat) (buf : List Field) : List Field :=
  buf ++ (positionBlock x y z ++
    [.u32 (colorWord (ci % 256) c),
     .u32 (edgeWord (edgeWidth % 256) (edgeSpacing % 256) (edgeHeight % 256) (alignFlags % 256))])

/-- The function `rvx_emit_voxel`: six vertices for one rectangle. -/
def rvx_emit_voxel (voxel : Voxel) (color : Color4) (buf : List Field) : List Field :=
  let adjustedY := voxel.y * 1
  let sizeH : Int := 1
  let sizeW : Int := 1
  let dx : Int := 0
  let dz : Int := 0
  let startX := dx + voxel.sx * 1
  let startZ := dz + voxel.sz
  let endX := dx + voxel.ex * 1 + sizeW
  let endZ := dz + voxel.ez + sizeH
  let buf := qlVertex3f startX adjustedY startZ voxel.colorIndex color buf
  let buf := qlVertex3f endX adjustedY endZ voxel.colorIndex color buf
  let buf := qlVertex3f startX adjustedY endZ voxel.colorIndex color buf
  let buf := qlVertex3f endX adjustedY startZ voxel.colorIndex color buf
  let buf := qlVertex3f endX adjustedY endZ voxel.colorIndex color buf
  qlVertex3f startX adjustedY startZ voxel.colorIndex color buf

/-- One of the two halves of an `alignFlags` argument of `rvx_emit_voxelf`:
`(alignSide & bit ? value : 0)`. -/
def alignPart (alignSide bit value : Nat) : Nat :=
  if alignSide &&& bit ≠ 0 then value else 0

/-- The function `rvx_emit_voxelf`: six edge vertices for one sub-quad.  All
parameters but the voxel and the colour are `uint8_t`. -/
def rvx_emit_voxelf (voxelf : Voxelf) (color : Color4)
    (edgeWidth edgeSpacing edgeHeight edgeDir alignSide : Nat) (buf : List Field) : List Field :=
  let adjustedY := voxelf.y
  let startX := voxelf.sx
  let startZ := voxelf.sz
  let endX := voxelf.ex
  let endZ := voxelf.ez
  let buf := qlVertex7f startX adjustedY startZ voxelf.colorIndex color edgeWidth edgeSpacing
    edgeHeight (alignPart alignSide ALIGN_BOTTOM ALIGN_BOTTOM ||| alignPart alignSide ALIGN_LEFT edgeDir) buf
  let buf := qlVertex7f endX adjustedY endZ voxelf.colorIndex color edgeWidth edgeSpacing
    edgeHeight (alignPart alignSide ALIGN_TOP ALIGN_TOP ||| alignPart alignSide ALIGN_RIGHT edgeDir) buf
  let buf := qlVertex7f startX adjustedY endZ voxelf.colorIndex color edgeWidth edgeSpacing
    edgeHeight (alignPart alignSide ALIGN_TOP ALIGN_TOP ||| alignPart alignSide ALIGN_LEFT edgeDir) buf
  let buf := qlVertex7f endX adjustedY startZ voxelf.colorIndex color edgeWidth edgeSpacing
    edgeHeight (alignPart alignSide ALIGN_BOTTOM ALIGN_BOTTOM ||| alignPart alignSide ALIGN_RIGHT edgeDir) buf
  let buf := qlVertex7f endX adjustedY endZ voxelf.colorIndex color edgeWidth edgeSpacing
    edgeHeight (alignPart alignSide ALIGN_TOP ALIGN_TOP ||| alignPart alignSide ALIGN_RIGHT edgeDir) buf
  qlVertex7f startX adjustedY startZ voxelf.colorIndex color edgeWidth edgeSpacing
    edgeHeight (alignPart alignSide ALIGN_BOTTOM ALIGN_BOTTOM ||| alignPart alignSide ALIGN_LEFT edgeDir) buf

/-! ## Edge geometry -/

/-- The loop `for(int y = edge->sy; y <= edge->ey; y += edge->spacing) numVoxels += 4`
of `rvx_get_edge_length`, run for at most `fuel` iterations; `none` when the
loop condition still holds after that. -/
def rvx_get_edge_length.loop (ey spacing : Int) : Nat → Int → Int → Option Int
  | 0, y, numVoxels => if y ≤ ey then none else some numVoxels
  | fuel + 1, y, numVoxels =>
    if y ≤ ey then rvx_get_edge_length.loop ey spacing fuel (y + spacing) (numVoxels + 4)
    else some numVoxels

/-- Iteration bound for the Y loops over an edge: with `spacing ≥ 1` the loop
runs at most `ey - sy + 1` times, and a loop still running after that many
iterations has `spacing ≤ 0` and never ends. -/
def edgeFuel (edge : RVX_EDGE) : Nat := (edge.ey - edge.sy + 1).toNat

/-- The function `rvx_get_edge_length`; `none` when its loop does not terminate. -/
def rvx_get_edge_length (edge : RVX_EDGE) : Option Int :=
  (rvx_get_edge_length.loop edge.ey edge.spacing (edgeFuel edge) edge.sy 0).map
    (fun numVoxels => numVoxels * RVX_EDGE_LENGTH)

/-- The local `ew` of `rvx_update_edge_buffer`: `edge_width` as `uint8_t`. -/
def rvx_update_edge_buffer.ew (edge : RVX_EDGE) : Nat := toUInt8 edge.edge_width

/-- The local `cw` (counter width) of `rvx_update_edge_buffer`:
`edge->ex - edge->sx + 1 - ew` as `uint8_t`. -/
def rvx_update_edge_buffer.cw (edge : RVX_EDGE) : Nat :=
  toUInt8 (edge.ex - edge.sx + 1 - rvx_update_edge_buffer.ew edge)

/-- The inner X split of the four sub-quads: `sx + ew` for a left edge,
`sx + cw` for a right edge.  For an `edge_dir` other than `-1` and `1` the
source leaves it unassigned; the embedding keeps `0` there. -/
def rvx_update_edge_buffer.split (edge : RVX_EDGE) : Int :=
  if edge.edge_dir = -1 then edge.sx + rvx_update_edge_buffer.ew edge
  else if edge.edge_dir = 1 then edge.sx + rvx_update_edge_buffer.cw edge
  else 0

/-- The local `topLeftVoxel` of `rvx_update_edge_buffer` at height `y`. -/
def rvx_update_edge_buffer.topLeftVoxel (edge : RVX_EDGE) (y : Int) : Voxelf :=
  { sx := edge.sx, ex := rvx_update_edge_buffer.split edge, y := toInt16 y,
    sz := toInt16 (edge.ez + 1 * (1 - edge.edge_height)),
    ez := toInt16 (edge.ez + 1), colorIndex := edge.top_left_col }

/-- The local `topRightVoxel` of `rvx_update_edge_buffer` at height `y`. -/
def rvx_update_edge_buffer.topRightVoxel (edge : RVX_EDGE) (y : Int) : Voxelf :=
  { sx := rvx_update_edge_buffer.split edge, ex := edge.ex + 1, y := toInt16 y,
    sz := toInt16 (edge.ez + 1 * (1 - edge.edge_height)),
    ez := toInt16 (edge.ez + 1), colorIndex := edge.top_right_col }

/-- The local `bottomLeftVoxel` of `rvx_update_edge_buffer` at height `y`. -/
def rvx_update_edge_buffer.bottomLeftVoxel (edge : RVX_EDGE) (y : Int) : Voxelf :=
  { sx := edge.sx, ex := rvx_update_edge_buffer.split edge, y := toInt16 y,
    sz := toInt16 edge.sz,
    ez := toInt16 (edge.ez + 1 * (1 - edge.edge_height)), colorIndex := edge.bottom_left_col }

/-- The local `bottomRightVoxel` of `rvx_update_edge_buffer` at height `y`. -/
def rvx_update_edge_buffer.bottomRightVoxel (edge : RVX_EDGE) (y : Int) : Voxelf :=
  { sx := rvx_update_edge_buffer.split edge, ex := edge.ex + 1, y := toInt16 y,
    sz := toInt16 edge.sz,
    ez := toInt16 (edge.ez + 1 * (1 - edge.edge_height)), colorIndex := edge.bottom_right_col }

/-- One of the four guarded calls
`if(palette[col].a != 0) rvx_emit_voxelf(&voxel, palette + col, ew, edge->spacing, edge->edge_height, edge->edge_dir == -1 ? ALIGN_RIGHT : ALIGN_LEFT, alignSide, bufferPtr)`. -/
def rvx_update_edge_buffer.emit (edge : RVX_EDGE) (palette : Palette) (voxel : Voxelf)
    (col : Nat) (alignSide : Nat) (buf : List Field) : List Field :=
  if (palette col).a ≠ 0 then
    rvx_emit_voxelf voxel (palette col) (rvx_update_edge_buffer.ew edge) (toUInt8 edge.spacing)
      (toUInt8 edge.edge_height) (if edge.edge_dir = -1 then ALIGN_RIGHT else ALIGN_LEFT)
      alignSide buf
  else buf

/-- The body of the Y loop of `rvx_update_edge_buffer` for one `y`: the four
sub-quads top-left, top-right, bottom-left, bottom-right, each guarded by the
alpha of its corner colour. -/
def rvx_update_edge_buffer.body (edge : RVX_EDGE) (palette : Palette) (y : Int)
    (buf : List Field) : List Field :=
  let buf := rvx_update_edge_buffer.emit edge palette
    (rvx_update_edge_buffer.topLeftVoxel edge y) edge.top_left_col
    (ALIGN_BOTTOM ||| ALIGN_RIGHT) buf
  let buf := rvx_update_edge_buffer.emit edge palette
    (rvx_update_edge_buffer.topRightVoxel edge y) edge.top_right_col
    (ALIGN_BOTTOM ||| ALIGN_LEFT) buf
  let buf := rvx_update_edge_buffer.emit edge palette
    (rvx_update_edge_buffer.bottomLeftVoxel edge y) edge.bottom_left_col
    (ALIGN_TOP ||| ALIGN_RIGHT) buf
  rvx_update_edge_buffer.emit edge palette
    (rvx_update_edge_buffer.bottomRightVoxel edge y) edge.bottom_right_col
    (ALIGN_TOP ||| ALIGN_LEFT) buf

/-- The loop `for(int y = edge->sy; y <= edge->ey; y += edge->spacing)` of
`rvx_update_edge_buffer`, run for at most `fuel` iterations. -/
def rvx_update_edge_buffer.loop (edge : RVX_EDGE) (palette : Palette) :
    Nat → Int → List Field → Option (List Field)
  | 0, y, buf => if y ≤ edge.ey then none else some buf
  | fuel + 1, y, buf =>
    if y ≤ edge.ey then
      rvx_update_edge_buffer.loop edge palette fuel (y + edge.spacing)
        (rvx_update_edge_buffer.body edge palette y buf)
    else some buf

/-- The function `rvx_update_edge_buffer`; `none` when its loop does not
terminate. -/
def rvx_update_edge_buffer (edge : RVX_EDGE) (buf : List Field) (palette : Palette) :
    Option (List Field) :=
  rvx_update_edge_buffer.loop edge palette (edgeFuel edge) edge.sy buf

/-! ## `rvx_model_populate_buffer` -/

/-- The first edge loop of `rvx_model_populate_buffer`: accumulates
`edgesLength` and `edgeBufferSize` over the edge array. -/
def populateEdgeSizes : List RVX_EDGE → Int → Int → Option (Int × Int)
  | [], edgesLength, edgeBufferSize => some (edgesLength, edgeBufferSize)
  | edge :: rest, edgesLength, edgeBufferSize =>
    match rvx_get_edge_length edge with
    | none => none
    | some edge_len =>
      populateEdgeSizes rest (edgesLength + edge_len) (edgeBufferSize + edge_len * RVX_EDGE_SIZE)

/-- The second edge loop of `rvx_model_populate_buffer`: writes every edge. -/
def populateEdgeBuffer (palette : Palette) : List RVX_EDGE → List Field → Option (List Field)
  | [], buf => some buf
  | edge :: rest, buf =>
    match rvx_update_edge_buffer edge buf palette with
    | none => none
    | some buf => populateEdgeBuffer palette rest buf

/-- The voxel loop of `rvx_model_populate_buffer`: `rvx_emit_voxel` for every
rectangle (the `min_x` .. `max_y` bookkeeping of the source is never read). -/
def populateVoxels (palette : Palette) : List Voxel → List Field → List Field
  | [], buf => buf
  | vx :: rest, buf => populateVoxels palette rest (rvx_emit_voxel vx (palette vx.colorIndex) buf)

/-- The function `rvx_model_populate_buffer`.  `voxels` is the array
`voxels[0 .. modelVoxels-1]`.  A buffer that is (re)allocated starts empty, and
a buffer that is written holds exactly what this call wrote from its start;
`none` when an edge loop does not terminate. -/
def rvx_model_populate_buffer (model : RVX_MODEL) (voxels : List Voxel) (palette : Palette) :
    Option RVX_MODEL :=
  let modelVoxels : Int := voxels.length
  let oldBufferSize : Int := if model.buffer.isSome then model.bufferSize else 0
  let oldEdgeBufferSize : Int := if model.edgeBuffer.isSome then model.edgeBufferSize else 0
  let numVoxels : Int := modelVoxels
  let modelLength : Int := modelVoxels * RVX_VOXEL_LENGTH
  let bufferSize : Int := modelVoxels * RVX_VOXEL_SIZE
  -- if we have edges, reserve buffer for them
  let sizes : Option (Int × Int) :=
    if (0 : Int) < model.numEdges then populateEdgeSizes model.edges 0 0
    else some (model.edgesLength, 0)
  match sizes with
  | none => none
  | some (edgesLength, edgeBufferSize) =>
    let edgeBuffer : Option (List Field) :=
      if oldEdgeBufferSize ≠ edgeBufferSize then some [] else model.edgeBuffer
    let edgeWritten : Option (List Field) :=
      if (0 : Int) < model.numEdges then populateEdgeBuffer palette model.edges [] else some []
    match edgeWritten with
    | none => none
    | some edgeWritten =>
      -- nothing is written through a null pointer: it is null only if no vertex is due
      let edgeBuffer := if edgeWritten = [] then edgeBuffer else some edgeWritten
      -- need new buffer?
      let buffer : Option (List Field) :=
        if oldBufferSize ≠ bufferSize then some [] else model.buffer
      let written := populateVoxels palette voxels []
      let buffer := if voxels = [] then buffer else some written
      some { numVoxels := numVoxels, buffer := buffer, bufferSize := bufferSize
             edges := model.edges, edgeBuffer := edgeBuffer, edgeBufferSize := edgeBufferSize
             modelLength := modelLength, edgesLength := edgesLength }

/-! ## Data model of the voxel source (`ogt_vox.h`, raylib) -/

/-- The C function `abs` on `int`. -/
def iabs (v : Int) : Int := if v < 0 then -v else v

/-- The raylib struct `Matrix` (fields `m0` .. `m15`); the matrices of a voxel
scene hold integers (rotations by multiples of 90 degrees and mirrors). -/
structure Matrix where
  m0 : Int
  m1 : Int
  m2 : Int
  m3 : Int
  m4 : Int
  m5 : Int
  m6 : Int
  m7 : Int
  m8 : Int
  m9 : Int
  m10 : Int
  m11 : Int
  m12 : Int
  m13 : Int
  m14 : Int
  m15 : Int
  deriving DecidableEq, Repr

/-- Three `int` values: a coordinate triple or the array `sizes[3]`. -/
structure Int3 where
  x : Int
  y : Int
  z : Int
  deriving DecidableEq, Repr

/-- The struct `ogt_vox_model`: dimensions and the voxel bytes, cell `(x, y, z)`
at index `x + y * size_x + z * size_x * size_y`. -/
structure ogt_vox_model where
  size_x : Nat
  size_y : Nat
  size_z : Nat
  voxel_data : List Nat
  deriving DecidableEq, Repr

/-- The struct `ogt_vox_transform`, row `i` column `j` in `mij`; the fourth row
`m30`, `m31`, `m32` is the translation. -/
structure ogt_vox_transform where
  m00 : Int
  m01 : Int
  m02 : Int
  m03 : Int
  m10 : Int
  m11 : Int
  m12 : Int
  m13 : Int
  m20 : Int
  m21 : Int
  m22 : Int
  m23 : Int
  m30 : Int
  m31 : Int
  m32 : Int
  m33 : Int
  deriving DecidableEq, Repr

/-- The raymath function `Vector3Transform` (library code outside the
repository): the point `v` multiplied by the matrix, translation row included. -/
def Vector3Transform (v : Int3) (mat : Matrix) : Int3 :=
  { x := mat.m0 * v.x + mat.m4 * v.y + mat.m8 * v.z + mat.m12
    y := mat.m1 * v.x + mat.m5 * v.y + mat.m9 * v.z + mat.m13
    z := mat.m2 * v.x + mat.m6 * v.y + mat.m10 * v.z + mat.m14 }

/-! ## `VOXLoader` helpers -/

/-- The function `VOXLoader::Transform`: the transformed coordinates replace
`x`, `y`, `z`. -/
def Transform (x y z : Int) (transform : Matrix) : Int3 :=
  Vector3Transform { x := x, y := y, z := z } transform

/-- The function `VOXLoader::GetOffset`.  `inverse` is `none` for the null
pointer. -/
def GetOffset (x y z : Int) (model : ogt_vox_model) (inverse : Option Matrix) (sizes : Int3) :
    Int :=
  let p : Int3 :=
    match inverse with
    | some inv =>
      -- translate world space (x, y, z) into model space, accounting for mirrors
      let x := if sizes.x < 0 then -sizes.x - 1 - x else x
      let y := if sizes.y < 0 then -sizes.x - 1 - y else y
      let z := if sizes.z < 0 then -sizes.z - 1 - z else z
      let t := Transform x y z inv
      { x := iabs t.x, y := iabs t.y, z := iabs t.z }
    | none => { x := x, y := y, z := z }
  let sx : Int := model.size_x
  let sy : Int := model.size_y
  p.x + iabs (p.y * sx) + iabs (p.z * sx * sy)

/-- A read `data[off]` of the voxel copy; `none` outside the allocation. -/
def readVoxel (data : List Nat) (off : Int) : Option Nat :=
  if 0 ≤ off then data[off.toNat]? else none

/-- A write `data[off] = v` to the voxel copy; `none` outside the allocation. -/
def writeVoxel (data : List Nat) (off : Int) (v : Nat) : Option (List Nat) :=
  if 0 ≤ off ∧ off.toNat < data.length then some (data.set off.toNat v) else none

/-- The loop of `VOXLoader::AllVoxelsSameColor`, `n` cells from column `sx` on. -/
def AllVoxelsSameColor.loop (data : List Nat) (y z : Int) (model : ogt_vox_model)
    (inverse : Option Matrix) (c : Nat) (sizes : Int3) : Nat → Int → Option Bool
  | 0, _ => some true
  | n + 1, sx =>
    match readVoxel data (GetOffset sx y z model inverse sizes) with
    | none => none
    | some v =>
      if v ≠ c then some false
      else AllVoxelsSameColor.loop data y z model inverse c sizes n (sx + 1)

/-- The function `VOXLoader::AllVoxelsSameColor`: are the cells `sx .. ex` of row
`(y, z)` all of colour `c`?  It stops at the first cell that differs. -/
def AllVoxelsSameColor (data : List Nat) (sx ex y z : Int) (model : ogt_vox_model)
    (inverse : Option Matrix) (c : Nat) (sizes : Int3) : Option Bool :=
  AllVoxelsSameColor.loop data y z model inverse c sizes (ex + 1 - sx).toNat sx

/-- The loop of `VOXLoader::RemoveVoxels`, `n` cells from column `sx` on. -/
def RemoveVoxels.loop (y z : Int) (model : ogt_vox_model) (inverse : Option Matrix)
    (sizes : Int3) : Nat → Int → List Nat → Option (List Nat)
  | 0, _, data => some data
  | n + 1, sx, data =>
    match writeVoxel data (GetOffset sx y z model inverse sizes) 0 with
    | none => none
    | some data => RemoveVoxels.loop y z model inverse sizes n (sx + 1) data

/-- The function `VOXLoader::RemoveVoxels`: zeroes the cells `sx .. ex` of row
`(y, z)`. -/
def RemoveVoxels (data : List Nat) (sx ex y z : Int) (model : ogt_vox_model)
    (inverse : Option Matrix) (sizes : Int3) : Option (List Nat) :=
  RemoveVoxels.loop y z model inverse sizes (ex + 1 - sx).toNat sx data

/-! ## The merge loops of `VOXLoader::ImportVOX` -/

/-- The class `Area` of `Scene.h` (without `m_name`). -/
structure Area where
  m_no : Int
  m_sx : Int
  m_sy : Int
  m_sz : Int
  m_voxels : List Voxel
  deriving DecidableEq, Repr

/-- What the merge loops of one instance read but never change.  `markers` is
`none` when `RVX_EDGES` is not defined and `some (RVX_EDGE_L, RVX_EDGE_R)` when
it is (the three macros are defined outside the repository sources).  `fuel`
bounds the iterations of each of the edge scans, which have no bound in the
source. -/
structure MergeCtx where
  model : ogt_vox_model
  inversep : Option Matrix
  sizes : Int3
  space_size_x : Nat
  space_size_y : Nat
  space_size_z : Nat
  dx : Int
  dy : Int
  dz : Int
  area_no : Int
  optimize : Bool
  markers : Option (Nat × Nat)
  fuel : Nat

/-- What the merge loops change: the scratch copy of the voxels, the rectangles
of the area, the edges of the scene and the edge counter `en`. -/
structure MergeState where
  voxel_copy : List Nat
  m_voxels : List Voxel
  m_edges : List RVX_EDGE
  en : Int
  deriving DecidableEq, Repr

/-- The call `GetOffset(x, y, z, model, inversep, sizes)` inside the loops. -/
def MergeCtx.off (ctx : MergeCtx) (x y z : Int) : Int :=
  GetOffset x y z ctx.model ctx.inversep ctx.sizes

/-- The test `c == RVX_EDGE_L || c == RVX_EDGE_R`, false without `RVX_EDGES`. -/
def isEdgeMarker (markers : Option (Nat × Nat)) (c : Nat) : Bool :=
  match markers with
  | none => false
  | some (l, r) => c == l || c == r

/-- The edge-marker test with the markers of the context. -/
def MergeCtx.isMarker (ctx : MergeCtx) (c : Nat) : Bool := isEdgeMarker ctx.markers c

/-- The loop
`while(x < space_size_x - 1 && voxel_copy[GetOffset(x + 1, y, z, ..)] == c) x++`;
the first argument counts the columns left of the bound, `space_size_x - 1 - x`. -/
def lineScan (ctx : MergeCtx) (data : List Nat) (y z c : Nat) : Nat → Nat → Option Nat
  | 0, x => some x
  | n + 1, x =>
    match readVoxel data (ctx.off (x + 1 : Nat) y z) with
    | none => none
    | some v => if v = c then lineScan ctx data y z c n (x + 1) else some x

/-- The loop
`while(ez < space_size_z - 1 && AllVoxelsSameColor(.., sx, x, y, ez + 1, ..)) { RemoveVoxels(.., sx, x, y, ez + 1, ..); ez++; }`;
the first argument is `space_size_z - 1 - ez`. -/
def growZ (ctx : MergeCtx) (sx x y c : Nat) : Nat → Nat → List Nat → Option (Nat × List Nat)
  | 0, ez, data => some (ez, data)
  | n + 1, ez, data =>
    match AllVoxelsSameColor data sx x y (ez + 1 : Nat) ctx.model ctx.inversep c ctx.sizes with
    | none => none
    | some false => some (ez, data)
    | some true =>
      match RemoveVoxels data sx x y (ez + 1 : Nat) ctx.model ctx.inversep ctx.sizes with
      | none => none
      | some data => growZ ctx sx x y c n (ez + 1) data

/-- The same loop in the edge branch, where the rows are not zeroed. -/
def edgeGrowZ (ctx : MergeCtx) (data : List Nat) (sx x y c : Nat) : Nat → Nat → Option Nat
  | 0, ez => some ez
  | n + 1, ez =>
    match AllVoxelsSameColor data sx x y (ez + 1 : Nat) ctx.model ctx.inversep c ctx.sizes with
    | none => none
    | some false => some ez
    | some true => edgeGrowZ ctx data sx x y c n (ez + 1)

/-- A loop `while(cond(i)) i++` without a bound in the source, run for at most
`fuel` iterations; `cond` is `none` when it reads outside the voxel copy. -/
def scanWhile (cond : Nat → Option Bool) : Nat → Nat → Option Nat
  | 0, _ => none
  | fuel + 1, i =>
    match cond i with
    | none => none
    | some true => scanWhile cond fuel (i + 1)
    | some false => some i

/-- The inner loop `while(rz <= ez) { RemoveVoxels(.., sx, x, ry, rz, ..); rz++; }`. -/
def removeRows (ctx : MergeCtx) (sx x ry : Nat) : Nat → Nat → List Nat → Option (List Nat)
  | 0, _, data => some data
  | n + 1, rz, data =>
    match RemoveVoxels data sx x ry rz ctx.model ctx.inversep ctx.sizes with
    | none => none
    | some data => removeRows ctx sx x ry n (rz + 1) data

/-- The outer loop `while(ry <= ey) { .. ry++; }` that clears the cube of an edge. -/
def removeCube (ctx : MergeCtx) (sx x sz ez : Nat) : Nat → Nat → List Nat → Option (List Nat)
  | 0, _, data => some data
  | n + 1, ry, data =>
    match removeRows ctx sx x ry (ez + 1 - sz) sz data with
    | none => none
    | some data => removeCube ctx sx x sz ez n (ry + 1) data

/-- The scans of the edge-marker branch after the marker rectangle
`(sx .. x) x (sz .. ez)` of layer `y` is known: spacing, corner colours, width,
height and the closing layer `ey`.  Returns the edge descriptor and `ey` (in
grid coordinates). -/
def edgeMeasure (ctx : MergeCtx) (l : Nat) (r : Nat) (data : List Nat) (en : Int)
    (y sx x sz ez c : Nat) : Option (RVX_EDGE × Nat) := do
  -- find spacing
  let spacing ← scanWhile
    (fun s => (readVoxel data (ctx.off x (y + 1 + s : Nat) ez)).map (fun v => v == 0)) ctx.fuel 1
  -- take colors from next (y+1) plane
  let top_left_col ← readVoxel data (ctx.off sx (y + 1 : Nat) ez)
  let top_right_col ← readVoxel data (ctx.off x (y + 1 : Nat) ez)
  let bottom_left_col ← readVoxel data (ctx.off sx (y + 1 : Nat) sz)
  let bottom_right_col ← readVoxel data (ctx.off x (y + 1 : Nat) sz)
  -- find edge_width
  let width ←
    if c = l then
      scanWhile (fun width =>
        (readVoxel data (ctx.off (sx + width : Nat) (y + 1 : Nat) ez)).map
          (fun v => v == top_left_col)) ctx.fuel 0
    else if c = r then
      scanWhile (fun width =>
        (readVoxel data (ctx.off ((x : Int) - width) (y + 1 : Nat) ez)).map
          (fun v => v == top_right_col)) ctx.fuel 0
    else some 0
  let width := if width ≥ x - sx then (x - sx) / 2 else width
  -- find edge_height
  let height ←
    if c = l then
      scanWhile (fun height =>
        (readVoxel data (ctx.off sx (y + 1 : Nat) ((ez : Int) - height))).map
          (fun v => v == top_left_col)) ctx.fuel 0
    else if c = r then
      scanWhile (fun height =>
        (readVoxel data (ctx.off x (y + 1 : Nat) ((ez : Int) - height))).map
          (fun v => v == top_right_col)) ctx.fuel 0
    else some 0
  -- now find the other edge
  let ey ← scanWhile
    (fun ey => (readVoxel data (ctx.off sx ey sz)).map (fun v => v != c)) ctx.fuel (y + 1)
  let e : RVX_EDGE :=
    { sx := sx + ctx.dx
      ex := x + ctx.dx
      sy := y + ctx.dy + 1
      ey := ey + ctx.dy
      sz := sz + ctx.dz
      ez := ez + ctx.dz
      no := en
      area_no := ctx.area_no
      spacing := spacing
      edge_width := width
      edge_height := height
      edge_dir := if c = l then -1 else 1
      top_left_col := top_left_col
      top_right_col := top_right_col
      bottom_left_col := bottom_left_col
      bottom_right_col := bottom_right_col }
  pure (e, ey)

/-- The edge-marker branch of the loop body (`#ifdef RVX_EDGES`), entered at
cell `(x, y, z)` of marker colour `c`: the marker rectangle is found, the edge
is measured and appended, and its cube is zeroed in the scratch copy; returns
the advanced `x`. -/
def edgeBranch (ctx : MergeCtx) (l : Nat) (r : Nat) (y z x c : Nat) (st : MergeState) :
    Option (Nat × MergeState) :=
  -- find x/y/z dimensions of the edge
  match lineScan ctx st.voxel_copy y z c (ctx.space_size_x - 1 - x) x with
  | none => none
  | some x' =>
    match edgeGrowZ ctx st.voxel_copy x x' y c (ctx.space_size_z - 1 - z) z with
    | none => none
    | some ez =>
      match edgeMeasure ctx l r st.voxel_copy st.en y x x' z ez c with
      | none => none
      | some (e, ey) =>
        -- remove all voxels in the edge area
        match removeCube ctx x x' z ez (ey + 1 - y) y st.voxel_copy with
        | none => none
        | some data =>
          some (x', { st with voxel_copy := data, m_edges := st.m_edges ++ [e],
                              en := st.en + 1 })

/-- The block `if(optimize) { .. }` of the loop body for an ordinary colour `c`
found at `(x, y, z)`: returns the last column `x`, the last row `ez` and the
scratch copy after the rows `z + 1 .. ez` were zeroed. -/
def mergeRect (ctx : MergeCtx) (data : List Nat) (y z x c : Nat) :
    Option (Nat × Nat × List Nat) :=
  if ctx.optimize then
    -- see how far we can draw on X axis (line)
    match lineScan ctx data y z c (ctx.space_size_x - 1 - x) x with
    | none => none
    | some x' =>
      -- see if we can also extend Z axis (rectangle)
      match growZ ctx x x' y c (ctx.space_size_z - 1 - z) z data with
      | none => none
      | some (ez, data) => some (x', ez, data)
  else some (x, z, data)

/-- The rectangle pushed at the end of the loop body:
`Voxel(c, (int16_t)_sx, (int16_t)_ex, (int16_t)_y, (int16_t)_sz, (int16_t)_ez, ext)`. -/
def mkVoxel (ctx : MergeCtx) (c sx x y sz ez : Nat) : Voxel :=
  { colorIndex := c
    sx := toInt16 (sx + ctx.dx)
    ex := toInt16 (x + ctx.dx)
    y := toInt16 (y + ctx.dy)
    sz := toInt16 (sz + ctx.dz)
    ez := toInt16 (ez + ctx.dz)
    ext := 0 }

/-- The end of the loop body for an ordinary colour `c` found at `(x, y, z)`:
the `if(optimize)` block, then the rectangle is appended to the area. -/
def pushRect (ctx : MergeCtx) (y z x c : Nat) (st : MergeState) : Option (Nat × MergeState) :=
  match mergeRect ctx st.voxel_copy y z x c with
  | none => none
  | some (x', ez, data) =>
    some (x', { st with voxel_copy := data,
                        m_voxels := st.m_voxels ++ [mkVoxel ctx c x x' y z ez] })

/-- The body of the innermost loop of `ImportVOX` at `(x, y, z)`; returns the
value of `x` at the end of the body (the loop then increments it). -/
def cellBody (ctx : MergeCtx) (y z x : Nat) (st : MergeState) : Option (Nat × MergeState) :=
  match readVoxel st.voxel_copy (ctx.off x y z) with
  | none => none
  | some c =>
    if c = 0 then some (x, st)
    else
      match ctx.markers with
      | some (l, r) =>
        if c = l ∨ c = r then edgeBranch ctx l r y z x c st
        else pushRect ctx y z x c st
      | none => pushRect ctx y z x c st

/-- The loop `for(int x = ..; x < space_size_x; x++)`, whose body advances `x`
itself; `fuel` bounds the iterations (`space_size_x` always suffices). -/
def xLoop (ctx : MergeCtx) (y z : Nat) : Nat → Nat → MergeState → Option MergeState
  | 0, x, st => if x < ctx.space_size_x then none else some st
  | fuel + 1, x, st =>
    if x < ctx.space_size_x then
      match cellBody ctx y z x st with
      | none => none
      | some (x', st) => xLoop ctx y z fuel (x' + 1) st
    else some st

/-- The loop `for(int z = ..; z < space_size_z; z++)`: `n` rows from `z` on. -/
def zLoop (ctx : MergeCtx) (y : Nat) : Nat → Nat → MergeState → Option MergeState
  | 0, _, st => some st
  | n + 1, z, st =>
    match xLoop ctx y z ctx.space_size_x 0 st with
    | none => none
    | some st => zLoop ctx y n (z + 1) st

/-- The loop `for(int y = ..; y < space_size_y; y++)`: `n` layers from `y` on. -/
def yLoop (ctx : MergeCtx) : Nat → Nat → MergeState → Option MergeState
  | 0, _, st => some st
  | n + 1, y, st =>
    match zLoop ctx y ctx.space_size_z 0 st with
    | none => none
    | some st => yLoop ctx n (y + 1) st

/-- What `ImportVOX` reads of one `ogt_vox_instance`: its model (through
`model_index`) and its transform. -/
structure ogt_vox_instance where
  model : ogt_vox_model
  transform : ogt_vox_transform
  deriving DecidableEq, Repr

/-- The local `Matrix transform` that `ImportVOX` fills from the instance's
transform, translation ignored. -/
def instanceMatrix (t : ogt_vox_transform) : Matrix :=
  { m0 := t.m00, m1 := t.m01, m2 := t.m02, m3 := t.m03
    m4 := t.m10, m5 := t.m11, m6 := t.m12, m7 := t.m13
    m8 := t.m20, m9 := t.m21, m10 := t.m22, m11 := t.m23
    m12 := 0, m13 := 0, m14 := 0, m15 := 1 }

/-- The flag `isIdentity` computed from the inverted matrix. -/
def isIdentity (inverse : Matrix) : Bool :=
  (inverse.m0 == 1 && inverse.m5 == 1 && inverse.m10 == 1 && inverse.m15 == 1)
  && (inverse.m1 == 0 && inverse.m2 == 0 && inverse.m3 == 0 && inverse.m4 == 0)
  && (inverse.m6 == 0 && inverse.m7 == 0 && inverse.m8 == 0 && inverse.m9 == 0)
  && (inverse.m11 == 0 && inverse.m12 == 0 && inverse.m13 == 0 && inverse.m14 == 0)

/-- The values that the instance loop of `ImportVOX` computes before the merge
loops: the inverse pointer, the transformed sizes and the translation.
`inverse` is the value of raylib's `MatrixInvert(transform)` (library code
outside the repository). -/
def instanceCtx (markers : Option (Nat × Nat)) (fuel : Nat) (optimize : Bool)
    (inst : ogt_vox_instance) (inverse : Matrix) (m_no : Int) : MergeCtx :=
  let model := inst.model
  let ogt_transform := inst.transform
  let transform := instanceMatrix ogt_transform
  -- skip matrix ops when there are no transforms
  let inversep : Option Matrix := if isIdentity inverse then none else some inverse
  -- transform sizes
  let sizes := Transform model.size_x model.size_y model.size_z transform
  let space_size_x := (iabs sizes.x).toNat
  let space_size_y := (iabs sizes.y).toNat
  let space_size_z := (iabs sizes.z).toNat
  -- translation
  let dx : Int := Int.tdiv (-(space_size_x : Int)) 2 + ogt_transform.m30
  let dy : Int := Int.tdiv (-(space_size_y : Int)) 2 + ogt_transform.m31
  let dz : Int := Int.tdiv (-(space_size_z : Int)) 2 + ogt_transform.m32
  { model := model, inversep := inversep, sizes := sizes
    space_size_x := space_size_x, space_size_y := space_size_y, space_size_z := space_size_z
    dx := dx, dy := dy, dz := dz, area_no := m_no, optimize := optimize
    markers := markers, fuel := fuel }

/-- The body of the instance loop of `VOXLoader::ImportVOX` after the area number
`m_no` is known: sizes, translation, scratch copy and the merge loops.  `en` is
the running edge counter and `edges` the edges of the scene so far.  Returns the
area, the edges and the counter; `none` when the copy or a loop reads or writes
outside its buffer, or an edge scan does not end within `fuel` steps. -/
def importInstance (markers : Option (Nat × Nat)) (fuel : Nat) (optimize : Bool)
    (inst : ogt_vox_instance) (inverse : Matrix) (m_no : Int) (edges : List RVX_EDGE) (en : Int) :
    Option (Area × List RVX_EDGE × Int) :=
  let ctx := instanceCtx markers fuel optimize inst inverse m_no
  -- copy in case the are instanced and we modify them
  let bytes := ctx.space_size_x * ctx.space_size_y * ctx.space_size_z
  if inst.model.voxel_data.length < bytes then none
  else
    let voxel_copy := inst.model.voxel_data.take bytes
    match yLoop ctx ctx.space_size_y 0
        { voxel_copy := voxel_copy, m_voxels := [], m_edges := edges, en := en } with
    | none => none
    | some st =>
      some ({ m_no := m_no, m_sx := ctx.dx, m_sy := ctx.dy, m_sz := ctx.dz,
              m_voxels := st.m_voxels },
            st.m_edges, st.en)

/-- The raymath matrix `MatrixIdentity()`. -/
def identityMatrix : Matrix :=
  { m0 := 1, m1 := 0, m2 := 0, m3 := 0
    m4 := 0, m5 := 1, m6 := 0, m7 := 0
    m8 := 0, m9 := 0, m10 := 1, m11 := 0
    m12 := 0, m13 := 0, m14 := 0, m15 := 1 }

/-! ## Reference layouts used to state the packing properties -/

/-- A plain voxel vertex with the given field values: four 16-bit fields, one
32-bit colour word. -/
def plainVertex (x y z : Int) (colour : Nat) : List Field :=
  [.i16 x, .i16 y, .i16 z, .i16 1, .u32 colour]

/-- An edge vertex with the given field values: the position block, the colour
word and the edge word. -/
def edgeVertex (x y z : Int) (colour edge : Nat) : List Field :=
  [.i16 x, .i16 y, .i16 z, .i16 1, .u32 colour, .u32 edge]

/-- A value that a signed 16-bit field holds without wrap-around. -/
def FitsInt16 (v : Int) : Prop := -32768 ≤ v ∧ v ≤ 32767

instance (v : Int) : Decidable (FitsInt16 v) := by unfold FitsInt16; infer_instance

/-- Number of iterations of `for(y = sy; y <= ey; y += spacing)` for a positive
`spacing`: the values `sy`, `sy + spacing`, .. that do not exceed `ey`. -/
def ySteps (sy ey spacing : Int) : Nat :=
  if sy ≤ ey then ((ey - sy) / spacing).toNat + 1 else 0

/-- Number of the four corner colours of an edge (top-left, top-right,
bottom-left, bottom-right) whose palette alpha is not zero. -/
def survivingQuads (palette : Palette) (e : RVX_EDGE) : Nat :=
  (if (palette e.top_left_col).a ≠ 0 then 1 else 0)
  + (if (palette e.top_right_col).a ≠ 0 then 1 else 0)
  + (if (palette e.bottom_left_col).a ≠ 0 then 1 else 0)
  + (if (palette e.bottom_right_col).a ≠ 0 then 1 else 0)

/-- The edge buffer length that claim C10 states: over all edges, Y-steps times
sub-quads with non-zero corner alpha times 6 vertices times 16 bytes. -/
def claimedEdgeBytes (palette : Palette) (edges : List RVX_EDGE) : Nat :=
  (edges.map (fun e => ySteps e.sy e.ey e.spacing * survivingQuads palette e * 6 * 16)).sum

/-- Room for all four sub-quads of every Y-step of every edge, in bytes. -/
def fullEdgeBytes (edges : List RVX_EDGE) : Nat :=
  (edges.map (fun e => ySteps e.sy e.ey e.spacing * 4 * 6 * 16)).sum

/-- A palette in which only colour 1 is opaque. -/
def paletteOnlyOne : Palette := fun i => if i = 1 then ⟨10, 20, 30, 255⟩ else ⟨0, 0, 0, 0⟩

/-- A model with a single edge of one Y-step whose corners have the colours
1, 2, 3 and 4, and no buffers yet (as after `rvx_model_new`). -/
def modelOneEdge : RVX_MODEL :=
  { numVoxels := 0, buffer := none, bufferSize := 0
    edges := [{ no := 0, area_no := 100, sx := 0, ex := 3, sy := 0, ey := 0, sz := 0, ez := 0
                edge_dir := -1, edge_width := 1, edge_height := 1, spacing := 1
                top_left_col := 1, top_right_col := 2, bottom_left_col := 3,
                bottom_right_col := 4 }]
    edgeBuffer := none, edgeBufferSize := 0, modelLength := 0, edgesLength := 0 }

/-- The function `rvx_model_new`: the fields of a fresh model. -/
def rvx_model_new : RVX_MODEL :=
  { numVoxels := 0, buffer := none, bufferSize := 0, edges := []
    edgeBuffer := none, edgeBufferSize := 0, modelLength := 0, edgesLength := 0 }

/-! ## Vocabulary for the merge properties -/

/-- The voxel at cell `(x, y, z)` of a grid stored with row length `SX` and
layer stride `SX * SY`; `0` (empty) past the end of the data. -/
def cellAt (SX SY : Nat) (data : List Nat) (x y z : Nat) : Nat :=
  data.getD (x + y * SX + z * SX * SY) 0

/-- A rectangle in the local coordinates of the grid, before the translation to
world space: colour, first and last column, layer, first and last row. -/
structure LRect where
  c : Nat
  sx : Nat
  ex : Nat
  y : Nat
  sz : Nat
  ez : Nat
  deriving DecidableEq, Repr

/-- The rectangle covers cell `(x, y, z)`. -/
def LRect.covers (r : LRect) (x y z : Nat) : Prop :=
  r.y = y ∧ r.sx ≤ x ∧ x ≤ r.ex ∧ r.sz ≤ z ∧ z ≤ r.ez

instance (r : LRect) (x y z : Nat) : Decidable (r.covers x y z) := by
  unfold LRect.covers; infer_instance

/-- The `Voxel` that `ImportVOX` appends for a local rectangle. -/
def LRect.toVoxel (ctx : MergeCtx) (r : LRect) : Voxel :=
  mkVoxel ctx r.c r.sx r.ex r.y r.sz r.ez

/-- Number of rectangles of a list that cover cell `(x, y, z)`. -/
def coverCount (L : List LRect) (x y z : Nat) : Nat :=
  L.countP (fun r => decide (r.covers x y z))

/-- Cell `(x, y, z)` comes before the loop position `(fx, fy, fz)` in the scan
order of `ImportVOX` (layers, then rows, then columns). -/
def scannedBefore (x y z fx fy fz : Nat) : Prop :=
  y < fy ∨ (y = fy ∧ (z < fz ∨ (z = fz ∧ x < fx)))

instance (x y z fx fy fz : Nat) : Decidable (scannedBefore x y z fx fy fz) := by
  unfold scannedBefore; infer_instance

/-- The merge context of an instance with the identity transform: the fast path
`inversep = nullptr`, and the space sizes are the model's sizes. -/
structure IdentityCtx (ctx : MergeCtx) : Prop where
  inv : ctx.inversep = none
  size_x : ctx.model.size_x = ctx.space_size_x
  size_y : ctx.model.size_y = ctx.space_size_y

/-- The grid holds no edge-marker colour (vacuous without `RVX_EDGES`). -/
def NoMarkers (ctx : MergeCtx) (G : List Nat) : Prop :=
  ∀ c ∈ G, ctx.isMarker c = false

/-- The state of the merge when the loops stand at column `fx` of row `fz` of
layer `fy`, for the source grid `G`, the scratch copy `data` and the list `L`
of rectangles emitted so far:
* every cell already scanned is covered once if it is non-empty in `G` and
  not at all if it is empty;
* a cell still to be scanned is either uncovered and unchanged in the scratch
  copy, or covered once, zeroed in the scratch copy and non-empty in `G`;
* every rectangle lies in the grid, started at a scanned cell, and has the
  colour that all its cells have in `G`, which is not zero. -/
structure MergeInv (SX SY SZ : Nat) (G : List Nat) (fx fy fz : Nat) (data : List Nat)
    (L : List LRect) : Prop where
  len : data.length = SX * SY * SZ
  scanned : ∀ x y z, x < SX → y < SY → z < SZ → scannedBefore x y z fx fy fz →
    coverCount L x y z = if cellAt SX SY G x y z ≠ 0 then 1 else 0
  pending : ∀ x y z, x < SX → y < SY → z < SZ → ¬ scannedBefore x y z fx fy fz →
    (coverCount L x y z = 0 ∧ cellAt SX SY data x y z = cellAt SX SY G x y z)
    ∨ (coverCount L x y z = 1 ∧ cellAt SX SY data x y z = 0 ∧ cellAt SX SY G x y z ≠ 0)
  rects : ∀ r ∈ L, r.sx ≤ r.ex ∧ r.ex < SX ∧ r.sz ≤ r.ez ∧ r.ez < SZ ∧ r.y < SY ∧ r.c ≠ 0
    ∧ scannedBefore r.sx r.y r.sz fx fy fz
    ∧ ∀ x z, r.sx ≤ x → x ≤ r.ex → r.sz ≤ z → z ≤ r.ez → cellAt SX SY G x r.y z = r.c

/-- The rectangle covers the world cell `(x, y, z)`: it lies in layer `y` and
`(x, z)` is in `(sx .. ex) x (sz .. ez)`. -/
def Voxel.covers (v : Voxel) (x y z : Int) : Prop :=
  v.y = y ∧ v.sx ≤ x ∧ x ≤ v.ex ∧ v.sz ≤ z ∧ z ≤ v.ez

instance (v : Voxel) (x y z : Int) : Decidable (v.covers x y z) := by
  unfold Voxel.covers; infer_instance

/-- The colour of the source grid at the local cell `(x, y, z)`; `0` (empty)
outside the grid. -/
def sourceCell (model : ogt_vox_model) (x y z : Int) : Nat :=
  if 0 ≤ x ∧ x < model.size_x ∧ 0 ≤ y ∧ y < model.size_y ∧ 0 ≤ z ∧ z < model.size_z then
    cellAt model.size_x model.size_y model.voxel_data x.toNat y.toNat z.toNat
  else 0

/-- The world coordinate of local coordinate `0` along an axis of `size` cells
translated by `t`: `-(int)size / 2 + t` with C's truncating division. -/
def axisOrigin (size : Nat) (t : Int) : Int := Int.tdiv (-(size : Int)) 2 + t

/-- All cells of an axis of `size` cells translated by `t` have world
coordinates in the signed 16-bit range. -/
def AxisFits (size : Nat) (t : Int) : Prop :=
  -32768 ≤ axisOrigin size t ∧ axisOrigin size t + size ≤ 32768

instance (size : Nat) (t : Int) : Decidable (AxisFits size t) := by
  unfold AxisFits; infer_instance

/-- The rectangle coordinates of the instance fit the signed 16-bit fields of
`Voxel` after the translation (the caller contract of the spec, section 7). -/
def WorldFits (inst : ogt_vox_instance) : Prop :=
  AxisFits inst.model.size_x inst.transform.m30
  ∧ AxisFits inst.model.size_y inst.transform.m31
  ∧ AxisFits inst.model.size_z inst.transform.m32

instance (inst : ogt_vox_instance) : Decidable (WorldFits inst) := by
  unfold WorldFits; infer_instance

/-- The rectangles of an area that lie in world layer `y`. -/
def rectsAtLayer (area : Area) (y : Int) : List Voxel :=
  area.m_voxels.filter (fun v => decide (v.y = y))

/-- The non-empty cells of layer `Y` of the grid are exactly the cells of the
axis-aligned rectangle with columns `a .. b` and rows `c0 .. d`. -/
def LayerFilledRect (model : ogt_vox_model) (Y a b c0 d : Nat) : Prop :=
  a ≤ b ∧ b < model.size_x ∧ c0 ≤ d ∧ d < model.size_z
  ∧ ∀ i j, i < model.size_x → j < model.size_z →
      (cellAt model.size_x model.size_y model.voxel_data i Y j ≠ 0
        ↔ (a ≤ i ∧ i ≤ b ∧ c0 ≤ j ∧ j ≤ d))

/-- The identity transform without translation. -/
def identityTransform : ogt_vox_transform :=
  { m00 := 1, m01 := 0, m02 := 0, m03 := 0
    m10 := 0, m11 := 1, m12 := 0, m13 := 0
    m20 := 0, m21 := 0, m22 := 1, m23 := 0
    m30 := 0, m31 := 0, m32 := 0, m33 := 1 }

/-- The scenario of claim C4: a grid with `size_x = 2`, `size_y = 1`,
`size_z = 2` whose four cells have colour 3, placed with the identity transform
and zero translation. -/
def gridTwoByTwo : ogt_vox_instance :=
  { model := { size_x := 2, size_y := 1, size_z := 2, voxel_data := [3, 3, 3, 3] }
    transform := identityTransform }

/-- An L-shaped slab of colour 3 in a grid with `size_x = 3`, `size_y = 1`,
`size_z = 3`: the first row and the first column. -/
def gridLShape : ogt_vox_instance :=
  { model := { size_x := 3, size_y := 1, size_z := 3
               voxel_data := [3, 3, 3, 3, 0, 0, 3, 0, 0] }
    transform := identityTransform }

/-- A grid with `size_x = 3`, `size_y = 4`, `size_z = 2`: a strip of marker
colour 254 in layer 0, a strip of colour 5 above it in layer 1 and a closing
marker strip in layer 2, all in row 0. -/
def gridEdgeStrip : ogt_vox_instance :=
  { model := { size_x := 3, size_y := 4, size_z := 2
               voxel_data := [254, 254, 254, 5, 5, 5, 254, 254, 254, 0, 0, 0,
                              0, 0, 0, 0, 0, 0, 0, 0, 0, 0, 0, 0] }
    transform := identityTransform }

/-- The scratch copy `data'` arises from `data` by zeroing cells: same length,
and every byte is unchanged or zero. -/
def Zeroed (data data' : List Nat) : Prop :=
  data'.length = data.length ∧ ∀ i, data'.getD i 0 = data.getD i 0 ∨ data'.getD i 0 = 0

/-- What holds of the merge for every configuration of edge markers: the
scratch copy arises from the source grid `G` by zeroing cells, and every
rectangle emitted so far lies in the grid and has the colour that all its
cells have in `G`, which is not zero. -/
structure ColourInv (SX SY SZ : Nat) (G data : List Nat) (L : List LRect) : Prop where
  len : data.length = SX * SY * SZ
  cells : ∀ x y z, x < SX → y < SY → z < SZ →
    cellAt SX SY data x y z = cellAt SX SY G x y z ∨ cellAt SX SY data x y z = 0
  rects : ∀ r ∈ L, r.sx ≤ r.ex ∧ r.ex < SX ∧ r.sz ≤ r.ez ∧ r.ez < SZ ∧ r.y < SY ∧ r.c ≠ 0
    ∧ ∀ x z, r.sx ≤ x → x ≤ r.ex → r.sz ≤ z → z ≤ r.ez → cellAt SX SY G x r.y z = r.c

/-! ## The instance loop of `VOXLoader::ImportVOX` -/

/-- A C string such as `instance.name`: the characters before the terminating
zero byte (none of them is zero) and the bytes that follow the terminator in
memory, about which nothing is known. -/
structure CString where
  chars : List Nat
  after : Nat → Nat

/-- The byte `s[i]` of a C string: a character, the terminator, or whatever
follows the terminator. -/
def CString.get (s : CString) (i : Nat) : Nat :=
  if i < s.chars.length then s.chars.getD i 0
  else if i = s.chars.length then 0
  else s.after (i - s.chars.length - 1)

/-- The C function `isdigit` on a byte (C locale): `'0' .. '9'`. -/
def isdigit (c : Nat) : Bool := decide (48 ≤ c ∧ c ≤ 57)

/-- The test that guards the override of the area number:
`instance.name[2] == 0 && isdigit(instance.name[0]) && isdigit(instance.name[1])`. -/
def nameIsTwoDigits (name : CString) : Bool :=
  name.get 2 == 0 && isdigit (name.get 0) && isdigit (name.get 1)

/-- The area number `area.m_no` that `ImportVOX` assigns to an instance, `an`
being the automatic number: the instance name overrides it if it is two digits. -/
def areaNumber (an : Int) (name : Option CString) : Int :=
  match name with
  | none => an
  | some name =>
    if nameIsTwoDigits name then
      -- override no with instance name if it's two digits
      ((name.get 0 : Int) - 48) * 10 + ((name.get 1 : Int) - 48)
    else an

/-- What `ImportVOX` reads of one entry of `vox->instances`: the model and
transform, the name (`none` for `NULL`), and the value that raylib's
`MatrixInvert` returns for the instance's matrix (library code outside the
repository). -/
structure SceneInstance where
  inst : ogt_vox_instance
  name : Option CString
  inverse : Matrix

/-- The struct `ogt_vox_scene` as far as `ImportVOX` reads it. -/
structure ogt_vox_scene where
  palette : Palette
  instances : List SceneInstance

/-- The class `Scene` as far as `ImportVOX` writes it. -/
structure Scene where
  m_palette : List Color4
  m_areas : List Area
  m_edges : List RVX_EDGE

/-- The instance loop `for(uint32_t ii = 0; ii < vox->num_instances; ii++)` of
`ImportVOX`, with the automatic number `an` and the edge counter `en`. -/
def ImportVOX.loop (markers : Option (Nat × Nat)) (fuel : Nat) (optimize : Bool) :
    List SceneInstance → Int → Int → List Area → List RVX_EDGE →
    Option (List Area × List RVX_EDGE)
  | [], _, _, m_areas, m_edges => some (m_areas, m_edges)
  | i :: rest, an, en, m_areas, m_edges =>
    match importInstance markers fuel optimize i.inst i.inverse (areaNumber an i.name)
        m_edges en with
    | none => none
    | some (area, m_edges, en) =>
      ImportVOX.loop markers fuel optimize rest (an + 1) en (m_areas ++ [area]) m_edges

/-- The function `VOXLoader::ImportVOX`: the palette is copied, areas and edges
are rebuilt from the instances.  Nothing of the prior scene is kept. -/
def ImportVOX (markers : Option (Nat × Nat)) (fuel : Nat) (vox : ogt_vox_scene)
    (_scene : Scene) (optimize : Bool) : Option Scene :=
  let m_palette := (List.range 256).map vox.palette
  -- automatic number, if not present
  let an : Int := 100
  let en : Int := 0
  match ImportVOX.loop markers fuel optimize vox.instances an en [] [] with
  | none => none
  | some (m_areas, m_edges) =>
    some { m_palette := m_palette, m_areas := m_areas, m_edges := m_edges }

/-- A scene of three instances of the 2 x 1 x 2 grid: the first is named
`"07"`, the second has no name, the third is named `"7"`. -/
def sceneThreeAreas : ogt_vox_scene :=
  { palette := fun _ => ⟨0, 0, 0, 255⟩
    instances :=
      [ { inst := gridTwoByTwo, name := some ⟨[48, 55], fun _ => 0⟩, inverse := identityMatrix },
        { inst := gridTwoByTwo, name := none, inverse := identityMatrix },
        { inst := gridTwoByTwo, name := some ⟨[55], fun _ => 48⟩, inverse := identityMatrix } ] }

/-! ## Mirrored and rotated instances -/

/-- The matrix `diag(1, -1, 1)` of a mirror along Y; it is its own inverse. -/
def mirrorYMatrix : Matrix := { identityMatrix with m5 := -1 }

/-- The matrix `diag(-1, 1, 1)` of a mirror along X; it is its own inverse. -/
def mirrorXMatrix : Matrix := { identityMatrix with m0 := -1 }

/-- The matrix `diag(-1, -1, 1)` of the rotation by 180 degrees about Z; it is
its own inverse. -/
def rotateZMatrix : Matrix := { identityMatrix with m0 := -1, m5 := -1 }

/-- A model with `size_x = 2`, `size_y = 3`, `size_z = 1` whose six cells have
the colours 1 .. 6 in the order of their indices. -/
def modelTwoByThree : ogt_vox_model :=
  { size_x := 2, size_y := 3, size_z := 1, voxel_data := [1, 2, 3, 4, 5, 6] }

/-- The 2 x 3 x 1 model mirrored along Y. -/
def gridMirrorY : ogt_vox_instance :=
  { model := modelTwoByThree, transform := { identityTransform with m11 := -1 } }

/-- The 2 x 3 x 1 model mirrored along X. -/
def gridMirrorX : ogt_vox_instance :=
  { model := modelTwoByThree, transform := { identityTransform with m00 := -1 } }

/-- A model with `size_x = 1`, `size_y = 2`, `size_z = 1`: colour 3 in layer 0,
layer 1 is empty. -/
def modelColumn : ogt_vox_model :=
  { size_x := 1, size_y := 2, size_z := 1, voxel_data := [3, 0] }

/-- The 1 x 2 x 1 column, not rotated. -/
def gridColumn : ogt_vox_instance :=
  { model := modelColumn, transform := identityTransform }

/-- The 1 x 2 x 1 column rotated by 180 degrees about Z. -/
def gridColumnRotated : ogt_vox_instance :=
  { model := modelColumn, transform := { identityTransform with m00 := -1, m11 := -1 } }

/-- The cells of a grid with `SX` columns and `SY` layers in row `z`, in the
order of their indices. -/
def layerCells (SX SY : Nat) (z : Int) : List Int3 :=
  (List.range SY).flatMap (fun y => (List.range SX).map (fun x => ⟨(x : Int), (y : Int), z⟩))

/-- The merge context with the general path forced: `inversep` points to the
identity matrix instead of being null. -/
def MergeCtx.generalPath (ctx : MergeCtx) : MergeCtx :=
  { ctx with inversep := some identityMatrix }

/-- A grid with `size_x = 2`, `size_y = 3`, `size_z = 2` and a right-marker
rectangle (colour 255) in layer 0: above its far row `z = 1` layer 1 has colour
5 and layer 2 holds an empty cell and colour 5, above its near row `z = 0`
layer 1 holds the closing marker and colour 7. -/
def gridRightEdge : ogt_vox_instance :=
  { model := { size_x := 2, size_y := 3, size_z := 2
               voxel_data := [255, 255, 255, 7, 0, 0, 255, 255, 5, 5, 0, 5] }
    transform := identityTransform }

/-- No non-empty cell of the scratch copy has the right-marker colour
(`RVX_EDGE_R`); vacuous when edge detection is off. -/
def RightFree (markers : Option (Nat × Nat)) (data : List Nat) : Prop :=
  ∀ l r, markers = some (l, r) → ∀ i, data.getD i 0 = r → data.getD i 0 = 0

/-- The 2 x 1 x 2 grid of colour 3 with the identity linear map and the
translation `(10, 20, 30)`. -/
def gridTranslated : ogt_vox_instance :=
  { model := { size_x := 2, size_y := 1, size_z := 2, voxel_data := [3, 3, 3, 3] }
    transform := { identityTransform with m30 := 10, m31 := 20, m32 := 30 } }

/-- The grid with `size_x = 2`, `size_y = 1`, `size_z = 1` whose two cells have
colour 3: a horizontal run of two cells. -/
def gridRun : ogt_vox_instance :=
  { model := { size_x := 2, size_y := 1, size_z := 1, voxel_data := [3, 3] }
    transform := identityTransform }

/-- The invariant of an edge descriptor: `ex >= sx`, `ez >= sz`, `ey >= sy`
and `spacing >= 1`. -/
def EdgeWellFormed (e : RVX_EDGE) : Prop :=
  e.sx ≤ e.ex ∧ e.sz ≤ e.ez ∧ e.sy ≤ e.ey ∧ 1 ≤ e.spacing

instance (e : RVX_EDGE) : Decidable (EdgeWellFormed e) := by
  unfold EdgeWellFormed; infer_instance

/-- A rectangle whose coordinates all fit 16 bits but whose row `sz = 2048`
does not fit the fixed-point z field: `16 * 2048 = 32768`. -/
def voxelFarRow : Voxel :=
  { colorIndex := 1, sx := 0, ex := 0, y := 0, sz := 2048, ez := 2048, ext := 0 }

/-- A model without edges that still carries the counts of an earlier scene
with one edge: `edgesLength = 24`, `edgeBufferSize = 2304`. -/
def modelStaleEdges : RVX_MODEL :=
  { numVoxels := 0, buffer := none, bufferSize := 0, edges := []
    edgeBuffer := some [], edgeBufferSize := 2304, modelLength := 0, edgesLength := 24 }

/-- The sum of `rvx_get_edge_length` over an edge list (a length that is not
defined counts as 0). -/
def totalEdgeLength (edges : List RVX_EDGE) : Int :=
  (edges.map (fun e => (rvx_get_edge_length e).getD 0)).sum

/-! ## `Renderer` (rvx-toolkit) -/

/-- The class `Renderer` as far as `Rebuild` and `PopulateBuffers` use it: the
scene, the model `m_scene.m_model`, its flag `bound` (the GL objects themselves
are outside the embedding) and `m_rebuildRequired`. -/
structure Renderer where
  m_scene : Scene
  m_model : RVX_MODEL
  bound : Bool
  m_rebuildRequired : Bool

/-- The field assignments of the edge loop of `Renderer::PopulateBuffers`: every
field of the model's edge `re` but `no` is taken from the scene's edge `se`. -/
def copyEdge (re se : RVX_EDGE) : RVX_EDGE :=
  { re with
    area_no := se.area_no
    edge_dir := se.edge_dir
    sx := se.sx
    ex := se.ex
    sy := se.sy
    ey := se.ey
    sz := se.sz
    ez := se.ez
    edge_width := se.edge_width
    edge_height := se.edge_height
    spacing := se.spacing
    top_left_col := se.top_left_col
    top_right_col := se.top_right_col
    bottom_left_col := se.bottom_left_col
    bottom_right_col := se.bottom_right_col }

/-- The palette pointer `m_scene.m_palette.data()` as a `Color4 palette[256]`. -/
def scenePalette (scene : Scene) : Palette := fun i => scene.m_palette.getD i ⟨0, 0, 0, 0⟩

/-- The function `Renderer::PopulateBuffers`.  `fresh` is what a newly allocated
edge array holds (`malloc` does not initialise it). -/
def Renderer.PopulateBuffers (fresh : Nat → RVX_EDGE) (r : Renderer) : Option Renderer :=
  let voxels := (r.m_scene.m_areas.map (fun ar => ar.m_voxels)).flatten
  -- rebuild edges
  let edges : List RVX_EDGE :=
    if r.m_model.numEdges ≠ r.m_scene.m_edges.length then
      (List.range r.m_scene.m_edges.length).map fresh
    else r.m_model.edges
  let edges := List.zipWith copyEdge edges r.m_scene.m_edges
  match rvx_model_populate_buffer { r.m_model with edges := edges } voxels
      (scenePalette r.m_scene) with
  | none => none
  | some model => some { r with m_model := model }

/-- The function `Renderer::Rebuild`: `DeleteBuffers` unbinds the model, an empty
scene returns at once, otherwise a buffer is allocated, filled and bound. -/
def Renderer.Rebuild (fresh : Nat → RVX_EDGE) (r : Renderer) : Option Renderer :=
  let r := { r with m_rebuildRequired := false }
  -- DeleteBuffers
  let r := { r with bound := false }
  let numVoxels : Int := (r.m_scene.m_areas.map (fun ar => (ar.m_voxels.length : Int))).sum
  if numVoxels = 0 then some r
  else
    let numVoxels := numVoxels + 1
    let numVertices := numVoxels * 6
    let model := { r.m_model with
      buffer := some []
      bufferSize := numVertices * 6 * sizeof_float
      numVoxels := numVoxels }
    match Renderer.PopulateBuffers fresh { r with m_model := model } with
    | none => none
    -- rvx_model_bind
    | some r => some { r with bound := true }

/-- A model that still holds the geometry of an earlier scene with two
rectangles. -/
def modelTwoRects : RVX_MODEL :=
  { numVoxels := 2
    buffer := some (populateVoxels paletteOnlyOne
      [⟨3, 0, 1, 0, 0, 1, 0⟩, ⟨5, 2, 2, 0, 0, 0, 0⟩] [])
    bufferSize := 144, edges := [], edgeBuffer := none, edgeBufferSize := 0
    modelLength := 12, edgesLength := 0 }

/-- An edge array whose entries are all zero, for a newly allocated array. -/
def freshZero : Nat → RVX_EDGE :=
  fun _ => { no := 0, area_no := 0, sx := 0, ex := 0, sy := 0, ey := 0, sz := 0, ez := 0
             edge_dir := 0, edge_width := 0, edge_height := 0, spacing := 0
             top_left_col := 0, top_right_col := 0, bottom_left_col := 0
             bottom_right_col := 0 }

/-- A malformed grid with `size_x = 3`, `size_y = 2`, `size_z = 1`: a strip of
three left-marker cells (colour 254) in layer 0 and colour 5 above it; no
closing marker. -/
def gridEdgeOpen : ogt_vox_instance :=
  { model := { size_x := 3, size_y := 2, size_z := 1
               voxel_data := [254, 254, 254, 5, 5, 5] }
    transform := identityTransform }

/-- The Z growth of a local rectangle stopped for a reason visible in the source
grid `G`: its last row is the last row of the grid, or the next row holds,
within the rectangle's columns, a cell of another colour. -/
def ZMaximal (SX SY SZ : Nat) (G : List Nat) (r : LRect) : Prop :=
  r.ez + 1 = SZ ∨ ∃ i, r.sx ≤ i ∧ i ≤ r.ex ∧ cellAt SX SY G i r.y (r.ez + 1) ≠ r.c

/-- Every rectangle of the list comes from a local rectangle that lies in the
grid, has the colour of all its cells in the source grid `G`, and whose Z growth
is maximal. -/
def AllZMaximal (ctx : MergeCtx) (G : List Nat) (vs : List Voxel) : Prop :=
  ∀ v ∈ vs, ∃ r : LRect, v = r.toVoxel ctx
    ∧ (r.sx ≤ r.ex ∧ r.ex < ctx.space_size_x ∧ r.sz ≤ r.ez ∧ r.ez < ctx.space_size_z
        ∧ r.y < ctx.space_size_y)
    ∧ (∀ x z, r.sx ≤ x → x ≤ r.ex → r.sz ≤ z → z ≤ r.ez →
        cellAt ctx.space_size_x ctx.space_size_y G x r.y z = r.c)
    ∧ ZMaximal ctx.space_size_x ctx.space_size_y ctx.space_size_z G r

/-- Two scratch copies of grids with the dimensions `SX`, `SY`, `SZ` agree on
every cell of layer `Y`. -/
def LayerEq (SX SY SZ Y : Nat) (dA dB : List Nat) : Prop :=
  dA.length = SX * SY * SZ ∧ dB.length = SX * SY * SZ
    ∧ ∀ i k, i < SX → k < SZ → cellAt SX SY dA i Y k = cellAt SX SY dB i Y k

/-- Two merge contexts differ at most in the model's voxel data: the same
sizes, translation, optimisation flag and marker colours. -/
structure SameFrame (ctxA ctxB : MergeCtx) : Prop where
  size_x : ctxB.space_size_x = ctxA.space_size_x
  size_y : ctxB.space_size_y = ctxA.space_size_y
  size_z : ctxB.space_size_z = ctxA.space_size_z
  dx : ctxB.dx = ctxA.dx
  dy : ctxB.dy = ctxA.dy
  dz : ctxB.dz = ctxA.dz
  optimize : ctxB.optimize = ctxA.optimize
  markers : ctxB.markers = ctxA.markers

/-- No non-empty cell of layer `Y` of the scratch copy has a marker colour. -/
def NoMarkLayer (ctx : MergeCtx) (Y : Nat) (data : List Nat) : Prop :=
  ∀ i k, i < ctx.space_size_x → k < ctx.space_size_z →
    cellAt ctx.space_size_x ctx.space_size_y data i Y k ≠ 0 →
    ctx.isMarker (cellAt ctx.space_size_x ctx.space_size_y data i Y k) = false

/-- A grid with `size_x = 2`, `size_y = 2`, `size_z = 1`: colour 3 in both cells
of layer 0, colour 4 at one cell of layer 1. -/
def gridLayersA : ogt_vox_instance :=
  { model := { size_x := 2, size_y := 2, size_z := 1, voxel_data := [3, 3, 4, 0] }
    transform := identityTransform }

/-- The same layer 0 as `gridLayersA`, another layer 1. -/
def gridLayersB : ogt_vox_instance :=
  { model := { size_x := 2, size_y := 2, size_z := 1, voxel_data := [3, 3, 0, 7] }
    transform := identityTransform }

/-- The cube of an edge in the local coordinates of the grid: columns
`sx .. ex`, layers `sy .. ey` (`sy` is the layer of the marker strip) and rows
`sz .. ez`. -/
structure LCube where
  sx : Nat
  ex : Nat
  sy : Nat
  ey : Nat
  sz : Nat
  ez : Nat
  deriving DecidableEq, Repr

/-- The cube holds cell `(x, y, z)`. -/
def LCube.contains (q : LCube) (x y z : Nat) : Prop :=
  q.sx ≤ x ∧ x ≤ q.ex ∧ q.sy ≤ y ∧ y ≤ q.ey ∧ q.sz ≤ z ∧ z ≤ q.ez

instance (q : LCube) (x y z : Nat) : Decidable (q.contains x y z) := by
  unfold LCube.contains; infer_instance

/-- Cell `(x, y, z)` lies in one of the cubes of the list. -/
def inCubes (C : List LCube) (x y z : Nat) : Prop := ∃ q ∈ C, q.contains x y z

instance (C : List LCube) (x y z : Nat) : Decidable (inCubes C x y z) := by
  unfold inCubes; infer_instance

/-- The edge descriptor `e` is the one that `ImportVOX` emits for the local
cube `q`: the cube translated to world space, with `sy` one above the marker
layer. -/
def EdgeOfCube (ctx : MergeCtx) (e : RVX_EDGE) (q : LCube) : Prop :=
  e.sx = q.sx + ctx.dx ∧ e.ex = q.ex + ctx.dx ∧ e.sy = q.sy + ctx.dy + 1
    ∧ e.ey = q.ey + ctx.dy ∧ e.sz = q.sz + ctx.dz ∧ e.ez = q.ez + ctx.dz

/-- The world cell `(x, y, z)` lies in the cube that `ImportVOX` zeroes for the
edge: columns `sx .. ex`, rows `sz .. ez` and the layers from the marker layer
`sy - 1` through `ey`. -/
def RVX_EDGE.cubeContains (e : RVX_EDGE) (x y z : Int) : Prop :=
  e.sx ≤ x ∧ x ≤ e.ex ∧ e.sy - 1 ≤ y ∧ y ≤ e.ey ∧ e.sz ≤ z ∧ z ≤ e.ez

instance (e : RVX_EDGE) (x y z : Int) : Decidable (e.cubeContains x y z) := by
  unfold RVX_EDGE.cubeContains; infer_instance

/-- The state of the merge with edge detection when the loops stand at column
`fx` of row `fz` of layer `fy`, for the source grid `G`, the scratch copy
`data`, the rectangles `L` and the edge cubes `C` found so far:
* every cell already scanned is covered once if it is non-empty in `G` and
  outside every cube, and not at all otherwise;
* a cell still to be scanned is outside the cubes, uncovered and unchanged in
  the scratch copy; or outside the cubes, covered once, zeroed and non-empty in
  `G`; or inside a cube, uncovered and zeroed;
* every rectangle lies in the grid, started at a scanned cell and has the
  colour that all its cells have in `G`, which is neither zero nor a marker;
* every cube lies in the grid and started at a scanned cell. -/
structure EdgeInv (ctx : MergeCtx) (G : List Nat) (fx fy fz : Nat) (data : List Nat)
    (L : List LRect) (C : List LCube) : Prop where
  len : data.length = ctx.space_size_x * ctx.space_size_y * ctx.space_size_z
  scanned : ∀ x y z, x < ctx.space_size_x → y < ctx.space_size_y → z < ctx.space_size_z →
    scannedBefore x y z fx fy fz →
    coverCount L x y z
      = if cellAt ctx.space_size_x ctx.space_size_y G x y z ≠ 0 ∧ ¬ inCubes C x y z
        then 1 else 0
  pending : ∀ x y z, x < ctx.space_size_x → y < ctx.space_size_y → z < ctx.space_size_z →
    ¬ scannedBefore x y z fx fy fz →
    (¬ inCubes C x y z ∧ coverCount L x y z = 0
      ∧ cellAt ctx.space_size_x ctx.space_size_y data x y z
          = cellAt ctx.space_size_x ctx.space_size_y G x y z)
    ∨ (¬ inCubes C x y z ∧ coverCount L x y z = 1
      ∧ cellAt ctx.space_size_x ctx.space_size_y data x y z = 0
      ∧ cellAt ctx.space_size_x ctx.space_size_y G x y z ≠ 0)
    ∨ (inCubes C x y z ∧ coverCount L x y z = 0
      ∧ cellAt ctx.space_size_x ctx.space_size_y data x y z = 0)
  rects : ∀ r ∈ L, r.sx ≤ r.ex ∧ r.ex < ctx.space_size_x ∧ r.sz ≤ r.ez
    ∧ r.ez < ctx.space_size_z ∧ r.y < ctx.space_size_y ∧ r.c ≠ 0 ∧ ctx.isMarker r.c = false
    ∧ scannedBefore r.sx r.y r.sz fx fy fz
    ∧ ∀ x z, r.sx ≤ x → x ≤ r.ex → r.sz ≤ z → z ≤ r.ez →
        cellAt ctx.space_size_x ctx.space_size_y G x r.y z = r.c
  cubes : ∀ q ∈ C, q.sx ≤ q.ex ∧ q.ex < ctx.space_size_x ∧ q.sz ≤ q.ez
    ∧ q.ez < ctx.space_size_z ∧ q.sy < q.ey ∧ q.ey < ctx.space_size_y
    ∧ scannedBefore q.sx q.sy q.sz fx fy fz

/-- The edges `E` and the local cubes `C` correspond: every edge is the
descriptor of one of the cubes and every cube has its descriptor among the
edges. -/
def EdgesCubes (ctx : MergeCtx) (E : List RVX_EDGE) (C : List LCube) : Prop :=
  (∀ e ∈ E, ∃ q ∈ C, EdgeOfCube ctx e q) ∧ (∀ q ∈ C, ∃ e ∈ E, EdgeOfCube ctx e q)

/-- The grid of `gridEdgeStrip` with ordinary cells in row 1, beside the cube of
the edge: two cells of colour 7 in layer 0 and one cell of colour 5 in
layer 1. -/
def gridEdgeBeside : ogt_vox_instance :=
  { model := { size_x := 3, size_y := 4, size_z := 2
               voxel_data := [254, 254, 254, 5, 5, 5, 254, 254, 254, 0, 0, 0,
                              7, 7, 0, 0, 5, 0, 0, 0, 0, 0, 0, 0] }
    transform := identityTransform }

/-- The argument `edge->edge_dir == -1 ? ALIGN_RIGHT : ALIGN_LEFT` that
`rvx_update_edge_buffer` passes as `edgeDir`. -/
def rvx_update_edge_buffer.alignDir (edge : RVX_EDGE) : Nat :=
  if edge.edge_dir = -1 then ALIGN_RIGHT else ALIGN_LEFT

/-- The six vertices of one edge sub-quad in the order of `rvx_emit_voxelf`,
with the `alignFlags` value `fSS` at `(startX, startZ)`, `fEE` at
`(endX, endZ)`, `fSE` at `(startX, endZ)` and `fES` at `(endX, startZ)`. -/
def edgeQuad (v : Voxelf) (color : Color4) (w s h : Nat) (fSS fEE fSE fES : Nat)
    (buf : List Field) : List Field :=
  let buf := qlVertex7f v.sx v.y v.sz v.colorIndex color w s h fSS buf
  let buf := qlVertex7f v.ex v.y v.ez v.colorIndex color w s h fEE buf
  let buf := qlVertex7f v.sx v.y v.ez v.colorIndex color w s h fSE buf
  let buf := qlVertex7f v.ex v.y v.sz v.colorIndex color w s h fES buf
  let buf := qlVertex7f v.ex v.y v.ez v.colorIndex color w s h fEE buf
  qlVertex7f v.sx v.y v.sz v.colorIndex color w s h fSS buf

/-- An edge with `sy = 0`, `ey = 5` and `spacing = 2`: the Y loops visit
`0`, `2` and `4`. -/
def edgeThreeSteps : RVX_EDGE :=
  { no := 0, area_no := 100, sx := 0, ex := 3, sy := 0, ey := 5, sz := 0, ez := 0
    edge_dir := -1, edge_width := 1, edge_height := 1, spacing := 2
    top_left_col := 1, top_right_col := 1, bottom_left_col := 1, bottom_right_col := 1 }

/-! ## `VOXLoader::GenerateBox` -/

/-- Conversion of an integer to `int` (32-bit two's complement wrap). -/
def toInt32 (v : Int) : Int := (v + 2147483648) % 4294967296 - 2147483648

/-- The struct `scene_dim` of `VOXLoader.cpp`.  The `float` fields `tran_x`,
`tran_y`, `tran_z` are assigned `int` values, which the embedding keeps. -/
structure scene_dim where
  size_x : Int
  size_y : Int
  size_z : Int
  tran_x : Int
  tran_y : Int
  tran_z : Int
  deriving DecidableEq, Repr

/-- The expression `(i + 256) < n ? 256 : n - i` for a chunk that starts at `i`
on an axis of extent `n`. -/
def GenerateBox.size (i n : Int) : Int :=
  if toInt32 (i + 256) < n then 256 else toInt32 (n - i)

/-- The expression `i + size / 2 + size % 2 - margin` (C division and
remainder). -/
def GenerateBox.tran (i size margin : Int) : Int :=
  toInt32 (toInt32 (toInt32 (i + Int.tdiv size 2) + Int.tmod size 2) - margin)

/-- The body of the innermost loop of `GenerateBox`: the `scene_dim` of the
chunk that starts at `(ix, iy, iz)`; `x`, `y`, `z` are the padded extents. -/
def GenerateBox.dim (x y z margin ix iy iz : Int) : scene_dim :=
  let size_x := GenerateBox.size ix x
  let size_y := GenerateBox.size iy y
  let size_z := GenerateBox.size iz z
  { size_x := size_x, size_y := size_y, size_z := size_z
    tran_x := GenerateBox.tran ix size_x margin
    tran_y := GenerateBox.tran iy size_y margin
    tran_z := GenerateBox.tran iz size_z margin }

/-- The loop `for(int iz = 0; iz < z; iz += 256)`, run for at most `fuel`
iterations; `none` when the loop condition still holds after that. -/
def GenerateBox.loopZ (x y z margin ix iy : Int) :
    Nat → Int → List scene_dim → Option (List scene_dim)
  | 0, iz, dims => if iz < z then none else some dims
  | fuel + 1, iz, dims =>
    if iz < z then
      GenerateBox.loopZ x y z margin ix iy fuel (toInt32 (iz + 256))
        (dims ++ [GenerateBox.dim x y z margin ix iy iz])
    else some dims

/-- The loop `for(int iy = 0; iy < y; iy += 256)`. -/
def GenerateBox.loopY (x y z margin ix : Int) :
    Nat → Int → List scene_dim → Option (List scene_dim)
  | 0, iy, dims => if iy < y then none else some dims
  | fuel + 1, iy, dims =>
    if iy < y then
      match GenerateBox.loopZ x y z margin ix iy z.toNat 0 dims with
      | none => none
      | some dims => GenerateBox.loopY x y z margin ix fuel (toInt32 (iy + 256)) dims
    else some dims

/-- The loop `for(int ix = 0; ix < x; ix += 256)`. -/
def GenerateBox.loopX (x y z margin : Int) :
    Nat → Int → List scene_dim → Option (List scene_dim)
  | 0, ix, dims => if ix < x then none else some dims
  | fuel + 1, ix, dims =>
    if ix < x then
      match GenerateBox.loopY x y z margin ix y.toNat 0 dims with
      | none => none
      | some dims => GenerateBox.loopX x y z margin fuel (toInt32 (ix + 256)) dims
    else some dims

/-- The vector `scene_dims` that `VOXLoader::GenerateBox` builds from its
arguments `x`, `y`, `z`, `margin` before it clones the box model once per
entry.  A loop over an axis of extent `n` ends within `n` iterations unless its
counter overflows; `none` stands for a loop that does not end. -/
def GenerateBox.scene_dims (x y z margin : Int) : Option (List scene_dim) :=
  let x := toInt32 (x + toInt32 (margin * 2))
  let y := toInt32 (y + toInt32 (margin * 2))
  let z := toInt32 (z + toInt32 (margin * 2))
  GenerateBox.loopX x y z margin x.toNat 0 []

/-- Number of chunks of 256 cells that cover an axis of extent `n`:
`ceil(n / 256)`. -/
def chunkCount (n : Int) : Nat := ((n + 255) / 256).toNat

/-- Size of the chunk number `i` (starting at `256 * i`) of an axis of extent
`n`: 256 for every chunk but the last, which takes the rest. -/
def chunkSize (n : Int) (i : Nat) : Int :=
  if 256 * (i : Int) + 256 < n then 256 else n - 256 * (i : Int)

/-- The sizes `(size_x, size_y, size_z)` of a chunk. -/
def scene_dim.sizes (d : scene_dim) : Int × Int × Int := (d.size_x, d.size_y, d.size_z)

/-- The rectangle `a` comes before `b` in the scan order of `ImportVOX`:
lexicographic order of `(y, sz, sx)`. -/
def Voxel.before (a b : Voxel) : Prop :=
  a.y < b.y ∨ (a.y = b.y ∧ (a.sz < b.sz ∨ (a.sz = b.sz ∧ a.sx < b.sx)))

instance (a b : Voxel) : Decidable (a.before b) := by
  unfold Voxel.before; infer_instance

/-- The same order on local rectangles. -/
def LRect.before (a b : LRect) : Prop :=
  a.y < b.y ∨ (a.y = b.y ∧ (a.sz < b.sz ∨ (a.sz = b.sz ∧ a.sx < b.sx)))

/-- The world coordinates of every cell of the merge space fit the signed
16-bit fields of `Voxel` (the caller contract of the spec, section 7). -/
def SpaceFits (ctx : MergeCtx) : Prop :=
  (-32768 ≤ ctx.dx ∧ ctx.dx + ctx.space_size_x ≤ 32768)
  ∧ (-32768 ≤ ctx.dy ∧ ctx.dy + ctx.space_size_y ≤ 32768)
  ∧ (-32768 ≤ ctx.dz ∧ ctx.dz + ctx.space_size_z ≤ 32768)

instance (ctx : MergeCtx) : Decidable (SpaceFits ctx) := by
  unfold SpaceFits; infer_instance

/-- The edge `e` was measured by the edge branch of the loop body: at a cell
`(sx, y, sz)` of the merge space whose colour `c` is one of the two markers,
on the marker rectangle `(sx .. x) x (sz .. ez)` that the line scan and the Z
scan found, in the scratch copy `data` of that moment; `ey` is the closing
layer that the last scan returned. -/
def EdgeFound (ctx : MergeCtx) (e : RVX_EDGE) : Prop :=
  ∃ (l r : Nat) (data : List Nat) (en : Int) (y sx x sz ez c ey : Nat),
    (c = l ∨ c = r) ∧ sx ≤ x ∧ x < ctx.space_size_x ∧ y < ctx.space_size_y
      ∧ sz ≤ ez ∧ ez < ctx.space_size_z
      ∧ edgeMeasure ctx l r data en y sx x sz ez c = some (e, ey)

/-- A grid with `size_x = 3`, `size_y = 3`, `size_z = 2`: a left-marker strip in
layer 0 of row 0, colour 5 above it in layer 1 and the closing marker in layer
2 at column 0 only, so nothing lies above column 2 of layer 1; row 1 holds one
cell of colour 7, at column 2 of layer 1. -/
def gridEdgeOpenAbove : ogt_vox_instance :=
  { model := { size_x := 3, size_y := 3, size_z := 2
               voxel_data := [254, 254, 254, 5, 5, 5, 254, 0, 0,
                              0, 0, 0, 0, 0, 7, 0, 0, 0] }
    transform := identityTransform }

/-- A grid with `size_x = 1`, `size_y = 2`, `size_z = 3`: a left-marker strip
over rows 0 and 1 of layer 0, colour 5 above it in layer 1 and no closing
marker; row 2 holds a cell of colour 7 in layer 1. -/
def gridEdgeNoClosing : ogt_vox_instance :=
  { model := { size_x := 1, size_y := 2, size_z := 3
               voxel_data := [254, 5, 254, 5, 0, 7] }
    transform := identityTransform }

/-! ## The voxel source in memory (`malloc`, `memcpy`, `free` of `ImportVOX`) -/

/-- The heap as far as `ImportVOX` touches it: one block of bytes per
allocation.  A pointer such as `model->voxel_data` or the result of `malloc` is
the number of its block; `none` is a freed block. -/
structure Heap where
  blocks : List (Option (List Nat))
  deriving DecidableEq, Repr

/-- The bytes behind a pointer; `none` for a freed block or a pointer to no
block. -/
def Heap.read (heap : Heap) (p : Nat) : Option (List Nat) :=
  match heap.blocks[p]? with
  | some (some bytes) => some bytes
  | _ => none

/-- The call `malloc(n)`: a new block of `n` bytes behind all existing blocks;
returns the pointer and the heap.  The bytes are indeterminate in C; `ImportVOX`
overwrites all of them before it reads any. -/
def Heap.malloc (heap : Heap) (n : Nat) : Nat × Heap :=
  (heap.blocks.length, { blocks := heap.blocks ++ [some (List.replicate n 0)] })

/-- The block behind `p` is overwritten with `bytes`: the effect of `memcpy` to
`p`, and of the writes `data[..] = 0` that went to the block. -/
def Heap.store (heap : Heap) (p : Nat) (bytes : List Nat) : Heap :=
  { blocks := heap.blocks.set p (some bytes) }

/-- The call `free(p)`. -/
def Heap.free (heap : Heap) (p : Nat) : Heap :=
  { blocks := heap.blocks.set p none }

/-- The struct `ogt_vox_model` as it lies in memory: the sizes and the pointer
`voxel_data`. -/
structure HeapModel where
  size_x : Nat
  size_y : Nat
  size_z : Nat
  voxel_data : Nat
  deriving DecidableEq, Repr

/-- What `ImportVOX` reads of one entry of `vox->instances` in memory: the
`model_index` into `vox->models`, the transform, the name and the value of
`MatrixInvert` for the instance's matrix. -/
structure HeapInstance where
  model_index : Nat
  transform : ogt_vox_transform
  name : Option CString
  inverse : Matrix

/-- The struct `ogt_vox_scene` in memory, as far as `ImportVOX` reads it: the
palette, the array `models` and the array `instances`. -/
structure HeapScene where
  palette : Palette
  models : List HeapModel
  instances : List HeapInstance

/-- The body of the instance loop of `ImportVOX` for a model in memory: the
scratch copy is a fresh block (`malloc`) filled from the block of
`model->voxel_data` (`memcpy`), the merge loops read and write the block
`voxel_copy`, and the block is freed at the end.  Returns the heap after the
call, the area, the edges and the edge counter. -/
def importInstance.onHeap (markers : Option (Nat × Nat)) (fuel : Nat) (optimize : Bool)
    (heap : Heap) (model : HeapModel) (transform : ogt_vox_transform) (inverse : Matrix)
    (m_no : Int) (edges : List RVX_EDGE) (en : Int) :
    Option (Heap × Area × List RVX_EDGE × Int) :=
  match heap.read model.voxel_data with
  | none => none
  | some source =>
    let inst : ogt_vox_instance :=
      { model := { size_x := model.size_x, size_y := model.size_y, size_z := model.size_z
                   voxel_data := source }
        transform := transform }
    let ctx := instanceCtx markers fuel optimize inst inverse m_no
    -- copy in case the are instanced and we modify them
    let bytes := ctx.space_size_x * ctx.space_size_y * ctx.space_size_z
    let (voxel_copy, heap) := heap.malloc bytes
    if source.length < bytes then none
    else
      let heap := heap.store voxel_copy (source.take bytes)
      match heap.read voxel_copy with
      | none => none
      | some copy =>
        match yLoop ctx ctx.space_size_y 0
            { voxel_copy := copy, m_voxels := [], m_edges := edges, en := en } with
        | none => none
        | some st =>
          let heap := heap.store voxel_copy st.voxel_copy
          let heap := heap.free voxel_copy
          some (heap,
                { m_no := m_no, m_sx := ctx.dx, m_sy := ctx.dy, m_sz := ctx.dz,
                  m_voxels := st.m_voxels },
                st.m_edges, st.en)

/-- The instance loop of `ImportVOX` over a scene in memory; the model of an
instance is `vox->models[instance.model_index]`. -/
def ImportVOX.heapLoop (markers : Option (Nat × Nat)) (fuel : Nat) (optimize : Bool)
    (models : List HeapModel) :
    List HeapInstance → Int → Int → Heap → List Area → List RVX_EDGE →
    Option (Heap × List Area × List RVX_EDGE)
  | [], _, _, heap, m_areas, m_edges => some (heap, m_areas, m_edges)
  | i :: rest, an, en, heap, m_areas, m_edges =>
    match models[i.model_index]? with
    | none => none
    | some model =>
      match importInstance.onHeap markers fuel optimize heap model i.transform i.inverse
          (areaNumber an i.name) m_edges en with
      | none => none
      | some (heap, area, m_edges, en) =>
        ImportVOX.heapLoop markers fuel optimize models rest (an + 1) en heap
          (m_areas ++ [area]) m_edges

/-- The function `VOXLoader::ImportVOX` on a scene in memory: the palette of
the scene is cleared and refilled, its areas and edges are cleared and rebuilt
from the instances.  Returns the heap and the scene after the call. -/
def ImportVOX.onHeap (markers : Option (Nat × Nat)) (fuel : Nat) (vox : HeapScene)
    (heap : Heap) (scene : Scene) (optimize : Bool) : Option (Heap × Scene) :=
  let scene := { scene with m_palette := [] }
  let scene := { scene with m_palette := (List.range 256).map vox.palette }
  -- automatic number, if not present
  let an : Int := 100
  let en : Int := 0
  let scene := { scene with m_areas := [] }
  let scene := { scene with m_edges := [] }
  match ImportVOX.heapLoop markers fuel optimize vox.models vox.instances an en heap
      scene.m_areas scene.m_edges with
  | none => none
  | some (heap, m_areas, m_edges) =>
    some (heap, { scene with m_areas := m_areas, m_edges := m_edges })

/-- One entry of `vox->instances` with the model it points to read from memory. -/
def HeapScene.loadInstance (models : List HeapModel) (heap : Heap) (i : HeapInstance) :
    Option SceneInstance :=
  match models[i.model_index]? with
  | none => none
  | some model =>
    match heap.read model.voxel_data with
    | none => none
    | some source =>
      some { inst := { model := { size_x := model.size_x, size_y := model.size_y
                                  size_z := model.size_z, voxel_data := source }
                       transform := i.transform }
             name := i.name
             inverse := i.inverse }

/-- The instances of a scene with their models read from memory. -/
def HeapScene.loadInstances (models : List HeapModel) (heap : Heap) :
    List HeapInstance → Option (List SceneInstance)
  | [] => some []
  | i :: rest =>
    match HeapScene.loadInstance models heap i with
    | none => none
    | some v => (HeapScene.loadInstances models heap rest).map (fun vs => v :: vs)

/-- The vox scene that the memory holds: every instance with the voxel bytes of
its model; `none` if a model index or pointer designates nothing. -/
def HeapScene.load (vox : HeapScene) (heap : Heap) : Option ogt_vox_scene :=
  (HeapScene.loadInstances vox.models heap vox.instances).map
    (fun vs => { palette := vox.palette, instances := vs })

/-- A heap with one block, the voxel bytes of a 2 x 1 x 2 model of colour 3. -/
def heapOneModel : Heap := { blocks := [some [3, 3, 3, 3]] }

/-- A scene in memory whose two instances share the model in block 0. -/
def heapSceneShared : HeapScene :=
  { palette := fun _ => ⟨0, 0, 0, 255⟩
    models := [{ size_x := 2, size_y := 1, size_z := 2, voxel_data := 0 }]
    instances :=
      [ { model_index := 0, transform := identityTransform, name := none
          inverse := identityMatrix },
        { model_index := 0, transform := identityTransform, name := none
          inverse := identityMatrix } ] }

/-! ## Vocabulary for a single marker strip -/

theorem toInt16_of_fits {v : Int} (h : FitsInt16 v) : toInt16 v = v := by
  unfold FitsInt16 at h
  unfold toInt16
  omega

theorem shift_add_eq_or (a b c d : Nat) (hb : b < 256) (hc : c < 256) (hd : d < 256) :
    (a <<< 24) + (b <<< 16) + (c <<< 8) + d = a <<< 24 ||| b <<< 16 ||| c <<< 8 ||| d := by
  have h1 : (a <<< 24) + (b <<< 16) + (c <<< 8) + d
      = 2 ^ 8 * (2 ^ 16 * a + 2 ^ 8 * b + c) + d := by
    simp only [Nat.shiftLeft_eq]; ring
  have h2 : a <<< 24 + b <<< 16 + c <<< 8 = 2 ^ 8 * (2 ^ 16 * a + 2 ^ 8 * b + c) := by
    simp only [Nat.shiftLeft_eq]; ring
  have h3 : a <<< 24 + b <<< 16 + c <<< 8 = 2 ^ 16 * (2 ^ 8 * a + b) + c <<< 8 := by
    simp only [Nat.shiftLeft_eq]; ring
  have h4 : a <<< 24 + b <<< 16 = 2 ^ 16 * (2 ^ 8 * a + b) := by
    simp only [Nat.shiftLeft_eq]; ring
  have h5 : a <<< 24 + b <<< 16 = 2 ^ 24 * a + b <<< 16 := by
    simp only [Nat.shiftLeft_eq]; ring
  have h6 : a <<< 24 = 2 ^ 24 * a := by
    simp only [Nat.shiftLeft_eq]; ring
  have hc' : c <<< 8 < 2 ^ 16 := by simp only [Nat.shiftLeft_eq]; omega
  have hb' : b <<< 16 < 2 ^ 24 := by simp only [Nat.shiftLeft_eq]; omega
  have hd' : d < 2 ^ 8 := by omega
  rw [h1, Nat.mul_add_lt_is_or hd', ← h2, h3, Nat.mul_add_lt_is_or hc', ← h4, h5,
    Nat.mul_add_lt_is_or hb', ← h6]

theorem shift_add_lt (a b c d : Nat) (ha : a < 256) (hb : b < 256) (hc : c < 256)
    (hd : d < 256) : (a <<< 24) + (b <<< 16) + (c <<< 8) + d < 2 ^ 32 := by
  simp only [Nat.shiftLeft_eq]; omega

theorem colorWord_eq_or (ci : Nat) (c : Color4) (hci : ci < 256) (hb : c.b < 256)
    (hg : c.g < 256) (hr : c.r < 256) :
    colorWord ci c = ci <<< 24 ||| c.b <<< 16 ||| c.g <<< 8 ||| c.r := by
  unfold colorWord
  rw [Nat.mod_eq_of_lt (shift_add_lt ci c.b c.g c.r hci hb hg hr)]
  exact shift_add_eq_or ci c.b c.g c.r hb hg hr

theorem edgeWord_eq_or (w s h f : Nat) (hw : w < 256) (hs : s < 256) (hh : h < 256)
    (hf : f < 256) : edgeWord w s h f = f <<< 24 ||| h <<< 16 ||| s <<< 8 ||| w := by
  unfold edgeWord
  rw [Nat.mod_eq_of_lt (shift_add_lt f h s w hf hh hs hw)]
  exact shift_add_eq_or f h s w hh hs hw

theorem bufferBytes_append (a b : List Field) :
    bufferBytes (a ++ b) = bufferBytes a + bufferBytes b := by
  simp [bufferBytes]

theorem qlVertex3f_eq (x y z : Int) (ci : Nat) (c : Color4) (buf : List Field) :
    qlVertex3f x y z ci c buf
      = buf ++ plainVertex (toInt16 x) (toInt16 y) (toInt16 (z * 16)) (colorWord (ci % 256) c) := by
  simp [qlVertex3f, positionBlock, plainVertex]

theorem qlVertex7f_eq (x y z : Int) (ci : Nat) (c : Color4) (w s h f : Nat) (buf : List Field) :
    qlVertex7f x y z ci c w s h f buf
      = buf ++ edgeVertex (toInt16 x) (toInt16 y) (toInt16 (z * 16)) (colorWord (ci % 256) c)
          (edgeWord (w % 256) (s % 256) (h % 256) (f % 256)) := by
  simp [qlVertex7f, positionBlock, edgeVertex]

theorem bufferBytes_plainVertex (x y z : Int) (w : Nat) : bufferBytes (plainVertex x y z w) = 12 := by
  simp [bufferBytes, plainVertex, Field.size]

theorem bufferBytes_edgeVertex (x y z : Int) (w e : Nat) :
    bufferBytes (edgeVertex x y z w e) = 16 := by
  simp [bufferBytes, edgeVertex, Field.size]

theorem rvx_emit_voxel_eq (v : Voxel) (col : Color4) (buf : List Field) :
    rvx_emit_voxel v col buf = buf ++
      (plainVertex (toInt16 v.sx) (toInt16 v.y) (toInt16 (v.sz * 16)) (colorWord (v.colorIndex % 256) col)
      ++ plainVertex (toInt16 (v.ex + 1)) (toInt16 v.y) (toInt16 ((v.ez + 1) * 16)) (colorWord (v.colorIndex % 256) col)
      ++ plainVertex (toInt16 v.sx) (toInt16 v.y) (toInt16 ((v.ez + 1) * 16)) (colorWord (v.colorIndex % 256) col)
      ++ plainVertex (toInt16 (v.ex + 1)) (toInt16 v.y) (toInt16 (v.sz * 16)) (colorWord (v.colorIndex % 256) col)
      ++ plainVertex (toInt16 (v.ex + 1)) (toInt16 v.y) (toInt16 ((v.ez + 1) * 16)) (colorWord (v.colorIndex % 256) col)
      ++ plainVertex (toInt16 v.sx) (toInt16 v.y) (toInt16 (v.sz * 16)) (colorWord (v.colorIndex % 256) col)) := by
  simp [rvx_emit_voxel, qlVertex3f_eq, List.append_assoc]

theorem bufferBytes_rvx_emit_voxel (v : Voxel) (col : Color4) (buf : List Field) :
    bufferBytes (rvx_emit_voxel v col buf) = bufferBytes buf + 72 := by
  rw [rvx_emit_voxel_eq]
  simp [bufferBytes_append, bufferBytes_plainVertex]

/-! ## Vertex layout (claims C5 - C8) -/

/-- Counterexample to C5 as stated: for the rectangle in row 4000 (`sx = ex = 0`,
`y = 0`, `sz = ez = 4000`, all within the signed 16-bit range) the z fields of
the six vertices are `-1536` and `-1520`, not `16 * sz = 64000` and
`16 * (ez + 1) = 64016`: the products do not fit the signed 16-bit field and
wrap around. -/
theorem plain_vertex_z_field_wraps :
    FitsInt16 0 ∧ FitsInt16 (0 + 1) ∧ FitsInt16 4000 ∧ FitsInt16 (4000 + 1)
    ∧ rvx_emit_voxel ⟨1, 0, 0, 0, 4000, 4000, 0⟩ ⟨0, 0, 0, 255⟩ []
        = plainVertex 0 0 (-1536) (1 <<< 24) ++ plainVertex 1 0 (-1520) (1 <<< 24)
          ++ plainVertex 0 0 (-1520) (1 <<< 24) ++ plainVertex 1 0 (-1536) (1 <<< 24)
          ++ plainVertex 1 0 (-1520) (1 <<< 24) ++ plainVertex 0 0 (-1536) (1 <<< 24)
    ∧ (16 * 4000 : Int) ≠ -1536 ∧ (16 * (4000 + 1) : Int) ≠ -1520 := by
  refine ⟨by decide, by decide, by decide, by decide, by decide, by decide, by decide⟩

/-- C5 (amended): a plain voxel vertex written by `qlVertex3f` is 12 bytes
(`RVX_VERTEX_SIZE`): the four 16-bit fields `x`, `y`, `z * 16`, `1` in this
order, each value reduced to the signed 16-bit range, then one 32-bit colour
word.  For a rectangle the six vertices of `rvx_emit_voxel` hold `sx` or
`ex + 1`, the rectangle's `y`, and `16 * sz` or `16 * (ez + 1)`, each reduced
to the signed 16-bit range; whenever `sx`, `ex + 1`, `y`, `16 * sz` and
`16 * (ez + 1)` fit the signed 16-bit range, the x field is `sx` or `ex + 1`,
the y field is `y` and the z field is `16 * sz` or `16 * (ez + 1)`. -/
theorem qlVertex3f_layout (x y z : Int) (ci : Nat) (c : Color4) (buf : List Field)
    (v : Voxel) (col : Color4) :
    (qlVertex3f x y z ci c buf
        = buf ++ [Field.i16 (toInt16 x), Field.i16 (toInt16 y), Field.i16 (toInt16 (z * 16)),
                  Field.i16 1, Field.u32 (colorWord (ci % 256) c)]
      ∧ bufferBytes (qlVertex3f x y z ci c buf) = bufferBytes buf + 12
      ∧ RVX_VERTEX_SIZE = 12)
    ∧ (∃ w : Nat, rvx_emit_voxel v col buf = buf ++
        (plainVertex (toInt16 v.sx) (toInt16 v.y) (toInt16 (16 * v.sz)) w
        ++ plainVertex (toInt16 (v.ex + 1)) (toInt16 v.y) (toInt16 (16 * (v.ez + 1))) w
        ++ plainVertex (toInt16 v.sx) (toInt16 v.y) (toInt16 (16 * (v.ez + 1))) w
        ++ plainVertex (toInt16 (v.ex + 1)) (toInt16 v.y) (toInt16 (16 * v.sz)) w
        ++ plainVertex (toInt16 (v.ex + 1)) (toInt16 v.y) (toInt16 (16 * (v.ez + 1))) w
        ++ plainVertex (toInt16 v.sx) (toInt16 v.y) (toInt16 (16 * v.sz)) w))
    ∧ (FitsInt16 v.sx → FitsInt16 (v.ex + 1) → FitsInt16 v.y → FitsInt16 (16 * v.sz) →
        FitsInt16 (16 * (v.ez + 1)) →
        ∃ w : Nat, rvx_emit_voxel v col buf = buf ++
          (plainVertex v.sx v.y (16 * v.sz) w
          ++ plainVertex (v.ex + 1) v.y (16 * (v.ez + 1)) w
          ++ plainVertex v.sx v.y (16 * (v.ez + 1)) w
          ++ plainVertex (v.ex + 1) v.y (16 * v.sz) w
          ++ plainVertex (v.ex + 1) v.y (16 * (v.ez + 1)) w
          ++ plainVertex v.sx v.y (16 * v.sz) w)) := by
  refine ⟨⟨?_, ?_, ?_⟩, ?_, ?_⟩
  · simp [qlVertex3f, positionBlock]
  · rw [qlVertex3f_eq, bufferBytes_append, bufferBytes_plainVertex]
  · rfl
  · refine ⟨colorWord (v.colorIndex % 256) col, ?_⟩
    rw [rvx_emit_voxel_eq, mul_comm v.sz 16, mul_comm (v.ez + 1) 16]
  · intro h1 h2 h3 h4 h5
    refine ⟨colorWord (v.colorIndex % 256) col, ?_⟩
    rw [rvx_emit_voxel_eq, mul_comm v.sz 16, mul_comm (v.ez + 1) 16, toInt16_of_fits h1,
      toInt16_of_fits h2, toInt16_of_fits h3, toInt16_of_fits h4, toInt16_of_fits h5]

/-- Witness of C5 (amended): the rectangle `{color 3, sx 0, ex 1, y 0, sz 0, ez 1}`. -/
theorem qlVertex3f_layout_witness :
    ∃ w : Nat, rvx_emit_voxel ⟨3, 0, 1, 0, 0, 1, 0⟩ ⟨10, 20, 30, 255⟩ [] = [] ++
      (plainVertex 0 0 (16 * 0) w ++ plainVertex (1 + 1) 0 (16 * (1 + 1)) w
      ++ plainVertex 0 0 (16 * (1 + 1)) w ++ plainVertex (1 + 1) 0 (16 * 0) w
      ++ plainVertex (1 + 1) 0 (16 * (1 + 1)) w ++ plainVertex 0 0 (16 * 0) w) :=
  (qlVertex3f_layout 0 0 0 3 ⟨10, 20, 30, 255⟩ [] ⟨3, 0, 1, 0, 0, 1, 0⟩ ⟨10, 20, 30, 255⟩).2.2
    (by decide) (by decide) (by decide) (by decide) (by decide)

/-- C6: for a colour index and palette components below 256 the colour word
that `qlVertex3f` and `qlVertex7f` write (a sum of shifted values, modulo
`2 ^ 32`) is `(ci << 24) | (b << 16) | (g << 8) | r`; its top byte is the colour
index, and the palette alpha has no influence on it. -/
theorem colorWord_packing (ci : Nat) (c : Color4) (hci : ci < 256) (hr : c.r < 256)
    (hg : c.g < 256) (hb : c.b < 256) (x y z : Int) (w s h f : Nat) (buf : List Field) :
    colorWord ci c = ci <<< 24 ||| c.b <<< 16 ||| c.g <<< 8 ||| c.r
    ∧ colorWord ci c / 2 ^ 24 = ci
    ∧ (∀ a : Nat, colorWord ci { c with a := a } = colorWord ci c)
    ∧ qlVertex3f x y z ci c buf
        = buf ++ (positionBlock x y z
            ++ [Field.u32 (ci <<< 24 ||| c.b <<< 16 ||| c.g <<< 8 ||| c.r)])
    ∧ (qlVertex7f x y z ci c w s h f buf).drop (buf.length + 4)
        = [Field.u32 (ci <<< 24 ||| c.b <<< 16 ||| c.g <<< 8 ||| c.r),
           Field.u32 (edgeWord (w % 256) (s % 256) (h % 256) (f % 256))] := by
  have hw := colorWord_eq_or ci c hci hb hg hr
  refine ⟨hw, ?_, ?_, ?_, ?_⟩
  · unfold colorWord
    simp only [Nat.shiftLeft_eq]
    omega
  · intro a
    rfl
  · rw [qlVertex3f, Nat.mod_eq_of_lt hci, hw]
  · rw [qlVertex7f, Nat.mod_eq_of_lt hci, hw]
    simp [positionBlock]

/-- Witness of C6: colour index 200 with the palette entry `(1, 2, 3, 255)`. -/
theorem colorWord_packing_witness :
    colorWord 200 ⟨1, 2, 3, 255⟩ = 200 <<< 24 ||| 3 <<< 16 ||| 2 <<< 8 ||| 1 :=
  (colorWord_packing 200 ⟨1, 2, 3, 255⟩ (by decide) (by decide) (by decide) (by decide)
    0 0 0 0 0 0 0 []).1

/-- C7: an edge vertex written by `qlVertex7f` is 16 bytes
(`RVX_EDGE_VERTEX_SIZE`): the position block `x`, `y`, `z * 16`, `1` of 16-bit
fields, the colour word, then a second 32-bit word
`(alignFlags << 24) | (edgeHeight << 16) | (edgeSpacing << 8) | edgeWidth` of the
four arguments reduced to 8 bits. -/
theorem qlVertex7f_layout (x y z : Int) (ci : Nat) (c : Color4)
    (edgeWidth edgeSpacing edgeHeight alignFlags : Nat) (buf : List Field) :
    qlVertex7f x y z ci c edgeWidth edgeSpacing edgeHeight alignFlags buf
        = buf ++ [Field.i16 (toInt16 x), Field.i16 (toInt16 y), Field.i16 (toInt16 (z * 16)),
                  Field.i16 1, Field.u32 (colorWord (ci % 256) c),
                  Field.u32 ((alignFlags % 256) <<< 24 ||| (edgeHeight % 256) <<< 16
                    ||| (edgeSpacing % 256) <<< 8 ||| (edgeWidth % 256))]
    ∧ bufferBytes (qlVertex7f x y z ci c edgeWidth edgeSpacing edgeHeight alignFlags buf)
        = bufferBytes buf + 16
    ∧ RVX_EDGE_VERTEX_SIZE = 16
    ∧ (qlVertex7f x y z ci c edgeWidth edgeSpacing edgeHeight alignFlags buf).take (buf.length + 5)
        = qlVertex3f x y z ci c buf := by
  have hm : ∀ n : Nat, n % 256 < 256 := fun n => Nat.mod_lt n (by decide)
  refine ⟨?_, ?_, ?_, ?_⟩
  · rw [qlVertex7f_eq, edgeWord_eq_or _ _ _ _ (hm _) (hm _) (hm _) (hm _)]
    rfl
  · rw [qlVertex7f_eq, bufferBytes_append, bufferBytes_edgeVertex]
  · rfl
  · simp [qlVertex7f, qlVertex3f, positionBlock, List.take_append_eq_append_take]

/-- C8: `rvx_emit_voxel` writes exactly six vertices, at the positions
`(sx, sz)`, `(ex+1, ez+1)`, `(sx, ez+1)`, `(ex+1, sz)`, `(ex+1, ez+1)`, `(sx, sz)` in
this order, all six with the rectangle's `y`, colour index and colour. -/
theorem rvx_emit_voxel_order (v : Voxel) (col : Color4) (buf : List Field) :
    rvx_emit_voxel v col buf
        = [(v.sx, v.sz), (v.ex + 1, v.ez + 1), (v.sx, v.ez + 1), (v.ex + 1, v.sz),
           (v.ex + 1, v.ez + 1), (v.sx, v.sz)].foldl
            (fun b p => qlVertex3f p.1 v.y p.2 v.colorIndex col b) buf
    ∧ rvx_emit_voxel v col buf = buf ++
        (plainVertex (toInt16 v.sx) (toInt16 v.y) (toInt16 (v.sz * 16)) (colorWord (v.colorIndex % 256) col)
        ++ plainVertex (toInt16 (v.ex + 1)) (toInt16 v.y) (toInt16 ((v.ez + 1) * 16)) (colorWord (v.colorIndex % 256) col)
        ++ plainVertex (toInt16 v.sx) (toInt16 v.y) (toInt16 ((v.ez + 1) * 16)) (colorWord (v.colorIndex % 256) col)
        ++ plainVertex (toInt16 (v.ex + 1)) (toInt16 v.y) (toInt16 (v.sz * 16)) (colorWord (v.colorIndex % 256) col)
        ++ plainVertex (toInt16 (v.ex + 1)) (toInt16 v.y) (toInt16 ((v.ez + 1) * 16)) (colorWord (v.colorIndex % 256) col)
        ++ plainVertex (toInt16 v.sx) (toInt16 v.y) (toInt16 (v.sz * 16)) (colorWord (v.colorIndex % 256) col))
    ∧ bufferBytes (rvx_emit_voxel v col buf) = bufferBytes buf + 6 * RVX_VERTEX_SIZE := by
  refine ⟨?_, rvx_emit_voxel_eq v col buf, ?_⟩
  · simp [rvx_emit_voxel]
  · rw [bufferBytes_rvx_emit_voxel]
    rfl

/-! ## Edge loops and `rvx_model_populate_buffer` (claims C9, C10) -/

theorem ySteps_step (y ey s : Int) (hs : 1 ≤ s) (hy : y ≤ ey) :
    ySteps y ey s = ySteps (y + s) ey s + 1 := by
  unfold ySteps
  rw [if_pos hy]
  by_cases h : y + s ≤ ey
  · rw [if_pos h]
    have h1 : (ey - y) = (ey - (y + s)) + 1 * s := by ring
    have h2 : (ey - y) / s = (ey - (y + s)) / s + 1 := by
      rw [h1, Int.add_mul_ediv_right _ _ (by omega)]
    have h3 : 0 ≤ (ey - (y + s)) / s := Int.ediv_nonneg (by omega) (by omega)
    rw [h2]
    omega
  · rw [if_neg h]
    have h2 : (ey - y) / s = 0 := Int.ediv_eq_zero_of_lt (by omega) (by omega)
    rw [h2]
    rfl

theorem ySteps_of_gt (y ey s : Int) (hy : ¬ y ≤ ey) : ySteps y ey s = 0 := by
  unfold ySteps
  rw [if_neg hy]

theorem ySteps_le (y ey s : Int) (hs : 1 ≤ s) : ySteps y ey s ≤ (ey - y + 1).toNat := by
  unfold ySteps
  split
  · have h1 : (ey - y) / s ≤ ey - y := Int.ediv_le_self _ (by omega)
    have h3 : 0 ≤ (ey - y) / s := Int.ediv_nonneg (by omega) (by omega)
    omega
  · omega

theorem get_edge_length_loop_eq (ey s : Int) (hs : 1 ≤ s) :
    ∀ (fuel : Nat) (y acc : Int), ySteps y ey s ≤ fuel →
      rvx_get_edge_length.loop ey s fuel y acc = some (acc + 4 * (ySteps y ey s : Nat)) := by
  intro fuel
  induction fuel with
  | zero =>
    intro y acc h
    have h0 : ySteps y ey s = 0 := by omega
    have hy : ¬ y ≤ ey := by
      intro hy
      rw [ySteps_step y ey s hs hy] at h0
      omega
    simp [rvx_get_edge_length.loop, hy, h0]
  | succ n ih =>
    intro y acc h
    by_cases hy : y ≤ ey
    · rw [rvx_get_edge_length.loop, if_pos hy, ih]
      · rw [ySteps_step y ey s hs hy]
        push_cast
        congr 1
        ring
      · rw [ySteps_step y ey s hs hy] at h
        omega
    · simp [rvx_get_edge_length.loop, hy, ySteps_of_gt y ey s hy]

theorem rvx_get_edge_length_eq (e : RVX_EDGE) (hs : 1 ≤ e.spacing) :
    rvx_get_edge_length e = some (((ySteps e.sy e.ey e.spacing * 4 * 6 : Nat) : Int)) := by
  unfold rvx_get_edge_length edgeFuel
  rw [get_edge_length_loop_eq e.ey e.spacing hs _ _ _ (ySteps_le _ _ _ hs)]
  simp only [Option.map_some', RVX_EDGE_LENGTH]
  congr 1
  push_cast
  ring

theorem bufferBytes_qlVertex7f (x y z : Int) (ci : Nat) (c : Color4) (w s h f : Nat)
    (buf : List Field) : bufferBytes (qlVertex7f x y z ci c w s h f buf) = bufferBytes buf + 16 := by
  rw [qlVertex7f_eq, bufferBytes_append, bufferBytes_edgeVertex]

theorem bufferBytes_rvx_emit_voxelf (v : Voxelf) (col : Color4) (w s h d a : Nat)
    (buf : List Field) :
    bufferBytes (rvx_emit_voxelf v col w s h d a buf) = bufferBytes buf + 96 := by
  simp only [rvx_emit_voxelf, bufferBytes_qlVertex7f]

theorem bufferBytes_update_body (e : RVX_EDGE) (palette : Palette) (y : Int) (buf : List Field) :
    bufferBytes (rvx_update_edge_buffer.body e palette y buf)
      = bufferBytes buf + survivingQuads palette e * 96 := by
  unfold rvx_update_edge_buffer.body rvx_update_edge_buffer.emit survivingQuads
  split_ifs <;> first
    | (simp only [bufferBytes_rvx_emit_voxelf]; done)
    | (simp only [bufferBytes_rvx_emit_voxelf]; omega)

theorem update_edge_buffer_loop_bytes (e : RVX_EDGE) (palette : Palette) (hs : 1 ≤ e.spacing) :
    ∀ (fuel : Nat) (y : Int) (buf : List Field), ySteps y e.ey e.spacing ≤ fuel →
      ∃ out, rvx_update_edge_buffer.loop e palette fuel y buf = some out
        ∧ bufferBytes out
            = bufferBytes buf + ySteps y e.ey e.spacing * survivingQuads palette e * 96 := by
  intro fuel
  induction fuel with
  | zero =>
    intro y buf h
    have h0 : ySteps y e.ey e.spacing = 0 := by omega
    have hy : ¬ y ≤ e.ey := by
      intro hy
      rw [ySteps_step y e.ey e.spacing hs hy] at h0
      omega
    exact ⟨buf, by simp [rvx_update_edge_buffer.loop, hy], by simp [h0]⟩
  | succ n ih =>
    intro y buf h
    by_cases hy : y ≤ e.ey
    · rw [ySteps_step y e.ey e.spacing hs hy] at h
      obtain ⟨out, ho, hb⟩ := ih (y + e.spacing)
        (rvx_update_edge_buffer.body e palette y buf) (by omega)
      refine ⟨out, ?_, ?_⟩
      · rw [rvx_update_edge_buffer.loop, if_pos hy, ho]
      · rw [hb, bufferBytes_update_body, ySteps_step y e.ey e.spacing hs hy]
        ring
    · exact ⟨buf, by simp [rvx_update_edge_buffer.loop, hy],
        by simp [ySteps_of_gt y e.ey e.spacing hy]⟩

theorem rvx_update_edge_buffer_bytes (e : RVX_EDGE) (palette : Palette) (buf : List Field)
    (hs : 1 ≤ e.spacing) :
    ∃ out, rvx_update_edge_buffer e buf palette = some out
      ∧ bufferBytes out
          = bufferBytes buf + ySteps e.sy e.ey e.spacing * survivingQuads palette e * 96 :=
  update_edge_buffer_loop_bytes e palette hs _ _ _ (ySteps_le _ _ _ hs)

theorem populateEdgeSizes_eq (edges : List RVX_EDGE) (hs : ∀ e ∈ edges, 1 ≤ e.spacing) :
    ∀ (len size : Int), populateEdgeSizes edges len size
      = some (len + (((edges.map (fun e => ySteps e.sy e.ey e.spacing * 4 * 6)).sum : Nat) : Int),
              size + (((edges.map (fun e => ySteps e.sy e.ey e.spacing * 4 * 6 * 96)).sum : Nat) : Int)) := by
  induction edges with
  | nil => intro len size; simp [populateEdgeSizes]
  | cons e rest ih =>
    intro len size
    have he : 1 ≤ e.spacing := hs e (List.mem_cons_self _ _)
    have hr : ∀ e ∈ rest, 1 ≤ e.spacing := fun x hx => hs x (List.mem_cons_of_mem _ hx)
    rw [populateEdgeSizes, rvx_get_edge_length_eq e he]
    simp only []
    rw [ih hr]
    simp only [List.map_cons, List.sum_cons, RVX_EDGE_SIZE, RVX_EDGE_LENGTH,
      RVX_EDGE_VERTEX_SIZE, sizeof_float]
    congr 2
    · push_cast; ring
    · push_cast; ring

theorem populateEdgeBuffer_bytes (palette : Palette) (edges : List RVX_EDGE)
    (hs : ∀ e ∈ edges, 1 ≤ e.spacing) :
    ∀ buf : List Field, ∃ out, populateEdgeBuffer palette edges buf = some out
      ∧ bufferBytes out = bufferBytes buf
          + (edges.map (fun e => ySteps e.sy e.ey e.spacing * survivingQuads palette e * 6 * 16)).sum := by
  induction edges with
  | nil => intro buf; exact ⟨buf, rfl, by simp⟩
  | cons e rest ih =>
    intro buf
    have he : 1 ≤ e.spacing := hs e (List.mem_cons_self _ _)
    have hr : ∀ e ∈ rest, 1 ≤ e.spacing := fun x hx => hs x (List.mem_cons_of_mem _ hx)
    obtain ⟨o1, h1, b1⟩ := rvx_update_edge_buffer_bytes e palette buf he
    obtain ⟨o2, h2, b2⟩ := ih hr o1
    refine ⟨o2, ?_, ?_⟩
    · rw [populateEdgeBuffer, h1]
      exact h2
    · rw [b2, b1]
      simp only [List.map_cons, List.sum_cons]
      ring

theorem bufferBytes_populateVoxels (palette : Palette) (voxels : List Voxel) :
    ∀ buf : List Field, bufferBytes (populateVoxels palette voxels buf)
      = bufferBytes buf + voxels.length * 6 * 12 := by
  induction voxels with
  | nil => intro buf; simp [populateVoxels]
  | cons v rest ih =>
    intro buf
    rw [populateVoxels, ih, bufferBytes_rvx_emit_voxel]
    simp only [List.length_cons]
    ring

theorem populate_main_fields (model : RVX_MODEL) (voxels : List Voxel) (palette : Palette)
    (m' : RVX_MODEL) (h : rvx_model_populate_buffer model voxels palette = some m') :
    m'.numVoxels = voxels.length ∧ m'.modelLength = voxels.length * 6
      ∧ m'.bufferSize = voxels.length * 6 * 12
      ∧ (voxels ≠ [] → m'.buffer = some (populateVoxels palette voxels []))
      ∧ m'.edges = model.edges := by
  unfold rvx_model_populate_buffer at h
  simp only [RVX_VOXEL_LENGTH, RVX_VOXEL_SIZE, RVX_VERTEX_SIZE, sizeof_float] at h
  split at h
  · exact absurd h (by simp)
  · split at h
    · exact absurd h (by simp)
    · simp only [Option.some.injEq] at h
      subst h
      refine ⟨rfl, by simp, by simp; ring, ?_, rfl⟩
      intro hv
      simp [hv]

theorem populate_edge_fields (model : RVX_MODEL) (voxels : List Voxel) (palette : Palette)
    (hs : ∀ e ∈ model.edges, 1 ≤ e.spacing) :
    ∃ m' written, rvx_model_populate_buffer model voxels palette = some m'
      ∧ m'.edgeBufferSize
          = (((model.edges.map (fun e => ySteps e.sy e.ey e.spacing * 4 * 6 * 96)).sum : Nat) : Int)
      ∧ populateEdgeBuffer palette model.edges [] = some written
      ∧ (written ≠ [] → m'.edgeBuffer = some written) := by
  obtain ⟨written, hw, -⟩ := populateEdgeBuffer_bytes palette model.edges hs []
  by_cases hn : (0 : Int) < model.numEdges
  · simp only [rvx_model_populate_buffer, hn, if_true, populateEdgeSizes_eq model.edges hs, hw]
    refine ⟨_, written, rfl, by simp, rfl, ?_⟩
    intro hne
    simp [hne]
  · have he : model.edges = [] := by
      cases hm : model.edges with
      | nil => rfl
      | cons a t =>
        exfalso
        apply hn
        simp [RVX_MODEL.numEdges, hm]
    simp only [rvx_model_populate_buffer, hn, if_false]
    rw [he] at hw
    simp only [populateEdgeBuffer, Option.some.injEq] at hw
    refine ⟨_, written, rfl, by simp [he], by rw [he, ← hw]; rfl, ?_⟩
    intro hne
    exact absurd hw.symm hne

theorem survivingQuads_le (palette : Palette) (e : RVX_EDGE) : survivingQuads palette e ≤ 4 := by
  unfold survivingQuads
  split_ifs <;> omega

theorem claimedEdgeBytes_le_full (palette : Palette) (edges : List RVX_EDGE) :
    claimedEdgeBytes palette edges ≤ fullEdgeBytes edges := by
  unfold claimedEdgeBytes fullEdgeBytes
  induction edges with
  | nil => simp
  | cons e rest ih =>
    simp only [List.map_cons, List.sum_cons]
    have h := survivingQuads_le palette e
    have h2 : ySteps e.sy e.ey e.spacing * survivingQuads palette e
        ≤ ySteps e.sy e.ey e.spacing * 4 := Nat.mul_le_mul_left _ h
    omega

theorem fullEdgeBytes_le_reserved (edges : List RVX_EDGE) :
    fullEdgeBytes edges ≤ (edges.map (fun e => ySteps e.sy e.ey e.spacing * 4 * 6 * 96)).sum := by
  unfold fullEdgeBytes
  induction edges with
  | nil => simp
  | cons e rest ih =>
    simp only [List.map_cons, List.sum_cons]
    omega

/-- C9: `rvx_model_populate_buffer` on `n` rectangles: whenever the call returns,
the model has `numVoxels = n`, `modelLength = 6 * n` and
`bufferSize = n * 6 * 12 = n * RVX_VOXEL_SIZE`, and the vertices written to
the main buffer are exactly `bufferSize` bytes; the call returns for every model
whose edges have `spacing ≥ 1`. -/
theorem rvx_model_populate_buffer_main (model : RVX_MODEL) (voxels : List Voxel)
    (palette : Palette) :
    (∀ m', rvx_model_populate_buffer model voxels palette = some m' →
      m'.numVoxels = voxels.length
      ∧ m'.modelLength = 6 * voxels.length
      ∧ m'.bufferSize = voxels.length * 6 * 12
      ∧ m'.bufferSize = voxels.length * RVX_VOXEL_SIZE
      ∧ (bufferBytes (populateVoxels palette voxels []) : Int) = m'.bufferSize
      ∧ (voxels ≠ [] → m'.buffer = some (populateVoxels palette voxels [])))
    ∧ ((∀ e ∈ model.edges, 1 ≤ e.spacing) →
        ∃ m', rvx_model_populate_buffer model voxels palette = some m') := by
  constructor
  · intro m' h
    obtain ⟨h1, h2, h3, h4, -⟩ := populate_main_fields model voxels palette m' h
    refine ⟨h1, by rw [h2]; ring, h3, ?_, ?_, h4⟩
    · rw [h3]
      simp [RVX_VOXEL_SIZE, RVX_VOXEL_LENGTH, RVX_VERTEX_SIZE, sizeof_float]
      ring
    · rw [h3, bufferBytes_populateVoxels]
      simp [bufferBytes]
  · intro hs
    obtain ⟨m', -, h, -⟩ := populate_edge_fields model voxels palette hs
    exact ⟨m', h⟩

/-- Witness of C9: two rectangles, a model that holds one edge. -/
theorem rvx_model_populate_buffer_main_witness :
    ∃ m', rvx_model_populate_buffer modelOneEdge
        [⟨3, 0, 1, 0, 0, 1, 0⟩, ⟨5, 2, 2, 0, 0, 0, 0⟩] paletteOnlyOne = some m'
      ∧ m'.numVoxels = 2 ∧ m'.modelLength = 12 ∧ m'.bufferSize = 144 :=
  match (rvx_model_populate_buffer_main modelOneEdge
      [⟨3, 0, 1, 0, 0, 1, 0⟩, ⟨5, 2, 2, 0, 0, 0, 0⟩] paletteOnlyOne).2 (by decide) with
  | ⟨m', h⟩ =>
    ⟨m', h,
      ((rvx_model_populate_buffer_main modelOneEdge
        [⟨3, 0, 1, 0, 0, 1, 0⟩, ⟨5, 2, 2, 0, 0, 0, 0⟩] paletteOnlyOne).1 m' h).1,
      ((rvx_model_populate_buffer_main modelOneEdge
        [⟨3, 0, 1, 0, 0, 1, 0⟩, ⟨5, 2, 2, 0, 0, 0, 0⟩] paletteOnlyOne).1 m' h).2.1,
      ((rvx_model_populate_buffer_main modelOneEdge
        [⟨3, 0, 1, 0, 0, 1, 0⟩, ⟨5, 2, 2, 0, 0, 0, 0⟩] paletteOnlyOne).1 m' h).2.2.1⟩

/-- Counterexample to C10 as stated: for one edge with one Y-step and a single
opaque corner colour the claim gives `1 * 1 * 6 * 16 = 96` bytes, while
`rvx_model_populate_buffer` sets `edgeBufferSize` to `2304`. -/
theorem edgeBufferSize_not_surviving :
    ¬ ∀ (model : RVX_MODEL) (voxels : List Voxel) (palette : Palette) (m' : RVX_MODEL),
        rvx_model_populate_buffer model voxels palette = some m' →
        m'.edgeBufferSize = claimedEdgeBytes palette model.edges := by
  intro h
  have h1 := h modelOneEdge [] paletteOnlyOne _ rfl
  revert h1
  decide

/-- C10 (amended): for edges with `spacing ≥ 1` and every palette,
`rvx_model_populate_buffer` returns; the bytes it writes to the edge buffer are
the sum over the edges of Y-steps times sub-quads with non-zero corner alpha
times 6 times 16, while `edgeBufferSize` is the same for every palette and
leaves room for all four sub-quads of every Y-step, so it is at least the
bytes written. -/
theorem edge_buffer_written_and_reserved (model : RVX_MODEL) (voxels : List Voxel)
    (palette : Palette) (hs : ∀ e ∈ model.edges, 1 ≤ e.spacing) :
    ∃ m' written, rvx_model_populate_buffer model voxels palette = some m'
      ∧ populateEdgeBuffer palette model.edges [] = some written
      ∧ (written ≠ [] → m'.edgeBuffer = some written)
      ∧ bufferBytes written = claimedEdgeBytes palette model.edges
      ∧ (fullEdgeBytes model.edges : Int) ≤ m'.edgeBufferSize
      ∧ (bufferBytes written : Int) ≤ m'.edgeBufferSize
      ∧ (∀ palette2 : Palette, ∃ m2, rvx_model_populate_buffer model voxels palette2 = some m2
          ∧ m2.edgeBufferSize = m'.edgeBufferSize) := by
  obtain ⟨m', written, hm, hsz, hw, hbuf⟩ := populate_edge_fields model voxels palette hs
  obtain ⟨w2, hw2, hb2⟩ := populateEdgeBuffer_bytes palette model.edges hs []
  rw [hw] at hw2
  simp only [Option.some.injEq] at hw2
  subst hw2
  have hbytes : bufferBytes written = claimedEdgeBytes palette model.edges := by
    rw [hb2]
    simp [bufferBytes, claimedEdgeBytes]
  have h1 := claimedEdgeBytes_le_full palette model.edges
  have h2 := fullEdgeBytes_le_reserved model.edges
  refine ⟨m', written, hm, hw, hbuf, hbytes, ?_, ?_, ?_⟩
  · rw [hsz]
    exact_mod_cast h2
  · rw [hsz, hbytes]
    exact_mod_cast le_trans h1 h2
  · intro palette2
    obtain ⟨m2, -, hm2, hsz2, -, -⟩ := populate_edge_fields model voxels palette2 hs
    exact ⟨m2, hm2, by rw [hsz2, hsz]⟩

/-- Witness of C10 (amended): one edge with one Y-step and one opaque corner. -/
theorem edge_buffer_written_and_reserved_witness :
    ∃ m' written, rvx_model_populate_buffer modelOneEdge [] paletteOnlyOne = some m'
      ∧ populateEdgeBuffer paletteOnlyOne modelOneEdge.edges [] = some written
      ∧ bufferBytes written = 96 ∧ (384 : Int) ≤ m'.edgeBufferSize :=
  match edge_buffer_written_and_reserved modelOneEdge [] paletteOnlyOne (by decide) with
  | ⟨m', written, h1, h2, _, h4, h5, _, _⟩ => ⟨m', written, h1, h2, h4, h5⟩

/-! ## Cell addressing with the identity transform -/

theorem iabs_of_nonneg {v : Int} (h : 0 ≤ v) : iabs v = v := by
  unfold iabs
  omega

theorem cell_index_lt {SX SY SZ x y z : Nat} (hx : x < SX) (hy : y < SY) (hz : z < SZ) :
    x + y * SX + z * SX * SY < SX * SY * SZ := by
  have h1 : x + y * SX < SX * SY := by
    calc x + y * SX < SX + y * SX := by omega
      _ = (y + 1) * SX := by ring
      _ ≤ SY * SX := Nat.mul_le_mul_right _ hy
      _ = SX * SY := by ring
  calc x + y * SX + z * SX * SY < SX * SY + z * SX * SY := by omega
    _ = (z + 1) * (SX * SY) := by ring
    _ ≤ SZ * (SX * SY) := Nat.mul_le_mul_right _ hz
    _ = SX * SY * SZ := by ring

theorem cell_index_inj {SX SY x y z x' y' z' : Nat} (hx : x < SX) (hy : y < SY)
    (hx' : x' < SX) (hy' : y' < SY)
    (h : x + y * SX + z * SX * SY = x' + y' * SX + z' * SX * SY) :
    x = x' ∧ y = y' ∧ z = z' := by
  have e1 : x + y * SX + z * SX * SY = x + SX * (y + SY * z) := by ring
  have e2 : x' + y' * SX + z' * SX * SY = x' + SX * (y' + SY * z') := by ring
  rw [e1, e2] at h
  have hm := congrArg (fun n => n % SX) h
  simp only [Nat.add_mul_mod_self_left, Nat.mod_eq_of_lt hx, Nat.mod_eq_of_lt hx'] at hm
  subst hm
  have hpos : 0 < SX := by omega
  have h2 : y + SY * z = y' + SY * z' := by
    have := Nat.eq_of_mul_eq_mul_left hpos (Nat.add_left_cancel h)
    exact this
  have hm2 := congrArg (fun n => n % SY) h2
  simp only [Nat.add_mul_mod_self_left, Nat.mod_eq_of_lt hy, Nat.mod_eq_of_lt hy'] at hm2
  subst hm2
  have hposy : 0 < SY := by omega
  have h3 : z = z' := Nat.eq_of_mul_eq_mul_left hposy (Nat.add_left_cancel h2)
  exact ⟨rfl, rfl, h3⟩

theorem off_identity (ctx : MergeCtx) (hinv : ctx.inversep = none) (x y z : Nat) :
    ctx.off x y z
      = ((x + y * ctx.model.size_x + z * ctx.model.size_x * ctx.model.size_y : Nat) : Int) := by
  unfold MergeCtx.off GetOffset
  rw [hinv]
  simp only []
  rw [iabs_of_nonneg (by positivity), iabs_of_nonneg (by positivity)]
  push_cast
  ring

theorem readVoxel_natCast (data : List Nat) (i : Nat) (h : i < data.length) :
    readVoxel data (i : Int) = some (data.getD i 0) := by
  unfold readVoxel
  simp [List.getD_eq_getElem?_getD, List.getElem?_eq_getElem h]

theorem writeVoxel_natCast (data : List Nat) (i v : Nat) (h : i < data.length) :
    writeVoxel data (i : Int) v = some (data.set i v) := by
  unfold writeVoxel
  simp [h]

theorem read_cell (ctx : MergeCtx) (hid : IdentityCtx ctx) (data : List Nat)
    (hlen : data.length = ctx.space_size_x * ctx.space_size_y * ctx.space_size_z)
    {x y z : Nat} (hx : x < ctx.space_size_x) (hy : y < ctx.space_size_y)
    (hz : z < ctx.space_size_z) :
    readVoxel data (ctx.off x y z)
      = some (cellAt ctx.space_size_x ctx.space_size_y data x y z) := by
  rw [off_identity ctx hid.inv, hid.size_x, hid.size_y, readVoxel_natCast]
  · rfl
  · rw [hlen]
    exact cell_index_lt hx hy hz

theorem cellAt_set {SX SY SZ : Nat} (data : List Nat)
    (hlen : data.length = SX * SY * SZ) (v : Nat) {x y z x' y' z' : Nat}
    (hx : x < SX) (hy : y < SY) (hz : z < SZ) (hx' : x' < SX) (hy' : y' < SY) :
    cellAt SX SY (data.set (x + y * SX + z * SX * SY) v) x' y' z'
      = if x' = x ∧ y' = y ∧ z' = z then v else cellAt SX SY data x' y' z' := by
  unfold cellAt
  rw [List.getD_eq_getElem?_getD, List.getD_eq_getElem?_getD, List.getElem?_set]
  have hlt : x + y * SX + z * SX * SY < data.length := by
    rw [hlen]; exact cell_index_lt hx hy hz
  by_cases h : x + y * SX + z * SX * SY = x' + y' * SX + z' * SX * SY
  · obtain ⟨h1, h2, h3⟩ := cell_index_inj hx hy hx' hy' h
    subst h1 h2 h3
    simp [hlt]
  · have h' : ¬ (x' = x ∧ y' = y ∧ z' = z) := by
      rintro ⟨h1, h2, h3⟩
      subst h1 h2 h3
      exact h rfl
    rw [if_neg h, if_neg h']

theorem RemoveVoxels_loop_spec (ctx : MergeCtx) (hid : IdentityCtx ctx) {y z : Nat}
    (hy : y < ctx.space_size_y) (hz : z < ctx.space_size_z) :
    ∀ (n sx : Nat) (data : List Nat), sx + n ≤ ctx.space_size_x →
      data.length = ctx.space_size_x * ctx.space_size_y * ctx.space_size_z →
      ∃ data', RemoveVoxels.loop y z ctx.model ctx.inversep ctx.sizes n sx data = some data'
        ∧ data'.length = ctx.space_size_x * ctx.space_size_y * ctx.space_size_z
        ∧ ∀ x' y' z', x' < ctx.space_size_x → y' < ctx.space_size_y → z' < ctx.space_size_z →
            cellAt ctx.space_size_x ctx.space_size_y data' x' y' z'
              = if y' = y ∧ z' = z ∧ sx ≤ x' ∧ x' < sx + n then 0
                else cellAt ctx.space_size_x ctx.space_size_y data x' y' z' := by
  intro n
  induction n with
  | zero =>
    intro sx data _ hlen
    refine ⟨data, rfl, hlen, ?_⟩
    intro x' y' z' _ _ _
    rw [if_neg (by omega)]
  | succ n ih =>
    intro sx data hb hlen
    have hsx : sx < ctx.space_size_x := by omega
    have hoff : GetOffset (sx : Int) y z ctx.model ctx.inversep ctx.sizes
        = ((sx + y * ctx.space_size_x + z * ctx.space_size_x * ctx.space_size_y : Nat) : Int) := by
      have := off_identity ctx hid.inv sx y z
      rw [hid.size_x, hid.size_y] at this
      exact this
    have hidx : sx + y * ctx.space_size_x + z * ctx.space_size_x * ctx.space_size_y
        < data.length := by
      rw [hlen]; exact cell_index_lt hsx hy hz
    have hlen2 : (data.set (sx + y * ctx.space_size_x
        + z * ctx.space_size_x * ctx.space_size_y) 0).length
        = ctx.space_size_x * ctx.space_size_y * ctx.space_size_z := by
      rw [List.length_set, hlen]
    obtain ⟨data', h1, h2, h3⟩ := ih (sx + 1) _ (by omega) hlen2
    refine ⟨data', ?_, h2, ?_⟩
    · rw [RemoveVoxels.loop, hoff, writeVoxel_natCast _ _ _ hidx]
      simp only []
      have hc : ((sx : Int) + 1) = ((sx + 1 : Nat) : Int) := by push_cast; rfl
      rw [hc]
      exact h1
    · intro x' y' z' hx' hy' hz'
      rw [h3 x' y' z' hx' hy' hz', cellAt_set data hlen 0 hsx hy hz hx' hy']
      by_cases hc : y' = y ∧ z' = z ∧ sx ≤ x' ∧ x' < sx + (n + 1)
      · rw [if_pos hc]
        by_cases hc2 : y' = y ∧ z' = z ∧ sx + 1 ≤ x' ∧ x' < sx + 1 + n
        · rw [if_pos hc2]
        · rw [if_neg hc2, if_pos (by omega)]
      · rw [if_neg hc, if_neg (by omega), if_neg (by omega)]

theorem RemoveVoxels_spec (ctx : MergeCtx) (hid : IdentityCtx ctx) {sx ex y z : Nat}
    (data : List Nat) (hsx : sx ≤ ex) (hex : ex < ctx.space_size_x)
    (hy : y < ctx.space_size_y) (hz : z < ctx.space_size_z)
    (hlen : data.length = ctx.space_size_x * ctx.space_size_y * ctx.space_size_z) :
    ∃ data', RemoveVoxels data sx ex y z ctx.model ctx.inversep ctx.sizes = some data'
      ∧ data'.length = ctx.space_size_x * ctx.space_size_y * ctx.space_size_z
      ∧ ∀ x' y' z', x' < ctx.space_size_x → y' < ctx.space_size_y → z' < ctx.space_size_z →
          cellAt ctx.space_size_x ctx.space_size_y data' x' y' z'
            = if y' = y ∧ z' = z ∧ sx ≤ x' ∧ x' ≤ ex then 0
              else cellAt ctx.space_size_x ctx.space_size_y data x' y' z' := by
  have hn : ((ex : Int) + 1 - (sx : Int)).toNat = ex + 1 - sx := by omega
  obtain ⟨data', h1, h2, h3⟩ := RemoveVoxels_loop_spec ctx hid hy hz (ex + 1 - sx) sx data
    (by omega) hlen
  refine ⟨data', ?_, h2, ?_⟩
  · unfold RemoveVoxels
    rw [hn]
    exact h1
  · intro x' y' z' hx' hy' hz'
    rw [h3 x' y' z' hx' hy' hz']
    by_cases hc : y' = y ∧ z' = z ∧ sx ≤ x' ∧ x' ≤ ex
    · rw [if_pos hc, if_pos (by omega)]
    · rw [if_neg hc, if_neg (by omega)]

theorem AllVoxelsSameColor_loop_spec (ctx : MergeCtx) (hid : IdentityCtx ctx) (data : List Nat)
    (hlen : data.length = ctx.space_size_x * ctx.space_size_y * ctx.space_size_z)
    (c : Nat) {y z : Nat} (hy : y < ctx.space_size_y) (hz : z < ctx.space_size_z) :
    ∀ (n sx : Nat), sx + n ≤ ctx.space_size_x →
      ∃ b, AllVoxelsSameColor.loop data y z ctx.model ctx.inversep c ctx.sizes n sx = some b
        ∧ (b = true ↔ ∀ i, sx ≤ i → i < sx + n →
            cellAt ctx.space_size_x ctx.space_size_y data i y z = c) := by
  intro n
  induction n with
  | zero =>
    intro sx _
    refine ⟨true, rfl, ?_⟩
    simp only [true_iff]
    intro i h1 h2
    omega
  | succ n ih =>
    intro sx hb
    have hsx : sx < ctx.space_size_x := by omega
    have hr := read_cell ctx hid data hlen hsx hy hz
    unfold MergeCtx.off at hr
    obtain ⟨b, h1, h2⟩ := ih (sx + 1) (by omega)
    by_cases hv : cellAt ctx.space_size_x ctx.space_size_y data sx y z = c
    · refine ⟨b, ?_, ?_⟩
      · rw [AllVoxelsSameColor.loop, hr]
        simp only [hv, ne_eq, not_true_eq_false, if_false]
        have hc : ((sx : Int) + 1) = ((sx + 1 : Nat) : Int) := by push_cast; rfl
        rw [hc]
        exact h1
      · rw [h2]
        constructor
        · intro h i hi1 hi2
          by_cases hi : i = sx
          · rw [hi]; exact hv
          · exact h i (by omega) (by omega)
        · intro h i hi1 hi2
          exact h i (by omega) (by omega)
    · refine ⟨false, ?_, ?_⟩
      · rw [AllVoxelsSameColor.loop, hr]
        simp only [ne_eq, hv, not_false_eq_true, if_true]
      · simp only [Bool.false_eq_true, false_iff]
        intro h
        exact hv (h sx (by omega) (by omega))

theorem AllVoxelsSameColor_spec (ctx : MergeCtx) (hid : IdentityCtx ctx) (data : List Nat)
    (hlen : data.length = ctx.space_size_x * ctx.space_size_y * ctx.space_size_z)
    (c : Nat) {sx ex y z : Nat} (hsx : sx ≤ ex) (hex : ex < ctx.space_size_x)
    (hy : y < ctx.space_size_y) (hz : z < ctx.space_size_z) :
    ∃ b, AllVoxelsSameColor data sx ex y z ctx.model ctx.inversep c ctx.sizes = some b
      ∧ (b = true ↔ ∀ i, sx ≤ i → i ≤ ex →
          cellAt ctx.space_size_x ctx.space_size_y data i y z = c) := by
  have hn : ((ex : Int) + 1 - (sx : Int)).toNat = ex + 1 - sx := by omega
  obtain ⟨b, h1, h2⟩ := AllVoxelsSameColor_loop_spec ctx hid data hlen c hy hz (ex + 1 - sx) sx
    (by omega)
  refine ⟨b, ?_, ?_⟩
  · unfold AllVoxelsSameColor
    rw [hn]
    exact h1
  · rw [h2]
    constructor
    · intro h i hi1 hi2
      exact h i hi1 (by omega)
    · intro h i hi1 hi2
      exact h i hi1 (by omega)

theorem lineScan_spec (ctx : MergeCtx) (hid : IdentityCtx ctx) (data : List Nat)
    (hlen : data.length = ctx.space_size_x * ctx.space_size_y * ctx.space_size_z)
    (c : Nat) {y z : Nat} (hy : y < ctx.space_size_y) (hz : z < ctx.space_size_z) :
    ∀ (n x : Nat), x + n < ctx.space_size_x →
      ∃ x', lineScan ctx data y z c n x = some x' ∧ x ≤ x' ∧ x' ≤ x + n
        ∧ (∀ i, x < i → i ≤ x' → cellAt ctx.space_size_x ctx.space_size_y data i y z = c)
        ∧ (x' = x + n ∨ cellAt ctx.space_size_x ctx.space_size_y data (x' + 1) y z ≠ c) := by
  intro n
  induction n with
  | zero =>
    intro x _
    refine ⟨x, rfl, le_refl _, le_refl _, ?_, Or.inl rfl⟩
    intro i h1 h2
    omega
  | succ n ih =>
    intro x hb
    have hx1 : x + 1 < ctx.space_size_x := by omega
    have hr := read_cell ctx hid data hlen hx1 hy hz
    by_cases hv : cellAt ctx.space_size_x ctx.space_size_y data (x + 1) y z = c
    · obtain ⟨x', h1, h2, h3, h4, h5⟩ := ih (x + 1) (by omega)
      refine ⟨x', ?_, by omega, by omega, ?_, ?_⟩
      · rw [lineScan, hr]
        simp only [hv, if_true]
        exact h1
      · intro i hi1 hi2
        by_cases hi : i = x + 1
        · rw [hi]; exact hv
        · exact h4 i (by omega) hi2
      · rcases h5 with h5 | h5
        · left; omega
        · right; exact h5
    · refine ⟨x, ?_, le_refl _, by omega, ?_, Or.inr hv⟩
      · rw [lineScan, hr]
        simp only [hv, if_false]
      · intro i hi1 hi2
        omega

theorem growZ_spec (ctx : MergeCtx) (hid : IdentityCtx ctx) (c : Nat) {sx x y : Nat}
    (hsx : sx ≤ x) (hx : x < ctx.space_size_x) (hy : y < ctx.space_size_y) :
    ∀ (n ez : Nat) (data : List Nat), ez + n < ctx.space_size_z →
      data.length = ctx.space_size_x * ctx.space_size_y * ctx.space_size_z →
      ∃ ez' data', growZ ctx sx x y c n ez data = some (ez', data')
        ∧ ez ≤ ez' ∧ ez' ≤ ez + n
        ∧ data'.length = ctx.space_size_x * ctx.space_size_y * ctx.space_size_z
        ∧ (∀ j, ez < j → j ≤ ez' → ∀ i, sx ≤ i → i ≤ x →
            cellAt ctx.space_size_x ctx.space_size_y data i y j = c)
        ∧ (∀ x' y' z', x' < ctx.space_size_x → y' < ctx.space_size_y → z' < ctx.space_size_z →
            cellAt ctx.space_size_x ctx.space_size_y data' x' y' z'
              = if y' = y ∧ ez < z' ∧ z' ≤ ez' ∧ sx ≤ x' ∧ x' ≤ x then 0
                else cellAt ctx.space_size_x ctx.space_size_y data x' y' z')
        ∧ (ez' = ez + n ∨ (ez' < ez + n ∧ ¬ ∀ i, sx ≤ i → i ≤ x →
            cellAt ctx.space_size_x ctx.space_size_y data i y (ez' + 1) = c)) := by
  intro n
  induction n with
  | zero =>
    intro ez data _ hlen
    refine ⟨ez, data, rfl, le_refl _, le_refl _, hlen, ?_, ?_, Or.inl rfl⟩
    · intro j h1 h2
      omega
    · intro x' y' z' _ _ _
      rw [if_neg (by omega)]
  | succ n ih =>
    intro ez data hb hlen
    have hz1 : ez + 1 < ctx.space_size_z := by omega
    obtain ⟨b, hb1, hb2⟩ := AllVoxelsSameColor_spec ctx hid data hlen c hsx hx hy hz1
    cases b with
    | false =>
      have hno : ¬ ∀ i, sx ≤ i → i ≤ x →
          cellAt ctx.space_size_x ctx.space_size_y data i y (ez + 1) = c := by
        intro h
        have := hb2.mpr h
        exact Bool.false_ne_true this
      refine ⟨ez, data, ?_, le_refl _, by omega, hlen, ?_, ?_, Or.inr ⟨by omega, hno⟩⟩
      · rw [growZ, hb1]
      · intro j h1 h2
        omega
      · intro x' y' z' _ _ _
        rw [if_neg (by omega)]
    | true =>
      have hall := hb2.mp rfl
      obtain ⟨data1, hr1, hr2, hr3⟩ := RemoveVoxels_spec ctx hid data hsx hx hy hz1 hlen
      obtain ⟨ez', data', h1, h2, h3, h4, h5, h6, h7⟩ := ih (ez + 1) data1 (by omega) hr2
      refine ⟨ez', data', ?_, by omega, by omega, h4, ?_, ?_, ?_⟩
      · rw [growZ, hb1]
        simp only []
        rw [hr1]
        exact h1
      · intro j hj1 hj2 i hi1 hi2
        by_cases hj : j = ez + 1
        · rw [hj]; exact hall i hi1 hi2
        · have := h5 j (by omega) hj2 i hi1 hi2
          rw [hr3 i y j (by omega) hy (by omega), if_neg (by omega)] at this
          exact this
      · intro x' y' z' hx' hy' hz'
        rw [h6 x' y' z' hx' hy' hz', hr3 x' y' z' hx' hy' hz']
        by_cases hc : y' = y ∧ ez < z' ∧ z' ≤ ez' ∧ sx ≤ x' ∧ x' ≤ x
        · rw [if_pos hc]
          by_cases hc2 : y' = y ∧ ez + 1 < z' ∧ z' ≤ ez' ∧ sx ≤ x' ∧ x' ≤ x
          · rw [if_pos hc2]
          · rw [if_neg hc2, if_pos (by omega)]
        · rw [if_neg hc, if_neg (by omega), if_neg (by omega)]
      · rcases h7 with h7 | h7
        · left; omega
        · right
          refine ⟨by omega, ?_⟩
          intro h
          apply h7.2
          intro i hi1 hi2
          rw [hr3 i y (ez' + 1) (by omega) hy (by omega), if_neg (by omega)]
          exact h i hi1 hi2

/-! ## The rectangle merge keeps its invariant (claims C1 - C4) -/

theorem mergeRect_spec (ctx : MergeCtx) (hid : IdentityCtx ctx) (data : List Nat)
    (hlen : data.length = ctx.space_size_x * ctx.space_size_y * ctx.space_size_z)
    {x y z : Nat} (c : Nat) (hx : x < ctx.space_size_x) (hy : y < ctx.space_size_y)
    (hz : z < ctx.space_size_z)
    (hc : cellAt ctx.space_size_x ctx.space_size_y data x y z = c) :
    ∃ xe ez data', mergeRect ctx data y z x c = some (xe, ez, data')
      ∧ x ≤ xe ∧ xe < ctx.space_size_x ∧ z ≤ ez ∧ ez < ctx.space_size_z
      ∧ data'.length = ctx.space_size_x * ctx.space_size_y * ctx.space_size_z
      ∧ (∀ i j, x ≤ i → i ≤ xe → z ≤ j → j ≤ ez →
          cellAt ctx.space_size_x ctx.space_size_y data i y j = c)
      ∧ (∀ i j k, i < ctx.space_size_x → j < ctx.space_size_y → k < ctx.space_size_z →
          cellAt ctx.space_size_x ctx.space_size_y data' i j k
            = if j = y ∧ z < k ∧ k ≤ ez ∧ x ≤ i ∧ i ≤ xe then 0
              else cellAt ctx.space_size_x ctx.space_size_y data i j k)
      ∧ (ctx.optimize = false → xe = x ∧ ez = z)
      ∧ (ctx.optimize = true →
          (xe + 1 = ctx.space_size_x
            ∨ cellAt ctx.space_size_x ctx.space_size_y data (xe + 1) y z ≠ c)
          ∧ (ez + 1 = ctx.space_size_z
            ∨ (ez + 1 < ctx.space_size_z ∧ ¬ ∀ i, x ≤ i → i ≤ xe →
                cellAt ctx.space_size_x ctx.space_size_y data i y (ez + 1) = c))) := by
  unfold mergeRect
  cases hopt : ctx.optimize with
  | false =>
    refine ⟨x, z, data, by simp, le_refl _, hx, le_refl _, hz, hlen, ?_, ?_, fun _ => ⟨rfl, rfl⟩,
      fun h => absurd h (by simp)⟩
    · intro i j h1 h2 h3 h4
      have hi : i = x := by omega
      have hj : j = z := by omega
      rw [hi, hj]; exact hc
    · intro i j k _ _ _
      rw [if_neg (by omega)]
  | true =>
    obtain ⟨xe, h1, h2, h3, h4, h5⟩ := lineScan_spec ctx hid data hlen c hy hz
      (ctx.space_size_x - 1 - x) x (by omega)
    have hxe : xe < ctx.space_size_x := by omega
    obtain ⟨ez, data', g1, g2, g3, g4, g5, g6, g7⟩ := growZ_spec ctx hid c h2 hxe hy
      (ctx.space_size_z - 1 - z) z data (by omega) hlen
    refine ⟨xe, ez, data', ?_, h2, hxe, g2, by omega, g4, ?_, g6, fun h => absurd h (by simp),
      fun _ => ⟨?_, ?_⟩⟩
    · simp only [if_true, h1, g1]
    · intro i j hi1 hi2 hj1 hj2
      by_cases hj : j = z
      · rw [hj]
        by_cases hi : i = x
        · rw [hi]; exact hc
        · exact h4 i (by omega) hi2
      · exact g5 j (by omega) hj2 i hi1 hi2
    · rcases h5 with h5 | h5
      · left; omega
      · right; exact h5
    · rcases g7 with g7 | g7
      · left; omega
      · right; exact ⟨by omega, g7.2⟩

theorem cellAt_mem_of_ne_zero {SX SY : Nat} {G : List Nat} {x y z : Nat}
    (h : cellAt SX SY G x y z ≠ 0) : cellAt SX SY G x y z ∈ G := by
  unfold cellAt at h ⊢
  rw [List.getD_eq_getElem?_getD] at h ⊢
  by_cases hlt : x + y * SX + z * SX * SY < G.length
  · rw [List.getElem?_eq_getElem hlt]
    exact List.getElem_mem hlt
  · rw [List.getElem?_eq_none (by omega)] at h
    exact absurd rfl h

theorem coverCount_append_singleton (L : List LRect) (r : LRect) (x y z : Nat) :
    coverCount (L ++ [r]) x y z = coverCount L x y z + if r.covers x y z then 1 else 0 := by
  unfold coverCount
  rw [List.countP_append]
  simp [List.countP_cons]

theorem cellBody_zero (ctx : MergeCtx) (y z x : Nat) (st : MergeState)
    (h : readVoxel st.voxel_copy (ctx.off x y z) = some 0) :
    cellBody ctx y z x st = some (x, st) := by
  unfold cellBody
  rw [h]
  simp

theorem cellBody_ordinary (ctx : MergeCtx) (y z x c : Nat) (st : MergeState)
    (h : readVoxel st.voxel_copy (ctx.off x y z) = some c) (hc : c ≠ 0)
    (hm : ctx.isMarker c = false) :
    cellBody ctx y z x st = pushRect ctx y z x c st := by
  unfold cellBody
  rw [h]
  simp only [hc, if_false]
  unfold MergeCtx.isMarker isEdgeMarker at hm
  cases hmk : ctx.markers with
  | none => rfl
  | some lr =>
    obtain ⟨l, r⟩ := lr
    rw [hmk] at hm
    simp only [Bool.or_eq_false_iff, beq_eq_false_iff_ne, ne_eq] at hm
    simp only [hm.1, hm.2, or_self, if_false]

theorem cellBody_inv (ctx : MergeCtx) (hid : IdentityCtx ctx) (G : List Nat)
    (hnm : NoMarkers ctx G) {x y z : Nat} (hx : x < ctx.space_size_x)
    (hy : y < ctx.space_size_y) (hz : z < ctx.space_size_z) (st : MergeState) (L : List LRect)
    (hv : st.m_voxels = L.map (LRect.toVoxel ctx))
    (hinv : MergeInv ctx.space_size_x ctx.space_size_y ctx.space_size_z G x y z
      st.voxel_copy L) :
    ∃ xe st' Lnew, cellBody ctx y z x st = some (xe, st') ∧ x ≤ xe ∧ xe < ctx.space_size_x
      ∧ st'.m_voxels = (L ++ Lnew).map (LRect.toVoxel ctx)
      ∧ MergeInv ctx.space_size_x ctx.space_size_y ctx.space_size_z G (xe + 1) y z
          st'.voxel_copy (L ++ Lnew)
      ∧ st'.m_edges = st.m_edges ∧ st'.en = st.en
      ∧ (∀ r ∈ Lnew, r.y = y) := by
  have hr := read_cell ctx hid st.voxel_copy hinv.len hx hy hz
  have hnot : ¬ scannedBefore x y z x y z := by unfold scannedBefore; omega
  by_cases hc : cellAt ctx.space_size_x ctx.space_size_y st.voxel_copy x y z = 0
  · rw [hc] at hr
    refine ⟨x, st, [], cellBody_zero ctx y z x st hr, le_refl _, hx, by simpa using hv, ?_,
      rfl, rfl, by simp⟩
    rw [List.append_nil]
    refine ⟨hinv.len, ?_, ?_, ?_⟩
    · intro i j k hi hj hk hs
      by_cases hs0 : scannedBefore i j k x y z
      · exact hinv.scanned i j k hi hj hk hs0
      · have hijk : i = x ∧ j = y ∧ k = z := by
          unfold scannedBefore at hs hs0; omega
        obtain ⟨h1, h2, h3⟩ := hijk
        subst h1 h2 h3
        rcases hinv.pending i j k hi hj hk hs0 with ⟨h1, h2⟩ | ⟨h1, _, h3⟩
        · rw [h1, ← h2, hc]; simp
        · rw [h1, if_pos h3]
    · intro i j k hi hj hk hs
      exact hinv.pending i j k hi hj hk (by unfold scannedBefore at hs ⊢; omega)
    · intro r hrL
      obtain ⟨r1, r2, r3, r4, r5, r6, r7, r8⟩ := hinv.rects r hrL
      exact ⟨r1, r2, r3, r4, r5, r6, by unfold scannedBefore at r7 ⊢; omega, r8⟩
  · rcases hinv.pending x y z hx hy hz hnot with ⟨p1, p2⟩ | ⟨_, p2, _⟩
    swap
    · exact absurd p2 hc
    have hGne : cellAt ctx.space_size_x ctx.space_size_y G x y z ≠ 0 := by
      rw [← p2]; exact hc
    have hmk : ctx.isMarker (cellAt ctx.space_size_x ctx.space_size_y st.voxel_copy x y z)
        = false := by
      rw [p2]; exact hnm _ (cellAt_mem_of_ne_zero hGne)
    obtain ⟨xe, ez, data', m1, m2, m3, m4, m5, m6, m7, m8, -, -⟩ :=
      mergeRect_spec ctx hid st.voxel_copy hinv.len
        (cellAt ctx.space_size_x ctx.space_size_y st.voxel_copy x y z) hx hy hz rfl
    -- every cell of the new rectangle is uncovered so far and has the colour in `G`
    have hcells : ∀ i k, x ≤ i → i ≤ xe → z ≤ k → k ≤ ez →
        coverCount L i y k = 0 ∧ cellAt ctx.space_size_x ctx.space_size_y G i y k
          = cellAt ctx.space_size_x ctx.space_size_y st.voxel_copy x y z := by
      intro i k hi1 hi2 hk1 hk2
      have hD := m7 i k hi1 hi2 hk1 hk2
      have hns : ¬ scannedBefore i y k x y z := by unfold scannedBefore; omega
      rcases hinv.pending i y k (by omega) hy (by omega) hns with ⟨q1, q2⟩ | ⟨_, q2, _⟩
      · exact ⟨q1, by rw [← q2, hD]⟩
      · rw [hD] at q2; exact absurd q2 hc
    refine ⟨xe, { st with voxel_copy := data',
                          m_voxels := st.m_voxels ++ [mkVoxel ctx
                            (cellAt ctx.space_size_x ctx.space_size_y st.voxel_copy x y z)
                            x xe y z ez] },
      [⟨cellAt ctx.space_size_x ctx.space_size_y st.voxel_copy x y z, x, xe, y, z, ez⟩],
      ?_, m2, m3, ?_, ?_, rfl, rfl, ?_⟩
    · rw [cellBody_ordinary ctx y z x _ st hr hc hmk, pushRect, m1]
    · simp only [List.map_append, List.map_cons, List.map_nil, hv]
      rfl
    · refine ⟨m6, ?_, ?_, ?_⟩
      · intro i j k hi hj hk hs
        rw [coverCount_append_singleton]
        by_cases hcov : (LRect.mk (cellAt ctx.space_size_x ctx.space_size_y st.voxel_copy x y z)
            x xe y z ez).covers i j k
        · rw [if_pos hcov]
          unfold LRect.covers at hcov
          simp only at hcov
          obtain ⟨e1, e2, e3, e4, e5⟩ := hcov
          subst e1
          obtain ⟨c1, c2⟩ := hcells i k e2 e3 e4 e5
          rw [c1, c2, if_pos hc]
        · rw [if_neg hcov, Nat.add_zero]
          apply hinv.scanned i j k hi hj hk
          unfold LRect.covers at hcov
          simp only at hcov
          unfold scannedBefore at hs ⊢
          omega
      · intro i j k hi hj hk hs
        have hs0 : ¬ scannedBefore i j k x y z := by
          unfold scannedBefore at hs ⊢; omega
        rw [coverCount_append_singleton, m8 i j k hi hj hk]
        by_cases hcov : (LRect.mk (cellAt ctx.space_size_x ctx.space_size_y st.voxel_copy x y z)
            x xe y z ez).covers i j k
        · rw [if_pos hcov]
          unfold LRect.covers at hcov
          simp only at hcov
          obtain ⟨e1, e2, e3, e4, e5⟩ := hcov
          subst e1
          obtain ⟨c1, c2⟩ := hcells i k e2 e3 e4 e5
          right
          refine ⟨by rw [c1], ?_, by rw [c2]; exact hc⟩
          rw [if_pos]
          unfold scannedBefore at hs
          omega
        · rw [if_neg hcov, Nat.add_zero]
          unfold LRect.covers at hcov
          simp only at hcov
          rw [if_neg (by omega)]
          exact hinv.pending i j k hi hj hk hs0
      · intro r hrL
        rw [List.mem_append, List.mem_singleton] at hrL
        rcases hrL with hrL | hrL
        · obtain ⟨r1, r2, r3, r4, r5, r6, r7, r8⟩ := hinv.rects r hrL
          exact ⟨r1, r2, r3, r4, r5, r6, by unfold scannedBefore at r7 ⊢; omega, r8⟩
        · subst hrL
          have hsb : scannedBefore x y z (xe + 1) y z := by unfold scannedBefore; omega
          refine ⟨m2, m3, m4, m5, hy, hc, hsb, ?_⟩
          intro i k h1 h2 h3 h4
          exact (hcells i k h1 h2 h3 h4).2
    · intro r hrL
      rw [List.mem_singleton] at hrL
      rw [hrL]

theorem MergeInv_congr {SX SY SZ : Nat} {G data : List Nat} {L : List LRect}
    {fx fy fz gx gy gz : Nat}
    (heq : ∀ i j k, i < SX → j < SY → k < SZ →
      (scannedBefore i j k fx fy fz ↔ scannedBefore i j k gx gy gz))
    (h : MergeInv SX SY SZ G fx fy fz data L) : MergeInv SX SY SZ G gx gy gz data L := by
  refine ⟨h.len, ?_, ?_, ?_⟩
  · intro i j k hi hj hk hs
    exact h.scanned i j k hi hj hk ((heq i j k hi hj hk).mpr hs)
  · intro i j k hi hj hk hs
    exact h.pending i j k hi hj hk (fun hs' => hs ((heq i j k hi hj hk).mp hs'))
  · intro r hr
    obtain ⟨r1, r2, r3, r4, r5, r6, r7, r8⟩ := h.rects r hr
    exact ⟨r1, r2, r3, r4, r5, r6, (heq r.sx r.y r.sz (by omega) r5 (by omega)).mp r7, r8⟩

theorem xLoop_inv (ctx : MergeCtx) (hid : IdentityCtx ctx) (G : List Nat)
    (hnm : NoMarkers ctx G) {y z : Nat} (hy : y < ctx.space_size_y)
    (hz : z < ctx.space_size_z) :
    ∀ (fuel x : Nat) (st : MergeState) (L : List LRect), ctx.space_size_x ≤ x + fuel →
      st.m_voxels = L.map (LRect.toVoxel ctx) →
      MergeInv ctx.space_size_x ctx.space_size_y ctx.space_size_z G x y z st.voxel_copy L →
      ∃ st' Lnew, xLoop ctx y z fuel x st = some st'
        ∧ st'.m_voxels = (L ++ Lnew).map (LRect.toVoxel ctx)
        ∧ MergeInv ctx.space_size_x ctx.space_size_y ctx.space_size_z G 0 y (z + 1)
            st'.voxel_copy (L ++ Lnew)
        ∧ st'.m_edges = st.m_edges ∧ st'.en = st.en
        ∧ (∀ r ∈ Lnew, r.y = y) := by
  intro fuel
  induction fuel with
  | zero =>
    intro x st L hf hv hinv
    refine ⟨st, [], ?_, by simpa using hv, ?_, rfl, rfl, by simp⟩
    · rw [xLoop, if_neg (by omega)]
    · rw [List.append_nil]
      refine MergeInv_congr ?_ hinv
      intro i j k hi _ _
      unfold scannedBefore
      omega
  | succ n ih =>
    intro x st L hf hv hinv
    by_cases hx : x < ctx.space_size_x
    · obtain ⟨xe, st1, L1, b1, b2, b3, b4, b5, b6, b7, b8⟩ :=
        cellBody_inv ctx hid G hnm hx hy hz st L hv hinv
      obtain ⟨st2, L2, c1, c2, c3, c4, c5, c6⟩ := ih (xe + 1) st1 (L ++ L1) (by omega) b4 b5
      refine ⟨st2, L1 ++ L2, ?_, ?_, ?_, by rw [c4, b6], by rw [c5, b7], ?_⟩
      · rw [xLoop, if_pos hx, b1]
        exact c1
      · rw [← List.append_assoc]; exact c2
      · rw [← List.append_assoc]; exact c3
      · intro r hr
        rw [List.mem_append] at hr
        rcases hr with hr | hr
        · exact b8 r hr
        · exact c6 r hr
    · refine ⟨st, [], ?_, by simpa using hv, ?_, rfl, rfl, by simp⟩
      · rw [xLoop, if_neg hx]
      · rw [List.append_nil]
        refine MergeInv_congr ?_ hinv
        intro i j k hi _ _
        unfold scannedBefore
        omega

theorem zLoop_inv (ctx : MergeCtx) (hid : IdentityCtx ctx) (G : List Nat)
    (hnm : NoMarkers ctx G) {y : Nat} (hy : y < ctx.space_size_y) :
    ∀ (n z : Nat) (st : MergeState) (L : List LRect), z + n ≤ ctx.space_size_z →
      st.m_voxels = L.map (LRect.toVoxel ctx) →
      MergeInv ctx.space_size_x ctx.space_size_y ctx.space_size_z G 0 y z st.voxel_copy L →
      ∃ st' Lnew, zLoop ctx y n z st = some st'
        ∧ st'.m_voxels = (L ++ Lnew).map (LRect.toVoxel ctx)
        ∧ MergeInv ctx.space_size_x ctx.space_size_y ctx.space_size_z G 0 y (z + n)
            st'.voxel_copy (L ++ Lnew)
        ∧ st'.m_edges = st.m_edges ∧ st'.en = st.en
        ∧ (∀ r ∈ Lnew, r.y = y) := by
  intro n
  induction n with
  | zero =>
    intro z st L hzn hv hinv
    exact ⟨st, [], rfl, by simpa using hv, by rw [List.append_nil]; exact hinv, rfl, rfl,
      by simp⟩
  | succ n ih =>
    intro z st L hzn hv hinv
    obtain ⟨st1, L1, b1, b2, b3, b4, b5, b6⟩ :=
      xLoop_inv ctx hid G hnm hy (by omega) ctx.space_size_x 0 st L (by omega) hv hinv
    obtain ⟨st2, L2, c1, c2, c3, c4, c5, c6⟩ := ih (z + 1) st1 (L ++ L1) (by omega) b2 b3
    refine ⟨st2, L1 ++ L2, ?_, ?_, ?_, by rw [c4, b4], by rw [c5, b5], ?_⟩
    · rw [zLoop, b1]
      exact c1
    · rw [← List.append_assoc]; exact c2
    · rw [← List.append_assoc]
      have e : z + (n + 1) = z + 1 + n := by omega
      rw [e]; exact c3
    · intro r hr
      rw [List.mem_append] at hr
      rcases hr with hr | hr
      · exact b6 r hr
      · exact c6 r hr

theorem layer_inv (ctx : MergeCtx) (hid : IdentityCtx ctx) (G : List Nat)
    (hnm : NoMarkers ctx G) {y : Nat} (hy : y < ctx.space_size_y)
    (st : MergeState) (L : List LRect) (hv : st.m_voxels = L.map (LRect.toVoxel ctx))
    (hinv : MergeInv ctx.space_size_x ctx.space_size_y ctx.space_size_z G 0 y 0
      st.voxel_copy L) :
    ∃ st' Lnew, zLoop ctx y ctx.space_size_z 0 st = some st'
      ∧ st'.m_voxels = (L ++ Lnew).map (LRect.toVoxel ctx)
      ∧ MergeInv ctx.space_size_x ctx.space_size_y ctx.space_size_z G 0 (y + 1) 0
          st'.voxel_copy (L ++ Lnew)
      ∧ st'.m_edges = st.m_edges ∧ st'.en = st.en
      ∧ (∀ r ∈ Lnew, r.y = y) := by
  obtain ⟨st1, L1, b1, b2, b3, b4, b5, b6⟩ :=
    zLoop_inv ctx hid G hnm hy ctx.space_size_z 0 st L (by omega) hv hinv
  refine ⟨st1, L1, b1, b2, ?_, b4, b5, b6⟩
  refine MergeInv_congr ?_ b3
  intro i j k _ _ hk
  unfold scannedBefore
  omega

theorem yLoop_inv (ctx : MergeCtx) (hid : IdentityCtx ctx) (G : List Nat)
    (hnm : NoMarkers ctx G) :
    ∀ (n y : Nat) (st : MergeState) (L : List LRect), y + n ≤ ctx.space_size_y →
      st.m_voxels = L.map (LRect.toVoxel ctx) →
      MergeInv ctx.space_size_x ctx.space_size_y ctx.space_size_z G 0 y 0 st.voxel_copy L →
      ∃ st' Lnew, yLoop ctx n y st = some st'
        ∧ st'.m_voxels = (L ++ Lnew).map (LRect.toVoxel ctx)
        ∧ MergeInv ctx.space_size_x ctx.space_size_y ctx.space_size_z G 0 (y + n) 0
            st'.voxel_copy (L ++ Lnew)
        ∧ st'.m_edges = st.m_edges ∧ st'.en = st.en
        ∧ (∀ r ∈ Lnew, y ≤ r.y) := by
  intro n
  induction n with
  | zero =>
    intro y st L hyn hv hinv
    exact ⟨st, [], rfl, by simpa using hv, by rw [List.append_nil]; exact hinv, rfl, rfl,
      by simp⟩
  | succ n ih =>
    intro y st L hyn hv hinv
    obtain ⟨st1, L1, b1, b2, b3, b4, b5, b6⟩ :=
      layer_inv ctx hid G hnm (by omega) st L hv hinv
    obtain ⟨st2, L2, c1, c2, c3, c4, c5, c6⟩ := ih (y + 1) st1 (L ++ L1) (by omega) b2 b3
    refine ⟨st2, L1 ++ L2, ?_, ?_, ?_, by rw [c4, b4], by rw [c5, b5], ?_⟩
    · rw [yLoop, b1]
      exact c1
    · rw [← List.append_assoc]; exact c2
    · rw [← List.append_assoc]
      have e : y + (n + 1) = y + 1 + n := by omega
      rw [e]; exact c3
    · intro r hr
      rw [List.mem_append] at hr
      rcases hr with hr | hr
      · rw [b6 r hr]
      · have := c6 r hr
        omega

theorem MergeInv_init (SX SY SZ : Nat) (G : List Nat) (hlen : G.length = SX * SY * SZ) :
    MergeInv SX SY SZ G 0 0 0 G [] := by
  refine ⟨hlen, ?_, ?_, ?_⟩
  · intro i j k _ _ _ hs
    unfold scannedBefore at hs
    omega
  · intro i j k _ _ _ _
    left
    exact ⟨rfl, rfl⟩
  · intro r hr
    simp at hr

theorem instanceCtx_identity (markers : Option (Nat × Nat)) (fuel : Nat) (optimize : Bool)
    (inst : ogt_vox_instance) (inverse : Matrix) (m_no : Int)
    (hT : instanceMatrix inst.transform = identityMatrix) (hI : inverse = identityMatrix) :
    instanceCtx markers fuel optimize inst inverse m_no
      = { model := inst.model, inversep := none
          sizes := { x := inst.model.size_x, y := inst.model.size_y, z := inst.model.size_z }
          space_size_x := inst.model.size_x, space_size_y := inst.model.size_y
          space_size_z := inst.model.size_z
          dx := axisOrigin inst.model.size_x inst.transform.m30
          dy := axisOrigin inst.model.size_y inst.transform.m31
          dz := axisOrigin inst.model.size_z inst.transform.m32
          area_no := m_no, optimize := optimize, markers := markers, fuel := fuel } := by
  have hiabs : ∀ n : Nat, (iabs (n : Int)).toNat = n := by
    intro n
    rw [iabs_of_nonneg (Int.natCast_nonneg n)]
    exact Int.toNat_natCast n
  subst hI
  simp only [instanceCtx, hT]
  simp [isIdentity, identityMatrix, Transform, Vector3Transform, hiabs, axisOrigin]

theorem importInstance_identity_local (markers : Option (Nat × Nat)) (fuel : Nat)
    (optimize : Bool) (inst : ogt_vox_instance) (inverse : Matrix) (m_no : Int)
    (edges : List RVX_EDGE) (en : Int)
    (hT : instanceMatrix inst.transform = identityMatrix) (hI : inverse = identityMatrix)
    (hlen : inst.model.voxel_data.length
      = inst.model.size_x * inst.model.size_y * inst.model.size_z)
    (hnm : ∀ c ∈ inst.model.voxel_data, isEdgeMarker markers c = false) :
    ∃ L data', importInstance markers fuel optimize inst inverse m_no edges en
        = some ({ m_no := m_no
                  m_sx := axisOrigin inst.model.size_x inst.transform.m30
                  m_sy := axisOrigin inst.model.size_y inst.transform.m31
                  m_sz := axisOrigin inst.model.size_z inst.transform.m32
                  m_voxels := L.map (LRect.toVoxel
                    (instanceCtx markers fuel optimize inst inverse m_no)) }, edges, en)
      ∧ MergeInv inst.model.size_x inst.model.size_y inst.model.size_z inst.model.voxel_data
          0 inst.model.size_y 0 data' L := by
  have hctx := instanceCtx_identity markers fuel optimize inst inverse m_no hT hI
  have hid : IdentityCtx (instanceCtx markers fuel optimize inst inverse m_no) := by
    rw [hctx]
    exact ⟨rfl, rfl, rfl⟩
  have hsx : (instanceCtx markers fuel optimize inst inverse m_no).space_size_x
      = inst.model.size_x := by rw [hctx]
  have hsy : (instanceCtx markers fuel optimize inst inverse m_no).space_size_y
      = inst.model.size_y := by rw [hctx]
  have hsz : (instanceCtx markers fuel optimize inst inverse m_no).space_size_z
      = inst.model.size_z := by rw [hctx]
  have hdx : (instanceCtx markers fuel optimize inst inverse m_no).dx
      = axisOrigin inst.model.size_x inst.transform.m30 := by rw [hctx]
  have hdy : (instanceCtx markers fuel optimize inst inverse m_no).dy
      = axisOrigin inst.model.size_y inst.transform.m31 := by rw [hctx]
  have hdz : (instanceCtx markers fuel optimize inst inverse m_no).dz
      = axisOrigin inst.model.size_z inst.transform.m32 := by rw [hctx]
  have hmk : NoMarkers (instanceCtx markers fuel optimize inst inverse m_no)
      inst.model.voxel_data := by
    intro c hc
    unfold MergeCtx.isMarker
    rw [hctx]
    exact hnm c hc
  have hinit := MergeInv_init inst.model.size_x inst.model.size_y inst.model.size_z
    inst.model.voxel_data hlen
  rw [← hsx, ← hsy, ← hsz] at hinit
  obtain ⟨st', L, h1, h2, h3, h4, h5, -⟩ := yLoop_inv
    (instanceCtx markers fuel optimize inst inverse m_no) hid inst.model.voxel_data hmk
    (instanceCtx markers fuel optimize inst inverse m_no).space_size_y 0
    { voxel_copy := inst.model.voxel_data, m_voxels := [], m_edges := edges, en := en } []
    (by omega) rfl hinit
  rw [Nat.zero_add, hsx, hsy, hsz] at h3
  refine ⟨L, st'.voxel_copy, ?_, by simpa using h3⟩
  unfold importInstance
  simp only [hsx, hsy, hsz, hdx, hdy, hdz, ← hlen, lt_irrefl, if_false, List.take_length]
  rw [hsy] at h1
  rw [h1]
  simp only [List.nil_append] at h2
  simp only [h2, h4, h5]

theorem toVoxel_of_fits (ctx : MergeCtx) (r : LRect)
    (hx : -32768 ≤ ctx.dx ∧ ctx.dx + ctx.space_size_x ≤ 32768)
    (hy : -32768 ≤ ctx.dy ∧ ctx.dy + ctx.space_size_y ≤ 32768)
    (hz : -32768 ≤ ctx.dz ∧ ctx.dz + ctx.space_size_z ≤ 32768)
    (h1 : r.sx ≤ r.ex) (h2 : r.ex < ctx.space_size_x) (h3 : r.sz ≤ r.ez)
    (h4 : r.ez < ctx.space_size_z) (h5 : r.y < ctx.space_size_y) :
    r.toVoxel ctx = { colorIndex := r.c, sx := r.sx + ctx.dx, ex := r.ex + ctx.dx
                      y := r.y + ctx.dy, sz := r.sz + ctx.dz, ez := r.ez + ctx.dz, ext := 0 } := by
  unfold LRect.toVoxel mkVoxel
  rw [toInt16_of_fits (v := r.sx + ctx.dx) (by unfold FitsInt16; omega),
    toInt16_of_fits (v := r.ex + ctx.dx) (by unfold FitsInt16; omega),
    toInt16_of_fits (v := r.y + ctx.dy) (by unfold FitsInt16; omega),
    toInt16_of_fits (v := r.sz + ctx.dz) (by unfold FitsInt16; omega),
    toInt16_of_fits (v := r.ez + ctx.dz) (by unfold FitsInt16; omega)]

theorem covers_toVoxel (ctx : MergeCtx) (r : LRect)
    (hx : -32768 ≤ ctx.dx ∧ ctx.dx + ctx.space_size_x ≤ 32768)
    (hy : -32768 ≤ ctx.dy ∧ ctx.dy + ctx.space_size_y ≤ 32768)
    (hz : -32768 ≤ ctx.dz ∧ ctx.dz + ctx.space_size_z ≤ 32768)
    (h1 : r.sx ≤ r.ex) (h2 : r.ex < ctx.space_size_x) (h3 : r.sz ≤ r.ez)
    (h4 : r.ez < ctx.space_size_z) (h5 : r.y < ctx.space_size_y) (x y z : Int) :
    (r.toVoxel ctx).covers x y z
      ↔ (0 ≤ x - ctx.dx ∧ 0 ≤ y - ctx.dy ∧ 0 ≤ z - ctx.dz
          ∧ r.covers (x - ctx.dx).toNat (y - ctx.dy).toNat (z - ctx.dz).toNat) := by
  rw [toVoxel_of_fits ctx r hx hy hz h1 h2 h3 h4 h5]
  unfold Voxel.covers LRect.covers
  simp only
  omega

theorem world_cover_count (ctx : MergeCtx) (G data' : List Nat) (L : List LRect)
    (hx : -32768 ≤ ctx.dx ∧ ctx.dx + ctx.space_size_x ≤ 32768)
    (hy : -32768 ≤ ctx.dy ∧ ctx.dy + ctx.space_size_y ≤ 32768)
    (hz : -32768 ≤ ctx.dz ∧ ctx.dz + ctx.space_size_z ≤ 32768)
    (hinv : MergeInv ctx.space_size_x ctx.space_size_y ctx.space_size_z G
      0 ctx.space_size_y 0 data' L) (x y z : Int) :
    (L.map (LRect.toVoxel ctx)).countP (fun v => decide (v.covers x y z))
      = if (0 ≤ x - ctx.dx ∧ x - ctx.dx < ctx.space_size_x
            ∧ 0 ≤ y - ctx.dy ∧ y - ctx.dy < ctx.space_size_y
            ∧ 0 ≤ z - ctx.dz ∧ z - ctx.dz < ctx.space_size_z)
          ∧ cellAt ctx.space_size_x ctx.space_size_y G
              (x - ctx.dx).toNat (y - ctx.dy).toNat (z - ctx.dz).toNat ≠ 0
        then 1 else 0 := by
  rw [List.countP_map]
  by_cases hin : 0 ≤ x - ctx.dx ∧ x - ctx.dx < ctx.space_size_x
      ∧ 0 ≤ y - ctx.dy ∧ y - ctx.dy < ctx.space_size_y
      ∧ 0 ≤ z - ctx.dz ∧ z - ctx.dz < ctx.space_size_z
  · have hcount : L.countP ((fun v => decide (v.covers x y z)) ∘ LRect.toVoxel ctx)
        = coverCount L (x - ctx.dx).toNat (y - ctx.dy).toNat (z - ctx.dz).toNat := by
      unfold coverCount
      apply List.countP_congr
      intro r hr
      obtain ⟨r1, r2, r3, r4, r5, -, -, -⟩ := hinv.rects r hr
      simp only [Function.comp_apply, decide_eq_true_eq]
      rw [covers_toVoxel ctx r hx hy hz r1 r2 r3 r4 r5]
      constructor
      · intro h; exact h.2.2.2
      · intro h; exact ⟨hin.1, hin.2.2.1, hin.2.2.2.2.1, h⟩
    rw [hcount, hinv.scanned _ _ _ (by omega) (by omega) (by omega)
      (by unfold scannedBefore; omega)]
    simp only [hin, and_self, true_and]
  · have hcount : L.countP ((fun v => decide (v.covers x y z)) ∘ LRect.toVoxel ctx) = 0 := by
      rw [List.countP_eq_zero]
      intro r hr
      obtain ⟨r1, r2, r3, r4, r5, -, -, -⟩ := hinv.rects r hr
      simp only [Function.comp_apply, decide_eq_true_eq]
      rw [covers_toVoxel ctx r hx hy hz r1 r2 r3 r4 r5]
      unfold LRect.covers
      omega
    rw [hcount, if_neg (fun h => hin h.1)]

theorem pairwise_of_countP_le_one {α : Type} (l : List α) (cov : α → Int → Int → Int → Prop)
    [∀ a x y z, Decidable (cov a x y z)]
    (h : ∀ x y z, l.countP (fun a => decide (cov a x y z)) ≤ 1) :
    l.Pairwise (fun a b => ∀ x y z, ¬ (cov a x y z ∧ cov b x y z)) := by
  induction l with
  | nil => exact List.Pairwise.nil
  | cons a t ih =>
    rw [List.pairwise_cons]
    constructor
    · intro b hb x y z hab
      have hxyz := h x y z
      rw [List.countP_cons_of_pos _ _ (by simpa using hab.1)] at hxyz
      have hpos : 0 < t.countP (fun a => decide (cov a x y z)) :=
        List.countP_pos_iff.mpr ⟨b, hb, by simpa using hab.2⟩
      omega
    · apply ih
      intro x y z
      have hxyz := h x y z
      rw [List.countP_cons] at hxyz
      omega

theorem sourceCell_eq (inst : ogt_vox_instance) (x y z : Int) :
    (sourceCell inst.model x y z ≠ 0)
      ↔ ((0 ≤ x ∧ x < inst.model.size_x ∧ 0 ≤ y ∧ y < inst.model.size_y
            ∧ 0 ≤ z ∧ z < inst.model.size_z)
          ∧ cellAt inst.model.size_x inst.model.size_y inst.model.voxel_data
              x.toNat y.toNat z.toNat ≠ 0) := by
  unfold sourceCell
  split_ifs with h
  · simp only [h, and_self, true_and]
  · simp only [ne_eq, not_true_eq_false, false_iff, not_and]
    intro h'
    exact absurd h' h

/-- C1: for a grid without edge-marker cells imported with the identity
transform (optimize on or off), the rectangles of the area cover every
non-empty cell of the source grid exactly once and no other cell: per world
cell `(x, y, z)` the number of rectangles of layer `y` whose
`(sx..ex) x (sz..ez)` contains `(x, z)` is `1` if the source cell is non-empty
and `0` otherwise.  Hence the cell sets of the rectangles are pairwise disjoint
and their union at each layer is the set of non-empty source cells. -/
theorem importInstance_rects_partition (markers : Option (Nat × Nat)) (fuel : Nat)
    (optimize : Bool) (inst : ogt_vox_instance) (inverse : Matrix) (m_no : Int)
    (edges : List RVX_EDGE) (en : Int)
    (hT : instanceMatrix inst.transform = identityMatrix) (hI : inverse = identityMatrix)
    (hlen : inst.model.voxel_data.length
      = inst.model.size_x * inst.model.size_y * inst.model.size_z)
    (hnm : ∀ c ∈ inst.model.voxel_data, isEdgeMarker markers c = false)
    (hfit : WorldFits inst) :
    ∃ area, importInstance markers fuel optimize inst inverse m_no edges en
        = some (area, edges, en)
      ∧ (∀ x y z : Int, area.m_voxels.countP (fun v => decide (v.covers x y z))
          = if sourceCell inst.model (x - area.m_sx) (y - area.m_sy) (z - area.m_sz) ≠ 0
            then 1 else 0)
      ∧ area.m_voxels.Pairwise (fun a b => ∀ x y z, ¬ (a.covers x y z ∧ b.covers x y z))
      ∧ (∀ x y z : Int, (∃ v ∈ area.m_voxels, v.covers x y z)
          ↔ sourceCell inst.model (x - area.m_sx) (y - area.m_sy) (z - area.m_sz) ≠ 0) := by
  obtain ⟨L, data', himp, hinv⟩ := importInstance_identity_local markers fuel optimize inst
    inverse m_no edges en hT hI hlen hnm
  have hctx := instanceCtx_identity markers fuel optimize inst inverse m_no hT hI
  obtain ⟨fx, fy, fz⟩ := hfit
  unfold AxisFits at fx fy fz
  have hcount : ∀ x y z : Int,
      (L.map (LRect.toVoxel (instanceCtx markers fuel optimize inst inverse m_no))).countP
          (fun v => decide (v.covers x y z))
        = if sourceCell inst.model (x - axisOrigin inst.model.size_x inst.transform.m30)
              (y - axisOrigin inst.model.size_y inst.transform.m31)
              (z - axisOrigin inst.model.size_z inst.transform.m32) ≠ 0
          then 1 else 0 := by
    intro x y z
    have h := world_cover_count (instanceCtx markers fuel optimize inst inverse m_no)
      inst.model.voxel_data data' L (by rw [hctx]; exact fx) (by rw [hctx]; exact fy)
      (by rw [hctx]; exact fz) (by rw [hctx]; exact hinv) x y z
    rw [h]
    simp only [hctx]
    by_cases hs : sourceCell inst.model (x - axisOrigin inst.model.size_x inst.transform.m30)
        (y - axisOrigin inst.model.size_y inst.transform.m31)
        (z - axisOrigin inst.model.size_z inst.transform.m32) ≠ 0
    · rw [if_pos hs, if_pos ((sourceCell_eq inst _ _ _).mp hs)]
    · rw [if_neg hs, if_neg (fun h' => hs ((sourceCell_eq inst _ _ _).mpr h'))]
  refine ⟨_, himp, hcount, ?_, ?_⟩
  · refine pairwise_of_countP_le_one (α := Voxel) _ (fun v x y z => v.covers x y z) ?_
    intro x y z
    have h := hcount x y z
    simp only at h ⊢
    rw [h]
    split_ifs <;> omega
  · intro x y z
    have h := hcount x y z
    have hp := List.countP_pos_iff (p := fun v : Voxel => decide (v.covers x y z))
      (l := L.map (LRect.toVoxel (instanceCtx markers fuel optimize inst inverse m_no)))
    simp only [decide_eq_true_eq] at hp
    simp only at h ⊢
    rw [← hp, h]
    split_ifs with hs
    · simp [hs]
    · simp [hs]

/-! ## One filled rectangle in a layer is merged into one rectangle (claim C3) -/

theorem yLoop_add (ctx : MergeCtx) :
    ∀ (m n y : Nat) (st : MergeState),
      yLoop ctx (m + n) y st = (yLoop ctx m y st).bind (fun st' => yLoop ctx n (y + m) st') := by
  intro m
  induction m with
  | zero =>
    intro n y st
    simp [yLoop]
  | succ m ih =>
    intro n y st
    have e : m + 1 + n = (m + n) + 1 := by omega
    rw [e, yLoop, yLoop]
    cases h : zLoop ctx y ctx.space_size_z 0 st with
    | none => rfl
    | some st1 =>
      simp only []
      rw [ih]
      have e2 : y + 1 + m = y + (m + 1) := by omega
      rw [e2]

theorem zLoop_add (ctx : MergeCtx) (y : Nat) :
    ∀ (m n z : Nat) (st : MergeState),
      zLoop ctx y (m + n) z st = (zLoop ctx y m z st).bind (fun st' => zLoop ctx y n (z + m) st') := by
  intro m
  induction m with
  | zero =>
    intro n z st
    simp [zLoop]
  | succ m ih =>
    intro n z st
    have e : m + 1 + n = (m + n) + 1 := by omega
    rw [e, zLoop, zLoop]
    cases h : xLoop ctx y z ctx.space_size_x 0 st with
    | none => rfl
    | some st1 =>
      simp only []
      rw [ih]
      have e2 : z + 1 + m = z + (m + 1) := by omega
      rw [e2]

theorem xLoop_skip (ctx : MergeCtx) (hid : IdentityCtx ctx) {y z : Nat}
    (hy : y < ctx.space_size_y) (hz : z < ctx.space_size_z) (st : MergeState)
    (hlen : st.voxel_copy.length = ctx.space_size_x * ctx.space_size_y * ctx.space_size_z)
    (a : Nat) (ha : a ≤ ctx.space_size_x) :
    ∀ (fuel x : Nat), x ≤ a → ctx.space_size_x ≤ x + fuel →
      (∀ i, x ≤ i → i < a → cellAt ctx.space_size_x ctx.space_size_y st.voxel_copy i y z = 0) →
      xLoop ctx y z fuel x st = xLoop ctx y z (fuel - (a - x)) a st := by
  intro fuel
  induction fuel with
  | zero =>
    intro x hxa hf _
    have hx : x = a := by omega
    rw [hx, Nat.sub_self]
  | succ n ih =>
    intro x hxa hf hzero
    by_cases hx : x = a
    · rw [hx, Nat.sub_self, Nat.sub_zero]
    · have hxlt : x < ctx.space_size_x := by omega
      have hr := read_cell ctx hid st.voxel_copy hlen hxlt hy hz
      rw [hzero x (le_refl _) (by omega)] at hr
      rw [xLoop, if_pos hxlt, cellBody_zero ctx y z x st hr]
      simp only []
      rw [ih (x + 1) (by omega) (by omega) (fun i h1 h2 => hzero i (by omega) h2)]
      have e : n - (a - (x + 1)) = n + 1 - (a - x) := by omega
      rw [e]

theorem xLoop_zero_row (ctx : MergeCtx) (hid : IdentityCtx ctx) {y z : Nat}
    (hy : y < ctx.space_size_y) (hz : z < ctx.space_size_z) (st : MergeState)
    (hlen : st.voxel_copy.length = ctx.space_size_x * ctx.space_size_y * ctx.space_size_z)
    (fuel x : Nat) (hf : ctx.space_size_x ≤ x + fuel) (hx : x ≤ ctx.space_size_x)
    (hzero : ∀ i, x ≤ i → i < ctx.space_size_x →
      cellAt ctx.space_size_x ctx.space_size_y st.voxel_copy i y z = 0) :
    xLoop ctx y z fuel x st = some st := by
  rw [xLoop_skip ctx hid hy hz st hlen ctx.space_size_x (le_refl _) fuel x hx hf hzero]
  cases fuel - (ctx.space_size_x - x) with
  | zero => rw [xLoop, if_neg (by omega)]
  | succ n => rw [xLoop, if_neg (by omega)]

theorem zLoop_zero_rows (ctx : MergeCtx) (hid : IdentityCtx ctx) {y : Nat}
    (hy : y < ctx.space_size_y) (st : MergeState)
    (hlen : st.voxel_copy.length = ctx.space_size_x * ctx.space_size_y * ctx.space_size_z) :
    ∀ (n z : Nat), z + n ≤ ctx.space_size_z →
      (∀ i j, i < ctx.space_size_x → z ≤ j → j < z + n →
        cellAt ctx.space_size_x ctx.space_size_y st.voxel_copy i y j = 0) →
      zLoop ctx y n z st = some st := by
  intro n
  induction n with
  | zero =>
    intro z _ _
    rfl
  | succ n ih =>
    intro z hzn hzero
    rw [zLoop, xLoop_zero_row ctx hid hy (by omega) st hlen ctx.space_size_x 0 (by omega)
      (by omega) (fun i _ h2 => hzero i z h2 (le_refl _) (by omega))]
    simp only []
    exact ih (z + 1) (by omega) (fun i j h1 h2 h3 => hzero i j h1 (by omega) (by omega))

theorem row_merges_rectangle (ctx : MergeCtx) (hid : IdentityCtx ctx)
    (hopt : ctx.optimize = true) {Y a b c0 d k : Nat} (hY : Y < ctx.space_size_y)
    (hab : a ≤ b) (hb : b < ctx.space_size_x) (hcd : c0 ≤ d) (hd : d < ctx.space_size_z)
    (hk : k ≠ 0) (hmk : ctx.isMarker k = false) (st : MergeState)
    (hlen : st.voxel_copy.length = ctx.space_size_x * ctx.space_size_y * ctx.space_size_z)
    (hL : ∀ i j, i < ctx.space_size_x → j < ctx.space_size_z →
      cellAt ctx.space_size_x ctx.space_size_y st.voxel_copy i Y j
        = if a ≤ i ∧ i ≤ b ∧ c0 ≤ j ∧ j ≤ d then k else 0) :
    ∃ data2, xLoop ctx Y c0 ctx.space_size_x 0 st
        = some { st with voxel_copy := data2,
                         m_voxels := st.m_voxels ++ [mkVoxel ctx k a b Y c0 d] }
      ∧ data2.length = ctx.space_size_x * ctx.space_size_y * ctx.space_size_z
      ∧ ∀ i j, i < ctx.space_size_x → j < ctx.space_size_z →
          cellAt ctx.space_size_x ctx.space_size_y data2 i Y j
            = if a ≤ i ∧ i ≤ b ∧ j = c0 then k else 0 := by
  have hc0 : c0 < ctx.space_size_z := by omega
  have ha : a < ctx.space_size_x := by omega
  have hcell : cellAt ctx.space_size_x ctx.space_size_y st.voxel_copy a Y c0 = k := by
    rw [hL a c0 ha hc0, if_pos (by omega)]
  obtain ⟨xe, ez, data', m1, m2, m3, m4, m5, m6, m7, m8, -, m10⟩ :=
    mergeRect_spec ctx hid st.voxel_copy hlen k ha hY hc0 hcell
  obtain ⟨mx, mz⟩ := m10 hopt
  -- the line ends at `b`
  have hxe : xe = b := by
    have h1 := m7 xe c0 m2 (le_refl _) (le_refl _) m4
    rw [hL xe c0 m3 hc0] at h1
    have h2 : xe ≤ b := by
      by_contra hcon
      rw [if_neg (by omega)] at h1
      exact hk h1.symm
    rcases mx with mx | mx
    · omega
    · by_contra hcon
      apply mx
      rw [hL (xe + 1) c0 (by omega) hc0, if_pos (by omega)]
  -- the rectangle ends at row `d`
  have hez : ez = d := by
    have h1 := m7 a ez (le_refl _) m2 m4 (le_refl _)
    rw [hL a ez ha m5] at h1
    have h2 : ez ≤ d := by
      by_contra hcon
      rw [if_neg (by omega)] at h1
      exact hk h1.symm
    rcases mz with mz | mz
    · omega
    · by_contra hcon
      apply mz.2
      intro i hi1 hi2
      rw [hL i (ez + 1) (by omega) mz.1, if_pos (by omega)]
  subst hxe hez
  have hdata : ∀ i j, i < ctx.space_size_x → j < ctx.space_size_z →
      cellAt ctx.space_size_x ctx.space_size_y data' i Y j
        = if a ≤ i ∧ i ≤ xe ∧ j = c0 then k else 0 := by
    intro i j hi hj
    rw [m8 i Y j hi hY hj, hL i j hi hj]
    by_cases h1 : a ≤ i ∧ i ≤ xe ∧ j = c0
    · rw [if_pos h1, if_neg (by omega), if_pos (by omega)]
    · rw [if_neg h1]
      by_cases h2 : c0 < j ∧ j ≤ ez ∧ a ≤ i ∧ i ≤ xe
      · rw [if_pos ⟨rfl, h2⟩]
      · rw [if_neg (by omega), if_neg (by omega)]
  refine ⟨data', ?_, m6, hdata⟩
  rw [xLoop_skip ctx hid hY hc0 st hlen a (by omega) ctx.space_size_x 0 (by omega) (by omega)
    (fun i _ h2 => by rw [hL i c0 (by omega) hc0, if_neg (by omega)])]
  obtain ⟨n, hn⟩ : ∃ n, ctx.space_size_x - (a - 0) = n + 1 := ⟨ctx.space_size_x - a - 1, by omega⟩
  have hr := read_cell ctx hid st.voxel_copy hlen ha hY hc0
  rw [hcell] at hr
  rw [hn, xLoop, if_pos ha, cellBody_ordinary ctx Y c0 a k st hr hk hmk, pushRect, m1]
  simp only []
  exact xLoop_zero_row ctx hid hY hc0 _ m6 n (xe + 1) (by omega) (by omega)
    (fun i h1 h2 => by rw [hdata i c0 h2 hc0, if_neg (by omega)])

theorem layer_merges_rectangle (ctx : MergeCtx) (hid : IdentityCtx ctx)
    (hopt : ctx.optimize = true) {Y a b c0 d k : Nat} (hY : Y < ctx.space_size_y)
    (hab : a ≤ b) (hb : b < ctx.space_size_x) (hcd : c0 ≤ d) (hd : d < ctx.space_size_z)
    (hk : k ≠ 0) (hmk : ctx.isMarker k = false) (st : MergeState)
    (hlen : st.voxel_copy.length = ctx.space_size_x * ctx.space_size_y * ctx.space_size_z)
    (hL : ∀ i j, i < ctx.space_size_x → j < ctx.space_size_z →
      cellAt ctx.space_size_x ctx.space_size_y st.voxel_copy i Y j
        = if a ≤ i ∧ i ≤ b ∧ c0 ≤ j ∧ j ≤ d then k else 0) :
    ∃ data2, zLoop ctx Y ctx.space_size_z 0 st
        = some { st with voxel_copy := data2,
                         m_voxels := st.m_voxels ++ [mkVoxel ctx k a b Y c0 d] } := by
  obtain ⟨data2, h1, h2, h3⟩ := row_merges_rectangle ctx hid hopt hY hab hb hcd hd hk hmk st
    hlen hL
  refine ⟨data2, ?_⟩
  have e : ctx.space_size_z = c0 + (1 + (ctx.space_size_z - c0 - 1)) := by omega
  rw [e, zLoop_add, zLoop_zero_rows ctx hid hY st hlen c0 0 (by omega)
    (fun i j hi _ hj => by rw [hL i j hi (by omega), if_neg (by omega)])]
  simp only [Option.some_bind, Nat.zero_add]
  rw [zLoop_add]
  have hrow : zLoop ctx Y 1 c0 st
      = some ⟨data2, st.m_voxels ++ [mkVoxel ctx k a b Y c0 d], st.m_edges, st.en⟩ := by
    rw [zLoop, h1]
    rfl
  rw [hrow]
  simp only [Option.some_bind]
  exact zLoop_zero_rows ctx hid hY _ h2 (ctx.space_size_z - c0 - 1) (c0 + 1) (by omega)
    (fun i j hi hj1 hj2 => by rw [h3 i j hi (by omega), if_neg (by omega)])

theorem coverCount_append (A B : List LRect) (x y z : Nat) :
    coverCount (A ++ B) x y z = coverCount A x y z + coverCount B x y z := by
  unfold coverCount
  rw [List.countP_append]

theorem coverCount_other_layer (L : List LRect) (x y z : Nat) (h : ∀ r ∈ L, r.y ≠ y) :
    coverCount L x y z = 0 := by
  unfold coverCount
  rw [List.countP_eq_zero]
  intro r hr
  simp only [decide_eq_true_eq]
  unfold LRect.covers
  intro hc
  exact h r hr hc.1

theorem import_layer_decomp (markers : Option (Nat × Nat)) (fuel : Nat)
    (optimize : Bool) (inst : ogt_vox_instance) (inverse : Matrix) (m_no : Int)
    (edges : List RVX_EDGE) (en : Int)
    (hT : instanceMatrix inst.transform = identityMatrix) (hI : inverse = identityMatrix)
    (hlen : inst.model.voxel_data.length
      = inst.model.size_x * inst.model.size_y * inst.model.size_z)
    (hnm : ∀ c ∈ inst.model.voxel_data, isEdgeMarker markers c = false)
    {Y : Nat} (hY : Y < inst.model.size_y) :
    ∃ (L1 L2 L3 : List LRect) (st1 st2 : MergeState) (data' : List Nat),
      importInstance markers fuel optimize inst inverse m_no edges en
        = some ({ m_no := m_no
                  m_sx := axisOrigin inst.model.size_x inst.transform.m30
                  m_sy := axisOrigin inst.model.size_y inst.transform.m31
                  m_sz := axisOrigin inst.model.size_z inst.transform.m32
                  m_voxels := ((L1 ++ L2) ++ L3).map (LRect.toVoxel
                    (instanceCtx markers fuel optimize inst inverse m_no)) }, edges, en)
      ∧ MergeInv inst.model.size_x inst.model.size_y inst.model.size_z inst.model.voxel_data
          0 inst.model.size_y 0 data' ((L1 ++ L2) ++ L3)
      ∧ (∀ r ∈ L1, r.y < Y) ∧ (∀ r ∈ L2, r.y = Y) ∧ (∀ r ∈ L3, Y < r.y)
      ∧ st1.m_voxels = L1.map (LRect.toVoxel (instanceCtx markers fuel optimize inst inverse m_no))
      ∧ st1.voxel_copy.length = inst.model.size_x * inst.model.size_y * inst.model.size_z
      ∧ (∀ i j, i < inst.model.size_x → j < inst.model.size_z →
          cellAt inst.model.size_x inst.model.size_y st1.voxel_copy i Y j
            = cellAt inst.model.size_x inst.model.size_y inst.model.voxel_data i Y j)
      ∧ zLoop (instanceCtx markers fuel optimize inst inverse m_no) Y inst.model.size_z 0 st1
          = some st2
      ∧ st2.m_voxels = (L1 ++ L2).map
          (LRect.toVoxel (instanceCtx markers fuel optimize inst inverse m_no)) := by
  have hctx := instanceCtx_identity markers fuel optimize inst inverse m_no hT hI
  have hid : IdentityCtx (instanceCtx markers fuel optimize inst inverse m_no) := by
    rw [hctx]
    exact ⟨rfl, rfl, rfl⟩
  have hsx : (instanceCtx markers fuel optimize inst inverse m_no).space_size_x
      = inst.model.size_x := by rw [hctx]
  have hsy : (instanceCtx markers fuel optimize inst inverse m_no).space_size_y
      = inst.model.size_y := by rw [hctx]
  have hsz : (instanceCtx markers fuel optimize inst inverse m_no).space_size_z
      = inst.model.size_z := by rw [hctx]
  have hdx : (instanceCtx markers fuel optimize inst inverse m_no).dx
      = axisOrigin inst.model.size_x inst.transform.m30 := by rw [hctx]
  have hdy : (instanceCtx markers fuel optimize inst inverse m_no).dy
      = axisOrigin inst.model.size_y inst.transform.m31 := by rw [hctx]
  have hdz : (instanceCtx markers fuel optimize inst inverse m_no).dz
      = axisOrigin inst.model.size_z inst.transform.m32 := by rw [hctx]
  have hmk : NoMarkers (instanceCtx markers fuel optimize inst inverse m_no)
      inst.model.voxel_data := by
    intro c hc
    unfold MergeCtx.isMarker
    rw [hctx]
    exact hnm c hc
  have hinit := MergeInv_init inst.model.size_x inst.model.size_y inst.model.size_z
    inst.model.voxel_data hlen
  rw [← hsx, ← hsy, ← hsz] at hinit
  -- the layers below `Y`
  obtain ⟨st1, L1, a1, a2, a3, a4, a5, -⟩ := yLoop_inv
    (instanceCtx markers fuel optimize inst inverse m_no) hid inst.model.voxel_data hmk
    Y 0 { voxel_copy := inst.model.voxel_data, m_voxels := [], m_edges := edges, en := en } []
    (by omega) rfl hinit
  rw [Nat.zero_add, List.nil_append] at a3
  rw [List.nil_append] at a2
  -- layer `Y`
  obtain ⟨st2, L2, b1, b2, b3, b4, b5, b6⟩ := layer_inv
    (instanceCtx markers fuel optimize inst inverse m_no) hid inst.model.voxel_data hmk
    (by omega) st1 L1 a2 a3
  -- the layers above `Y`
  obtain ⟨st3, L3, c1, c2, c3, c4, c5, c6⟩ := yLoop_inv
    (instanceCtx markers fuel optimize inst inverse m_no) hid inst.model.voxel_data hmk
    (inst.model.size_y - Y - 1) (Y + 1) st2 (L1 ++ L2) (by omega) b2 b3
  have hL1 : ∀ r ∈ L1, r.y < Y := by
    intro r hr
    obtain ⟨-, -, -, -, -, -, r7, -⟩ := a3.rects r hr
    unfold scannedBefore at r7
    omega
  have hrun : yLoop (instanceCtx markers fuel optimize inst inverse m_no) inst.model.size_y 0
      { voxel_copy := inst.model.voxel_data, m_voxels := [], m_edges := edges, en := en }
      = some st3 := by
    have e : inst.model.size_y = Y + (1 + (inst.model.size_y - Y - 1)) := by omega
    rw [e, yLoop_add, a1]
    simp only [Option.some_bind, Nat.zero_add]
    rw [yLoop_add]
    have hone : yLoop (instanceCtx markers fuel optimize inst inverse m_no) 1 Y st1
        = some st2 := by
      rw [yLoop, b1]
      rfl
    rw [hone]
    simp only [Option.some_bind]
    exact c1
  have hend : Y + 1 + (inst.model.size_y - Y - 1) = inst.model.size_y := by omega
  rw [hend, hsx, hsy, hsz] at c3
  refine ⟨L1, L2, L3, st1, st2, st3.voxel_copy, ?_, c3, hL1, b6, ?_, a2, ?_, ?_, ?_, b2⟩
  · unfold importInstance
    simp only [hsx, hsy, hsz, hdx, hdy, hdz, ← hlen, lt_irrefl, if_false, List.take_length]
    rw [hrun]
    simp only [c2, c4, c5, b4, b5, a4, a5]
  · intro r hr
    have := c6 r hr
    omega
  · rw [← hsx, ← hsy, ← hsz]; exact a3.len
  · intro i j hi hj
    have hns : ¬ scannedBefore i Y j 0 Y 0 := by unfold scannedBefore; omega
    have hcov : coverCount L1 i Y j = 0 :=
      coverCount_other_layer L1 i Y j (fun r hr => by have := hL1 r hr; omega)
    rw [hsx, hsy, hsz] at a3
    rcases a3.pending i Y j hi hY hj hns with ⟨-, p2⟩ | ⟨p1, -, -⟩
    · exact p2
    · omega
  · rw [← hsz]; exact b1

theorem filter_layer_map (ctx : MergeCtx) (L : List LRect) (Y : Nat)
    (hy : -32768 ≤ ctx.dy ∧ ctx.dy + ctx.space_size_y ≤ 32768)
    (hL : ∀ r ∈ L, r.y < ctx.space_size_y) :
    (L.map (LRect.toVoxel ctx)).filter (fun v => decide (v.y = Y + ctx.dy))
      = (L.filter (fun r => decide (r.y = Y))).map (LRect.toVoxel ctx) := by
  induction L with
  | nil => rfl
  | cons r t ih =>
    have hr : r.y < ctx.space_size_y := hL r (List.mem_cons_self _ _)
    have ht : ∀ r ∈ t, r.y < ctx.space_size_y := fun x hx => hL x (List.mem_cons_of_mem _ hx)
    have hvy : (r.toVoxel ctx).y = r.y + ctx.dy := by
      unfold LRect.toVoxel mkVoxel
      simp only
      exact toInt16_of_fits (by unfold FitsInt16; omega)
    rw [List.map_cons, List.filter_cons, List.filter_cons, ih ht, hvy]
    by_cases h : r.y = Y
    · simp [h]
    · have h' : ¬ ((r.y : Int) + ctx.dy = Y + ctx.dy) := by omega
      simp [h, h']

theorem filter_layer_eq_nil (L : List LRect) (Y : Nat) (h : ∀ r ∈ L, r.y ≠ Y) :
    L.filter (fun r => decide (r.y = Y)) = [] := by
  induction L with
  | nil => rfl
  | cons r t ih =>
    rw [List.filter_cons]
    simp only [h r (List.mem_cons_self _ _), decide_False, Bool.false_eq_true, if_false]
    exact ih (fun x hx => h x (List.mem_cons_of_mem _ hx))

theorem filter_layer_eq_self (L : List LRect) (Y : Nat) (h : ∀ r ∈ L, r.y = Y) :
    L.filter (fun r => decide (r.y = Y)) = L := by
  induction L with
  | nil => rfl
  | cons r t ih =>
    rw [List.filter_cons]
    simp only [h r (List.mem_cons_self _ _), decide_True, if_true]
    rw [ih (fun x hx => h x (List.mem_cons_of_mem _ hx))]

theorem filter_layer_three (L1 L2 L3 : List LRect) (Y : Nat) (h1 : ∀ r ∈ L1, r.y < Y)
    (h2 : ∀ r ∈ L2, r.y = Y) (h3 : ∀ r ∈ L3, Y < r.y) :
    ((L1 ++ L2) ++ L3).filter (fun r => decide (r.y = Y)) = L2 := by
  rw [List.filter_append, List.filter_append,
    filter_layer_eq_nil L1 Y (fun r hr => by have := h1 r hr; omega),
    filter_layer_eq_nil L3 Y (fun r hr => by have := h3 r hr; omega),
    filter_layer_eq_self L2 Y h2]
  simp

/-- C3 (amended): with optimisation on, the identity transform and a grid that
holds no edge-marker cells, for every layer `Y` whose non-empty cells all have
the colour `k`: exactly one rectangle is emitted for the layer if and only if
the non-empty cells form a filled axis-aligned rectangle; the rectangle then
has the colour `k` and the bounds of that rectangle (translated by the area
origin); a non-empty layer that is not a filled rectangle (an L-shape) yields
at least two rectangles. -/
theorem layer_single_rect_iff (markers : Option (Nat × Nat)) (fuel : Nat)
    (inst : ogt_vox_instance) (inverse : Matrix) (m_no : Int)
    (edges : List RVX_EDGE) (en : Int)
    (hT : instanceMatrix inst.transform = identityMatrix) (hI : inverse = identityMatrix)
    (hlen : inst.model.voxel_data.length
      = inst.model.size_x * inst.model.size_y * inst.model.size_z)
    (hnm : ∀ c ∈ inst.model.voxel_data, isEdgeMarker markers c = false)
    (hfit : WorldFits inst) {Y k : Nat} (hY : Y < inst.model.size_y)
    (hone : ∀ i j, i < inst.model.size_x → j < inst.model.size_z →
      cellAt inst.model.size_x inst.model.size_y inst.model.voxel_data i Y j = 0
      ∨ cellAt inst.model.size_x inst.model.size_y inst.model.voxel_data i Y j = k) :
    ∃ area, importInstance markers fuel true inst inverse m_no edges en
        = some (area, edges, en)
      ∧ ((rectsAtLayer area (Y + area.m_sy)).length = 1
          ↔ ∃ a b c0 d, LayerFilledRect inst.model Y a b c0 d)
      ∧ (∀ a b c0 d, LayerFilledRect inst.model Y a b c0 d →
          rectsAtLayer area (Y + area.m_sy)
            = [{ colorIndex := k, sx := a + area.m_sx, ex := b + area.m_sx, y := Y + area.m_sy
                 sz := c0 + area.m_sz, ez := d + area.m_sz, ext := 0 }])
      ∧ ((∃ i j, i < inst.model.size_x ∧ j < inst.model.size_z
            ∧ cellAt inst.model.size_x inst.model.size_y inst.model.voxel_data i Y j ≠ 0) →
          (¬ ∃ a b c0 d, LayerFilledRect inst.model Y a b c0 d) →
          2 ≤ (rectsAtLayer area (Y + area.m_sy)).length) := by
  obtain ⟨L1, L2, L3, st1, st2, data', himp, hinv, h1, h2, h3, hv1, hlen1, hcells, hz, hv2⟩ :=
    import_layer_decomp markers fuel true inst inverse m_no edges en hT hI hlen hnm hY
  have hctx := instanceCtx_identity markers fuel true inst inverse m_no hT hI
  have hid : IdentityCtx (instanceCtx markers fuel true inst inverse m_no) := by
    rw [hctx]
    exact ⟨rfl, rfl, rfl⟩
  have hsx : (instanceCtx markers fuel true inst inverse m_no).space_size_x
      = inst.model.size_x := by rw [hctx]
  have hsy : (instanceCtx markers fuel true inst inverse m_no).space_size_y
      = inst.model.size_y := by rw [hctx]
  have hsz : (instanceCtx markers fuel true inst inverse m_no).space_size_z
      = inst.model.size_z := by rw [hctx]
  have hdx : (instanceCtx markers fuel true inst inverse m_no).dx
      = axisOrigin inst.model.size_x inst.transform.m30 := by rw [hctx]
  have hdy : (instanceCtx markers fuel true inst inverse m_no).dy
      = axisOrigin inst.model.size_y inst.transform.m31 := by rw [hctx]
  have hdz : (instanceCtx markers fuel true inst inverse m_no).dz
      = axisOrigin inst.model.size_z inst.transform.m32 := by rw [hctx]
  have hopt : (instanceCtx markers fuel true inst inverse m_no).optimize = true := by rw [hctx]
  obtain ⟨fx, fy, fz⟩ := hfit
  unfold AxisFits at fx fy fz
  rw [← hdx, ← hsx] at fx
  rw [← hdy, ← hsy] at fy
  rw [← hdz, ← hsz] at fz
  -- the rectangles of layer `Y` are those emitted while the loops are in layer `Y`
  have hrects : rectsAtLayer
      { m_no := m_no
        m_sx := axisOrigin inst.model.size_x inst.transform.m30
        m_sy := axisOrigin inst.model.size_y inst.transform.m31
        m_sz := axisOrigin inst.model.size_z inst.transform.m32
        m_voxels := ((L1 ++ L2) ++ L3).map (LRect.toVoxel
          (instanceCtx markers fuel true inst inverse m_no)) }
      (Y + axisOrigin inst.model.size_y inst.transform.m31)
      = L2.map (LRect.toVoxel (instanceCtx markers fuel true inst inverse m_no)) := by
    unfold rectsAtLayer
    simp only
    rw [← hdy, filter_layer_map _ _ Y fy, filter_layer_three L1 L2 L3 Y h1 h2 h3]
    intro r hr
    have := (hinv.rects r hr).2.2.2.2.1
    rw [hsy]; exact this
  -- a filled rectangle is merged into one rectangle
  have hfilled : ∀ a b c0 d, LayerFilledRect inst.model Y a b c0 d →
      L2.map (LRect.toVoxel (instanceCtx markers fuel true inst inverse m_no))
        = [{ colorIndex := k, sx := a + axisOrigin inst.model.size_x inst.transform.m30
             ex := b + axisOrigin inst.model.size_x inst.transform.m30
             y := Y + axisOrigin inst.model.size_y inst.transform.m31
             sz := c0 + axisOrigin inst.model.size_z inst.transform.m32
             ez := d + axisOrigin inst.model.size_z inst.transform.m32, ext := 0 }] := by
    intro a b c0 d ⟨q1, q2, q3, q4, q5⟩
    have hcell : cellAt inst.model.size_x inst.model.size_y inst.model.voxel_data a Y c0 ≠ 0 :=
      (q5 a c0 (by omega) (by omega)).mpr ⟨le_refl _, q1, le_refl _, q3⟩
    have hck : cellAt inst.model.size_x inst.model.size_y inst.model.voxel_data a Y c0 = k := by
      rcases hone a c0 (by omega) (by omega) with h | h
      · exact absurd h hcell
      · exact h
    have hk : k ≠ 0 := by rw [← hck]; exact hcell
    have hmk : (instanceCtx markers fuel true inst inverse m_no).isMarker k = false := by
      unfold MergeCtx.isMarker
      rw [hctx]
      simp only
      rw [← hck]
      exact hnm _ (cellAt_mem_of_ne_zero hcell)
    have hL : ∀ i j, i < (instanceCtx markers fuel true inst inverse m_no).space_size_x →
        j < (instanceCtx markers fuel true inst inverse m_no).space_size_z →
        cellAt (instanceCtx markers fuel true inst inverse m_no).space_size_x
            (instanceCtx markers fuel true inst inverse m_no).space_size_y st1.voxel_copy i Y j
          = if a ≤ i ∧ i ≤ b ∧ c0 ≤ j ∧ j ≤ d then k else 0 := by
      intro i j hi hj
      rw [hsx] at hi ⊢
      rw [hsz] at hj
      rw [hsy, hcells i j hi hj]
      by_cases hin : a ≤ i ∧ i ≤ b ∧ c0 ≤ j ∧ j ≤ d
      · rw [if_pos hin]
        rcases hone i j hi hj with h | h
        · exact absurd h ((q5 i j hi hj).mpr hin)
        · exact h
      · rw [if_neg hin]
        by_contra hne
        exact hin ((q5 i j hi hj).mp hne)
    obtain ⟨data2, hsim⟩ := layer_merges_rectangle
      (instanceCtx markers fuel true inst inverse m_no) hid hopt (by rw [hsy]; exact hY) q1
      (by rw [hsx]; exact q2) q3 (by rw [hsz]; exact q4) hk hmk st1
      (by rw [hsx, hsy, hsz]; exact hlen1) hL
    rw [hsz, hz] at hsim
    simp only [Option.some.injEq] at hsim
    have hv : st2.m_voxels = st1.m_voxels
        ++ [mkVoxel (instanceCtx markers fuel true inst inverse m_no) k a b Y c0 d] := by
      rw [hsim]
    rw [hv2, hv1, List.map_append] at hv
    have hL2 := List.append_cancel_left hv
    rw [hL2]
    have htv := toVoxel_of_fits (instanceCtx markers fuel true inst inverse m_no)
      ⟨k, a, b, Y, c0, d⟩ fx fy fz q1 (by rw [hsx]; exact q2) q3 (by rw [hsz]; exact q4)
      (by rw [hsy]; exact hY)
    unfold LRect.toVoxel at htv
    simp only at htv
    rw [htv, hdx, hdy, hdz]
  -- coverage of the cells of layer `Y`
  have hcover : ∀ i j, i < inst.model.size_x → j < inst.model.size_z →
      coverCount L2 i Y j
        = if cellAt inst.model.size_x inst.model.size_y inst.model.voxel_data i Y j ≠ 0
          then 1 else 0 := by
    intro i j hi hj
    have hs := hinv.scanned i Y j hi hY hj (by unfold scannedBefore; omega)
    rw [coverCount_append, coverCount_append,
      coverCount_other_layer L1 i Y j (fun r hr => by have := h1 r hr; omega),
      coverCount_other_layer L3 i Y j (fun r hr => by have := h3 r hr; omega)] at hs
    omega
  have hsingle : (L2.map (LRect.toVoxel (instanceCtx markers fuel true inst inverse m_no))).length
      = 1 → ∃ a b c0 d, LayerFilledRect inst.model Y a b c0 d := by
    intro hl
    rw [List.length_map] at hl
    obtain ⟨r, hr⟩ := List.length_eq_one.mp hl
    have hrm : r ∈ (L1 ++ L2) ++ L3 := by rw [hr]; simp
    obtain ⟨r1, r2, r3, r4, -, -, -, -⟩ := hinv.rects r hrm
    have hry : r.y = Y := h2 r (by rw [hr]; simp)
    refine ⟨r.sx, r.ex, r.sz, r.ez, r1, r2, r3, r4, ?_⟩
    intro i j hi hj
    have hc := hcover i j hi hj
    rw [hr] at hc
    unfold coverCount at hc
    simp only [List.countP_cons, List.countP_nil, Nat.zero_add, decide_eq_true_eq] at hc
    unfold LRect.covers at hc
    constructor
    · intro hne
      rw [if_pos hne] at hc
      by_contra hcon
      rw [if_neg (fun h => hcon h.2)] at hc
      omega
    · intro hin heq
      rw [if_neg (not_not.mpr heq), if_pos ⟨hry, hin⟩] at hc
      omega
  refine ⟨_, himp, ?_, ?_, ?_⟩
  · rw [hrects]
    constructor
    · exact hsingle
    · rintro ⟨a, b, c0, d, h⟩
      rw [hfilled a b c0 d h]
      rfl
  · intro a b c0 d h
    rw [hrects]
    exact hfilled a b c0 d h
  · rintro ⟨i, j, hi, hj, hne⟩ hnot
    rw [hrects]
    have hc := hcover i j hi hj
    rw [if_pos hne] at hc
    have hpos : 0 < L2.length := by
      cases hL2 : L2 with
      | nil => rw [hL2] at hc; simp [coverCount] at hc
      | cons a t => simp
    have hne1 : (L2.map (LRect.toVoxel (instanceCtx markers fuel true inst inverse m_no))).length
        ≠ 1 := fun h => hnot (hsingle h)
    rw [List.length_map] at hne1 ⊢
    omega

/-- Witness of C1: the L-shaped slab. -/
theorem importInstance_rects_partition_witness :
    ∃ area, importInstance none 0 true gridLShape identityMatrix 100 [] 0 = some (area, [], 0)
      ∧ area.m_voxels.Pairwise (fun a b => ∀ x y z, ¬ (a.covers x y z ∧ b.covers x y z))
      ∧ (∀ x y z : Int, (∃ v ∈ area.m_voxels, v.covers x y z)
          ↔ sourceCell gridLShape.model (x - area.m_sx) (y - area.m_sy) (z - area.m_sz) ≠ 0) :=
  match importInstance_rects_partition none 0 true gridLShape identityMatrix 100 [] 0
      (by decide) rfl (by decide) (by decide) (by decide) with
  | ⟨area, h1, _, h3, h4⟩ => ⟨area, h1, h3, h4⟩

/-- Counterexample to C3 as stated: with edge detection on (markers 254 and
255), layer 1 of `gridEdgeStrip` is a filled 3 x 1 rectangle of the ordinary
colour 5, but it lies in the cube of the edge found in layer 0 and is zeroed
before it is scanned: no rectangle is emitted for layer 1. -/
theorem layer_rect_consumed_by_edge :
    ∃ area es en, importInstance (some (254, 255)) 20 true gridEdgeStrip identityMatrix 100 [] 0
        = some (area, es, en)
      ∧ isEdgeMarker (some (254, 255)) 5 = false
      ∧ (∀ i j, i < 3 → j < 2 →
          cellAt 3 4 gridEdgeStrip.model.voxel_data i 1 j = 0
          ∨ cellAt 3 4 gridEdgeStrip.model.voxel_data i 1 j = 5)
      ∧ LayerFilledRect gridEdgeStrip.model 1 0 2 0 0
      ∧ rectsAtLayer area (1 + area.m_sy) = [] := by
  refine ⟨_, _, _, rfl, rfl, ?_, ⟨by decide, by decide, by decide, by decide, ?_⟩, rfl⟩
  · intro i j hi hj
    interval_cases i <;> interval_cases j <;> decide
  · intro i j hi hj
    have hi' : i < 3 := hi
    have hj' : j < 2 := hj
    interval_cases i <;> interval_cases j <;> decide

/-- Witness of C3 (amended): the 2 x 1 x 2 grid of colour 3 gives one rectangle. -/
theorem layer_single_rect_iff_witness :
    ∃ area, importInstance none 0 true gridTwoByTwo identityMatrix 100 [] 0 = some (area, [], 0)
      ∧ ((rectsAtLayer area (((0 : Nat) : Int) + area.m_sy)).length = 1
          ↔ ∃ a b c0 d, LayerFilledRect gridTwoByTwo.model 0 a b c0 d) :=
  match layer_single_rect_iff none 0 gridTwoByTwo identityMatrix 100 [] 0
      (by decide) rfl (by decide) (by decide) (by decide) (Y := 0) (k := 3) (by decide)
      (fun i j hi hj => by
        have hi' : i < 2 := hi
        have hj' : j < 2 := hj
        interval_cases i <;> interval_cases j <;> decide) with
  | ⟨area, h1, h2, _, _⟩ => ⟨area, h1, h2⟩

theorem gridTwoByTwo_import (markers : Option (Nat × Nat)) (fuel : Nat) (m_no : Int)
    (edges : List RVX_EDGE) (en : Int) (h3 : isEdgeMarker markers 3 = false) :
    importInstance markers fuel true gridTwoByTwo identityMatrix m_no edges en
      = some ({ m_no := m_no, m_sx := -1, m_sy := 0, m_sz := -1
                m_voxels := [⟨3, -1, 0, 0, -1, 0, 0⟩] }, edges, en) := by
  cases markers with
  | none => rfl
  | some lr =>
    obtain ⟨l, r⟩ := lr
    simp only [isEdgeMarker, Bool.or_eq_false_iff, beq_eq_false_iff_ne, ne_eq] at h3
    obtain ⟨hl, hr⟩ := h3
    simp [importInstance, instanceCtx, gridTwoByTwo, identityTransform, identityMatrix,
      instanceMatrix, isIdentity, Transform, Vector3Transform, iabs, yLoop, zLoop, xLoop,
      cellBody, readVoxel, MergeCtx.off, GetOffset, pushRect, mergeRect, lineScan, growZ,
      AllVoxelsSameColor, AllVoxelsSameColor.loop, RemoveVoxels, RemoveVoxels.loop, writeVoxel,
      mkVoxel, toInt16, hl, hr]
    decide

/-- Counterexample to C4 as stated: the one rectangle that the 2 x 1 x 2 grid of
colour 3 yields is not `{color 3, sx 0, ex 1, y 0, sz 0, ez 1}`; the grid is
centred on the instance origin, so the rectangle runs from `-1` to `0`. -/
theorem gridTwoByTwo_rect_not_at_zero :
    ∃ area, importInstance none 0 true gridTwoByTwo identityMatrix 100 [] 0
        = some (area, [], 0)
      ∧ area.m_voxels ≠ [⟨3, 0, 1, 0, 0, 1, 0⟩]
      ∧ area.m_voxels = [⟨3, -1, 0, 0, -1, 0, 0⟩] :=
  ⟨_, rfl, by decide, rfl⟩

/-- C4 (amended): the 2 x 1 x 2 grid whose four cells have colour 3 (not an edge
marker), placed once with the identity transform and zero translation and
merged with optimisation on, yields exactly one rectangle,
`{color 3, sx -1, ex 0, y 0, sz -1, ez 0}`: the area origin is
`(-1, 0, -1)`, minus half the size along each axis.  The main vertex buffer
built from it holds exactly 6 vertices (72 bytes). -/
theorem gridTwoByTwo_one_rect (markers : Option (Nat × Nat)) (fuel : Nat) (m_no : Int)
    (edges : List RVX_EDGE) (en : Int) (palette : Palette)
    (h3 : isEdgeMarker markers 3 = false) :
    importInstance markers fuel true gridTwoByTwo identityMatrix m_no edges en
      = some ({ m_no := m_no, m_sx := -1, m_sy := 0, m_sz := -1
                m_voxels := [⟨3, -1, 0, 0, -1, 0, 0⟩] }, edges, en)
    ∧ ∃ m', rvx_model_populate_buffer rvx_model_new [⟨3, -1, 0, 0, -1, 0, 0⟩] palette = some m'
        ∧ m'.numVoxels = 1 ∧ m'.modelLength = 6 ∧ m'.bufferSize = 6 * RVX_VERTEX_SIZE
        ∧ m'.buffer = some (rvx_emit_voxel ⟨3, -1, 0, 0, -1, 0, 0⟩ (palette 3) [])
        ∧ bufferBytes (rvx_emit_voxel ⟨3, -1, 0, 0, -1, 0, 0⟩ (palette 3) [])
            = 6 * RVX_VERTEX_SIZE
        ∧ (rvx_emit_voxel ⟨3, -1, 0, 0, -1, 0, 0⟩ (palette 3) []).length = 6 * 5 := by
  refine ⟨gridTwoByTwo_import markers fuel m_no edges en h3, _, rfl, rfl, rfl, rfl, rfl, ?_, ?_⟩
  · rw [bufferBytes_rvx_emit_voxel]
    rfl
  · rw [rvx_emit_voxel_eq]
    simp [plainVertex]

/-- Witness of C4 (amended): no edge markers, a palette with one colour. -/
theorem gridTwoByTwo_one_rect_witness :
    importInstance none 0 true gridTwoByTwo identityMatrix 100 [] 0
      = some ({ m_no := 100, m_sx := -1, m_sy := 0, m_sz := -1
                m_voxels := [⟨3, -1, 0, 0, -1, 0, 0⟩] }, [], 0) :=
  (gridTwoByTwo_one_rect none 0 100 [] 0 paletteOnlyOne (by decide)).1

/-! ## Every rectangle has the colour of its source cells (claim C2) -/

theorem Zeroed.refl (data : List Nat) : Zeroed data data :=
  ⟨rfl, fun _ => Or.inl rfl⟩

theorem Zeroed.trans {a b c : List Nat} (h1 : Zeroed a b) (h2 : Zeroed b c) : Zeroed a c := by
  refine ⟨by rw [h2.1, h1.1], ?_⟩
  intro i
  rcases h2.2 i with h | h
  · rw [h]; exact h1.2 i
  · exact Or.inr h

theorem writeVoxel_zeroed {data data' : List Nat} {off : Int}
    (h : writeVoxel data off 0 = some data') : Zeroed data data' := by
  unfold writeVoxel at h
  split at h
  · simp only [Option.some.injEq] at h
    subst h
    refine ⟨List.length_set _ _ _, ?_⟩
    intro i
    rw [List.getD_eq_getElem?_getD, List.getD_eq_getElem?_getD, List.getElem?_set]
    by_cases hi : off.toNat = i
    · right
      rw [if_pos hi]
      split <;> rfl
    · left
      rw [if_neg hi]
  · exact absurd h (by simp)

theorem RemoveVoxels_loop_zeroed (y z : Int) (model : ogt_vox_model) (inverse : Option Matrix)
    (sizes : Int3) :
    ∀ (n : Nat) (sx : Int) (data data' : List Nat),
      RemoveVoxels.loop y z model inverse sizes n sx data = some data' → Zeroed data data' := by
  intro n
  induction n with
  | zero =>
    intro sx data data' h
    simp only [RemoveVoxels.loop, Option.some.injEq] at h
    subst h
    exact Zeroed.refl _
  | succ n ih =>
    intro sx data data' h
    rw [RemoveVoxels.loop] at h
    cases hw : writeVoxel data (GetOffset sx y z model inverse sizes) 0 with
    | none => rw [hw] at h; exact absurd h (by simp)
    | some d1 =>
      rw [hw] at h
      exact Zeroed.trans (writeVoxel_zeroed hw) (ih _ _ _ h)

theorem RemoveVoxels_zeroed {data data' : List Nat} {sx ex y z : Int} {model : ogt_vox_model}
    {inverse : Option Matrix} {sizes : Int3}
    (h : RemoveVoxels data sx ex y z model inverse sizes = some data') : Zeroed data data' :=
  RemoveVoxels_loop_zeroed y z model inverse sizes _ _ _ _ h

theorem removeRows_zeroed (ctx : MergeCtx) (sx x ry : Nat) :
    ∀ (n rz : Nat) (data data' : List Nat),
      removeRows ctx sx x ry n rz data = some data' → Zeroed data data' := by
  intro n
  induction n with
  | zero =>
    intro rz data data' h
    simp only [removeRows, Option.some.injEq] at h
    subst h
    exact Zeroed.refl _
  | succ n ih =>
    intro rz data data' h
    rw [removeRows] at h
    cases hw : RemoveVoxels data sx x ry rz ctx.model ctx.inversep ctx.sizes with
    | none => rw [hw] at h; exact absurd h (by simp)
    | some d1 =>
      rw [hw] at h
      exact Zeroed.trans (RemoveVoxels_zeroed hw) (ih _ _ _ h)

theorem removeCube_zeroed (ctx : MergeCtx) (sx x sz ez : Nat) :
    ∀ (n ry : Nat) (data data' : List Nat),
      removeCube ctx sx x sz ez n ry data = some data' → Zeroed data data' := by
  intro n
  induction n with
  | zero =>
    intro ry data data' h
    simp only [removeCube, Option.some.injEq] at h
    subst h
    exact Zeroed.refl _
  | succ n ih =>
    intro ry data data' h
    rw [removeCube] at h
    cases hw : removeRows ctx sx x ry (ez + 1 - sz) sz data with
    | none => rw [hw] at h; exact absurd h (by simp)
    | some d1 =>
      rw [hw] at h
      exact Zeroed.trans (removeRows_zeroed ctx sx x ry _ _ _ _ hw) (ih _ _ _ h)

theorem edgeBranch_spec (ctx : MergeCtx) (hid : IdentityCtx ctx) (l r : Nat) {y z x : Nat}
    (c : Nat) (st : MergeState) (hx : x < ctx.space_size_x) (hy : y < ctx.space_size_y)
    (hz : z < ctx.space_size_z)
    (hlen : st.voxel_copy.length = ctx.space_size_x * ctx.space_size_y * ctx.space_size_z)
    {xe : Nat} {st' : MergeState} (h : edgeBranch ctx l r y z x c st = some (xe, st')) :
    x ≤ xe ∧ xe < ctx.space_size_x ∧ st'.m_voxels = st.m_voxels
      ∧ Zeroed st.voxel_copy st'.voxel_copy := by
  obtain ⟨x', h1, h2, h3, -, -⟩ := lineScan_spec ctx hid st.voxel_copy hlen c hy hz
    (ctx.space_size_x - 1 - x) x (by omega)
  unfold edgeBranch at h
  rw [h1] at h
  simp only [] at h
  cases hg : edgeGrowZ ctx st.voxel_copy x x' y c (ctx.space_size_z - 1 - z) z with
  | none => rw [hg] at h; exact absurd h (by simp)
  | some ez =>
    rw [hg] at h
    simp only [] at h
    cases hm : edgeMeasure ctx l r st.voxel_copy st.en y x x' z ez c with
    | none => rw [hm] at h; exact absurd h (by simp)
    | some p =>
      obtain ⟨e, ey⟩ := p
      rw [hm] at h
      simp only [] at h
      cases hd : removeCube ctx x x' z ez (ey + 1 - y) y st.voxel_copy with
      | none => rw [hd] at h; exact absurd h (by simp)
      | some data =>
        rw [hd] at h
        simp only [Option.some.injEq, Prod.mk.injEq] at h
        obtain ⟨hxe, hst⟩ := h
        subst hxe hst
        exact ⟨h2, by omega, rfl, removeCube_zeroed ctx _ _ _ _ _ _ _ _ hd⟩

theorem ColourInv_of_zeroed {SX SY SZ : Nat} {G data data' : List Nat} {L : List LRect}
    (h : ColourInv SX SY SZ G data L) (hz : Zeroed data data') :
    ColourInv SX SY SZ G data' L := by
  refine ⟨by rw [hz.1]; exact h.len, ?_, h.rects⟩
  intro x y z hx hy hz'
  unfold cellAt
  rcases hz.2 (x + y * SX + z * SX * SY) with h1 | h1
  · rw [h1]
    exact h.cells x y z hx hy hz'
  · exact Or.inr h1

theorem cellBody_colour (ctx : MergeCtx) (hid : IdentityCtx ctx) (G : List Nat)
    {x y z : Nat} (hx : x < ctx.space_size_x)
    (hy : y < ctx.space_size_y) (hz : z < ctx.space_size_z) (st : MergeState) (L : List LRect)
    (hv : st.m_voxels = L.map (LRect.toVoxel ctx))
    (hinv : ColourInv ctx.space_size_x ctx.space_size_y ctx.space_size_z G st.voxel_copy L)
    {xe : Nat} {st' : MergeState} (h : cellBody ctx y z x st = some (xe, st')) :
    x ≤ xe ∧ xe < ctx.space_size_x
      ∧ ∃ Lnew, st'.m_voxels = (L ++ Lnew).map (LRect.toVoxel ctx)
        ∧ ColourInv ctx.space_size_x ctx.space_size_y ctx.space_size_z G st'.voxel_copy
            (L ++ Lnew) := by
  have hr := read_cell ctx hid st.voxel_copy hinv.len hx hy hz
  have hpush : pushRect ctx y z x
      (cellAt ctx.space_size_x ctx.space_size_y st.voxel_copy x y z) st = some (xe, st') →
      cellAt ctx.space_size_x ctx.space_size_y st.voxel_copy x y z ≠ 0 →
      x ≤ xe ∧ xe < ctx.space_size_x
      ∧ ∃ Lnew, st'.m_voxels = (L ++ Lnew).map (LRect.toVoxel ctx)
        ∧ ColourInv ctx.space_size_x ctx.space_size_y ctx.space_size_z G st'.voxel_copy
            (L ++ Lnew) := by
    intro hp hc
    obtain ⟨xe', ez, data', m1, m2, m3, m4, m5, m6, m7, m8, -, -⟩ :=
      mergeRect_spec ctx hid st.voxel_copy hinv.len
        (cellAt ctx.space_size_x ctx.space_size_y st.voxel_copy x y z) hx hy hz rfl
    unfold pushRect at hp
    rw [m1] at hp
    simp only [Option.some.injEq, Prod.mk.injEq] at hp
    obtain ⟨hxe, hst⟩ := hp
    subst hxe hst
    refine ⟨m2, m3, [⟨cellAt ctx.space_size_x ctx.space_size_y st.voxel_copy x y z,
      x, xe', y, z, ez⟩], ?_, ?_⟩
    · simp only [List.map_append, List.map_cons, List.map_nil, hv]
      rfl
    · refine ⟨m6, ?_, ?_⟩
      · intro i j k hi hj hk
        rw [m8 i j k hi hj hk]
        split_ifs
        · exact Or.inr rfl
        · exact hinv.cells i j k hi hj hk
      · intro r hrL
        rw [List.mem_append, List.mem_singleton] at hrL
        rcases hrL with hrL | hrL
        · exact hinv.rects r hrL
        · subst hrL
          refine ⟨m2, m3, m4, m5, hy, hc, ?_⟩
          intro i k h1 h2 h3 h4
          simp only at h1 h2 h3 h4 ⊢
          have hD := m7 i k h1 h2 h3 h4
          rcases hinv.cells i y k (by omega) hy (by omega) with q | q
          · rw [← q]; exact hD
          · rw [hD] at q; exact absurd q hc
  unfold cellBody at h
  rw [hr] at h
  simp only [] at h
  by_cases hc : cellAt ctx.space_size_x ctx.space_size_y st.voxel_copy x y z = 0
  · rw [if_pos hc] at h
    simp only [Option.some.injEq, Prod.mk.injEq] at h
    obtain ⟨hxe, hst⟩ := h
    subst hxe hst
    exact ⟨le_refl _, hx, [], by simpa using hv, by rw [List.append_nil]; exact hinv⟩
  · rw [if_neg hc] at h
    cases hmk : ctx.markers with
    | none =>
      rw [hmk] at h
      exact hpush h hc
    | some lr =>
      obtain ⟨l, r⟩ := lr
      rw [hmk] at h
      simp only [] at h
      split_ifs at h with hlr
      · obtain ⟨e1, e2, e3, e4⟩ := edgeBranch_spec ctx hid l r _ st hx hy hz hinv.len h
        refine ⟨e1, e2, [], ?_, ?_⟩
        · rw [List.append_nil, e3, hv]
        · rw [List.append_nil]
          exact ColourInv_of_zeroed hinv e4
      · exact hpush h hc

theorem xLoop_colour (ctx : MergeCtx) (hid : IdentityCtx ctx) (G : List Nat)
    {y z : Nat} (hy : y < ctx.space_size_y) (hz : z < ctx.space_size_z) :
    ∀ (fuel x : Nat) (st st' : MergeState) (L : List LRect),
      st.m_voxels = L.map (LRect.toVoxel ctx) →
      ColourInv ctx.space_size_x ctx.space_size_y ctx.space_size_z G st.voxel_copy L →
      xLoop ctx y z fuel x st = some st' →
      ∃ Lnew, st'.m_voxels = (L ++ Lnew).map (LRect.toVoxel ctx)
        ∧ ColourInv ctx.space_size_x ctx.space_size_y ctx.space_size_z G st'.voxel_copy
            (L ++ Lnew) := by
  intro fuel
  induction fuel with
  | zero =>
    intro x st st' L hv hinv h
    rw [xLoop] at h
    split_ifs at h
    simp only [Option.some.injEq] at h
    subst h
    exact ⟨[], by simpa using hv, by rw [List.append_nil]; exact hinv⟩
  | succ n ih =>
    intro x st st' L hv hinv h
    rw [xLoop] at h
    split_ifs at h with hx
    · cases hb : cellBody ctx y z x st with
      | none => rw [hb] at h; exact absurd h (by simp)
      | some p =>
        obtain ⟨xe, st1⟩ := p
        rw [hb] at h
        simp only [] at h
        obtain ⟨-, -, L1, b1, b2⟩ := cellBody_colour ctx hid G hx hy hz st L hv hinv hb
        obtain ⟨L2, c1, c2⟩ := ih (xe + 1) st1 st' (L ++ L1) b1 b2 h
        exact ⟨L1 ++ L2, by rw [← List.append_assoc]; exact c1,
          by rw [← List.append_assoc]; exact c2⟩
    · simp only [Option.some.injEq] at h
      subst h
      exact ⟨[], by simpa using hv, by rw [List.append_nil]; exact hinv⟩

theorem zLoop_colour (ctx : MergeCtx) (hid : IdentityCtx ctx) (G : List Nat)
    {y : Nat} (hy : y < ctx.space_size_y) :
    ∀ (n z : Nat) (st st' : MergeState) (L : List LRect), z + n ≤ ctx.space_size_z →
      st.m_voxels = L.map (LRect.toVoxel ctx) →
      ColourInv ctx.space_size_x ctx.space_size_y ctx.space_size_z G st.voxel_copy L →
      zLoop ctx y n z st = some st' →
      ∃ Lnew, st'.m_voxels = (L ++ Lnew).map (LRect.toVoxel ctx)
        ∧ ColourInv ctx.space_size_x ctx.space_size_y ctx.space_size_z G st'.voxel_copy
            (L ++ Lnew) := by
  intro n
  induction n with
  | zero =>
    intro z st st' L _ hv hinv h
    simp only [zLoop, Option.some.injEq] at h
    subst h
    exact ⟨[], by simpa using hv, by rw [List.append_nil]; exact hinv⟩
  | succ n ih =>
    intro z st st' L hzn hv hinv h
    rw [zLoop] at h
    cases hb : xLoop ctx y z ctx.space_size_x 0 st with
    | none => rw [hb] at h; exact absurd h (by simp)
    | some st1 =>
      rw [hb] at h
      simp only [] at h
      obtain ⟨L1, b1, b2⟩ := xLoop_colour ctx hid G hy (by omega) _ _ st st1 L hv hinv hb
      obtain ⟨L2, c1, c2⟩ := ih (z + 1) st1 st' (L ++ L1) (by omega) b1 b2 h
      exact ⟨L1 ++ L2, by rw [← List.append_assoc]; exact c1,
        by rw [← List.append_assoc]; exact c2⟩

theorem yLoop_colour (ctx : MergeCtx) (hid : IdentityCtx ctx) (G : List Nat) :
    ∀ (n y : Nat) (st st' : MergeState) (L : List LRect), y + n ≤ ctx.space_size_y →
      st.m_voxels = L.map (LRect.toVoxel ctx) →
      ColourInv ctx.space_size_x ctx.space_size_y ctx.space_size_z G st.voxel_copy L →
      yLoop ctx n y st = some st' →
      ∃ Lnew, st'.m_voxels = (L ++ Lnew).map (LRect.toVoxel ctx)
        ∧ ColourInv ctx.space_size_x ctx.space_size_y ctx.space_size_z G st'.voxel_copy
            (L ++ Lnew) := by
  intro n
  induction n with
  | zero =>
    intro y st st' L _ hv hinv h
    simp only [yLoop, Option.some.injEq] at h
    subst h
    exact ⟨[], by simpa using hv, by rw [List.append_nil]; exact hinv⟩
  | succ n ih =>
    intro y st st' L hyn hv hinv h
    rw [yLoop] at h
    cases hb : zLoop ctx y ctx.space_size_z 0 st with
    | none => rw [hb] at h; exact absurd h (by simp)
    | some st1 =>
      rw [hb] at h
      simp only [] at h
      obtain ⟨L1, b1, b2⟩ := zLoop_colour ctx hid G (by omega) _ _ st st1 L (by omega) hv hinv hb
      obtain ⟨L2, c1, c2⟩ := ih (y + 1) st1 st' (L ++ L1) (by omega) b1 b2 h
      exact ⟨L1 ++ L2, by rw [← List.append_assoc]; exact c1,
        by rw [← List.append_assoc]; exact c2⟩

theorem importInstance_identity_colour (markers : Option (Nat × Nat)) (fuel : Nat)
    (optimize : Bool) (inst : ogt_vox_instance) (inverse : Matrix) (m_no : Int)
    (edges : List RVX_EDGE) (en : Int)
    (hT : instanceMatrix inst.transform = identityMatrix) (hI : inverse = identityMatrix)
    (hlen : inst.model.voxel_data.length
      = inst.model.size_x * inst.model.size_y * inst.model.size_z)
    {area : Area} {es : List RVX_EDGE} {en' : Int}
    (h : importInstance markers fuel optimize inst inverse m_no edges en = some (area, es, en')) :
    ∃ L data', area = { m_no := m_no
                        m_sx := axisOrigin inst.model.size_x inst.transform.m30
                        m_sy := axisOrigin inst.model.size_y inst.transform.m31
                        m_sz := axisOrigin inst.model.size_z inst.transform.m32
                        m_voxels := L.map (LRect.toVoxel
                          (instanceCtx markers fuel optimize inst inverse m_no)) }
      ∧ ColourInv inst.model.size_x inst.model.size_y inst.model.size_z inst.model.voxel_data
          data' L := by
  have hctx := instanceCtx_identity markers fuel optimize inst inverse m_no hT hI
  have hid : IdentityCtx (instanceCtx markers fuel optimize inst inverse m_no) := by
    rw [hctx]
    exact ⟨rfl, rfl, rfl⟩
  have hsx : (instanceCtx markers fuel optimize inst inverse m_no).space_size_x
      = inst.model.size_x := by rw [hctx]
  have hsy : (instanceCtx markers fuel optimize inst inverse m_no).space_size_y
      = inst.model.size_y := by rw [hctx]
  have hsz : (instanceCtx markers fuel optimize inst inverse m_no).space_size_z
      = inst.model.size_z := by rw [hctx]
  have hdx : (instanceCtx markers fuel optimize inst inverse m_no).dx
      = axisOrigin inst.model.size_x inst.transform.m30 := by rw [hctx]
  have hdy : (instanceCtx markers fuel optimize inst inverse m_no).dy
      = axisOrigin inst.model.size_y inst.transform.m31 := by rw [hctx]
  have hdz : (instanceCtx markers fuel optimize inst inverse m_no).dz
      = axisOrigin inst.model.size_z inst.transform.m32 := by rw [hctx]
  have hinit : ColourInv (instanceCtx markers fuel optimize inst inverse m_no).space_size_x
      (instanceCtx markers fuel optimize inst inverse m_no).space_size_y
      (instanceCtx markers fuel optimize inst inverse m_no).space_size_z
      inst.model.voxel_data inst.model.voxel_data [] := by
    rw [hsx, hsy, hsz]
    exact ⟨hlen, fun _ _ _ _ _ _ => Or.inl rfl, fun r hr => by simp at hr⟩
  unfold importInstance at h
  simp only [hsx, hsy, hsz, hdx, hdy, hdz, ← hlen, lt_irrefl, if_false, List.take_length] at h
  cases hrun : yLoop (instanceCtx markers fuel optimize inst inverse m_no) inst.model.size_y 0
      { voxel_copy := inst.model.voxel_data, m_voxels := [], m_edges := edges, en := en } with
  | none => rw [hrun] at h; exact absurd h (by simp)
  | some st =>
    rw [hrun] at h
    simp only [Option.some.injEq, Prod.mk.injEq] at h
    obtain ⟨ha, -, -⟩ := h
    obtain ⟨L, c1, c2⟩ := yLoop_colour (instanceCtx markers fuel optimize inst inverse m_no) hid
      inst.model.voxel_data inst.model.size_y 0 _ st [] (by omega) rfl hinit hrun
    rw [List.nil_append] at c1 c2
    rw [hsx, hsy, hsz] at c2
    exact ⟨L, st.voxel_copy, by rw [← ha, c1], c2⟩

/-- C2: with the identity transform, every rectangle that `ImportVOX` emits (for
any configuration of edge markers) is non-empty, its colour index is not zero,
and every source-grid cell inside `(sx..ex, y, sz..ez)` has that colour index.
For a grid without edge-marker cells the import does return. -/
theorem importInstance_rect_colour (markers : Option (Nat × Nat)) (fuel : Nat)
    (optimize : Bool) (inst : ogt_vox_instance) (inverse : Matrix) (m_no : Int)
    (edges : List RVX_EDGE) (en : Int)
    (hT : instanceMatrix inst.transform = identityMatrix) (hI : inverse = identityMatrix)
    (hlen : inst.model.voxel_data.length
      = inst.model.size_x * inst.model.size_y * inst.model.size_z)
    (hfit : WorldFits inst) :
    (∀ area es en', importInstance markers fuel optimize inst inverse m_no edges en
        = some (area, es, en') →
      ∀ v ∈ area.m_voxels, v.colorIndex ≠ 0 ∧ v.sx ≤ v.ex ∧ v.sz ≤ v.ez
        ∧ ∀ x z : Int, v.sx ≤ x → x ≤ v.ex → v.sz ≤ z → z ≤ v.ez →
            sourceCell inst.model (x - area.m_sx) (v.y - area.m_sy) (z - area.m_sz)
              = v.colorIndex)
    ∧ ((∀ c ∈ inst.model.voxel_data, isEdgeMarker markers c = false) →
        ∃ area, importInstance markers fuel optimize inst inverse m_no edges en
          = some (area, edges, en)) := by
  constructor
  · intro area es en' h v hv
    obtain ⟨L, data', ha, hinv⟩ := importInstance_identity_colour markers fuel optimize inst
      inverse m_no edges en hT hI hlen h
    have hctx := instanceCtx_identity markers fuel optimize inst inverse m_no hT hI
    obtain ⟨fx, fy, fz⟩ := hfit
    unfold AxisFits at fx fy fz
    subst ha
    simp only [List.mem_map] at hv
    obtain ⟨r, hr, hrv⟩ := hv
    obtain ⟨r1, r2, r3, r4, r5, r6, r7⟩ := hinv.rects r hr
    have htv := toVoxel_of_fits (instanceCtx markers fuel optimize inst inverse m_no) r
      (by rw [hctx]; exact fx) (by rw [hctx]; exact fy) (by rw [hctx]; exact fz) r1
      (by rw [hctx]; exact r2) r3 (by rw [hctx]; exact r4) (by rw [hctx]; exact r5)
    rw [htv] at hrv
    subst hrv
    simp only [hctx]
    refine ⟨r6, by omega, by omega, ?_⟩
    intro x z h1 h2 h3 h4
    have e1 : (r.y : Int) + axisOrigin inst.model.size_y inst.transform.m31
        - axisOrigin inst.model.size_y inst.transform.m31 = r.y := by omega
    rw [e1]
    unfold sourceCell
    rw [if_pos (by omega)]
    have := r7 (x - axisOrigin inst.model.size_x inst.transform.m30).toNat
      (z - axisOrigin inst.model.size_z inst.transform.m32).toNat (by omega) (by omega)
      (by omega) (by omega)
    rw [Int.toNat_natCast]
    exact this
  · intro hnm
    obtain ⟨L, data', himp, -⟩ := importInstance_identity_local markers fuel optimize inst
      inverse m_no edges en hT hI hlen hnm
    exact ⟨_, himp⟩

/-- Witness of C2: the L-shaped slab, imported with edge detection on. -/
theorem importInstance_rect_colour_witness :
    ∃ area, importInstance (some (254, 255)) 20 true gridLShape identityMatrix 100 [] 0
        = some (area, [], 0)
      ∧ ∀ v ∈ area.m_voxels, v.colorIndex ≠ 0 ∧ v.sx ≤ v.ex ∧ v.sz ≤ v.ez
        ∧ ∀ x z : Int, v.sx ≤ x → x ≤ v.ex → v.sz ≤ z → z ≤ v.ez →
            sourceCell gridLShape.model (x - area.m_sx) (v.y - area.m_sy) (z - area.m_sz)
              = v.colorIndex :=
  ⟨_, rfl, (importInstance_rect_colour (some (254, 255)) 20 true gridLShape identityMatrix 100 [] 0
    (by decide) rfl (by decide) (by decide)).1 _ _ _ rfl⟩

/-! ## Sub-quads of an edge (claim C11) -/

theorem rvx_emit_voxelf_append (v : Voxelf) (col : Color4) (w s h d a : Nat)
    (buf : List Field) :
    rvx_emit_voxelf v col w s h d a buf = buf ++ rvx_emit_voxelf v col w s h d a [] := by
  simp [rvx_emit_voxelf, qlVertex7f, List.append_assoc]

theorem update_edge_buffer_loop_fold (e : RVX_EDGE) (palette : Palette) (hs : 1 ≤ e.spacing) :
    ∀ (fuel : Nat) (y : Int) (buf : List Field), ySteps y e.ey e.spacing ≤ fuel →
      rvx_update_edge_buffer.loop e palette fuel y buf
        = some ((List.range (ySteps y e.ey e.spacing)).foldl
            (fun (b : List Field) (i : Nat) =>
              rvx_update_edge_buffer.body e palette (y + (i : Int) * e.spacing) b) buf) := by
  intro fuel
  induction fuel with
  | zero =>
    intro y buf h
    have h0 : ySteps y e.ey e.spacing = 0 := by omega
    have hy : ¬ y ≤ e.ey := by
      intro hy
      rw [ySteps_step y e.ey e.spacing hs hy] at h0
      omega
    simp [rvx_update_edge_buffer.loop, hy, h0]
  | succ n ih =>
    intro y buf h
    by_cases hy : y ≤ e.ey
    · rw [ySteps_step y e.ey e.spacing hs hy] at h ⊢
      rw [rvx_update_edge_buffer.loop, if_pos hy, ih _ _ (by omega), List.range_succ_eq_map,
        List.foldl_cons, List.foldl_map]
      simp only [Nat.cast_zero, zero_mul, add_zero, Nat.cast_succ]
      congr 2
      funext b i
      congr 1
      ring
    · simp [rvx_update_edge_buffer.loop, hy, ySteps_of_gt y e.ey e.spacing hy]

theorem update_emit_eq (e : RVX_EDGE) (palette : Palette) (v : Voxelf) (col a : Nat)
    (buf : List Field) :
    rvx_update_edge_buffer.emit e palette v col a buf
      = buf ++ rvx_update_edge_buffer.emit e palette v col a [] := by
  unfold rvx_update_edge_buffer.emit
  by_cases h : (palette col).a ≠ 0
  · rw [if_pos h, if_pos h]
    exact rvx_emit_voxelf_append _ _ _ _ _ _ _ _
  · rw [if_neg h, if_neg h]
    exact (List.append_nil buf).symm

theorem update_body_eq (e : RVX_EDGE) (palette : Palette) (y : Int) (buf : List Field) :
    rvx_update_edge_buffer.body e palette y buf
      = buf
        ++ rvx_update_edge_buffer.emit e palette (rvx_update_edge_buffer.topLeftVoxel e y)
            e.top_left_col (ALIGN_BOTTOM ||| ALIGN_RIGHT) []
        ++ rvx_update_edge_buffer.emit e palette (rvx_update_edge_buffer.topRightVoxel e y)
            e.top_right_col (ALIGN_BOTTOM ||| ALIGN_LEFT) []
        ++ rvx_update_edge_buffer.emit e palette (rvx_update_edge_buffer.bottomLeftVoxel e y)
            e.bottom_left_col (ALIGN_TOP ||| ALIGN_RIGHT) []
        ++ rvx_update_edge_buffer.emit e palette (rvx_update_edge_buffer.bottomRightVoxel e y)
            e.bottom_right_col (ALIGN_TOP ||| ALIGN_LEFT) [] := by
  unfold rvx_update_edge_buffer.body
  simp only []
  rw [update_emit_eq e palette (rvx_update_edge_buffer.bottomRightVoxel e y),
    update_emit_eq e palette (rvx_update_edge_buffer.bottomLeftVoxel e y),
    update_emit_eq e palette (rvx_update_edge_buffer.topRightVoxel e y),
    update_emit_eq e palette (rvx_update_edge_buffer.topLeftVoxel e y)]

/-- C11: for an edge with `spacing ≥ 1` and every palette, `rvx_update_edge_buffer`
returns; at each Y-step `sy + i * spacing` it appends, in the order top-left,
top-right, bottom-left, bottom-right, one sub-quad of 6 vertices for each corner
whose colour has palette alpha different from 0 and nothing for a corner with
alpha 0.  It writes `6 * steps * corners` vertices of 16 bytes, at most the
`24 * steps` vertices that `rvx_get_edge_length` returns. -/
theorem rvx_update_edge_buffer_quads (e : RVX_EDGE) (palette : Palette) (buf : List Field)
    (hs : 1 ≤ e.spacing) :
    (∀ (v : Voxelf) (col a : Nat) (b : List Field),
      ((palette col).a ≠ 0 →
        rvx_update_edge_buffer.emit e palette v col a b
            = rvx_emit_voxelf v (palette col) (rvx_update_edge_buffer.ew e) (toUInt8 e.spacing)
                (toUInt8 e.edge_height) (if e.edge_dir = -1 then ALIGN_RIGHT else ALIGN_LEFT) a b
          ∧ bufferBytes (rvx_update_edge_buffer.emit e palette v col a b)
              = bufferBytes b + 6 * RVX_EDGE_VERTEX_SIZE)
      ∧ ((palette col).a = 0 → rvx_update_edge_buffer.emit e palette v col a b = b))
    ∧ (∀ (y : Int) (b : List Field),
        rvx_update_edge_buffer.body e palette y b
          = b
            ++ rvx_update_edge_buffer.emit e palette (rvx_update_edge_buffer.topLeftVoxel e y)
                e.top_left_col (ALIGN_BOTTOM ||| ALIGN_RIGHT) []
            ++ rvx_update_edge_buffer.emit e palette (rvx_update_edge_buffer.topRightVoxel e y)
                e.top_right_col (ALIGN_BOTTOM ||| ALIGN_LEFT) []
            ++ rvx_update_edge_buffer.emit e palette (rvx_update_edge_buffer.bottomLeftVoxel e y)
                e.bottom_left_col (ALIGN_TOP ||| ALIGN_RIGHT) []
            ++ rvx_update_edge_buffer.emit e palette (rvx_update_edge_buffer.bottomRightVoxel e y)
                e.bottom_right_col (ALIGN_TOP ||| ALIGN_LEFT) [])
    ∧ rvx_update_edge_buffer e buf palette
        = some ((List.range (ySteps e.sy e.ey e.spacing)).foldl
            (fun (b : List Field) (i : Nat) =>
              rvx_update_edge_buffer.body e palette (e.sy + (i : Int) * e.spacing) b) buf)
    ∧ (∃ out, rvx_update_edge_buffer e buf palette = some out
        ∧ bufferBytes out = bufferBytes buf
            + (6 * ySteps e.sy e.ey e.spacing * survivingQuads palette e) * RVX_EDGE_VERTEX_SIZE)
    ∧ rvx_get_edge_length e = some ((24 * ySteps e.sy e.ey e.spacing : Nat) : Int)
    ∧ 6 * ySteps e.sy e.ey e.spacing * survivingQuads palette e
        ≤ 24 * ySteps e.sy e.ey e.spacing := by
  refine ⟨?_, update_body_eq e palette, ?_, ?_, ?_, ?_⟩
  · intro v col a b
    constructor
    · intro h
      unfold rvx_update_edge_buffer.emit
      rw [if_pos h, bufferBytes_rvx_emit_voxelf]
      exact ⟨rfl, rfl⟩
    · intro h
      unfold rvx_update_edge_buffer.emit
      rw [if_neg (not_not.mpr h)]
  · exact update_edge_buffer_loop_fold e palette hs _ _ _ (ySteps_le _ _ _ hs)
  · obtain ⟨out, h1, h2⟩ := rvx_update_edge_buffer_bytes e palette buf hs
    refine ⟨out, h1, ?_⟩
    rw [h2]
    simp only [RVX_EDGE_VERTEX_SIZE, sizeof_float]
    ring
  · rw [rvx_get_edge_length_eq e hs]
    congr 2
    ring
  · have := survivingQuads_le palette e
    calc 6 * ySteps e.sy e.ey e.spacing * survivingQuads palette e
        ≤ 6 * ySteps e.sy e.ey e.spacing * 4 := Nat.mul_le_mul_left _ this
      _ = 24 * ySteps e.sy e.ey e.spacing := by ring

/-- Witness of C11: the edge of `modelOneEdge`, one Y-step, one opaque corner. -/
theorem rvx_update_edge_buffer_quads_witness :
    ∃ out, rvx_update_edge_buffer
        { no := 0, area_no := 100, sx := 0, ex := 3, sy := 0, ey := 0, sz := 0, ez := 0
          edge_dir := -1, edge_width := 1, edge_height := 1, spacing := 1
          top_left_col := 1, top_right_col := 2, bottom_left_col := 3,
          bottom_right_col := 4 } [] paletteOnlyOne = some out
      ∧ bufferBytes out = bufferBytes [] + (6 * 1 * 1) * RVX_EDGE_VERTEX_SIZE :=
  (rvx_update_edge_buffer_quads
    { no := 0, area_no := 100, sx := 0, ex := 3, sy := 0, ey := 0, sz := 0, ez := 0
      edge_dir := -1, edge_width := 1, edge_height := 1, spacing := 1
      top_left_col := 1, top_right_col := 2, bottom_left_col := 3,
      bottom_right_col := 4 } paletteOnlyOne [] (by decide)).2.2.2.1

/-! ## Area numbers (claims C12, C13) -/

theorem nameIsTwoDigits_iff (name : CString) (h0 : 0 ∉ name.chars) :
    nameIsTwoDigits name = true
      ↔ ∃ d0 d1, name.chars = [d0, d1] ∧ isdigit d0 = true ∧ isdigit d1 = true := by
  unfold nameIsTwoDigits
  obtain ⟨chars, after⟩ := name
  simp only at h0
  match chars, h0 with
  | [], _ =>
    simp [CString.get, isdigit]
  | [a], _ =>
    simp [CString.get, isdigit]
  | [a, b], _ =>
    simp only [CString.get, List.length_cons, List.length_nil, List.cons.injEq, and_true]
    simp only [show (2 : Nat) < 0 + 1 + 1 ↔ False by decide, if_false, if_true,
      show (2 : Nat) = 0 + 1 + 1 by rfl, beq_self_eq_true, Bool.true_and, Bool.and_eq_true]
    simp only [show (0 : Nat) < 0 + 1 + 1 by decide, show (1 : Nat) < 0 + 1 + 1 by decide,
      if_true, List.getD_cons_zero, List.getD_cons_succ]
    constructor
    · rintro ⟨h1, h2⟩
      exact ⟨a, b, ⟨rfl, rfl⟩, h1, h2⟩
    · rintro ⟨d0, d1, ⟨rfl, rfl⟩, h1, h2⟩
      exact ⟨h1, h2⟩
  | a :: b :: c :: t, h0 =>
    have hc : c ≠ 0 := by
      intro h
      apply h0
      simp [h]
    simp [CString.get, hc]

theorem areaNumber_of_digits (an : Int) (d0 d1 : Nat) (after : Nat → Nat)
    (h0 : isdigit d0 = true) (h1 : isdigit d1 = true) :
    areaNumber an (some ⟨[d0, d1], after⟩) = 10 * ((d0 : Int) - 48) + ((d1 : Int) - 48) := by
  have h : nameIsTwoDigits ⟨[d0, d1], after⟩ = true := by
    simp [nameIsTwoDigits, CString.get, h0, h1]
  unfold areaNumber
  simp only [h, if_true]
  simp [CString.get]
  ring

/-- C12: the name of an instance overrides the automatic area number exactly
when it consists of two ASCII digits `d0 d1`, and the number is then
`10 * d0 + d1` (so `"07"` gives 7).  A missing name, a name of another length or
with a character that is not a digit leaves the automatic number, whatever
bytes follow the terminator of the name. -/
theorem areaNumber_override (an : Int) :
    (∀ (name : CString), 0 ∉ name.chars →
      (nameIsTwoDigits name = true
        ↔ ∃ d0 d1, name.chars = [d0, d1] ∧ isdigit d0 = true ∧ isdigit d1 = true))
    ∧ (∀ (d0 d1 : Nat) (after : Nat → Nat), isdigit d0 = true → isdigit d1 = true →
        areaNumber an (some ⟨[d0, d1], after⟩) = 10 * ((d0 : Int) - 48) + ((d1 : Int) - 48))
    ∧ (∀ after : Nat → Nat, areaNumber an (some ⟨[48, 55], after⟩) = 7)
    ∧ areaNumber an none = an
    ∧ (∀ (name : CString), 0 ∉ name.chars →
        (¬ ∃ d0 d1, name.chars = [d0, d1] ∧ isdigit d0 = true ∧ isdigit d1 = true) →
        areaNumber an (some name) = an)
    ∧ (∀ (markers : Option (Nat × Nat)) (fuel : Nat) (optimize : Bool) (i : SceneInstance)
        (edges : List RVX_EDGE) (en : Int) (areas : List Area) (es : List RVX_EDGE),
        ImportVOX.loop markers fuel optimize [i] an en [] edges = some (areas, es) →
        ∃ area, areas = [area] ∧ area.m_no = areaNumber an i.name) := by
  refine ⟨nameIsTwoDigits_iff, fun d0 d1 after => areaNumber_of_digits an d0 d1 after, ?_, rfl,
    ?_, ?_⟩
  · intro after
    rw [areaNumber_of_digits an 48 55 after (by decide) (by decide)]
    norm_num
  · intro name h0 hnot
    have h : nameIsTwoDigits name = false := by
      cases hb : nameIsTwoDigits name with
      | false => rfl
      | true => exact absurd ((nameIsTwoDigits_iff name h0).mp hb) hnot
    unfold areaNumber
    simp only [h, Bool.false_eq_true, if_false]
  · intro markers fuel optimize i edges en areas es h
    unfold ImportVOX.loop at h
    cases hi : importInstance markers fuel optimize i.inst i.inverse (areaNumber an i.name)
        edges en with
    | none => rw [hi] at h; exact absurd h (by simp)
    | some p =>
      obtain ⟨area, es', en'⟩ := p
      rw [hi] at h
      simp only [ImportVOX.loop, List.nil_append, Option.some.injEq, Prod.mk.injEq] at h
      refine ⟨area, h.1.symm, ?_⟩
      unfold importInstance at hi
      simp only at hi
      split at hi
      · exact absurd hi (by simp)
      · split at hi
        · exact absurd hi (by simp)
        · simp only [Option.some.injEq, Prod.mk.injEq] at hi
          rw [← hi.1]

/-- Witness of C12: the name `"07"` followed by the bytes 1, 2, 3, .. -/
theorem areaNumber_override_witness :
    areaNumber 100 (some ⟨[48, 55], fun i => i + 1⟩) = 10 * (((48 : Nat) : Int) - 48)
      + (((55 : Nat) : Int) - 48) :=
  (areaNumber_override 100).2.1 48 55 (fun i => i + 1) (by decide) (by decide)

theorem importInstance_m_no {markers : Option (Nat × Nat)} {fuel : Nat} {optimize : Bool}
    {inst : ogt_vox_instance} {inverse : Matrix} {m_no : Int} {edges : List RVX_EDGE} {en : Int}
    {area : Area} {es : List RVX_EDGE} {en' : Int}
    (h : importInstance markers fuel optimize inst inverse m_no edges en = some (area, es, en')) :
    area.m_no = m_no := by
  unfold importInstance at h
  simp only at h
  split at h
  · exact absurd h (by simp)
  · split at h
    · exact absurd h (by simp)
    · simp only [Option.some.injEq, Prod.mk.injEq] at h
      rw [← h.1]

theorem ImportVOX_loop_numbers (markers : Option (Nat × Nat)) (fuel : Nat) (optimize : Bool) :
    ∀ (l : List SceneInstance) (an en : Int) (areas0 : List Area) (edges0 : List RVX_EDGE)
      (areas : List Area) (es : List RVX_EDGE),
      ImportVOX.loop markers fuel optimize l an en areas0 edges0 = some (areas, es) →
      ∃ new, areas = areas0 ++ new ∧ new.length = l.length
        ∧ ∀ (i : Nat) (s : SceneInstance), l[i]? = some s →
            ∃ a, new[i]? = some a ∧ a.m_no = areaNumber (an + (i : Int)) s.name := by
  intro l
  induction l with
  | nil =>
    intro an en areas0 edges0 areas es h
    simp only [ImportVOX.loop, Option.some.injEq, Prod.mk.injEq] at h
    exact ⟨[], by simp [h.1], rfl, by simp⟩
  | cons s rest ih =>
    intro an en areas0 edges0 areas es h
    unfold ImportVOX.loop at h
    cases hi : importInstance markers fuel optimize s.inst s.inverse (areaNumber an s.name)
        edges0 en with
    | none => rw [hi] at h; exact absurd h (by simp)
    | some p =>
      obtain ⟨area, es', en'⟩ := p
      rw [hi] at h
      simp only at h
      obtain ⟨new, hnew, hlen, hall⟩ := ih (an + 1) en' (areas0 ++ [area]) es' areas es h
      refine ⟨area :: new, by simp [hnew], by simp [hlen], ?_⟩
      intro i t ht
      cases i with
      | zero =>
        simp only [List.getElem?_cons_zero, Option.some.injEq] at ht
        subst ht
        exact ⟨area, by simp, by simpa using importInstance_m_no hi⟩
      | succ j =>
        simp only [List.getElem?_cons_succ] at ht
        obtain ⟨a, ha, hno⟩ := hall j t ht
        refine ⟨a, by simpa using ha, ?_⟩
        rw [hno]
        push_cast
        ring_nf

/-- C13: in the scene that `ImportVOX` returns there is one area per instance,
in the order of the instances, and the area of the i-th instance (0-based) has
the number that its own name gives with the automatic number `100 + i`: so an
instance whose name is missing or is not exactly two ASCII digits has the
number `100 + i`, however many earlier instances carried an override name. -/
theorem ImportVOX_automatic_numbers (markers : Option (Nat × Nat)) (fuel : Nat)
    (vox : ogt_vox_scene) (scene result : Scene) (optimize : Bool)
    (h : ImportVOX markers fuel vox scene optimize = some result) :
    result.m_areas.length = vox.instances.length
    ∧ ∀ (i : Nat) (s : SceneInstance), vox.instances[i]? = some s →
        ∃ a, result.m_areas[i]? = some a
          ∧ a.m_no = areaNumber (100 + (i : Int)) s.name
          ∧ ((∀ name, s.name = some name → 0 ∉ name.chars
                ∧ ¬ ∃ d0 d1, name.chars = [d0, d1] ∧ isdigit d0 = true ∧ isdigit d1 = true) →
              a.m_no = 100 + (i : Int)) := by
  unfold ImportVOX at h
  simp only at h
  cases hl : ImportVOX.loop markers fuel optimize vox.instances 100 0 [] [] with
  | none => rw [hl] at h; exact absurd h (by simp)
  | some p =>
    obtain ⟨areas, es⟩ := p
    rw [hl] at h
    simp only [Option.some.injEq] at h
    obtain ⟨new, hnew, hlen, hall⟩ := ImportVOX_loop_numbers markers fuel optimize
      vox.instances 100 0 [] [] areas es hl
    simp only [List.nil_append] at hnew
    subst hnew
    subst h
    refine ⟨hlen, ?_⟩
    intro i s hs
    obtain ⟨a, ha, hno⟩ := hall i s hs
    refine ⟨a, ha, hno, ?_⟩
    intro hname
    rw [hno]
    cases hn : s.name with
    | none => rfl
    | some name =>
      obtain ⟨h0, hnot⟩ := hname name hn
      have hb : nameIsTwoDigits name = false := by
        cases hb : nameIsTwoDigits name with
        | false => rfl
        | true => exact absurd ((nameIsTwoDigits_iff name h0).mp hb) hnot
      unfold areaNumber
      simp only [hb, Bool.false_eq_true, if_false]

/-- Witness of C13: three instances, the first named `"07"`; the areas get the
numbers 7, 101 and 102. -/
theorem ImportVOX_automatic_numbers_witness :
    ∃ result, ImportVOX none 0 sceneThreeAreas ⟨[], [], []⟩ true = some result
      ∧ result.m_areas.length = 3
      ∧ result.m_areas.map Area.m_no = [7, 101, 102]
      ∧ ∀ (i : Nat) (s : SceneInstance), sceneThreeAreas.instances[i]? = some s →
          ∃ a, result.m_areas[i]? = some a
            ∧ a.m_no = areaNumber (100 + (i : Int)) s.name
            ∧ ((∀ name, s.name = some name → 0 ∉ name.chars
                ∧ ¬ ∃ d0 d1, name.chars = [d0, d1] ∧ isdigit d0 = true ∧ isdigit d1 = true) →
              a.m_no = 100 + (i : Int)) :=
  ⟨_, rfl, rfl, rfl,
    (ImportVOX_automatic_numbers none 0 sceneThreeAreas ⟨[], [], []⟩ _ true rfl).2⟩

/-! ## Mirrors and rotations (claims C14, C15) -/

/-- C14, evaluated on the code: for the 2 x 3 x 1 grid mirrored along Y only
(linear map `diag(1, -1, 1)`, transformed sizes `(2, -3, 1)`), `GetOffset`
remaps `y` with `sizes[0]` and returns `x + (size_x + 1 + y) * size_x`: the
indices 6 .. 11 for the six cells, all outside the six bytes of the grid,
where `x + (size_y - 1 - y) * size_x` gives 4, 5, 2, 3, 0, 1.  The merge loops
therefore read outside the voxel copy at their first cell.  The X axis, which
is remapped with its own size, gives the mirrored indices 1, 0, 3, 2, 5, 4. -/
theorem GetOffset_mirrorY_uses_size_x :
    (instanceCtx none 0 true gridMirrorY mirrorYMatrix 100).sizes = ⟨2, -3, 1⟩
    ∧ (instanceCtx none 0 true gridMirrorY mirrorYMatrix 100).inversep = some mirrorYMatrix
    ∧ (layerCells 2 3 0).map
        (fun p => GetOffset p.x p.y p.z modelTwoByThree (some mirrorYMatrix) ⟨2, -3, 1⟩)
      = [6, 7, 8, 9, 10, 11]
    ∧ (layerCells 2 3 0).map
        (fun p => p.x + ((modelTwoByThree.size_y : Int) - 1 - p.y) * modelTwoByThree.size_x
          + p.z * modelTwoByThree.size_x * modelTwoByThree.size_y)
      = [4, 5, 2, 3, 0, 1]
    ∧ readVoxel modelTwoByThree.voxel_data
        (GetOffset 0 0 0 modelTwoByThree (some mirrorYMatrix) ⟨2, -3, 1⟩) = none
    ∧ importInstance none 0 true gridMirrorY mirrorYMatrix 100 [] 0 = none
    ∧ (instanceCtx none 0 true gridMirrorX mirrorXMatrix 100).sizes = ⟨-2, 3, 1⟩
    ∧ (layerCells 2 3 0).map
        (fun p => GetOffset p.x p.y p.z modelTwoByThree (some mirrorXMatrix) ⟨-2, 3, 1⟩)
      = [1, 0, 3, 2, 5, 4] := by
  refine ⟨by decide, by decide, by decide, by decide, by decide, by decide, by decide, by decide⟩

/-- C15, evaluated on the code: the 1 x 2 x 1 column with colour 3 in layer 0
gives the same rectangle, at local cell `(0, 0, 0)`, whether the instance is
rotated by 180 degrees about Z (linear map `diag(-1, -1, 1)`) or not; the point
reflection `(size_x - 1 - 0, size_y - 1 - 0, 0) = (0, 1, 0)` of the cell is not
covered by the rotated instance. -/
theorem rotated_column_not_reflected :
    ∃ a b, importInstance none 0 true gridColumn identityMatrix 100 [] 0 = some (a, [], 0)
      ∧ importInstance none 0 true gridColumnRotated rotateZMatrix 100 [] 0 = some (b, [], 0)
      ∧ (instanceCtx none 0 true gridColumnRotated rotateZMatrix 100).sizes = ⟨-1, -2, 1⟩
      ∧ (a.m_sx, a.m_sy, a.m_sz) = (b.m_sx, b.m_sy, b.m_sz)
      ∧ (∃ v ∈ a.m_voxels, v.covers (0 + a.m_sx) (0 + a.m_sy) (0 + a.m_sz))
      ∧ (¬ ∃ v ∈ b.m_voxels, v.covers ((1 - 1 - 0) + b.m_sx) ((2 - 1 - 0) + b.m_sy) (0 + b.m_sz))
      ∧ b.m_voxels = a.m_voxels
      ∧ (layerCells 1 2 0).map
          (fun p => GetOffset p.x p.y p.z modelColumn (some rotateZMatrix) ⟨-1, -2, 1⟩) = [0, 1] := by
  refine ⟨_, _, rfl, rfl, by decide, by decide, by decide, by decide, by decide, by decide⟩

/-! ## The identity fast path without right markers -/

theorem iabs_eq_abs (v : Int) : iabs v = |v| := by
  unfold iabs
  split_ifs with h
  · exact (abs_of_neg h).symm
  · exact (abs_of_nonneg (not_lt.mp h)).symm

theorem GetOffset_identity_eq (x y z : Int) (model : ogt_vox_model) (sizes : Int3)
    (hx : 0 ≤ x) (hy : 0 ≤ y)
    (h0 : 0 ≤ sizes.x) (h1 : 0 ≤ sizes.y) (h2 : 0 ≤ sizes.z) :
    GetOffset x y z model (some identityMatrix) sizes = GetOffset x y z model none sizes := by
  unfold GetOffset
  simp only [if_neg (not_lt.mpr h0), if_neg (not_lt.mpr h1), if_neg (not_lt.mpr h2)]
  simp only [Transform, Vector3Transform, identityMatrix, one_mul, zero_mul, add_zero, zero_add]
  rw [iabs_of_nonneg hx, iabs_of_nonneg hy]
  congr 1
  simp only [iabs_eq_abs, abs_mul, abs_abs]

theorem off_generalPath (ctx : MergeCtx) (hinv : ctx.inversep = none)
    (h0 : 0 ≤ ctx.sizes.x) (h1 : 0 ≤ ctx.sizes.y) (h2 : 0 ≤ ctx.sizes.z)
    (x y z : Int) (hx : 0 ≤ x) (hy : 0 ≤ y) :
    ctx.generalPath.off x y z = ctx.off x y z := by
  unfold MergeCtx.off MergeCtx.generalPath
  simp only [hinv]
  exact GetOffset_identity_eq x y z ctx.model ctx.sizes hx hy h0 h1 h2

theorem AllVoxelsSameColor_loop_identity (data : List Nat) (y z : Int) (model : ogt_vox_model)
    (c : Nat) (sizes : Int3) (hy : 0 ≤ y)
    (h0 : 0 ≤ sizes.x) (h1 : 0 ≤ sizes.y) (h2 : 0 ≤ sizes.z) :
    ∀ (n : Nat) (sx : Int), 0 ≤ sx →
      AllVoxelsSameColor.loop data y z model (some identityMatrix) c sizes n sx
        = AllVoxelsSameColor.loop data y z model none c sizes n sx := by
  intro n
  induction n with
  | zero => intro sx _; rfl
  | succ n ih =>
    intro sx hsx
    simp only [AllVoxelsSameColor.loop, GetOffset_identity_eq sx y z model sizes hsx hy h0 h1 h2,
      ih (sx + 1) (by omega)]

theorem RemoveVoxels_loop_identity (y z : Int) (model : ogt_vox_model)
    (sizes : Int3) (hy : 0 ≤ y)
    (h0 : 0 ≤ sizes.x) (h1 : 0 ≤ sizes.y) (h2 : 0 ≤ sizes.z) :
    ∀ (n : Nat) (sx : Int) (data : List Nat), 0 ≤ sx →
      RemoveVoxels.loop y z model (some identityMatrix) sizes n sx data
        = RemoveVoxels.loop y z model none sizes n sx data := by
  intro n
  induction n with
  | zero => intro sx data _; rfl
  | succ n ih =>
    intro sx data hsx
    simp only [RemoveVoxels.loop, GetOffset_identity_eq sx y z model sizes hsx hy h0 h1 h2]
    cases writeVoxel data (GetOffset sx y z model none sizes) 0 with
    | none => rfl
    | some d => exact ih (sx + 1) d (by omega)

theorem lineScan_generalPath (ctx : MergeCtx) (hinv : ctx.inversep = none)
    (h0 : 0 ≤ ctx.sizes.x) (h1 : 0 ≤ ctx.sizes.y) (h2 : 0 ≤ ctx.sizes.z)
    (data : List Nat) (y z c : Nat) :
    ∀ (n x : Nat), lineScan ctx.generalPath data y z c n x = lineScan ctx data y z c n x := by
  intro n
  induction n with
  | zero => intro x; rfl
  | succ n ih =>
    intro x
    simp only [lineScan, off_generalPath ctx hinv h0 h1 h2 _ _ _ (Int.natCast_nonneg _)
      (Int.natCast_nonneg _), ih (x + 1)]

theorem growZ_generalPath (ctx : MergeCtx) (hinv : ctx.inversep = none)
    (h0 : 0 ≤ ctx.sizes.x) (h1 : 0 ≤ ctx.sizes.y) (h2 : 0 ≤ ctx.sizes.z)
    (sx x y c : Nat) :
    ∀ (n ez : Nat) (data : List Nat),
      growZ ctx.generalPath sx x y c n ez data = growZ ctx sx x y c n ez data := by
  intro n
  induction n with
  | zero => intro ez data; rfl
  | succ n ih =>
    intro ez data
    have ha : AllVoxelsSameColor data sx x y (ez + 1 : Nat) ctx.model (some identityMatrix) c
        ctx.sizes = AllVoxelsSameColor data sx x y (ez + 1 : Nat) ctx.model none c ctx.sizes :=
      AllVoxelsSameColor_loop_identity data y _ ctx.model c ctx.sizes (Int.natCast_nonneg _)
        h0 h1 h2 _ _ (Int.natCast_nonneg _)
    have hr : ∀ d, RemoveVoxels d sx x y (ez + 1 : Nat) ctx.model (some identityMatrix) ctx.sizes
        = RemoveVoxels d sx x y (ez + 1 : Nat) ctx.model none ctx.sizes := fun d =>
      RemoveVoxels_loop_identity y _ ctx.model ctx.sizes (Int.natCast_nonneg _)
        h0 h1 h2 _ _ d (Int.natCast_nonneg _)
    simp only [growZ, MergeCtx.generalPath, hinv, ha, hr]
    cases AllVoxelsSameColor data sx x y (ez + 1 : Nat) ctx.model none c ctx.sizes with
    | none => rfl
    | some b =>
      cases b with
      | false => rfl
      | true =>
        simp only
        cases RemoveVoxels data sx x y (ez + 1 : Nat) ctx.model none ctx.sizes with
        | none => rfl
        | some d =>
          have := ih (ez + 1) d
          simp only [MergeCtx.generalPath, hinv] at this
          exact this

theorem pushRect_generalPath (ctx : MergeCtx) (hinv : ctx.inversep = none)
    (h0 : 0 ≤ ctx.sizes.x) (h1 : 0 ≤ ctx.sizes.y) (h2 : 0 ≤ ctx.sizes.z)
    (y z x c : Nat) (st : MergeState) :
    pushRect ctx.generalPath y z x c st = pushRect ctx y z x c st := by
  unfold pushRect mergeRect
  rw [lineScan_generalPath ctx hinv h0 h1 h2]
  simp only [growZ_generalPath ctx hinv h0 h1 h2]
  rfl

theorem off_generalPath_nat (ctx : MergeCtx) (hinv : ctx.inversep = none)
    (h0 : 0 ≤ ctx.sizes.x) (h1 : 0 ≤ ctx.sizes.y) (h2 : 0 ≤ ctx.sizes.z)
    (x y : Nat) (z : Int) :
    ctx.generalPath.off (x : Int) (y : Int) z = ctx.off (x : Int) (y : Int) z :=
  off_generalPath ctx hinv h0 h1 h2 _ _ _ (Int.natCast_nonneg _) (Int.natCast_nonneg _)

theorem growZ_zeroed (ctx : MergeCtx) (sx x y c : Nat) :
    ∀ (n ez : Nat) (data : List Nat) (ez' : Nat) (data' : List Nat),
      growZ ctx sx x y c n ez data = some (ez', data') → Zeroed data data' := by
  intro n
  induction n with
  | zero =>
    intro ez data ez' data' h
    simp only [growZ, Option.some.injEq, Prod.mk.injEq] at h
    rw [← h.2]
    exact Zeroed.refl _
  | succ n ih =>
    intro ez data ez' data' h
    rw [growZ] at h
    cases ha : AllVoxelsSameColor data sx x y (ez + 1 : Nat) ctx.model ctx.inversep c
        ctx.sizes with
    | none => rw [ha] at h; exact absurd h (by simp)
    | some b =>
      rw [ha] at h
      cases b with
      | false =>
        simp only [Option.some.injEq, Prod.mk.injEq] at h
        rw [← h.2]
        exact Zeroed.refl _
      | true =>
        simp only at h
        cases hr : RemoveVoxels data sx x y (ez + 1 : Nat) ctx.model ctx.inversep ctx.sizes with
        | none => rw [hr] at h; exact absurd h (by simp)
        | some d =>
          rw [hr] at h
          exact Zeroed.trans (RemoveVoxels_zeroed hr) (ih _ _ _ _ h)

theorem pushRect_zeroed (ctx : MergeCtx) (y z x c : Nat) (st : MergeState) {x' : Nat}
    {st' : MergeState} (h : pushRect ctx y z x c st = some (x', st')) :
    Zeroed st.voxel_copy st'.voxel_copy ∧ st'.m_edges = st.m_edges ∧ st'.en = st.en
      ∧ ∃ ez, st'.m_voxels = st.m_voxels ++ [mkVoxel ctx c x x' y z ez]
        ∧ (ctx.optimize = false → x' = x ∧ ez = z) := by
  unfold pushRect at h
  cases hm : mergeRect ctx st.voxel_copy y z x c with
  | none => rw [hm] at h; exact absurd h (by simp)
  | some p =>
    obtain ⟨xe, ez, data⟩ := p
    rw [hm] at h
    simp only [Option.some.injEq, Prod.mk.injEq] at h
    obtain ⟨hx, hst⟩ := h
    subst hx hst
    refine ⟨?_, rfl, rfl, ez, rfl, ?_⟩
    · unfold mergeRect at hm
      split at hm
      · cases hl : lineScan ctx st.voxel_copy y z c (ctx.space_size_x - 1 - x) x with
        | none => rw [hl] at hm; exact absurd hm (by simp)
        | some xl =>
          rw [hl] at hm
          simp only at hm
          cases hg : growZ ctx x xl y c (ctx.space_size_z - 1 - z) z st.voxel_copy with
          | none => rw [hg] at hm; exact absurd hm (by simp)
          | some q =>
            obtain ⟨ez2, d2⟩ := q
            rw [hg] at hm
            simp only [Option.some.injEq, Prod.mk.injEq] at hm
            obtain ⟨-, -, hd⟩ := hm
            subst hd
            exact growZ_zeroed ctx _ _ _ _ _ _ _ _ _ hg
      · simp only [Option.some.injEq, Prod.mk.injEq] at hm
        rw [← hm.2.2]
        exact Zeroed.refl _
    · intro hopt
      unfold mergeRect at hm
      simp only [hopt, Bool.false_eq_true, if_false, Option.some.injEq, Prod.mk.injEq] at hm
      exact ⟨hm.1.symm, hm.2.1.symm⟩

theorem edgeBranch_zeroed (ctx : MergeCtx) (l r y z x c : Nat) (st : MergeState) {xe : Nat}
    {st' : MergeState} (h : edgeBranch ctx l r y z x c st = some (xe, st')) :
    Zeroed st.voxel_copy st'.voxel_copy ∧ st'.m_voxels = st.m_voxels
      ∧ ∃ x' ez e ey,
          lineScan ctx st.voxel_copy y z c (ctx.space_size_x - 1 - x) x = some x'
          ∧ edgeGrowZ ctx st.voxel_copy x x' y c (ctx.space_size_z - 1 - z) z = some ez
          ∧ edgeMeasure ctx l r st.voxel_copy st.en y x x' z ez c = some (e, ey)
          ∧ removeCube ctx x x' z ez (ey + 1 - y) y st.voxel_copy = some st'.voxel_copy
          ∧ xe = x' ∧ st'.m_edges = st.m_edges ++ [e] ∧ st'.en = st.en + 1 := by
  unfold edgeBranch at h
  cases hl : lineScan ctx st.voxel_copy y z c (ctx.space_size_x - 1 - x) x with
  | none => rw [hl] at h; exact absurd h (by simp)
  | some x' =>
    rw [hl] at h
    simp only [] at h
    cases hg : edgeGrowZ ctx st.voxel_copy x x' y c (ctx.space_size_z - 1 - z) z with
    | none => rw [hg] at h; exact absurd h (by simp)
    | some ez =>
      rw [hg] at h
      simp only [] at h
      cases hm : edgeMeasure ctx l r st.voxel_copy st.en y x x' z ez c with
      | none => rw [hm] at h; exact absurd h (by simp)
      | some p =>
        obtain ⟨e, ey⟩ := p
        rw [hm] at h
        simp only [] at h
        cases hd : removeCube ctx x x' z ez (ey + 1 - y) y st.voxel_copy with
        | none => rw [hd] at h; exact absurd h (by simp)
        | some data =>
          rw [hd] at h
          simp only [Option.some.injEq, Prod.mk.injEq] at h
          obtain ⟨hxe, hst⟩ := h
          subst hxe hst
          exact ⟨removeCube_zeroed ctx _ _ _ _ _ _ _ _ hd, rfl, x', ez, e, ey, rfl, hg, hm,
            hd, rfl, rfl, rfl⟩

theorem cellBody_zeroed (ctx : MergeCtx) (y z x : Nat) (st : MergeState) {xe : Nat}
    {st' : MergeState} (h : cellBody ctx y z x st = some (xe, st')) :
    Zeroed st.voxel_copy st'.voxel_copy := by
  unfold cellBody at h
  cases hr : readVoxel st.voxel_copy (ctx.off x y z) with
  | none => rw [hr] at h; exact absurd h (by simp)
  | some c =>
    rw [hr] at h
    simp only at h
    split at h
    · simp only [Option.some.injEq, Prod.mk.injEq] at h
      rw [← h.2]
      exact Zeroed.refl _
    · split at h
      · split at h
        · exact (edgeBranch_zeroed ctx _ _ _ _ _ _ _ h).1
        · exact (pushRect_zeroed ctx _ _ _ _ _ h).1
      · exact (pushRect_zeroed ctx _ _ _ _ _ h).1

theorem RightFree_of_zeroed {markers : Option (Nat × Nat)} {data data' : List Nat}
    (h : RightFree markers data) (hz : Zeroed data data') : RightFree markers data' := by
  intro l r hm i hi
  rcases hz.2 i with h1 | h1
  · rw [h1] at hi ⊢
    exact h l r hm i hi
  · exact h1

theorem readVoxel_getD {data : List Nat} {off : Int} {c : Nat}
    (h : readVoxel data off = some c) : data.getD off.toNat 0 = c := by
  unfold readVoxel at h
  split at h
  · rw [List.getD_eq_getElem?_getD, h]
    rfl
  · exact absurd h (by simp)

theorem edgeGrowZ_generalPath (ctx : MergeCtx) (hinv : ctx.inversep = none)
    (h0 : 0 ≤ ctx.sizes.x) (h1 : 0 ≤ ctx.sizes.y) (h2 : 0 ≤ ctx.sizes.z)
    (data : List Nat) (sx x y c : Nat) :
    ∀ (n ez : Nat),
      edgeGrowZ ctx.generalPath data sx x y c n ez = edgeGrowZ ctx data sx x y c n ez := by
  intro n
  induction n with
  | zero => intro ez; rfl
  | succ n ih =>
    intro ez
    have ha : AllVoxelsSameColor data sx x y (ez + 1 : Nat) ctx.model (some identityMatrix) c
        ctx.sizes = AllVoxelsSameColor data sx x y (ez + 1 : Nat) ctx.model none c ctx.sizes :=
      AllVoxelsSameColor_loop_identity data y _ ctx.model c ctx.sizes (Int.natCast_nonneg _)
        h0 h1 h2 _ _ (Int.natCast_nonneg _)
    simp only [edgeGrowZ, MergeCtx.generalPath, hinv, ha]
    cases AllVoxelsSameColor data sx x y (ez + 1 : Nat) ctx.model none c ctx.sizes with
    | none => rfl
    | some b =>
      cases b with
      | false => rfl
      | true =>
        have := ih (ez + 1)
        simp only [MergeCtx.generalPath, hinv] at this
        exact this

theorem removeRows_generalPath (ctx : MergeCtx) (hinv : ctx.inversep = none)
    (h0 : 0 ≤ ctx.sizes.x) (h1 : 0 ≤ ctx.sizes.y) (h2 : 0 ≤ ctx.sizes.z)
    (sx x ry : Nat) :
    ∀ (n rz : Nat) (data : List Nat),
      removeRows ctx.generalPath sx x ry n rz data = removeRows ctx sx x ry n rz data := by
  intro n
  induction n with
  | zero => intro rz data; rfl
  | succ n ih =>
    intro rz data
    have hr : RemoveVoxels data sx x ry rz ctx.model (some identityMatrix) ctx.sizes
        = RemoveVoxels data sx x ry rz ctx.model none ctx.sizes :=
      RemoveVoxels_loop_identity ry _ ctx.model ctx.sizes (Int.natCast_nonneg _)
        h0 h1 h2 _ _ data (Int.natCast_nonneg _)
    simp only [removeRows, MergeCtx.generalPath, hinv, hr]
    cases RemoveVoxels data sx x ry rz ctx.model none ctx.sizes with
    | none => rfl
    | some d =>
      have := ih (rz + 1) d
      simp only [MergeCtx.generalPath, hinv] at this
      exact this

theorem removeCube_generalPath (ctx : MergeCtx) (hinv : ctx.inversep = none)
    (h0 : 0 ≤ ctx.sizes.x) (h1 : 0 ≤ ctx.sizes.y) (h2 : 0 ≤ ctx.sizes.z)
    (sx x sz ez : Nat) :
    ∀ (n ry : Nat) (data : List Nat),
      removeCube ctx.generalPath sx x sz ez n ry data = removeCube ctx sx x sz ez n ry data := by
  intro n
  induction n with
  | zero => intro ry data; rfl
  | succ n ih =>
    intro ry data
    simp only [removeCube, removeRows_generalPath ctx hinv h0 h1 h2, ih]

theorem edgeMeasure_generalPath (ctx : MergeCtx) (hinv : ctx.inversep = none)
    (h0 : 0 ≤ ctx.sizes.x) (h1 : 0 ≤ ctx.sizes.y) (h2 : 0 ≤ ctx.sizes.z)
    (l r : Nat) (data : List Nat) (en : Int) (y sx x sz ez c : Nat) (hc : c ≠ r) :
    edgeMeasure ctx.generalPath l r data en y sx x sz ez c
      = edgeMeasure ctx l r data en y sx x sz ez c := by
  have hoff : ∀ (a b : Nat) (z : Int),
      ctx.generalPath.off (a : Int) (b : Int) z = ctx.off (a : Int) (b : Int) z :=
    off_generalPath_nat ctx hinv h0 h1 h2
  have hf : ctx.generalPath.fuel = ctx.fuel := rfl
  have hdx : ctx.generalPath.dx = ctx.dx := rfl
  have hdy : ctx.generalPath.dy = ctx.dy := rfl
  have hdz : ctx.generalPath.dz = ctx.dz := rfl
  have hno : ctx.generalPath.area_no = ctx.area_no := rfl
  unfold edgeMeasure
  simp only [hoff, hf, hdx, hdy, hdz, hno, if_neg hc]

theorem edgeBranch_generalPath (ctx : MergeCtx) (hinv : ctx.inversep = none)
    (h0 : 0 ≤ ctx.sizes.x) (h1 : 0 ≤ ctx.sizes.y) (h2 : 0 ≤ ctx.sizes.z)
    (l r y z x c : Nat) (st : MergeState) (hc : c ≠ r) :
    edgeBranch ctx.generalPath l r y z x c st = edgeBranch ctx l r y z x c st := by
  have hsx : ctx.generalPath.space_size_x = ctx.space_size_x := rfl
  have hsz : ctx.generalPath.space_size_z = ctx.space_size_z := rfl
  unfold edgeBranch
  simp only [lineScan_generalPath ctx hinv h0 h1 h2, edgeGrowZ_generalPath ctx hinv h0 h1 h2,
    edgeMeasure_generalPath ctx hinv h0 h1 h2 _ _ _ _ _ _ _ _ _ _ hc,
    removeCube_generalPath ctx hinv h0 h1 h2, hsx, hsz]

theorem cellBody_generalPath (ctx : MergeCtx) (hinv : ctx.inversep = none)
    (h0 : 0 ≤ ctx.sizes.x) (h1 : 0 ≤ ctx.sizes.y) (h2 : 0 ≤ ctx.sizes.z)
    (y z x : Nat) (st : MergeState) (hfree : RightFree ctx.markers st.voxel_copy) :
    cellBody ctx.generalPath y z x st = cellBody ctx y z x st := by
  have hm : ctx.generalPath.markers = ctx.markers := rfl
  unfold cellBody
  rw [off_generalPath_nat ctx hinv h0 h1 h2, hm]
  cases hr : readVoxel st.voxel_copy (ctx.off x y z) with
  | none => rfl
  | some c =>
    simp only [pushRect_generalPath ctx hinv h0 h1 h2]
    by_cases hc0 : c = 0
    · simp only [hc0, if_true]
    · simp only [hc0, if_false]
      cases hmk : ctx.markers with
      | none => rfl
      | some lr =>
        obtain ⟨l, r⟩ := lr
        simp only
        have hcr : c ≠ r := by
          intro hcr
          have hg := readVoxel_getD hr
          exact hc0 (by rw [← hg]; exact hfree l r hmk _ (by rw [hg, hcr]))
        rw [edgeBranch_generalPath ctx hinv h0 h1 h2 _ _ _ _ _ _ _ hcr]

theorem xLoop_generalPath (ctx : MergeCtx) (hinv : ctx.inversep = none)
    (h0 : 0 ≤ ctx.sizes.x) (h1 : 0 ≤ ctx.sizes.y) (h2 : 0 ≤ ctx.sizes.z) (y z : Nat) :
    ∀ (fuel x : Nat) (st : MergeState), RightFree ctx.markers st.voxel_copy →
      xLoop ctx.generalPath y z fuel x st = xLoop ctx y z fuel x st
      ∧ ∀ st', xLoop ctx y z fuel x st = some st' →
          RightFree ctx.markers st'.voxel_copy := by
  have hsx : ctx.generalPath.space_size_x = ctx.space_size_x := rfl
  intro fuel
  induction fuel with
  | zero =>
    intro x st hfree
    refine ⟨rfl, ?_⟩
    intro st' h
    unfold xLoop at h
    split at h
    · exact absurd h (by simp)
    · simp only [Option.some.injEq] at h
      rw [← h]; exact hfree
  | succ n ih =>
    intro x st hfree
    simp only [xLoop, cellBody_generalPath ctx hinv h0 h1 h2 _ _ _ _ hfree, hsx]
    by_cases hx : x < ctx.space_size_x
    · simp only [hx, if_true]
      cases hb : cellBody ctx y z x st with
      | none => exact ⟨rfl, fun st' h => absurd h (by simp)⟩
      | some p =>
        obtain ⟨x', st1⟩ := p
        exact ih (x' + 1) st1 (RightFree_of_zeroed hfree (cellBody_zeroed ctx _ _ _ _ hb))
    · simp only [hx, if_false, Option.some.injEq, true_and]
      intro st' h
      rw [← h]; exact hfree

theorem zLoop_generalPath (ctx : MergeCtx) (hinv : ctx.inversep = none)
    (h0 : 0 ≤ ctx.sizes.x) (h1 : 0 ≤ ctx.sizes.y) (h2 : 0 ≤ ctx.sizes.z) (y : Nat) :
    ∀ (n z : Nat) (st : MergeState), RightFree ctx.markers st.voxel_copy →
      zLoop ctx.generalPath y n z st = zLoop ctx y n z st
      ∧ ∀ st', zLoop ctx y n z st = some st' → RightFree ctx.markers st'.voxel_copy := by
  have hsx : ctx.generalPath.space_size_x = ctx.space_size_x := rfl
  intro n
  induction n with
  | zero =>
    intro z st hfree
    refine ⟨rfl, ?_⟩
    intro st' h
    simp only [zLoop, Option.some.injEq] at h
    rw [← h]; exact hfree
  | succ n ih =>
    intro z st hfree
    obtain ⟨e1, e2⟩ := xLoop_generalPath ctx hinv h0 h1 h2 y z ctx.space_size_x 0 st hfree
    simp only [zLoop, hsx, e1]
    cases hb : xLoop ctx y z ctx.space_size_x 0 st with
    | none => exact ⟨rfl, fun st' h => absurd h (by simp)⟩
    | some st1 => exact ih (z + 1) st1 (e2 st1 hb)

theorem yLoop_generalPath (ctx : MergeCtx) (hinv : ctx.inversep = none)
    (h0 : 0 ≤ ctx.sizes.x) (h1 : 0 ≤ ctx.sizes.y) (h2 : 0 ≤ ctx.sizes.z) :
    ∀ (n y : Nat) (st : MergeState), RightFree ctx.markers st.voxel_copy →
      yLoop ctx.generalPath n y st = yLoop ctx n y st
      ∧ ∀ st', yLoop ctx n y st = some st' → RightFree ctx.markers st'.voxel_copy := by
  have hsz : ctx.generalPath.space_size_z = ctx.space_size_z := rfl
  intro n
  induction n with
  | zero =>
    intro y st hfree
    refine ⟨rfl, ?_⟩
    intro st' h
    simp only [yLoop, Option.some.injEq] at h
    rw [← h]; exact hfree
  | succ n ih =>
    intro y st hfree
    obtain ⟨e1, e2⟩ := zLoop_generalPath ctx hinv h0 h1 h2 y ctx.space_size_z 0 st hfree
    simp only [yLoop, hsz, e1]
    cases hb : zLoop ctx y ctx.space_size_z 0 st with
    | none => exact ⟨rfl, fun st' h => absurd h (by simp)⟩
    | some st1 => exact ih (y + 1) st1 (e2 st1 hb)

theorem RightFree_of_not_mem (markers : Option (Nat × Nat)) (data : List Nat)
    (h : ∀ l r, markers = some (l, r) → ∀ v ∈ data, v ≠ r) : RightFree markers data := by
  intro l r hm i hi
  by_cases hlt : i < data.length
  · exfalso
    rw [List.getD_eq_getElem _ _ hlt] at hi
    exact h l r hm _ (List.getElem_mem hlt) hi
  · exact List.getD_eq_default _ _ (not_lt.mp hlt)

/-! ## World coordinates of the rectangles (claim C17) -/

/-- Counterexample to C17 as stated: the 2 x 1 x 2 grid of colour 3 translated by
`(10, 20, 30)` yields one rectangle for the local cells `(0 .. 1, 0, 0 .. 1)`;
its world coordinates are `sx = 9`, `ex = 10`, `y = 20`, `sz = 29`, `ez = 30`
and not the local coordinates plus the translation, `sx = 10`, `ex = 11`,
`y = 20`, `sz = 30`, `ez = 31`. -/
theorem translated_rect_is_centred :
    ∃ area, importInstance none 0 true gridTranslated identityMatrix 100 [] 0
        = some (area, [], 0)
      ∧ (gridTranslated.transform.m30, gridTranslated.transform.m31,
          gridTranslated.transform.m32) = (10, 20, 30)
      ∧ (∀ x z, x < 2 → z < 2 → cellAt 2 1 gridTranslated.model.voxel_data x 0 z = 3)
      ∧ area.m_voxels = [⟨3, 9, 10, 20, 29, 30, 0⟩]
      ∧ area.m_voxels ≠ [⟨3, 0 + 10, 1 + 10, 0 + 20, 0 + 30, 1 + 30, 0⟩] := by
  refine ⟨_, rfl, by decide, ?_, by decide, by decide⟩
  intro x z hx hz
  interval_cases x <;> interval_cases z <;> decide

/-- C17 (amended): for every instance with the identity linear map and integer
translation `(tx, ty, tz)` whose coordinates fit 16 bits, the area origin is
`(-size_x / 2 + tx, -size_y / 2 + ty, -size_z / 2 + tz)` (C's truncating
division), and the world coordinates stored in each emitted rectangle are the
local grid coordinates of the cells it covers plus that origin. -/
theorem importInstance_world_coordinates (markers : Option (Nat × Nat)) (fuel : Nat)
    (optimize : Bool) (inst : ogt_vox_instance) (inverse : Matrix) (m_no : Int)
    (edges : List RVX_EDGE) (en : Int)
    (hT : instanceMatrix inst.transform = identityMatrix) (hI : inverse = identityMatrix)
    (hlen : inst.model.voxel_data.length
      = inst.model.size_x * inst.model.size_y * inst.model.size_z)
    (hfit : WorldFits inst)
    {area : Area} {es : List RVX_EDGE} {en' : Int}
    (h : importInstance markers fuel optimize inst inverse m_no edges en = some (area, es, en')) :
    area.m_sx = Int.tdiv (-(inst.model.size_x : Int)) 2 + inst.transform.m30
    ∧ area.m_sy = Int.tdiv (-(inst.model.size_y : Int)) 2 + inst.transform.m31
    ∧ area.m_sz = Int.tdiv (-(inst.model.size_z : Int)) 2 + inst.transform.m32
    ∧ ∀ v ∈ area.m_voxels, ∃ r : LRect,
        (r.sx ≤ r.ex ∧ r.ex < inst.model.size_x ∧ r.sz ≤ r.ez ∧ r.ez < inst.model.size_z
          ∧ r.y < inst.model.size_y)
        ∧ (∀ x z, r.sx ≤ x → x ≤ r.ex → r.sz ≤ z → z ≤ r.ez →
            cellAt inst.model.size_x inst.model.size_y inst.model.voxel_data x r.y z
              = v.colorIndex)
        ∧ v.sx = r.sx + area.m_sx ∧ v.ex = r.ex + area.m_sx ∧ v.y = r.y + area.m_sy
        ∧ v.sz = r.sz + area.m_sz ∧ v.ez = r.ez + area.m_sz := by
  obtain ⟨L, data', ha, hinv⟩ := importInstance_identity_colour markers fuel optimize inst
    inverse m_no edges en hT hI hlen h
  have hctx := instanceCtx_identity markers fuel optimize inst inverse m_no hT hI
  obtain ⟨fx, fy, fz⟩ := hfit
  unfold AxisFits at fx fy fz
  subst ha
  refine ⟨rfl, rfl, rfl, ?_⟩
  intro v hv
  simp only [List.mem_map] at hv
  obtain ⟨r, hr, hrv⟩ := hv
  obtain ⟨r1, r2, r3, r4, r5, r6, r7⟩ := hinv.rects r hr
  have htv := toVoxel_of_fits (instanceCtx markers fuel optimize inst inverse m_no) r
    (by rw [hctx]; exact fx) (by rw [hctx]; exact fy) (by rw [hctx]; exact fz) r1
    (by rw [hctx]; exact r2) r3 (by rw [hctx]; exact r4) (by rw [hctx]; exact r5)
  rw [htv] at hrv
  subst hrv
  simp only [hctx]
  exact ⟨r, ⟨r1, r2, r3, r4, r5⟩, r7, rfl, rfl, rfl, rfl, rfl⟩

/-- Witness of C17 (amended): the translated 2 x 1 x 2 grid. -/
theorem importInstance_world_coordinates_witness :
    ∃ area, importInstance none 0 true gridTranslated identityMatrix 100 [] 0
        = some (area, [], 0)
      ∧ area.m_sx = Int.tdiv (-((2 : Nat) : Int)) 2 + 10
      ∧ area.m_sy = Int.tdiv (-((1 : Nat) : Int)) 2 + 20
      ∧ area.m_sz = Int.tdiv (-((2 : Nat) : Int)) 2 + 30 :=
  ⟨_, rfl,
    (importInstance_world_coordinates none 0 true gridTranslated identityMatrix 100 [] 0
      (by decide) rfl (by decide) (by decide) rfl).1,
    rfl, rfl⟩

/-! ## Without optimisation no cell is merged (claim C18) -/

theorem mkVoxel_single (ctx : MergeCtx) (c x y z : Nat) :
    (mkVoxel ctx c x x y z z).ex = (mkVoxel ctx c x x y z z).sx
      ∧ (mkVoxel ctx c x x y z z).ez = (mkVoxel ctx c x x y z z).sz :=
  ⟨rfl, rfl⟩

theorem cellBody_single (ctx : MergeCtx) (hopt : ctx.optimize = false) (y z x : Nat)
    (st : MergeState) (hP : ∀ v ∈ st.m_voxels, v.ex = v.sx ∧ v.ez = v.sz) {xe : Nat}
    {st' : MergeState} (h : cellBody ctx y z x st = some (xe, st')) :
    ∀ v ∈ st'.m_voxels, v.ex = v.sx ∧ v.ez = v.sz := by
  have hpush : ∀ c, pushRect ctx y z x c st = some (xe, st') →
      ∀ v ∈ st'.m_voxels, v.ex = v.sx ∧ v.ez = v.sz := by
    intro c hp v hv
    obtain ⟨-, -, -, ez, hvox, hsingle⟩ := pushRect_zeroed ctx y z x c st hp
    obtain ⟨hx, hz⟩ := hsingle hopt
    rw [hvox, hx, hz, List.mem_append, List.mem_singleton] at hv
    rcases hv with hv | hv
    · exact hP v hv
    · rw [hv]; exact mkVoxel_single ctx c x y z
  unfold cellBody at h
  cases hr : readVoxel st.voxel_copy (ctx.off x y z) with
  | none => rw [hr] at h; exact absurd h (by simp)
  | some c =>
    rw [hr] at h
    simp only at h
    split at h
    · simp only [Option.some.injEq, Prod.mk.injEq] at h
      rw [← h.2]
      exact hP
    · split at h
      · split at h
        · rw [(edgeBranch_zeroed ctx _ _ _ _ _ _ _ h).2.1]
          exact hP
        · exact hpush c h
      · exact hpush c h

theorem xLoop_single (ctx : MergeCtx) (hopt : ctx.optimize = false) (y z : Nat) :
    ∀ (fuel x : Nat) (st st' : MergeState),
      (∀ v ∈ st.m_voxels, v.ex = v.sx ∧ v.ez = v.sz) →
      xLoop ctx y z fuel x st = some st' →
      ∀ v ∈ st'.m_voxels, v.ex = v.sx ∧ v.ez = v.sz := by
  intro fuel
  induction fuel with
  | zero =>
    intro x st st' hP h
    unfold xLoop at h
    split at h
    · exact absurd h (by simp)
    · simp only [Option.some.injEq] at h
      rw [← h]; exact hP
  | succ n ih =>
    intro x st st' hP h
    rw [xLoop] at h
    split at h
    · cases hb : cellBody ctx y z x st with
      | none => rw [hb] at h; exact absurd h (by simp)
      | some p =>
        obtain ⟨x', st1⟩ := p
        rw [hb] at h
        exact ih (x' + 1) st1 st' (cellBody_single ctx hopt y z x st hP hb) h
    · simp only [Option.some.injEq] at h
      rw [← h]; exact hP

theorem zLoop_single (ctx : MergeCtx) (hopt : ctx.optimize = false) (y : Nat) :
    ∀ (n z : Nat) (st st' : MergeState),
      (∀ v ∈ st.m_voxels, v.ex = v.sx ∧ v.ez = v.sz) →
      zLoop ctx y n z st = some st' →
      ∀ v ∈ st'.m_voxels, v.ex = v.sx ∧ v.ez = v.sz := by
  intro n
  induction n with
  | zero =>
    intro z st st' hP h
    simp only [zLoop, Option.some.injEq] at h
    rw [← h]; exact hP
  | succ n ih =>
    intro z st st' hP h
    rw [zLoop] at h
    cases hb : xLoop ctx y z ctx.space_size_x 0 st with
    | none => rw [hb] at h; exact absurd h (by simp)
    | some st1 =>
      rw [hb] at h
      exact ih (z + 1) st1 st' (xLoop_single ctx hopt y z _ _ st st1 hP hb) h

theorem yLoop_single (ctx : MergeCtx) (hopt : ctx.optimize = false) :
    ∀ (n y : Nat) (st st' : MergeState),
      (∀ v ∈ st.m_voxels, v.ex = v.sx ∧ v.ez = v.sz) →
      yLoop ctx n y st = some st' →
      ∀ v ∈ st'.m_voxels, v.ex = v.sx ∧ v.ez = v.sz := by
  intro n
  induction n with
  | zero =>
    intro y st st' hP h
    simp only [yLoop, Option.some.injEq] at h
    rw [← h]; exact hP
  | succ n ih =>
    intro y st st' hP h
    rw [yLoop] at h
    cases hb : zLoop ctx y ctx.space_size_z 0 st with
    | none => rw [hb] at h; exact absurd h (by simp)
    | some st1 =>
      rw [hb] at h
      exact ih (y + 1) st1 st' (zLoop_single ctx hopt y _ _ st st1 hP hb) h

theorem importInstance_single (markers : Option (Nat × Nat)) (fuel : Nat)
    (inst : ogt_vox_instance) (inverse : Matrix) (m_no : Int) (edges : List RVX_EDGE) (en : Int)
    {area : Area} {es : List RVX_EDGE} {en' : Int}
    (h : importInstance markers fuel false inst inverse m_no edges en = some (area, es, en')) :
    ∀ v ∈ area.m_voxels, v.ex = v.sx ∧ v.ez = v.sz := by
  unfold importInstance at h
  simp only at h
  split at h
  · exact absurd h (by simp)
  · split at h
    · exact absurd h (by simp)
    · rename_i st hrun
      simp only [Option.some.injEq, Prod.mk.injEq] at h
      rw [← h.1]
      exact yLoop_single _ rfl _ _ _ st (by simp) hrun

/-- Counterexample to C18 as stated: with `optimize = false` the run of two
cells of colour 3 in the 2 x 1 x 1 grid is emitted as two rectangles of one
cell each, not as one rectangle with `ex - sx = 1`. -/
theorem run_not_merged_without_optimize :
    ∃ area, importInstance none 0 false gridRun identityMatrix 100 [] 0 = some (area, [], 0)
      ∧ cellAt 2 1 gridRun.model.voxel_data 0 0 0 = 3
      ∧ cellAt 2 1 gridRun.model.voxel_data 1 0 0 = 3
      ∧ area.m_voxels = [⟨3, -1, -1, 0, 0, 0, 0⟩, ⟨3, 0, 0, 0, 0, 0, 0⟩]
      ∧ ¬ ∃ v ∈ area.m_voxels, v.ex - v.sx = 1 := by
  refine ⟨_, rfl, by decide, by decide, by decide, by decide⟩

/-- C18 (amended): the line merge along +X is part of the optimisation, like
the +Z growth: with `optimize = false`, for every instance (any transform, any
edge markers) every rectangle that `ImportVOX` emits is a single cell
(`ex = sx`, `ez = sz`); for the identity transform and a grid without
edge-marker cells the import returns and every non-empty source cell is covered
by exactly one of these single-cell rectangles, so a run of `k` cells gives `k`
rectangles. -/
theorem optimize_off_single_cells (markers : Option (Nat × Nat)) (fuel : Nat)
    (inst : ogt_vox_instance) (inverse : Matrix) (m_no : Int)
    (edges : List RVX_EDGE) (en : Int)
    (hT : instanceMatrix inst.transform = identityMatrix) (hI : inverse = identityMatrix)
    (hlen : inst.model.voxel_data.length
      = inst.model.size_x * inst.model.size_y * inst.model.size_z)
    (hnm : ∀ c ∈ inst.model.voxel_data, isEdgeMarker markers c = false)
    (hfit : WorldFits inst) :
    (∀ (inst' : ogt_vox_instance) (inverse' : Matrix) (area : Area) (es : List RVX_EDGE)
        (en' : Int),
        importInstance markers fuel false inst' inverse' m_no edges en = some (area, es, en') →
        ∀ v ∈ area.m_voxels, v.ex = v.sx ∧ v.ez = v.sz)
    ∧ ∃ area, importInstance markers fuel false inst inverse m_no edges en
        = some (area, edges, en)
      ∧ (∀ v ∈ area.m_voxels, v.ex = v.sx ∧ v.ez = v.sz)
      ∧ (∀ x y z : Int, area.m_voxels.countP (fun v => decide (v.covers x y z))
          = if sourceCell inst.model (x - area.m_sx) (y - area.m_sy) (z - area.m_sz) ≠ 0
            then 1 else 0) := by
  refine ⟨fun inst' inverse' area es en' h =>
    importInstance_single markers fuel inst' inverse' m_no edges en h, ?_⟩
  obtain ⟨L, data', himp, hinv⟩ := importInstance_identity_local markers fuel false inst
    inverse m_no edges en hT hI hlen hnm
  have hctx := instanceCtx_identity markers fuel false inst inverse m_no hT hI
  obtain ⟨fx, fy, fz⟩ := hfit
  unfold AxisFits at fx fy fz
  refine ⟨_, himp, importInstance_single markers fuel inst inverse m_no edges en himp, ?_⟩
  intro x y z
  have h := world_cover_count (instanceCtx markers fuel false inst inverse m_no)
    inst.model.voxel_data data' L (by rw [hctx]; exact fx) (by rw [hctx]; exact fy)
    (by rw [hctx]; exact fz) (by rw [hctx]; exact hinv) x y z
  simp only
  rw [h]
  simp only [hctx]
  by_cases hs : sourceCell inst.model (x - axisOrigin inst.model.size_x inst.transform.m30)
      (y - axisOrigin inst.model.size_y inst.transform.m31)
      (z - axisOrigin inst.model.size_z inst.transform.m32) ≠ 0
  · rw [if_pos hs, if_pos ((sourceCell_eq inst _ _ _).mp hs)]
  · rw [if_neg hs, if_neg (fun h' => hs ((sourceCell_eq inst _ _ _).mpr h'))]

/-- Witness of C18 (amended): the run of two cells. -/
theorem optimize_off_single_cells_witness :
    ∃ area, importInstance none 0 false gridRun identityMatrix 100 [] 0 = some (area, [], 0)
      ∧ (∀ v ∈ area.m_voxels, v.ex = v.sx ∧ v.ez = v.sz) :=
  match (optimize_off_single_cells none 0 gridRun identityMatrix 100 [] 0
      (by decide) rfl (by decide) (by decide) (by decide)).2 with
  | ⟨area, h1, h2, _⟩ => ⟨area, h1, h2⟩

/-! ## The edges are well formed (claim C19) -/

theorem lineScan_le (ctx : MergeCtx) (data : List Nat) (y z c : Nat) :
    ∀ (n x x' : Nat), lineScan ctx data y z c n x = some x' → x ≤ x' := by
  intro n
  induction n with
  | zero =>
    intro x x' h
    simp only [lineScan, Option.some.injEq] at h
    omega
  | succ n ih =>
    intro x x' h
    rw [lineScan] at h
    cases hr : readVoxel data (ctx.off (x + 1 : Nat) y z) with
    | none => rw [hr] at h; exact absurd h (by simp)
    | some v =>
      rw [hr] at h
      simp only at h
      split at h
      · have := ih (x + 1) x' h
        omega
      · simp only [Option.some.injEq] at h
        omega

theorem edgeGrowZ_le (ctx : MergeCtx) (data : List Nat) (sx x y c : Nat) :
    ∀ (n ez ez' : Nat), edgeGrowZ ctx data sx x y c n ez = some ez' → ez ≤ ez' := by
  intro n
  induction n with
  | zero =>
    intro ez ez' h
    simp only [edgeGrowZ, Option.some.injEq] at h
    omega
  | succ n ih =>
    intro ez ez' h
    rw [edgeGrowZ] at h
    cases ha : AllVoxelsSameColor data sx x y (ez + 1 : Nat) ctx.model ctx.inversep c
        ctx.sizes with
    | none => rw [ha] at h; exact absurd h (by simp)
    | some b =>
      rw [ha] at h
      cases b with
      | false =>
        simp only [Option.some.injEq] at h
        omega
      | true =>
        have := ih (ez + 1) ez' h
        omega

theorem scanWhile_le (cond : Nat → Option Bool) :
    ∀ (fuel i j : Nat), scanWhile cond fuel i = some j → i ≤ j := by
  intro fuel
  induction fuel with
  | zero =>
    intro i j h
    exact absurd h (by simp [scanWhile])
  | succ n ih =>
    intro i j h
    rw [scanWhile] at h
    cases hc : cond i with
    | none => rw [hc] at h; exact absurd h (by simp)
    | some b =>
      rw [hc] at h
      cases b with
      | false =>
        simp only [Option.some.injEq] at h
        omega
      | true =>
        have := ih (i + 1) j h
        omega

theorem edgeMeasure_spec (ctx : MergeCtx) (l r : Nat) (data : List Nat) (en : Int)
    (y sx x sz ez c : Nat) {e : RVX_EDGE} {ey : Nat}
    (h : edgeMeasure ctx l r data en y sx x sz ez c = some (e, ey)) :
    e.sx = sx + ctx.dx ∧ e.ex = x + ctx.dx ∧ e.sy = y + ctx.dy + 1 ∧ e.ey = ey + ctx.dy
      ∧ e.sz = sz + ctx.dz ∧ e.ez = ez + ctx.dz ∧ 1 ≤ e.spacing ∧ y + 1 ≤ ey
      ∧ e.no = en ∧ e.area_no = ctx.area_no ∧ e.edge_dir = (if c = l then -1 else 1) := by
  unfold edgeMeasure at h
  have key : ∀ (spacing ey' : Nat) (e' : RVX_EDGE),
      scanWhile (fun s => (readVoxel data (ctx.off x (y + 1 + s : Nat) ez)).map
        (fun v => v == 0)) ctx.fuel 1 = some spacing →
      scanWhile (fun ey => (readVoxel data (ctx.off sx ey sz)).map (fun v => v != c))
        ctx.fuel (y + 1) = some ey' →
      e'.sx = sx + ctx.dx → e'.ex = x + ctx.dx → e'.sy = y + ctx.dy + 1 →
      e'.ey = ey' + ctx.dy → e'.sz = sz + ctx.dz → e'.ez = ez + ctx.dz →
      e'.spacing = spacing → e'.no = en → e'.area_no = ctx.area_no →
      e'.edge_dir = (if c = l then -1 else 1) → e' = e → ey' = ey →
      e.sx = sx + ctx.dx ∧ e.ex = x + ctx.dx ∧ e.sy = y + ctx.dy + 1 ∧ e.ey = ey + ctx.dy
        ∧ e.sz = sz + ctx.dz ∧ e.ez = ez + ctx.dz ∧ 1 ≤ e.spacing ∧ y + 1 ≤ ey
        ∧ e.no = en ∧ e.area_no = ctx.area_no ∧ e.edge_dir = (if c = l then -1 else 1) := by
    intro spacing ey' e' hsp hey a1 a2 a3 a4 a5 a6 a7 a8 a9 a10 he hey'
    subst he hey'
    have h1 := scanWhile_le _ _ _ _ hsp
    have h2 := scanWhile_le _ _ _ _ hey
    refine ⟨a1, a2, a3, a4, a5, a6, ?_, h2, a8, a9, a10⟩
    rw [a7]
    omega
  by_cases hl : c = l
  · simp only [if_pos hl, bind, Option.bind_eq_some, pure, Option.some.injEq,
      Prod.mk.injEq] at h
    obtain ⟨spacing, hsp, tl, -, tr, -, bl, -, br, -, width, -, height, -, ey', hey, he, hey'⟩ := h
    exact key spacing ey' _ hsp hey rfl rfl rfl rfl rfl rfl rfl rfl rfl (by simp only [if_pos hl])
      he hey'
  · by_cases hr : c = r
    · simp only [if_neg hl, if_pos hr, bind, Option.bind_eq_some, pure, Option.some.injEq,
        Prod.mk.injEq] at h
      obtain ⟨spacing, hsp, tl, -, tr, -, bl, -, br, -, width, -, height, -, ey', hey, he, hey'⟩ :=
        h
      exact key spacing ey' _ hsp hey rfl rfl rfl rfl rfl rfl rfl rfl rfl
        (by simp only [if_neg hl]) he hey'
    · simp only [if_neg hl, if_neg hr, bind, Option.bind_eq_some, pure, Option.some.injEq,
        Prod.mk.injEq, exists_eq_left'] at h
      obtain ⟨spacing, hsp, tl, -, tr, -, bl, -, br, -, ey', hey, he, hey'⟩ := h
      exact key spacing ey' _ hsp hey rfl rfl rfl rfl rfl rfl rfl rfl rfl
        (by simp only [if_neg hl]) he hey'

theorem cellBody_edges (ctx : MergeCtx) (y z x : Nat) (st : MergeState) {xe : Nat}
    {st' : MergeState} (h : cellBody ctx y z x st = some (xe, st')) :
    ∃ new, st'.m_edges = st.m_edges ++ new ∧ ∀ e ∈ new, EdgeWellFormed e := by
  have hpush : ∀ c, pushRect ctx y z x c st = some (xe, st') →
      ∃ new, st'.m_edges = st.m_edges ++ new ∧ ∀ e ∈ new, EdgeWellFormed e := by
    intro c hp
    exact ⟨[], by rw [(pushRect_zeroed ctx y z x c st hp).2.1, List.append_nil], by simp⟩
  unfold cellBody at h
  cases hr : readVoxel st.voxel_copy (ctx.off x y z) with
  | none => rw [hr] at h; exact absurd h (by simp)
  | some c =>
    rw [hr] at h
    simp only at h
    split at h
    · simp only [Option.some.injEq, Prod.mk.injEq] at h
      rw [← h.2]
      exact ⟨[], by rw [List.append_nil], by simp⟩
    · split at h
      · split at h
        · obtain ⟨-, -, x', ez, e, ey, hl, hg, hm, -, -, hed, -⟩ :=
            edgeBranch_zeroed ctx _ _ _ _ _ _ _ h
          refine ⟨[e], hed, ?_⟩
          intro e' he'
          rw [List.mem_singleton] at he'
          subst he'
          obtain ⟨m1, m2, m3, m4, m5, m6, m7, m8, -⟩ := edgeMeasure_spec ctx _ _ _ _ _ _ _ _ _ _ hm
          have hx := lineScan_le ctx _ _ _ _ _ _ _ hl
          have hz := edgeGrowZ_le ctx _ _ _ _ _ _ _ _ hg
          unfold EdgeWellFormed
          rw [m1, m2, m3, m4, m5, m6]
          refine ⟨by omega, by omega, by omega, m7⟩
        · exact hpush c h
      · exact hpush c h

theorem xLoop_edges (ctx : MergeCtx) (y z : Nat) :
    ∀ (fuel x : Nat) (st st' : MergeState), xLoop ctx y z fuel x st = some st' →
      ∃ new, st'.m_edges = st.m_edges ++ new ∧ ∀ e ∈ new, EdgeWellFormed e := by
  intro fuel
  induction fuel with
  | zero =>
    intro x st st' h
    unfold xLoop at h
    split at h
    · exact absurd h (by simp)
    · simp only [Option.some.injEq] at h
      rw [← h]
      exact ⟨[], by rw [List.append_nil], by simp⟩
  | succ n ih =>
    intro x st st' h
    rw [xLoop] at h
    split at h
    · cases hb : cellBody ctx y z x st with
      | none => rw [hb] at h; exact absurd h (by simp)
      | some p =>
        obtain ⟨x', st1⟩ := p
        rw [hb] at h
        obtain ⟨n1, a1, a2⟩ := cellBody_edges ctx y z x st hb
        obtain ⟨n2, b1, b2⟩ := ih (x' + 1) st1 st' h
        refine ⟨n1 ++ n2, by rw [b1, a1, List.append_assoc], ?_⟩
        intro e he
        rcases List.mem_append.mp he with he | he
        · exact a2 e he
        · exact b2 e he
    · simp only [Option.some.injEq] at h
      rw [← h]
      exact ⟨[], by rw [List.append_nil], by simp⟩

theorem zLoop_edges (ctx : MergeCtx) (y : Nat) :
    ∀ (n z : Nat) (st st' : MergeState), zLoop ctx y n z st = some st' →
      ∃ new, st'.m_edges = st.m_edges ++ new ∧ ∀ e ∈ new, EdgeWellFormed e := by
  intro n
  induction n with
  | zero =>
    intro z st st' h
    simp only [zLoop, Option.some.injEq] at h
    rw [← h]
    exact ⟨[], by rw [List.append_nil], by simp⟩
  | succ n ih =>
    intro z st st' h
    rw [zLoop] at h
    cases hb : xLoop ctx y z ctx.space_size_x 0 st with
    | none => rw [hb] at h; exact absurd h (by simp)
    | some st1 =>
      rw [hb] at h
      obtain ⟨n1, a1, a2⟩ := xLoop_edges ctx y z _ _ st st1 hb
      obtain ⟨n2, b1, b2⟩ := ih (z + 1) st1 st' h
      refine ⟨n1 ++ n2, by rw [b1, a1, List.append_assoc], ?_⟩
      intro e he
      rcases List.mem_append.mp he with he | he
      · exact a2 e he
      · exact b2 e he

theorem yLoop_edges (ctx : MergeCtx) :
    ∀ (n y : Nat) (st st' : MergeState), yLoop ctx n y st = some st' →
      ∃ new, st'.m_edges = st.m_edges ++ new ∧ ∀ e ∈ new, EdgeWellFormed e := by
  intro n
  induction n with
  | zero =>
    intro y st st' h
    simp only [yLoop, Option.some.injEq] at h
    rw [← h]
    exact ⟨[], by rw [List.append_nil], by simp⟩
  | succ n ih =>
    intro y st st' h
    rw [yLoop] at h
    cases hb : zLoop ctx y ctx.space_size_z 0 st with
    | none => rw [hb] at h; exact absurd h (by simp)
    | some st1 =>
      rw [hb] at h
      obtain ⟨n1, a1, a2⟩ := zLoop_edges ctx y _ _ st st1 hb
      obtain ⟨n2, b1, b2⟩ := ih (y + 1) st1 st' h
      refine ⟨n1 ++ n2, by rw [b1, a1, List.append_assoc], ?_⟩
      intro e he
      rcases List.mem_append.mp he with he | he
      · exact a2 e he
      · exact b2 e he

/-- C19: whenever the import of an instance returns (edge detection on or off,
every scan ending inside the voxel copy), the edges it appends to the scene all
satisfy `ex >= sx`, `ez >= sz`, `ey >= sy` and `spacing >= 1`; the edges that
the scene held before are kept in front of them. -/
theorem importInstance_edges_well_formed (markers : Option (Nat × Nat)) (fuel : Nat)
    (optimize : Bool) (inst : ogt_vox_instance) (inverse : Matrix) (m_no : Int)
    (edges : List RVX_EDGE) (en : Int) {area : Area} {es : List RVX_EDGE} {en' : Int}
    (h : importInstance markers fuel optimize inst inverse m_no edges en = some (area, es, en')) :
    ∃ new, es = edges ++ new
      ∧ ∀ e ∈ new, e.sx ≤ e.ex ∧ e.sz ≤ e.ez ∧ e.sy ≤ e.ey ∧ 1 ≤ e.spacing := by
  unfold importInstance at h
  simp only at h
  split at h
  · exact absurd h (by simp)
  · split at h
    · exact absurd h (by simp)
    · rename_i st hrun
      simp only [Option.some.injEq, Prod.mk.injEq] at h
      obtain ⟨new, h1, h2⟩ := yLoop_edges _ _ _ _ st hrun
      exact ⟨new, by rw [← h.2.1, h1], h2⟩

/-- Witness of C19: the grid with a left-marker strip yields one edge. -/
theorem importInstance_edges_well_formed_witness :
    ∃ area es en', importInstance (some (254, 255)) 20 true gridEdgeStrip identityMatrix 100 [] 0
        = some (area, es, en')
      ∧ es.length = 1
      ∧ ∃ new, es = [] ++ new
        ∧ ∀ e ∈ new, e.sx ≤ e.ex ∧ e.sz ≤ e.ez ∧ e.sy ≤ e.ey ∧ 1 ≤ e.spacing :=
  ⟨_, _, _, rfl, rfl,
    importInstance_edges_well_formed (some (254, 255)) 20 true gridEdgeStrip identityMatrix 100
      [] 0 rfl⟩

/-! ## The fixed-point z field (claim C26) -/

theorem toInt16_eq_self_iff (v : Int) : toInt16 v = v ↔ FitsInt16 v := by
  unfold toInt16 FitsInt16
  omega

/-- Counterexample to C26 as stated: the coordinates `sx = 0`, `ex + 1 = 1`,
`y = 0`, `sz = 2048`, `ez + 1 = 2049` all fit the signed 16-bit range, but the z
field of the first vertex is `-32768`, not `16 * sz = 32768`, which no 16-bit
field holds. -/
theorem z_field_wraps_at_2048 :
    FitsInt16 voxelFarRow.sx ∧ FitsInt16 (voxelFarRow.ex + 1) ∧ FitsInt16 voxelFarRow.y
    ∧ FitsInt16 voxelFarRow.sz ∧ FitsInt16 (voxelFarRow.ez + 1)
    ∧ (rvx_emit_voxel voxelFarRow ⟨0, 0, 0, 255⟩ []).take 5
        = [Field.i16 0, Field.i16 0, Field.i16 (-32768), Field.i16 1, Field.u32 (1 <<< 24)]
    ∧ ¬ FitsInt16 (16 * voxelFarRow.sz)
    ∧ toInt16 (16 * voxelFarRow.sz) ≠ 16 * voxelFarRow.sz := by
  refine ⟨by decide, by decide, by decide, by decide, by decide, by decide, by decide, by decide⟩

/-- C26 (amended): for every rectangle whose `sx`, `ex + 1` and `y` fit the
signed 16-bit range and whose rows satisfy `-2048 <= sz` and `ez + 1 <= 2047`
(so that `16 * sz` and `16 * (ez + 1)` fit it too), the six vertices are written
without wrap-around: the x field is `sx` or `ex + 1`, the y field is `y`, the z
field is `16 * sz` or `16 * (ez + 1)`.  The bound on the rows is needed: a z
field holds `16 * z` exactly when `-2048 <= z <= 2047`. -/
theorem rvx_emit_voxel_no_wrap (v : Voxel) (col : Color4) (buf : List Field)
    (hsx : FitsInt16 v.sx) (hex : FitsInt16 (v.ex + 1)) (hy : FitsInt16 v.y)
    (hsz : -2048 ≤ v.sz ∧ v.sz ≤ 2047) (hez : -2048 ≤ v.ez + 1 ∧ v.ez + 1 ≤ 2047) :
    (∃ w : Nat, rvx_emit_voxel v col buf = buf ++
        (plainVertex v.sx v.y (16 * v.sz) w
        ++ plainVertex (v.ex + 1) v.y (16 * (v.ez + 1)) w
        ++ plainVertex v.sx v.y (16 * (v.ez + 1)) w
        ++ plainVertex (v.ex + 1) v.y (16 * v.sz) w
        ++ plainVertex (v.ex + 1) v.y (16 * (v.ez + 1)) w
        ++ plainVertex v.sx v.y (16 * v.sz) w))
    ∧ (∀ (x y z : Int) (ci : Nat) (c : Color4) (b : List Field),
        (∃ w : Nat, qlVertex3f x y z ci c b = b ++ plainVertex (toInt16 x) (toInt16 y) (16 * z) w)
          ↔ (-2048 ≤ z ∧ z ≤ 2047)) := by
  constructor
  · refine ⟨colorWord (v.colorIndex % 256) col, ?_⟩
    have h4 : FitsInt16 (v.sz * 16) := by unfold FitsInt16; omega
    have h5 : FitsInt16 ((v.ez + 1) * 16) := by unfold FitsInt16; omega
    rw [rvx_emit_voxel_eq, toInt16_of_fits hsx, toInt16_of_fits hex, toInt16_of_fits hy,
      toInt16_of_fits h4, toInt16_of_fits h5, mul_comm v.sz 16, mul_comm (v.ez + 1) 16]
  · intro x y z ci c b
    rw [qlVertex3f_eq]
    constructor
    · rintro ⟨w, hw⟩
      have h := List.append_cancel_left hw
      simp only [plainVertex, List.cons.injEq, Field.i16.injEq, true_and, and_true] at h
      have hz : toInt16 (z * 16) = z * 16 := by rw [h.1]; ring
      have := (toInt16_eq_self_iff (z * 16)).mp hz
      unfold FitsInt16 at this
      omega
    · intro hz
      refine ⟨colorWord (ci % 256) c, ?_⟩
      have h4 : FitsInt16 (z * 16) := by unfold FitsInt16; omega
      rw [toInt16_of_fits h4, mul_comm z 16]

/-- Witness of C26 (amended): a rectangle in rows 3 .. 4. -/
theorem rvx_emit_voxel_no_wrap_witness :
    ∃ w : Nat, rvx_emit_voxel ⟨1, 2, 5, 7, 3, 4, 0⟩ ⟨0, 0, 0, 255⟩ [] = [] ++
        (plainVertex 2 7 (16 * 3) w
        ++ plainVertex (5 + 1) 7 (16 * (4 + 1)) w
        ++ plainVertex 2 7 (16 * (4 + 1)) w
        ++ plainVertex (5 + 1) 7 (16 * 3) w
        ++ plainVertex (5 + 1) 7 (16 * (4 + 1)) w
        ++ plainVertex 2 7 (16 * 3) w) :=
  (rvx_emit_voxel_no_wrap ⟨1, 2, 5, 7, 3, 4, 0⟩ ⟨0, 0, 0, 255⟩ [] (by decide) (by decide)
    (by decide) (by decide) (by decide)).1

/-! ## Edge counts of `rvx_model_populate_buffer` (claim C27) -/

theorem totalEdgeLength_eq (edges : List RVX_EDGE) (hs : ∀ e ∈ edges, 1 ≤ e.spacing) :
    totalEdgeLength edges
      = (((edges.map (fun e => ySteps e.sy e.ey e.spacing * 4 * 6)).sum : Nat) : Int) := by
  unfold totalEdgeLength
  induction edges with
  | nil => rfl
  | cons e rest ih =>
    have he : 1 ≤ e.spacing := hs e (List.mem_cons_self _ _)
    have hr : ∀ e ∈ rest, 1 ≤ e.spacing := fun x hx => hs x (List.mem_cons_of_mem _ hx)
    simp only [List.map_cons, List.sum_cons, rvx_get_edge_length_eq e he, Option.getD_some,
      ih hr]
    push_cast
    ring

theorem sum_steps_96 (edges : List RVX_EDGE) :
    (edges.map (fun e => ySteps e.sy e.ey e.spacing * 4 * 6 * 96)).sum
      = 96 * (edges.map (fun e => ySteps e.sy e.ey e.spacing * 4 * 6)).sum := by
  induction edges with
  | nil => rfl
  | cons e rest ih =>
    simp only [List.map_cons, List.sum_cons, ih]
    ring

theorem populate_edge_counts (model : RVX_MODEL) (voxels : List Voxel) (palette : Palette)
    (hs : ∀ e ∈ model.edges, 1 ≤ e.spacing) :
    ∃ m', rvx_model_populate_buffer model voxels palette = some m'
      ∧ m'.edges = model.edges
      ∧ (model.edges ≠ [] → m'.edgesLength = totalEdgeLength model.edges)
      ∧ (model.edges = [] → m'.edgesLength = model.edgesLength)
      ∧ m'.edgeBufferSize = 96 * totalEdgeLength model.edges := by
  obtain ⟨written, hw, -⟩ := populateEdgeBuffer_bytes palette model.edges hs []
  rw [totalEdgeLength_eq model.edges hs]
  by_cases hn : (0 : Int) < model.numEdges
  · have hne : model.edges ≠ [] := by
      intro h
      simp [RVX_MODEL.numEdges, h] at hn
    simp only [rvx_model_populate_buffer, hn, if_true, populateEdgeSizes_eq model.edges hs, hw]
    refine ⟨_, rfl, rfl, fun _ => by simp, fun h => absurd h hne, ?_⟩
    simp only [zero_add, sum_steps_96]
    push_cast
    ring
  · have he : model.edges = [] := by
      cases hm : model.edges with
      | nil => rfl
      | cons a t =>
        exfalso
        apply hn
        simp [RVX_MODEL.numEdges, hm]
    simp only [rvx_model_populate_buffer, hn, if_false]
    refine ⟨_, rfl, rfl, fun h => absurd he h, fun _ => rfl, ?_⟩
    simp [he]

/-- Counterexample to C27 as stated: the model has no edges but carries
`edgesLength = 24` from an earlier scene; after `rvx_model_populate_buffer`
`edgeBufferSize` is 0 and `edgesLength` is still 24, not 0. -/
theorem edgesLength_kept_without_edges :
    ∃ m', rvx_model_populate_buffer modelStaleEdges [] paletteOnlyOne = some m'
      ∧ m'.numEdges = 0 ∧ totalEdgeLength m'.edges = 0
      ∧ m'.edgeBufferSize = 0 ∧ m'.edgesLength = 24 ∧ m'.edgesLength ≠ 0 := by
  refine ⟨_, rfl, by decide, by decide, by decide, by decide, by decide⟩

/-- C27 (amended): for every prior model state and every edge list with
`spacing >= 1`, `rvx_model_populate_buffer` returns, keeps the edge array and
recomputes `edgeBufferSize` from zero: it is 0 when the model has no edges and
always leaves room for `edgesLength` vertices of 16 bytes.  For a model with at
least one edge `edgesLength` is the sum of `rvx_get_edge_length` over the edges,
whatever it was before; for a model without edges `edgesLength` is left as it
was. -/
theorem populate_regenerates_edge_counts (model : RVX_MODEL) (voxels : List Voxel)
    (palette : Palette) (hs : ∀ e ∈ model.edges, 1 ≤ e.spacing) :
    ∃ m', rvx_model_populate_buffer model voxels palette = some m'
      ∧ m'.edges = model.edges
      ∧ (model.edges ≠ [] → m'.edgesLength = totalEdgeLength model.edges
          ∧ 16 * m'.edgesLength ≤ m'.edgeBufferSize)
      ∧ (model.edges = [] → m'.edgesLength = model.edgesLength ∧ m'.edgeBufferSize = 0)
      ∧ 16 * totalEdgeLength model.edges ≤ m'.edgeBufferSize
      ∧ (∀ (prior : RVX_MODEL) (voxels2 : List Voxel) (palette2 : Palette),
          prior.edges = model.edges →
          ∃ m2, rvx_model_populate_buffer prior voxels2 palette2 = some m2
            ∧ m2.edgeBufferSize = m'.edgeBufferSize
            ∧ (model.edges ≠ [] → m2.edgesLength = m'.edgesLength)) := by
  obtain ⟨m', h1, h2, h3, h4, h5⟩ := populate_edge_counts model voxels palette hs
  have hnn : 0 ≤ totalEdgeLength model.edges := by
    rw [totalEdgeLength_eq model.edges hs]
    exact Int.natCast_nonneg _
  refine ⟨m', h1, h2, ?_, ?_, by rw [h5]; omega, ?_⟩
  · intro hne
    refine ⟨h3 hne, ?_⟩
    rw [h3 hne, h5]
    omega
  · intro he
    refine ⟨h4 he, ?_⟩
    rw [h5, he]
    rfl
  · intro prior voxels2 palette2 hp
    obtain ⟨m2, g1, -, g3, -, g5⟩ := populate_edge_counts prior voxels2 palette2
      (by rw [hp]; exact hs)
    refine ⟨m2, g1, by rw [g5, h5, hp], ?_⟩
    intro hne
    rw [g3 (by rw [hp]; exact hne), h3 hne, hp]

/-- Witness of C27 (amended): the model with one edge of one Y-step. -/
theorem populate_regenerates_edge_counts_witness :
    ∃ m', rvx_model_populate_buffer modelOneEdge [] paletteOnlyOne = some m'
      ∧ m'.edges = modelOneEdge.edges ∧ m'.edgesLength = 24 :=
  match populate_regenerates_edge_counts modelOneEdge [] paletteOnlyOne (by decide) with
  | ⟨m', h1, h2, h3, _⟩ => ⟨m', h1, h2, by rw [(h3 (by decide)).1]; decide⟩

/-! ## Rebuild of an empty scene (claim C25) -/

/-- C25, evaluated on the code: `Renderer::Rebuild` on a scene without any
rectangle (no area, or areas whose rectangle lists are empty) returns right
after `DeleteBuffers`: the model is unbound and otherwise unchanged.  A model
that held two rectangles of an earlier scene keeps `numVoxels = 2`,
`modelLength = 12`, `bufferSize = 144` and its buffer; only a fresh model has
the zero counts. -/
theorem Rebuild_empty_scene_keeps_model :
    (∀ (fresh : Nat → RVX_EDGE) (palette : List Color4) (edges : List RVX_EDGE)
        (model : RVX_MODEL) (bound rebuild : Bool),
        Renderer.Rebuild fresh ⟨⟨palette, [], edges⟩, model, bound, rebuild⟩
          = some ⟨⟨palette, [], edges⟩, model, false, false⟩)
    ∧ (∀ (fresh : Nat → RVX_EDGE) (palette : List Color4) (edges : List RVX_EDGE)
        (model : RVX_MODEL) (bound rebuild : Bool) (no sx sy sz : Int),
        Renderer.Rebuild fresh ⟨⟨palette, [⟨no, sx, sy, sz, []⟩], edges⟩, model, bound, rebuild⟩
          = some ⟨⟨palette, [⟨no, sx, sy, sz, []⟩], edges⟩, model, false, false⟩)
    ∧ (∃ r, Renderer.Rebuild freshZero
          ⟨⟨[], [], []⟩, modelTwoRects, true, true⟩ = some r
        ∧ r.m_model.numVoxels = 2 ∧ r.m_model.modelLength = 12 ∧ r.m_model.bufferSize = 144
        ∧ r.m_model.buffer = modelTwoRects.buffer ∧ r.bound = false)
    ∧ (∃ r, Renderer.Rebuild freshZero
          ⟨⟨[], [], []⟩, rvx_model_new, false, true⟩ = some r
        ∧ r.m_model.numVoxels = 0 ∧ r.m_model.modelLength = 0 ∧ r.m_model.bufferSize = 0) := by
  refine ⟨fun _ _ _ _ _ _ => rfl, fun _ _ _ _ _ _ _ _ _ _ => rfl,
    ⟨_, rfl, rfl, rfl, rfl, rfl, rfl⟩, ⟨_, rfl, rfl, rfl, rfl⟩⟩

/-! ## Importing twice (claim C28) -/

theorem Heap.read_append_none (blocks : List (Option (List Nat))) (k p : Nat) :
    Heap.read { blocks := blocks ++ List.replicate k none } p = Heap.read { blocks := blocks } p := by
  unfold Heap.read
  simp only
  by_cases hp : p < blocks.length
  · rw [List.getElem?_append_left hp]
  · rw [List.getElem?_append_right (by omega), List.getElem?_eq_none (not_lt.mp hp)]
    rw [List.getElem?_replicate]
    split_ifs <;> rfl

theorem Heap.read_store_malloc (heap : Heap) (n : Nat) (bytes : List Nat) :
    ((heap.malloc n).2.store (heap.malloc n).1 bytes).read (heap.malloc n).1 = some bytes := by
  unfold Heap.read Heap.store Heap.malloc
  simp

theorem Heap.free_store_malloc (heap : Heap) (n : Nat) (b1 b2 : List Nat) :
    ((((heap.malloc n).2.store (heap.malloc n).1 b1).store (heap.malloc n).1 b2).free
      (heap.malloc n).1) = { blocks := heap.blocks ++ [none] } := by
  unfold Heap.free Heap.store Heap.malloc
  simp

theorem importInstance_onHeap_eq (markers : Option (Nat × Nat)) (fuel : Nat) (optimize : Bool)
    (heap : Heap) (model : HeapModel) (transform : ogt_vox_transform) (inverse : Matrix)
    (m_no : Int) (edges : List RVX_EDGE) (en : Int) {source : List Nat}
    (hsrc : heap.read model.voxel_data = some source) :
    importInstance.onHeap markers fuel optimize heap model transform inverse m_no edges en
      = (importInstance markers fuel optimize
          { model := { size_x := model.size_x, size_y := model.size_y, size_z := model.size_z
                       voxel_data := source }
            transform := transform } inverse m_no edges en).map
          (fun r => ({ blocks := heap.blocks ++ [none] }, r)) := by
  unfold importInstance.onHeap importInstance
  rw [hsrc]
  simp only
  split_ifs with hlen
  · rfl
  · rw [Heap.read_store_malloc]
    simp only
    cases yLoop _ _ 0 _ with
    | none => rfl
    | some st =>
      simp only [Option.map_some']
      rw [Heap.free_store_malloc]

theorem loadInstance_append_none (models : List HeapModel) (blocks : List (Option (List Nat)))
    (k : Nat) (i : HeapInstance) :
    HeapScene.loadInstance models { blocks := blocks ++ List.replicate k none } i
      = HeapScene.loadInstance models { blocks := blocks } i := by
  unfold HeapScene.loadInstance
  cases models[i.model_index]? with
  | none => rfl
  | some model =>
    simp only
    rw [Heap.read_append_none]

theorem loadInstances_append_none (models : List HeapModel) (blocks : List (Option (List Nat)))
    (k : Nat) (l : List HeapInstance) :
    HeapScene.loadInstances models { blocks := blocks ++ List.replicate k none } l
      = HeapScene.loadInstances models { blocks := blocks } l := by
  induction l with
  | nil => rfl
  | cons i rest ih =>
    simp only [HeapScene.loadInstances, loadInstance_append_none, ih]

theorem heapLoop_eq (markers : Option (Nat × Nat)) (fuel : Nat) (optimize : Bool)
    (models : List HeapModel) :
    ∀ (l : List HeapInstance) (an en : Int) (blocks : List (Option (List Nat)))
      (m_areas : List Area) (m_edges : List RVX_EDGE),
      ImportVOX.heapLoop markers fuel optimize models l an en { blocks := blocks } m_areas m_edges
        = (HeapScene.loadInstances models { blocks := blocks } l).bind (fun vs =>
            (ImportVOX.loop markers fuel optimize vs an en m_areas m_edges).map
              (fun r => ({ blocks := blocks ++ List.replicate l.length none }, r.1, r.2))) := by
  intro l
  induction l with
  | nil =>
    intro an en blocks m_areas m_edges
    simp [ImportVOX.heapLoop, HeapScene.loadInstances, ImportVOX.loop]
  | cons i rest ih =>
    intro an en blocks m_areas m_edges
    rw [ImportVOX.heapLoop, HeapScene.loadInstances]
    unfold HeapScene.loadInstance
    cases hm : models[i.model_index]? with
    | none => rfl
    | some model =>
      simp only
      cases hsrc : Heap.read { blocks := blocks } model.voxel_data with
      | none =>
        unfold importInstance.onHeap
        rw [hsrc]
        rfl
      | some source =>
        rw [importInstance_onHeap_eq markers fuel optimize _ model _ _ _ _ _ hsrc]
        simp only
        cases himp : importInstance markers fuel optimize
            { model := { size_x := model.size_x, size_y := model.size_y, size_z := model.size_z
                         voxel_data := source }
              transform := i.transform } i.inverse (areaNumber an i.name) m_edges en with
        | none =>
          simp only [Option.map_none']
          cases HeapScene.loadInstances models { blocks := blocks } rest with
          | none => rfl
          | some vs =>
            simp only [Option.map_some', Option.some_bind, ImportVOX.loop, himp]
            rfl
        | some r =>
          obtain ⟨area, es, en'⟩ := r
          simp only [Option.map_some']
          rw [ih]
          have hone : blocks ++ [none] = blocks ++ List.replicate 1 none := rfl
          rw [hone, loadInstances_append_none]
          cases HeapScene.loadInstances models { blocks := blocks } rest with
          | none => rfl
          | some vs =>
            simp only [Option.map_some', Option.some_bind, ImportVOX.loop, himp]
            congr 1
            funext r
            simp only [List.append_assoc, ← List.replicate_add, List.length_cons]
            rw [Nat.add_comm 1]

theorem ImportVOX_onHeap_eq (markers : Option (Nat × Nat)) (fuel : Nat) (vox : HeapScene)
    (heap : Heap) (scene : Scene) (optimize : Bool) :
    ImportVOX.onHeap markers fuel vox heap scene optimize
      = (vox.load heap).bind (fun v =>
          (ImportVOX markers fuel v scene optimize).map
            (fun s => ({ blocks := heap.blocks ++ List.replicate vox.instances.length none }, s))) := by
  unfold ImportVOX.onHeap HeapScene.load ImportVOX
  simp only
  rw [heapLoop_eq]
  cases HeapScene.loadInstances vox.models heap vox.instances with
  | none => rfl
  | some vs =>
    simp only [Option.map_some', Option.some_bind]
    cases ImportVOX.loop markers fuel optimize vs 100 0 [] [] with
    | none => rfl
    | some r => rfl

theorem loadInstances_length (models : List HeapModel) (heap : Heap) :
    ∀ (l : List HeapInstance) (vs : List SceneInstance),
      HeapScene.loadInstances models heap l = some vs → vs.length = l.length := by
  intro l
  induction l with
  | nil =>
    intro vs h
    simp only [HeapScene.loadInstances, Option.some.injEq] at h
    subst h
    rfl
  | cons i rest ih =>
    intro vs h
    rw [HeapScene.loadInstances] at h
    cases hi : HeapScene.loadInstance models heap i with
    | none => rw [hi] at h; exact absurd h (by simp)
    | some v =>
      rw [hi] at h
      simp only at h
      cases hr : HeapScene.loadInstances models heap rest with
      | none => rw [hr] at h; exact absurd h (by simp)
      | some vs' =>
        rw [hr] at h
        simp only [Option.map_some', Option.some.injEq] at h
        rw [← h, List.length_cons, List.length_cons, ih vs' hr]

/-- C28: `ImportVOX` on a vox scene in memory, for every prior scene.  Whenever
the call returns, (a) every block of the heap that existed before the call holds
the bytes it held before, in particular the block `voxel_data` of every model:
the merge zeroes cells in the scratch block only, which the call allocates and
frees, so the memory holds the same vox scene as before; (b) the scene returned
is the one that `ImportVOX` computes from the voxel bytes in memory, and it is
the same for every prior scene; (c) importing the same vox scene a second time,
into the scene and on the heap that the first import left, returns as well and
gives the same scene: the same palette, areas (numbers, origins, rectangles in
order) and edges. -/
theorem ImportVOX_idempotent (markers : Option (Nat × Nat)) (fuel : Nat) (vox : HeapScene)
    (heap : Heap) (scene : Scene) (optimize : Bool) {heap1 : Heap} {s1 : Scene}
    (h : ImportVOX.onHeap markers fuel vox heap scene optimize = some (heap1, s1)) :
    (∀ p, p < heap.blocks.length → heap1.blocks[p]? = heap.blocks[p]?)
    ∧ (∀ m ∈ vox.models, heap1.read m.voxel_data = heap.read m.voxel_data)
    ∧ vox.load heap1 = vox.load heap
    ∧ (∃ v, vox.load heap = some v ∧ ImportVOX markers fuel v scene optimize = some s1)
    ∧ (∀ scene2 : Scene, ∃ heap2,
        ImportVOX.onHeap markers fuel vox heap scene2 optimize = some (heap2, s1))
    ∧ (∃ heap2, ImportVOX.onHeap markers fuel vox heap1 s1 optimize = some (heap2, s1)
        ∧ ∀ m ∈ vox.models, heap2.read m.voxel_data = heap.read m.voxel_data)
    ∧ s1.m_palette = (List.range 256).map vox.palette
    ∧ s1.m_areas.length = vox.instances.length := by
  have hchar := ImportVOX_onHeap_eq markers fuel vox heap scene optimize
  rw [h] at hchar
  cases hload : vox.load heap with
  | none => rw [hload] at hchar; exact absurd hchar (by simp)
  | some v =>
    rw [hload] at hchar
    simp only [Option.some_bind] at hchar
    cases himp : ImportVOX markers fuel v scene optimize with
    | none => rw [himp] at hchar; exact absurd hchar (by simp)
    | some s =>
      rw [himp] at hchar
      simp only [Option.map_some', Option.some.injEq, Prod.mk.injEq] at hchar
      obtain ⟨hheap, hs⟩ := hchar
      subst hs
      have hread : ∀ p, heap1.read p = heap.read p := by
        intro p
        rw [hheap]
        exact Heap.read_append_none heap.blocks _ p
      have hload1 : vox.load heap1 = vox.load heap := by
        unfold HeapScene.load
        rw [hheap, loadInstances_append_none]
      have hsecond : ∀ scene2 : Scene,
          ImportVOX.onHeap markers fuel vox heap1 scene2 optimize
            = some ({ blocks := heap1.blocks ++ List.replicate vox.instances.length none }, s1) := by
        intro scene2
        rw [ImportVOX_onHeap_eq, hload1, hload]
        simp only [Option.some_bind]
        have : ImportVOX markers fuel v scene2 optimize = ImportVOX markers fuel v scene optimize :=
          rfl
        rw [this, himp]
        rfl
      have hv := hload
      unfold HeapScene.load at hv
      cases hli : HeapScene.loadInstances vox.models heap vox.instances with
      | none => rw [hli] at hv; exact absurd hv (by simp)
      | some vs =>
      rw [hli] at hv
      simp only [Option.map_some', Option.some.injEq] at hv
      refine ⟨?_, fun m _ => hread _, hload1.trans hload, ⟨v, rfl, himp⟩, ?_, ⟨_, hsecond s1, ?_⟩,
        ?_, ?_⟩
      · intro p hp
        rw [hheap]
        simp only
        rw [List.getElem?_append_left hp]
      · intro scene2
        refine ⟨{ blocks := heap.blocks ++ List.replicate vox.instances.length none }, ?_⟩
        rw [ImportVOX_onHeap_eq, hload]
        simp only [Option.some_bind]
        have : ImportVOX markers fuel v scene2 optimize = ImportVOX markers fuel v scene optimize :=
          rfl
        rw [this, himp]
        rfl
      · intro m _
        rw [← hread m.voxel_data]
        exact Heap.read_append_none heap1.blocks _ _
      · unfold ImportVOX at himp
        simp only at himp
        split at himp
        · exact absurd himp (by simp)
        · simp only [Option.some.injEq] at himp
          rw [← himp, ← hv]
      · unfold ImportVOX at himp
        simp only at himp
        split at himp
        · exact absurd himp (by simp)
        · rename_i areas es hl
          simp only [Option.some.injEq] at himp
          rw [← himp]
          obtain ⟨new, hnew, hlen, -⟩ := ImportVOX_loop_numbers markers fuel optimize
            v.instances 100 0 [] [] areas es hl
          simp only [List.nil_append] at hnew
          simp only
          rw [hnew, hlen, ← hv]
          exact loadInstances_length _ _ _ _ hli

/-- Witness of C28: a model of colour 3 that two instances share.  The merge of
one instance zeroes row 1 of its scratch copy; the block of the model keeps its
four bytes, the second instance yields the same rectangle as the first, and a
second import gives the same scene. -/
theorem ImportVOX_idempotent_witness :
    ∃ heap1 s1, ImportVOX.onHeap none 0 heapSceneShared heapOneModel ⟨[], [], []⟩ true
        = some (heap1, s1)
      ∧ (yLoop (instanceCtx none 0 true
            ⟨⟨2, 1, 2, [3, 3, 3, 3]⟩, identityTransform⟩ identityMatrix 100) 1 0
          ⟨[3, 3, 3, 3], [], [], 0⟩).map (fun st => st.voxel_copy) = some [3, 3, 0, 0]
      ∧ heapOneModel.read 0 = some [3, 3, 3, 3]
      ∧ heap1.read 0 = some [3, 3, 3, 3]
      ∧ s1.m_areas.map (fun a => a.m_voxels)
          = [[⟨3, -1, 0, 0, -1, 0, 0⟩], [⟨3, -1, 0, 0, -1, 0, 0⟩]]
      ∧ ∃ heap2, ImportVOX.onHeap none 0 heapSceneShared heap1 s1 true = some (heap2, s1) :=
  ⟨_, _, rfl, rfl, rfl, rfl, rfl,
    (ImportVOX_idempotent none 0 heapSceneShared heapOneModel ⟨[], [], []⟩ true rfl).2.2.2.2.2.1.imp
      (fun _ hh => hh.1)⟩

/-! ## The width of an edge (claim C22) -/

theorem scanWhile_spec (cond : Nat → Option Bool) :
    ∀ (fuel i j : Nat), scanWhile cond fuel i = some j →
      (∀ k, i ≤ k → k < j → cond k = some true) ∧ cond j = some false ∧ i ≤ j := by
  intro fuel
  induction fuel with
  | zero =>
    intro i j h
    exact absurd h (by simp [scanWhile])
  | succ n ih =>
    intro i j h
    rw [scanWhile] at h
    cases hc : cond i with
    | none => rw [hc] at h; exact absurd h (by simp)
    | some b =>
      rw [hc] at h
      cases b with
      | false =>
        simp only [Option.some.injEq] at h
        subst h
        exact ⟨fun k h1 h2 => by omega, hc, le_refl _⟩
      | true =>
        obtain ⟨h1, h2, h3⟩ := ih (i + 1) j h
        refine ⟨?_, h2, by omega⟩
        intro k hk1 hk2
        by_cases hki : k = i
        · rw [hki]; exact hc
        · exact h1 k (by omega) hk2

theorem scan_cond_true {o : Option Nat} {col : Nat} :
    o.map (fun v => v == col) = some true ↔ o = some col := by
  cases o with
  | none => simp
  | some v => simp

theorem scan_cond_false {o : Option Nat} {col : Nat} :
    o.map (fun v => v == col) = some false ↔ ∃ v, o = some v ∧ v ≠ col := by
  cases o with
  | none => simp
  | some v => simp

theorem width_of_scan (cell : Nat → Option Nat) (col fuel w0 n : Nat)
    (h : scanWhile (fun k => (cell k).map (fun v => v == col)) fuel 0 = some w0) :
    (∀ w, w < n → (∀ k, k < w → cell k = some col) → (∃ v, cell w = some v ∧ v ≠ col) →
      (if w0 ≥ n then n / 2 else w0) = w)
    ∧ ((∀ k, k < n → cell k = some col) → (if w0 ≥ n then n / 2 else w0) = n / 2) := by
  obtain ⟨h1, h2, -⟩ := scanWhile_spec _ _ _ _ h
  simp only [scan_cond_true] at h1
  rw [scan_cond_false] at h2
  obtain ⟨v0, hv0, hne0⟩ := h2
  constructor
  · intro w hw hrun hstop
    obtain ⟨v, hv, hne⟩ := hstop
    have hw0 : w0 = w := by
      rcases Nat.lt_trichotomy w0 w with hlt | heq | hgt
      · have := hrun w0 hlt
        rw [hv0] at this
        exact absurd (Option.some.inj this) hne0
      · exact heq
      · have := h1 w (Nat.zero_le _) hgt
        rw [hv] at this
        exact absurd (Option.some.inj this) hne
    rw [hw0, if_neg (by omega)]
  · intro hall
    have hge : w0 ≥ n := by
      by_contra hlt
      have := hall w0 (by omega)
      rw [hv0] at this
      exact absurd (Option.some.inj this) hne0
    rw [if_pos hge]

theorem edgeMeasure_width (ctx : MergeCtx) (l r : Nat) (data : List Nat) (en : Int)
    (y sx x sz ez c : Nat) {e : RVX_EDGE} {ey : Nat}
    (h : edgeMeasure ctx l r data en y sx x sz ez c = some (e, ey)) :
    (c = l → ∃ w0, scanWhile (fun k => (readVoxel data (ctx.off (sx + k : Nat) (y + 1 : Nat) ez)).map
          (fun v => v == e.top_left_col)) ctx.fuel 0 = some w0
        ∧ e.edge_width = ((if w0 ≥ x - sx then (x - sx) / 2 else w0 : Nat) : Int))
    ∧ (c ≠ l → c = r → ∃ w0, scanWhile (fun k => (readVoxel data
          (ctx.off ((x : Int) - k) (y + 1 : Nat) ez)).map
          (fun v => v == e.top_right_col)) ctx.fuel 0 = some w0
        ∧ e.edge_width = ((if w0 ≥ x - sx then (x - sx) / 2 else w0 : Nat) : Int)) := by
  unfold edgeMeasure at h
  constructor
  · intro hl
    simp only [if_pos hl, bind, Option.bind_eq_some, pure, Option.some.injEq,
      Prod.mk.injEq] at h
    obtain ⟨spacing, -, tl, -, tr, -, bl, -, br, -, width, hw, height, -, ey', -, he, -⟩ := h
    subst he
    exact ⟨width, hw, rfl⟩
  · intro hl hr
    simp only [if_neg hl, if_pos hr, bind, Option.bind_eq_some, pure, Option.some.injEq,
      Prod.mk.injEq] at h
    obtain ⟨spacing, -, tl, -, tr, -, bl, -, br, -, width, hw, height, -, ey', -, he, -⟩ := h
    subst he
    exact ⟨width, hw, rfl⟩

/-- Counterexample to C22 as stated: the edge of `gridEdgeStrip` has the X-span
`ex - sx + 1 = 3`, and at layer `y + 1` exactly the three cells above the strip
have the sampled corner colour 5, so `r = 3` does not exceed the span; the code
gives `edge_width = 1`, not 3. -/
theorem edge_width_not_run :
    ∃ area e, importInstance (some (254, 255)) 20 true gridEdgeStrip identityMatrix 100 [] 0
        = some (area, [e], 1)
      ∧ e.ex - e.sx + 1 = 3 ∧ e.edge_dir = -1 ∧ e.top_left_col = 5
      ∧ (List.range 4).map (fun k => cellAt 3 4 gridEdgeStrip.model.voxel_data (0 + k) 1 0)
          = [5, 5, 5, 254]
      ∧ e.edge_width = 1 ∧ e.edge_width ≠ 3 := by
  refine ⟨_, _, rfl, by decide, by decide, by decide, by decide, by decide, by decide⟩

/-- C22 (amended): the edge branch measures `edge_width` on the cells of layer
`y + 1`, row `ez`, counted from the marked side (column `sx + k` for a left
marker, `x - k` for a right marker, `k = 0, 1, ..`) against the sampled corner
colour.  With `n = ex - sx` (the X-span minus one): if the run of cells of that
colour ends after `w < n` cells, `edge_width = w`; if the first `n` cells all
have the colour, `edge_width = n / 2` (integer division).  Every edge that the
edge branch appends is measured this way on the marker rectangle it found. -/
theorem edge_width_rule (ctx : MergeCtx) (l r : Nat) (data : List Nat) (en : Int)
    (y sx x sz ez c : Nat) (e : RVX_EDGE) (ey : Nat)
    (h : edgeMeasure ctx l r data en y sx x sz ez c = some (e, ey))
    (hc : c = l ∨ c = r) (hsx : sx ≤ x) :
    (∀ (z : Nat) (st st' : MergeState) (xe : Nat),
      edgeBranch ctx l r y z sx c st = some (xe, st') →
      ∃ ez' e' ey', edgeMeasure ctx l r st.voxel_copy st.en y sx xe z ez' c = some (e', ey')
        ∧ st'.m_edges = st.m_edges ++ [e'])
    ∧ e.ex - e.sx = ((x - sx : Nat) : Int)
    ∧ (c = l →
        (∀ w, w < x - sx →
          (∀ k, k < w → readVoxel data (ctx.off (sx + k : Nat) (y + 1 : Nat) ez)
            = some e.top_left_col) →
          (∃ v, readVoxel data (ctx.off (sx + w : Nat) (y + 1 : Nat) ez) = some v
            ∧ v ≠ e.top_left_col) →
          e.edge_width = w)
        ∧ ((∀ k, k < x - sx → readVoxel data (ctx.off (sx + k : Nat) (y + 1 : Nat) ez)
            = some e.top_left_col) →
          e.edge_width = ((x - sx) / 2 : Nat)))
    ∧ (c ≠ l →
        (∀ w, w < x - sx →
          (∀ k : Nat, k < w → readVoxel data (ctx.off ((x : Int) - k) (y + 1 : Nat) ez)
            = some e.top_right_col) →
          (∃ v, readVoxel data (ctx.off ((x : Int) - w) (y + 1 : Nat) ez) = some v
            ∧ v ≠ e.top_right_col) →
          e.edge_width = w)
        ∧ ((∀ k : Nat, k < x - sx → readVoxel data (ctx.off ((x : Int) - k) (y + 1 : Nat) ez)
            = some e.top_right_col) →
          e.edge_width = ((x - sx) / 2 : Nat))) := by
  obtain ⟨m1, m2, -⟩ := edgeMeasure_spec ctx l r data en y sx x sz ez c h
  obtain ⟨hL, hR⟩ := edgeMeasure_width ctx l r data en y sx x sz ez c h
  refine ⟨?_, by rw [m1, m2]; omega, ?_, ?_⟩
  · intro z st st' xe hb
    obtain ⟨-, -, x', ez', e', ey', -, -, hm, -, hxe, hed, -⟩ :=
      edgeBranch_zeroed ctx l r y z sx c st hb
    rw [hxe]
    exact ⟨ez', e', ey', hm, hed⟩
  · intro hl
    obtain ⟨w0, hscan, hw⟩ := hL hl
    obtain ⟨a, b⟩ := width_of_scan
      (fun k => readVoxel data (ctx.off (sx + k : Nat) (y + 1 : Nat) ez)) e.top_left_col
      ctx.fuel w0 (x - sx) hscan
    constructor
    · intro w hw1 hrun hstop
      rw [hw, a w hw1 hrun hstop]
    · intro hall
      rw [hw, b hall]
  · intro hl
    have hr : c = r := by
      rcases hc with hc | hc
      · exact absurd hc hl
      · exact hc
    obtain ⟨w0, hscan, hw⟩ := hR hl hr
    obtain ⟨a, b⟩ := width_of_scan
      (fun k => readVoxel data (ctx.off ((x : Int) - k) (y + 1 : Nat) ez)) e.top_right_col
      ctx.fuel w0 (x - sx) hscan
    constructor
    · intro w hw1 hrun hstop
      rw [hw, a w hw1 hrun hstop]
    · intro hall
      rw [hw, b hall]

/-- Witness of C22 (amended): the measurement of the edge of `gridEdgeStrip`:
the span is 3, the first `n = 2` cells have the colour, the width is `2 / 2`. -/
theorem edge_width_rule_witness :
    ∃ e ey, edgeMeasure (instanceCtx (some (254, 255)) 20 true gridEdgeStrip identityMatrix 100)
        254 255 gridEdgeStrip.model.voxel_data 0 0 0 2 0 0 254 = some (e, ey)
      ∧ e.ex - e.sx = ((2 - 0 : Nat) : Int) ∧ e.edge_width = 1 :=
  ⟨_, _, rfl,
    (edge_width_rule (instanceCtx (some (254, 255)) 20 true gridEdgeStrip identityMatrix 100)
      254 255 gridEdgeStrip.model.voxel_data 0 0 0 2 0 0 254 _ _ rfl (Or.inl rfl)
      (by decide)).2.1, rfl⟩

/-! ## The edge scans are not clamped (claim C23) -/

/-- C23, evaluated on the code: in the malformed 3 x 2 x 1 grid `gridEdgeOpen`
(a left-marker strip with colour 5 above it and no closing marker) the first
step of the spacing scan reads layer `y + 2 = 2` at column 2, index 8 of the 6
bytes of the voxel copy: the scan does not stop at the grid boundary with a
default result, and the import reads outside the copy whatever bound the scans
are given. -/
theorem edge_scan_open_grid_reads_outside :
    (∀ fuel, importInstance (some (254, 255)) fuel true gridEdgeOpen identityMatrix 100 [] 0
        = none)
    ∧ gridEdgeOpen.model.voxel_data.length = 6
    ∧ (instanceCtx (some (254, 255)) 20 true gridEdgeOpen identityMatrix 100).off 2 (0 + 1 + 1) 0
        = 8
    ∧ readVoxel gridEdgeOpen.model.voxel_data
        ((instanceCtx (some (254, 255)) 20 true gridEdgeOpen identityMatrix 100).off 2
          (0 + 1 + 1) 0) = none := by
  refine ⟨?_, by decide, by decide, by decide⟩
  intro fuel
  rcases fuel with _ | fuel <;> rfl

/-! ## Z growth is maximal (claim C30) -/

theorem exists_cover_of_count_pos {L : List LRect} {x y z : Nat}
    (h : 0 < coverCount L x y z) : ∃ r ∈ L, r.covers x y z := by
  unfold coverCount at h
  obtain ⟨r, hr, hc⟩ := List.countP_pos_iff.mp h
  exact ⟨r, hr, by simpa using hc⟩

theorem count_pos_of_cover {L : List LRect} {r : LRect} {x y z : Nat}
    (hr : r ∈ L) (hc : r.covers x y z) : 0 < coverCount L x y z := by
  unfold coverCount
  exact List.countP_pos_iff.mpr ⟨r, hr, by simpa using hc⟩

theorem cellBody_zmax (ctx : MergeCtx) (hid : IdentityCtx ctx) (G : List Nat)
    (hnm : NoMarkers ctx G) (hopt : ctx.optimize = true) {x y z : Nat}
    (hx : x < ctx.space_size_x) (hy : y < ctx.space_size_y) (hz : z < ctx.space_size_z)
    (st : MergeState) (L : List LRect)
    (hinv : MergeInv ctx.space_size_x ctx.space_size_y ctx.space_size_z G x y z
      st.voxel_copy L)
    (hP : AllZMaximal ctx G st.m_voxels) {xe : Nat} {st' : MergeState}
    (h : cellBody ctx y z x st = some (xe, st')) :
    AllZMaximal ctx G st'.m_voxels := by
  have hr := read_cell ctx hid st.voxel_copy hinv.len hx hy hz
  have hnot : ¬ scannedBefore x y z x y z := by unfold scannedBefore; omega
  by_cases hc : cellAt ctx.space_size_x ctx.space_size_y st.voxel_copy x y z = 0
  · rw [hc] at hr
    rw [cellBody_zero ctx y z x st hr] at h
    simp only [Option.some.injEq, Prod.mk.injEq] at h
    rw [← h.2]
    exact hP
  · rcases hinv.pending x y z hx hy hz hnot with ⟨p1, p2⟩ | ⟨_, p2, _⟩
    swap
    · exact absurd p2 hc
    have hGne : cellAt ctx.space_size_x ctx.space_size_y G x y z ≠ 0 := by
      rw [← p2]; exact hc
    have hmk : ctx.isMarker (cellAt ctx.space_size_x ctx.space_size_y st.voxel_copy x y z)
        = false := by
      rw [p2]; exact hnm _ (cellAt_mem_of_ne_zero hGne)
    obtain ⟨xe', ez, data', m1, m2, m3, m4, m5, m6, m7, m8, -, m10⟩ :=
      mergeRect_spec ctx hid st.voxel_copy hinv.len
        (cellAt ctx.space_size_x ctx.space_size_y st.voxel_copy x y z) hx hy hz rfl
    have hcells : ∀ i k, x ≤ i → i ≤ xe' → z ≤ k → k ≤ ez →
        coverCount L i y k = 0 ∧ cellAt ctx.space_size_x ctx.space_size_y G i y k
          = cellAt ctx.space_size_x ctx.space_size_y st.voxel_copy x y z := by
      intro i k hi1 hi2 hk1 hk2
      have hD := m7 i k hi1 hi2 hk1 hk2
      have hns : ¬ scannedBefore i y k x y z := by unfold scannedBefore; omega
      rcases hinv.pending i y k (by omega) hy (by omega) hns with ⟨q1, q2⟩ | ⟨_, q2, _⟩
      · exact ⟨q1, by rw [← q2, hD]⟩
      · rw [hD] at q2; exact absurd q2 hc
    rw [cellBody_ordinary ctx y z x _ st hr hc hmk, pushRect, m1] at h
    simp only [Option.some.injEq, Prod.mk.injEq] at h
    obtain ⟨hxe, hst⟩ := h
    subst hxe hst
    intro v hv
    simp only [List.mem_append, List.mem_singleton] at hv
    rcases hv with hv | hv
    · exact hP v hv
    · refine ⟨⟨cellAt ctx.space_size_x ctx.space_size_y st.voxel_copy x y z, x, xe', y, z, ez⟩,
        hv, ⟨m2, m3, m4, m5, hy⟩, ?_, ?_⟩
      · intro i k h1 h2 h3 h4
        exact (hcells i k h1 h2 h3 h4).2
      · unfold ZMaximal
        simp only
        rcases (m10 hopt).2 with hlast | ⟨hlt, hnall⟩
        · exact Or.inl hlast
        · right
          by_contra hno
          apply hnall
          intro i hi1 hi2
          by_contra hdiff
          apply hno
          refine ⟨i, hi1, hi2, ?_⟩
          have hns : ¬ scannedBefore i y (ez + 1) x y z := by unfold scannedBefore; omega
          rcases hinv.pending i y (ez + 1) (by omega) hy hlt hns with ⟨-, q2⟩ | ⟨q1, -, -⟩
          · rw [← q2]; exact hdiff
          · exfalso
            obtain ⟨r', hr', hcov⟩ := exists_cover_of_count_pos (by omega : 0 < coverCount L i y (ez + 1))
            obtain ⟨-, -, -, -, -, -, r7, -⟩ := hinv.rects r' hr'
            unfold LRect.covers at hcov
            obtain ⟨c1, c2, c3, c4, c5⟩ := hcov
            have hcov2 : r'.covers i y z := by
              unfold LRect.covers
              unfold scannedBefore at r7
              refine ⟨c1, c2, c3, by omega, by omega⟩
            have := count_pos_of_cover hr' hcov2
            have := (hcells i z hi1 hi2 (le_refl _) m4).1
            omega

theorem xLoop_zmax (ctx : MergeCtx) (hid : IdentityCtx ctx) (G : List Nat)
    (hnm : NoMarkers ctx G) (hopt : ctx.optimize = true) {y z : Nat}
    (hy : y < ctx.space_size_y) (hz : z < ctx.space_size_z) :
    ∀ (fuel x : Nat) (st : MergeState) (L : List LRect), ctx.space_size_x ≤ x + fuel →
      st.m_voxels = L.map (LRect.toVoxel ctx) →
      MergeInv ctx.space_size_x ctx.space_size_y ctx.space_size_z G x y z st.voxel_copy L →
      AllZMaximal ctx G st.m_voxels →
      ∀ st', xLoop ctx y z fuel x st = some st' → AllZMaximal ctx G st'.m_voxels := by
  intro fuel
  induction fuel with
  | zero =>
    intro x st L hf hv hinv hP st' h
    rw [xLoop, if_neg (by omega)] at h
    simp only [Option.some.injEq] at h
    rw [← h]; exact hP
  | succ n ih =>
    intro x st L hf hv hinv hP st' h
    by_cases hx : x < ctx.space_size_x
    · obtain ⟨xe, st1, L1, b1, b2, b3, b4, b5, -, -, -⟩ :=
        cellBody_inv ctx hid G hnm hx hy hz st L hv hinv
      rw [xLoop, if_pos hx, b1] at h
      exact ih (xe + 1) st1 (L ++ L1) (by omega) b4 b5
        (cellBody_zmax ctx hid G hnm hopt hx hy hz st L hinv hP b1) st' h
    · rw [xLoop, if_neg hx] at h
      simp only [Option.some.injEq] at h
      rw [← h]; exact hP

theorem zLoop_zmax (ctx : MergeCtx) (hid : IdentityCtx ctx) (G : List Nat)
    (hnm : NoMarkers ctx G) (hopt : ctx.optimize = true) {y : Nat}
    (hy : y < ctx.space_size_y) :
    ∀ (n z : Nat) (st : MergeState) (L : List LRect), z + n ≤ ctx.space_size_z →
      st.m_voxels = L.map (LRect.toVoxel ctx) →
      MergeInv ctx.space_size_x ctx.space_size_y ctx.space_size_z G 0 y z st.voxel_copy L →
      AllZMaximal ctx G st.m_voxels →
      ∀ st', zLoop ctx y n z st = some st' → AllZMaximal ctx G st'.m_voxels := by
  intro n
  induction n with
  | zero =>
    intro z st L _ hv hinv hP st' h
    simp only [zLoop, Option.some.injEq] at h
    rw [← h]; exact hP
  | succ n ih =>
    intro z st L hzn hv hinv hP st' h
    obtain ⟨st1, L1, b1, b2, b3, -, -, -⟩ :=
      xLoop_inv ctx hid G hnm hy (by omega) ctx.space_size_x 0 st L (by omega) hv hinv
    rw [zLoop, b1] at h
    exact ih (z + 1) st1 (L ++ L1) (by omega) b2 b3
      (xLoop_zmax ctx hid G hnm hopt hy (by omega) _ _ st L (by omega) hv hinv hP st1 b1) st' h

theorem yLoop_zmax (ctx : MergeCtx) (hid : IdentityCtx ctx) (G : List Nat)
    (hnm : NoMarkers ctx G) (hopt : ctx.optimize = true) :
    ∀ (n y : Nat) (st : MergeState) (L : List LRect), y + n ≤ ctx.space_size_y →
      st.m_voxels = L.map (LRect.toVoxel ctx) →
      MergeInv ctx.space_size_x ctx.space_size_y ctx.space_size_z G 0 y 0 st.voxel_copy L →
      AllZMaximal ctx G st.m_voxels →
      ∀ st', yLoop ctx n y st = some st' → AllZMaximal ctx G st'.m_voxels := by
  intro n
  induction n with
  | zero =>
    intro y st L _ hv hinv hP st' h
    simp only [yLoop, Option.some.injEq] at h
    rw [← h]; exact hP
  | succ n ih =>
    intro y st L hyn hv hinv hP st' h
    obtain ⟨st1, L1, b1, b2, b3, -, -, -⟩ := layer_inv ctx hid G hnm (by omega) st L hv hinv
    rw [yLoop, b1] at h
    exact ih (y + 1) st1 (L ++ L1) (by omega) b2 b3
      (zLoop_zmax ctx hid G hnm hopt (by omega) _ _ st L (by omega) hv hinv hP st1 b1) st' h

/-- C30: with optimisation on, the identity transform and a grid without
edge-marker cells the import returns, and every rectangle it emits is the
translation by the area origin of a local rectangle `(sx..ex, y, sz..ez)` of
the grid such that every source cell in rows `sz..ez`, columns `sx..ex` has the
rectangle's colour, and either `ez` is the last row of the grid or the source
row `ez + 1` holds, within columns `sx..ex`, a cell of another colour. -/
theorem z_growth_whole_row_maximal (markers : Option (Nat × Nat)) (fuel : Nat)
    (inst : ogt_vox_instance) (inverse : Matrix) (m_no : Int)
    (edges : List RVX_EDGE) (en : Int)
    (hT : instanceMatrix inst.transform = identityMatrix) (hI : inverse = identityMatrix)
    (hlen : inst.model.voxel_data.length
      = inst.model.size_x * inst.model.size_y * inst.model.size_z)
    (hnm : ∀ c ∈ inst.model.voxel_data, isEdgeMarker markers c = false)
    (hfit : WorldFits inst) :
    ∃ area, importInstance markers fuel true inst inverse m_no edges en
        = some (area, edges, en)
      ∧ ∀ v ∈ area.m_voxels, ∃ r : LRect,
          (v.colorIndex = r.c ∧ v.sx = r.sx + area.m_sx ∧ v.ex = r.ex + area.m_sx
            ∧ v.y = r.y + area.m_sy ∧ v.sz = r.sz + area.m_sz ∧ v.ez = r.ez + area.m_sz)
          ∧ (r.sx ≤ r.ex ∧ r.ex < inst.model.size_x ∧ r.sz ≤ r.ez ∧ r.ez < inst.model.size_z
              ∧ r.y < inst.model.size_y)
          ∧ (∀ x z, r.sx ≤ x → x ≤ r.ex → r.sz ≤ z → z ≤ r.ez →
              cellAt inst.model.size_x inst.model.size_y inst.model.voxel_data x r.y z = r.c)
          ∧ (r.ez + 1 = inst.model.size_z
              ∨ ∃ x, r.sx ≤ x ∧ x ≤ r.ex
                ∧ cellAt inst.model.size_x inst.model.size_y inst.model.voxel_data x r.y
                    (r.ez + 1) ≠ r.c) := by
  have hctx := instanceCtx_identity markers fuel true inst inverse m_no hT hI
  have hid : IdentityCtx (instanceCtx markers fuel true inst inverse m_no) := by
    rw [hctx]
    exact ⟨rfl, rfl, rfl⟩
  have hsx : (instanceCtx markers fuel true inst inverse m_no).space_size_x
      = inst.model.size_x := by rw [hctx]
  have hsy : (instanceCtx markers fuel true inst inverse m_no).space_size_y
      = inst.model.size_y := by rw [hctx]
  have hsz : (instanceCtx markers fuel true inst inverse m_no).space_size_z
      = inst.model.size_z := by rw [hctx]
  have hopt : (instanceCtx markers fuel true inst inverse m_no).optimize = true := by rw [hctx]
  have hmk : NoMarkers (instanceCtx markers fuel true inst inverse m_no)
      inst.model.voxel_data := by
    intro c hc
    unfold MergeCtx.isMarker
    rw [hctx]
    exact hnm c hc
  have hinit := MergeInv_init inst.model.size_x inst.model.size_y inst.model.size_z
    inst.model.voxel_data hlen
  rw [← hsx, ← hsy, ← hsz] at hinit
  obtain ⟨L, data', himp, -⟩ := importInstance_identity_local markers fuel true inst
    inverse m_no edges en hT hI hlen hnm
  refine ⟨_, himp, ?_⟩
  -- the run of the loops, read off the result
  have himp2 := himp
  unfold importInstance at himp2
  simp only [hsx, hsy, hsz, ← hlen, lt_irrefl, if_false, List.take_length] at himp2
  split at himp2
  · exact absurd himp2 (by simp)
  · rename_i st hrun
    simp only [Option.some.injEq, Prod.mk.injEq, Area.mk.injEq] at himp2
    have hvox : st.m_voxels = L.map (LRect.toVoxel (instanceCtx markers fuel true inst inverse
        m_no)) := himp2.1.2.2.2.2
    have hP := yLoop_zmax (instanceCtx markers fuel true inst inverse m_no) hid
      inst.model.voxel_data hmk hopt inst.model.size_y 0
      { voxel_copy := inst.model.voxel_data, m_voxels := [], m_edges := edges, en := en } []
      (by omega) rfl hinit (by intro v hv; simp at hv) st hrun
    obtain ⟨fx, fy, fz⟩ := hfit
    unfold AxisFits at fx fy fz
    intro v hv
    simp only at hv
    rw [← hvox] at hv
    obtain ⟨r, hvr, ⟨r1, r2, r3, r4, r5⟩, hcol, hmax⟩ := hP v hv
    rw [hsx] at r2
    rw [hsz] at r4
    rw [hsy] at r5
    have htv := toVoxel_of_fits (instanceCtx markers fuel true inst inverse m_no) r
      (by rw [hctx]; exact fx) (by rw [hctx]; exact fy) (by rw [hctx]; exact fz) r1
      (by rw [hsx]; exact r2) r3 (by rw [hsz]; exact r4) (by rw [hsy]; exact r5)
    rw [htv] at hvr
    subst hvr
    rw [hsx, hsy] at hcol
    unfold ZMaximal at hmax
    rw [hsx, hsy, hsz] at hmax
    simp only [hctx]
    exact ⟨r, ⟨rfl, rfl, rfl, rfl, rfl, rfl⟩, ⟨r1, r2, r3, r4, r5⟩, hcol, hmax⟩

/-- Witness of C30: the L-shaped slab. -/
theorem z_growth_whole_row_maximal_witness :
    ∃ area, importInstance none 0 true gridLShape identityMatrix 100 [] 0 = some (area, [], 0)
      ∧ area.m_voxels.length = 2 :=
  match z_growth_whole_row_maximal none 0 gridLShape identityMatrix 100 [] 0
      (by decide) rfl (by decide) (by decide) (by decide) with
  | ⟨area, h1, _⟩ => ⟨area, h1, by
      have h2 : importInstance none 0 true gridLShape identityMatrix 100 [] 0
          = some (⟨100, -1, 0, -1, [⟨3, -1, 1, 0, -1, -1, 0⟩, ⟨3, -1, -1, 0, 0, 1, 0⟩]⟩, [], 0) := by
        rfl
      rw [h2] at h1
      simp only [Option.some.injEq, Prod.mk.injEq, and_true] at h1
      rw [← h1]
      rfl⟩

/-! ## Layers are merged independently (claim C29) -/

theorem mergeRect_layer (ctxA ctxB : MergeCtx) (hidA : IdentityCtx ctxA)
    (hidB : IdentityCtx ctxB) (hf : SameFrame ctxA ctxB) {x Y z : Nat} (dA dB : List Nat)
    (heq : LayerEq ctxA.space_size_x ctxA.space_size_y ctxA.space_size_z Y dA dB)
    (hx : x < ctxA.space_size_x) (hY : Y < ctxA.space_size_y) (hz : z < ctxA.space_size_z) :
    ∃ xe ez dA' dB',
      mergeRect ctxA dA Y z x (cellAt ctxA.space_size_x ctxA.space_size_y dA x Y z)
        = some (xe, ez, dA')
      ∧ mergeRect ctxB dB Y z x (cellAt ctxA.space_size_x ctxA.space_size_y dA x Y z)
        = some (xe, ez, dB')
      ∧ x ≤ xe ∧ xe < ctxA.space_size_x
      ∧ LayerEq ctxA.space_size_x ctxA.space_size_y ctxA.space_size_z Y dA' dB'
      ∧ (∀ i k, i < ctxA.space_size_x → k < ctxA.space_size_z →
          cellAt ctxA.space_size_x ctxA.space_size_y dA' i Y k
            = cellAt ctxA.space_size_x ctxA.space_size_y dA i Y k
          ∨ cellAt ctxA.space_size_x ctxA.space_size_y dA' i Y k = 0) := by
  obtain ⟨lenA, lenB, hcell⟩ := heq
  have hcB : cellAt ctxB.space_size_x ctxB.space_size_y dB x Y z
      = cellAt ctxA.space_size_x ctxA.space_size_y dA x Y z := by
    rw [hf.size_x, hf.size_y, hcell x z hx hz]
  obtain ⟨xa, ea, dA', a1, a2, a3, a4, a5, a6, a7, a8, a9, a10⟩ :=
    mergeRect_spec ctxA hidA dA lenA
      (cellAt ctxA.space_size_x ctxA.space_size_y dA x Y z) hx hY hz rfl
  obtain ⟨xb, eb, dB', b1, b2, b3, b4, b5, b6, b7, b8, b9, b10⟩ :=
    mergeRect_spec ctxB hidB dB (by rw [hf.size_x, hf.size_y, hf.size_z]; exact lenB)
      (cellAt ctxA.space_size_x ctxA.space_size_y dA x Y z)
      (by rw [hf.size_x]; exact hx) (by rw [hf.size_y]; exact hY)
      (by rw [hf.size_z]; exact hz) hcB
  rw [hf.size_x, hf.size_y, hf.size_z] at b6 b8
  rw [hf.size_x] at b3
  rw [hf.size_z] at b5
  rw [hf.size_x, hf.size_y] at b7
  rw [hf.size_x, hf.size_y, hf.size_z, hf.optimize] at b10
  rw [hf.optimize] at b9
  have hxe_ez : xa = xb ∧ ea = eb := by
    cases hopt : ctxA.optimize with
    | false =>
      obtain ⟨p1, p2⟩ := a9 hopt
      obtain ⟨q1, q2⟩ := b9 hopt
      exact ⟨by rw [p1, q1], by rw [p2, q2]⟩
    | true =>
      obtain ⟨p1, p2⟩ := a10 hopt
      obtain ⟨q1, q2⟩ := b10 hopt
      have hxe : xa = xb := by
        rcases Nat.lt_trichotomy xa xb with hlt | heq | hgt
        · exfalso
          rcases p1 with p1 | p1
          · omega
          · apply p1
            rw [hcell (xa + 1) z (by omega) hz]
            exact b7 (xa + 1) z (by omega) (by omega) (le_refl _) b4
        · exact heq
        · exfalso
          rcases q1 with q1 | q1
          · omega
          · apply q1
            rw [← hcell (xb + 1) z (by omega) hz]
            exact a7 (xb + 1) z (by omega) (by omega) (le_refl _) a4
      subst hxe
      refine ⟨rfl, ?_⟩
      rcases Nat.lt_trichotomy ea eb with hlt | heq | hgt
      · exfalso
        rcases p2 with p2 | ⟨-, p2⟩
        · omega
        · apply p2
          intro i hi1 hi2
          rw [hcell i (ea + 1) (by omega) (by omega)]
          exact b7 i (ea + 1) hi1 hi2 (by omega) (by omega)
      · exact heq
      · exfalso
        rcases q2 with q2 | ⟨-, q2⟩
        · omega
        · apply q2
          intro i hi1 hi2
          rw [← hcell i (eb + 1) (by omega) (by omega)]
          exact a7 i (eb + 1) hi1 hi2 (by omega) (by omega)
  obtain ⟨h1, h2⟩ := hxe_ez
  subst h1 h2
  refine ⟨xa, ea, dA', dB', a1, b1, a2, a3, ⟨a6, b6, ?_⟩, ?_⟩
  · intro i k hi hk
    rw [a8 i Y k hi hY hk, b8 i Y k hi hY hk, hcell i k hi hk]
  · intro i k hi hk
    rw [a8 i Y k hi hY hk]
    split_ifs
    · exact Or.inr rfl
    · exact Or.inl rfl

theorem cellBody_layer (ctxA ctxB : MergeCtx) (hidA : IdentityCtx ctxA)
    (hidB : IdentityCtx ctxB) (hf : SameFrame ctxA ctxB) {x Y z : Nat} (stA stB : MergeState)
    (heq : LayerEq ctxA.space_size_x ctxA.space_size_y ctxA.space_size_z Y
      stA.voxel_copy stB.voxel_copy)
    (hnk : NoMarkLayer ctxA Y stA.voxel_copy)
    (hx : x < ctxA.space_size_x) (hY : Y < ctxA.space_size_y) (hz : z < ctxA.space_size_z) :
    ∃ xe new dA' dB',
      cellBody ctxA Y z x stA = some (xe, ⟨dA', stA.m_voxels ++ new, stA.m_edges, stA.en⟩)
      ∧ cellBody ctxB Y z x stB = some (xe, ⟨dB', stB.m_voxels ++ new, stB.m_edges, stB.en⟩)
      ∧ x ≤ xe ∧ xe < ctxA.space_size_x
      ∧ LayerEq ctxA.space_size_x ctxA.space_size_y ctxA.space_size_z Y dA' dB'
      ∧ NoMarkLayer ctxA Y dA' := by
  have hrA := read_cell ctxA hidA stA.voxel_copy heq.1 hx hY hz
  have hrB := read_cell ctxB hidB stB.voxel_copy
    (by rw [hf.size_x, hf.size_y, hf.size_z]; exact heq.2.1)
    (by rw [hf.size_x]; exact hx) (by rw [hf.size_y]; exact hY) (by rw [hf.size_z]; exact hz)
  rw [hf.size_x, hf.size_y, ← heq.2.2 x z hx hz] at hrB
  by_cases hc : cellAt ctxA.space_size_x ctxA.space_size_y stA.voxel_copy x Y z = 0
  · rw [hc] at hrA hrB
    refine ⟨x, [], stA.voxel_copy, stB.voxel_copy, ?_, ?_, le_refl _, hx, heq, hnk⟩
    · rw [cellBody_zero ctxA Y z x stA hrA, List.append_nil]
    · rw [cellBody_zero ctxB Y z x stB hrB, List.append_nil]
  · have hmA := hnk x z hx hz hc
    have hmB : ctxB.isMarker (cellAt ctxA.space_size_x ctxA.space_size_y stA.voxel_copy x Y z)
        = false := by
      unfold MergeCtx.isMarker at hmA ⊢
      rw [hf.markers]
      exact hmA
    obtain ⟨xe, ez, dA', dB', m1, m2, m3, m4, m5, m6⟩ :=
      mergeRect_layer ctxA ctxB hidA hidB hf stA.voxel_copy stB.voxel_copy heq hx hY hz
    have hvox : mkVoxel ctxB (cellAt ctxA.space_size_x ctxA.space_size_y stA.voxel_copy x Y z)
        x xe Y z ez
        = mkVoxel ctxA (cellAt ctxA.space_size_x ctxA.space_size_y stA.voxel_copy x Y z)
          x xe Y z ez := by
      unfold mkVoxel
      rw [hf.dx, hf.dy, hf.dz]
    refine ⟨xe, [mkVoxel ctxA (cellAt ctxA.space_size_x ctxA.space_size_y stA.voxel_copy x Y z)
      x xe Y z ez], dA', dB', ?_, ?_, m3, m4, m5, ?_⟩
    · rw [cellBody_ordinary ctxA Y z x _ stA hrA hc hmA, pushRect, m1]
    · rw [cellBody_ordinary ctxB Y z x _ stB hrB hc hmB, pushRect, m2]
      simp only [hvox]
    · intro i k hi hk hne
      rcases m6 i k hi hk with h1 | h1
      · rw [h1] at hne ⊢
        exact hnk i k hi hk hne
      · exact absurd h1 hne

theorem xLoop_layer (ctxA ctxB : MergeCtx) (hidA : IdentityCtx ctxA)
    (hidB : IdentityCtx ctxB) (hf : SameFrame ctxA ctxB) {Y z : Nat}
    (hY : Y < ctxA.space_size_y) (hz : z < ctxA.space_size_z) :
    ∀ (fuel x : Nat) (stA stB : MergeState), ctxA.space_size_x ≤ x + fuel →
      LayerEq ctxA.space_size_x ctxA.space_size_y ctxA.space_size_z Y
        stA.voxel_copy stB.voxel_copy →
      NoMarkLayer ctxA Y stA.voxel_copy →
      ∃ new dA' dB',
        xLoop ctxA Y z fuel x stA = some ⟨dA', stA.m_voxels ++ new, stA.m_edges, stA.en⟩
        ∧ xLoop ctxB Y z fuel x stB = some ⟨dB', stB.m_voxels ++ new, stB.m_edges, stB.en⟩
        ∧ LayerEq ctxA.space_size_x ctxA.space_size_y ctxA.space_size_z Y dA' dB'
        ∧ NoMarkLayer ctxA Y dA' := by
  intro fuel
  induction fuel with
  | zero =>
    intro x stA stB hfu heq hnk
    refine ⟨[], stA.voxel_copy, stB.voxel_copy, ?_, ?_, heq, hnk⟩
    · rw [xLoop, if_neg (by omega), List.append_nil]
    · rw [xLoop, if_neg (by rw [hf.size_x]; omega), List.append_nil]
  | succ n ih =>
    intro x stA stB hfu heq hnk
    by_cases hx : x < ctxA.space_size_x
    · obtain ⟨xe, new1, dA1, dB1, a1, a2, a3, a4, a5, a6⟩ :=
        cellBody_layer ctxA ctxB hidA hidB hf stA stB heq hnk hx hY hz
      obtain ⟨new2, dA2, dB2, b1, b2, b3, b4⟩ := ih (xe + 1)
        ⟨dA1, stA.m_voxels ++ new1, stA.m_edges, stA.en⟩
        ⟨dB1, stB.m_voxels ++ new1, stB.m_edges, stB.en⟩ (by omega) a5 a6
      refine ⟨new1 ++ new2, dA2, dB2, ?_, ?_, b3, b4⟩
      · rw [xLoop, if_pos hx, a1]
        simp only
        rw [b1, List.append_assoc]
      · rw [xLoop, if_pos (by rw [hf.size_x]; exact hx), a2]
        simp only
        rw [b2, List.append_assoc]
    · refine ⟨[], stA.voxel_copy, stB.voxel_copy, ?_, ?_, heq, hnk⟩
      · rw [xLoop, if_neg hx, List.append_nil]
      · rw [xLoop, if_neg (by rw [hf.size_x]; exact hx), List.append_nil]

theorem zLoop_layer (ctxA ctxB : MergeCtx) (hidA : IdentityCtx ctxA)
    (hidB : IdentityCtx ctxB) (hf : SameFrame ctxA ctxB) {Y : Nat}
    (hY : Y < ctxA.space_size_y) :
    ∀ (n z : Nat) (stA stB : MergeState), z + n ≤ ctxA.space_size_z →
      LayerEq ctxA.space_size_x ctxA.space_size_y ctxA.space_size_z Y
        stA.voxel_copy stB.voxel_copy →
      NoMarkLayer ctxA Y stA.voxel_copy →
      ∃ new dA' dB',
        zLoop ctxA Y n z stA = some ⟨dA', stA.m_voxels ++ new, stA.m_edges, stA.en⟩
        ∧ zLoop ctxB Y n z stB = some ⟨dB', stB.m_voxels ++ new, stB.m_edges, stB.en⟩
        ∧ LayerEq ctxA.space_size_x ctxA.space_size_y ctxA.space_size_z Y dA' dB'
        ∧ NoMarkLayer ctxA Y dA' := by
  intro n
  induction n with
  | zero =>
    intro z stA stB _ heq hnk
    refine ⟨[], stA.voxel_copy, stB.voxel_copy, ?_, ?_, heq, hnk⟩
    · rw [zLoop, List.append_nil]
    · rw [zLoop, List.append_nil]
  | succ n ih =>
    intro z stA stB hzn heq hnk
    have hz : z < ctxA.space_size_z := by omega
    obtain ⟨new1, dA1, dB1, a1, a2, a3, a4⟩ :=
      xLoop_layer ctxA ctxB hidA hidB hf hY hz ctxA.space_size_x 0 stA stB
        (by omega) heq hnk
    obtain ⟨new2, dA2, dB2, b1, b2, b3, b4⟩ := ih (z + 1)
      ⟨dA1, stA.m_voxels ++ new1, stA.m_edges, stA.en⟩
      ⟨dB1, stB.m_voxels ++ new1, stB.m_edges, stB.en⟩ (by omega) a3 a4
    refine ⟨new1 ++ new2, dA2, dB2, ?_, ?_, b3, b4⟩
    · rw [zLoop, a1]
      simp only
      rw [b1, List.append_assoc]
    · rw [zLoop, hf.size_x, a2]
      simp only
      rw [b2, List.append_assoc]

theorem import_layer_rects (markers : Option (Nat × Nat)) (fuel : Nat)
    (optimize : Bool) (inst : ogt_vox_instance) (inverse : Matrix) (m_no : Int)
    (edges : List RVX_EDGE) (en : Int)
    (hT : instanceMatrix inst.transform = identityMatrix) (hI : inverse = identityMatrix)
    (hlen : inst.model.voxel_data.length
      = inst.model.size_x * inst.model.size_y * inst.model.size_z)
    (hnm : ∀ c ∈ inst.model.voxel_data, isEdgeMarker markers c = false)
    (hfit : WorldFits inst) {Y : Nat} (hY : Y < inst.model.size_y) :
    ∃ (area : Area) (st1 st2 : MergeState),
      importInstance markers fuel optimize inst inverse m_no edges en = some (area, edges, en)
      ∧ area.m_sy = axisOrigin inst.model.size_y inst.transform.m31
      ∧ st1.voxel_copy.length = inst.model.size_x * inst.model.size_y * inst.model.size_z
      ∧ (∀ i j, i < inst.model.size_x → j < inst.model.size_z →
          cellAt inst.model.size_x inst.model.size_y st1.voxel_copy i Y j
            = cellAt inst.model.size_x inst.model.size_y inst.model.voxel_data i Y j)
      ∧ zLoop (instanceCtx markers fuel optimize inst inverse m_no) Y inst.model.size_z 0 st1
          = some st2
      ∧ ∀ new, st2.m_voxels = st1.m_voxels ++ new →
          rectsAtLayer area (Y + area.m_sy) = new := by
  obtain ⟨L1, L2, L3, st1, st2, data', himp, hinv, h1, h2, h3, hv1, hlen1, hcells, hz, hv2⟩ :=
    import_layer_decomp markers fuel optimize inst inverse m_no edges en hT hI hlen hnm hY
  have hctx := instanceCtx_identity markers fuel optimize inst inverse m_no hT hI
  have hsy : (instanceCtx markers fuel optimize inst inverse m_no).space_size_y
      = inst.model.size_y := by rw [hctx]
  have hdy : (instanceCtx markers fuel optimize inst inverse m_no).dy
      = axisOrigin inst.model.size_y inst.transform.m31 := by rw [hctx]
  obtain ⟨-, fy, -⟩ := hfit
  unfold AxisFits at fy
  rw [← hdy, ← hsy] at fy
  refine ⟨_, st1, st2, himp, rfl, hlen1, hcells, hz, ?_⟩
  intro new hnew
  rw [hv2, hv1, List.map_append] at hnew
  have hL2 := List.append_cancel_left hnew
  unfold rectsAtLayer
  simp only
  rw [← hL2, ← hdy, filter_layer_map _ _ Y fy, filter_layer_three L1 L2 L3 Y h1 h2 h3]
  intro r hr
  have := (hinv.rects r hr).2.2.2.2.1
  rw [hsy]; exact this

/-- C29: for two grids of equal dimensions without edge-marker cells, imported
with the same identity-linear transform and the same optimize flag, that agree
on every cell of layer `Y`: both imports return, and the sub-list of rectangles
with that `Y` (world layer `Y` plus the area origin) is the same for both,
whatever the other layers hold.  A rectangle has one `y`: it covers cells of
that layer only. -/
theorem layers_merged_independently (markers : Option (Nat × Nat)) (fuel : Nat)
    (optimize : Bool) (instA instB : ogt_vox_instance) (inverse : Matrix) (m_no : Int)
    (edges : List RVX_EDGE) (en : Int)
    (hT : instanceMatrix instA.transform = identityMatrix) (hI : inverse = identityMatrix)
    (hTB : instB.transform = instA.transform)
    (hdx : instB.model.size_x = instA.model.size_x)
    (hdy : instB.model.size_y = instA.model.size_y)
    (hdz : instB.model.size_z = instA.model.size_z)
    (hlenA : instA.model.voxel_data.length
      = instA.model.size_x * instA.model.size_y * instA.model.size_z)
    (hlenB : instB.model.voxel_data.length
      = instB.model.size_x * instB.model.size_y * instB.model.size_z)
    (hnmA : ∀ c ∈ instA.model.voxel_data, isEdgeMarker markers c = false)
    (hnmB : ∀ c ∈ instB.model.voxel_data, isEdgeMarker markers c = false)
    (hfit : WorldFits instA) {Y : Nat} (hY : Y < instA.model.size_y)
    (hlayer : ∀ i k, i < instA.model.size_x → k < instA.model.size_z →
      cellAt instA.model.size_x instA.model.size_y instA.model.voxel_data i Y k
        = cellAt instA.model.size_x instA.model.size_y instB.model.voxel_data i Y k) :
    ∃ areaA areaB,
      importInstance markers fuel optimize instA inverse m_no edges en = some (areaA, edges, en)
      ∧ importInstance markers fuel optimize instB inverse m_no edges en
          = some (areaB, edges, en)
      ∧ areaA.m_sy = areaB.m_sy
      ∧ rectsAtLayer areaA (Y + areaA.m_sy) = rectsAtLayer areaB (Y + areaB.m_sy)
      ∧ (∀ v ∈ areaA.m_voxels ++ areaB.m_voxels, ∀ x y z, v.covers x y z → y = v.y) := by
  have hTB' : instanceMatrix instB.transform = identityMatrix := by rw [hTB]; exact hT
  have hfitB : WorldFits instB := by
    unfold WorldFits at hfit ⊢
    rw [hTB, hdx, hdy, hdz]
    exact hfit
  obtain ⟨areaA, sA1, sA2, a1, a2, a3, a4, a5, a6⟩ := import_layer_rects markers fuel optimize
    instA inverse m_no edges en hT hI hlenA hnmA hfit hY
  obtain ⟨areaB, sB1, sB2, b1, b2, b3, b4, b5, b6⟩ := import_layer_rects markers fuel optimize
    instB inverse m_no edges en hTB' hI hlenB hnmB hfitB (by rw [hdy]; exact hY)
  have hctxA := instanceCtx_identity markers fuel optimize instA inverse m_no hT hI
  have hctxB := instanceCtx_identity markers fuel optimize instB inverse m_no hTB' hI
  have hidA : IdentityCtx (instanceCtx markers fuel optimize instA inverse m_no) := by
    rw [hctxA]
    exact ⟨rfl, rfl, rfl⟩
  have hidB : IdentityCtx (instanceCtx markers fuel optimize instB inverse m_no) := by
    rw [hctxB]
    exact ⟨rfl, rfl, rfl⟩
  have hsx : (instanceCtx markers fuel optimize instA inverse m_no).space_size_x
      = instA.model.size_x := by rw [hctxA]
  have hsy : (instanceCtx markers fuel optimize instA inverse m_no).space_size_y
      = instA.model.size_y := by rw [hctxA]
  have hsz : (instanceCtx markers fuel optimize instA inverse m_no).space_size_z
      = instA.model.size_z := by rw [hctxA]
  have hframe : SameFrame (instanceCtx markers fuel optimize instA inverse m_no)
      (instanceCtx markers fuel optimize instB inverse m_no) := by
    rw [hctxA, hctxB]
    exact ⟨hdx, hdy, hdz, by simp only [hTB, hdx], by simp only [hTB, hdy],
      by simp only [hTB, hdz], rfl, rfl⟩
  rw [hdx, hdy, hdz] at b3
  rw [hdx, hdy] at b4
  rw [hdz] at b4 b5
  have heq : LayerEq (instanceCtx markers fuel optimize instA inverse m_no).space_size_x
      (instanceCtx markers fuel optimize instA inverse m_no).space_size_y
      (instanceCtx markers fuel optimize instA inverse m_no).space_size_z Y
      sA1.voxel_copy sB1.voxel_copy := by
    rw [hsx, hsy, hsz]
    refine ⟨a3, b3, ?_⟩
    intro i k hi hk
    rw [a4 i k hi hk, b4 i k hi hk, hlayer i k hi hk]
  have hnk : NoMarkLayer (instanceCtx markers fuel optimize instA inverse m_no) Y
      sA1.voxel_copy := by
    intro i k hi hk hne
    rw [hsx] at hi
    rw [hsz] at hk
    rw [hsx, hsy] at hne ⊢
    rw [a4 i k hi hk] at hne ⊢
    unfold MergeCtx.isMarker
    rw [hctxA]
    exact hnmA _ (cellAt_mem_of_ne_zero hne)
  obtain ⟨new, dA', dB', z1, z2, -, -⟩ := zLoop_layer
    (instanceCtx markers fuel optimize instA inverse m_no)
    (instanceCtx markers fuel optimize instB inverse m_no) hidA hidB hframe
    (by rw [hsy]; exact hY) (instanceCtx markers fuel optimize instA inverse m_no).space_size_z
    0 sA1 sB1 (by omega) heq hnk
  rw [hsz] at z1 z2
  rw [a5] at z1
  rw [b5] at z2
  simp only [Option.some.injEq] at z1 z2
  have hA := a6 new (by rw [z1])
  have hB := b6 new (by rw [z2])
  refine ⟨areaA, areaB, a1, b1, ?_, by rw [hA, hB], ?_⟩
  · rw [a2, b2, hTB, hdy]
  · intro v _ x y z hc
    exact hc.1.symm

/-- Witness of C29: two 2 x 2 x 1 grids with the same layer 0 and different
layers 1. -/
theorem layers_merged_independently_witness :
    ∃ areaA areaB,
      importInstance none 0 true gridLayersA identityMatrix 100 [] 0 = some (areaA, [], 0)
      ∧ importInstance none 0 true gridLayersB identityMatrix 100 [] 0 = some (areaB, [], 0)
      ∧ areaA.m_sy = areaB.m_sy
      ∧ rectsAtLayer areaA (((0 : Nat) : Int) + areaA.m_sy)
          = rectsAtLayer areaB (((0 : Nat) : Int) + areaB.m_sy) :=
  match layers_merged_independently none 0 true gridLayersA gridLayersB identityMatrix 100 [] 0
      (by decide) rfl rfl rfl rfl rfl (by decide) (by decide) (by decide) (by decide)
      (by decide) (by decide : 0 < gridLayersA.model.size_y)
      (by
        intro i k hi hk
        have hi' : i < 2 := hi
        have hk' : k < 1 := hk
        interval_cases i <;> interval_cases k <;> decide) with
  | ⟨areaA, areaB, h1, h2, h3, h4, _⟩ => ⟨areaA, areaB, h1, h2, h3, h4⟩

/-! ## The cube of an edge is consumed (claims C21, C24) -/

theorem edgeGrowZ_spec (ctx : MergeCtx) (hid : IdentityCtx ctx) (data : List Nat)
    (hlen : data.length = ctx.space_size_x * ctx.space_size_y * ctx.space_size_z)
    (c : Nat) {sx x y : Nat} (hsx : sx ≤ x) (hx : x < ctx.space_size_x)
    (hy : y < ctx.space_size_y) :
    ∀ (n ez : Nat), ez + n < ctx.space_size_z →
      ∃ ez', edgeGrowZ ctx data sx x y c n ez = some ez' ∧ ez ≤ ez' ∧ ez' ≤ ez + n
        ∧ (∀ j, ez < j → j ≤ ez' → ∀ i, sx ≤ i → i ≤ x →
            cellAt ctx.space_size_x ctx.space_size_y data i y j = c) := by
  intro n
  induction n with
  | zero =>
    intro ez _
    refine ⟨ez, rfl, le_refl _, le_refl _, ?_⟩
    intro j h1 h2
    omega
  | succ n ih =>
    intro ez hb
    have hz1 : ez + 1 < ctx.space_size_z := by omega
    obtain ⟨b, hb1, hb2⟩ := AllVoxelsSameColor_spec ctx hid data hlen c hsx hx hy hz1
    cases b with
    | false =>
      refine ⟨ez, ?_, le_refl _, by omega, ?_⟩
      · rw [edgeGrowZ, hb1]
      · intro j h1 h2
        omega
    | true =>
      have hall := hb2.mp rfl
      obtain ⟨ez', h1, h2, h3, h4⟩ := ih (ez + 1) (by omega)
      refine ⟨ez', ?_, by omega, by omega, ?_⟩
      · rw [edgeGrowZ, hb1]
        exact h1
      · intro j hj1 hj2 i hi1 hi2
        by_cases hj : j = ez + 1
        · rw [hj]; exact hall i hi1 hi2
        · exact h4 j (by omega) hj2 i hi1 hi2

theorem removeRows_spec (ctx : MergeCtx) (hid : IdentityCtx ctx) {sx x ry : Nat}
    (hsx : sx ≤ x) (hx : x < ctx.space_size_x) (hry : ry < ctx.space_size_y) :
    ∀ (n rz : Nat) (data : List Nat), rz + n ≤ ctx.space_size_z →
      data.length = ctx.space_size_x * ctx.space_size_y * ctx.space_size_z →
      ∃ data', removeRows ctx sx x ry n rz data = some data'
        ∧ data'.length = ctx.space_size_x * ctx.space_size_y * ctx.space_size_z
        ∧ ∀ i j k, i < ctx.space_size_x → j < ctx.space_size_y → k < ctx.space_size_z →
            cellAt ctx.space_size_x ctx.space_size_y data' i j k
              = if j = ry ∧ rz ≤ k ∧ k < rz + n ∧ sx ≤ i ∧ i ≤ x then 0
                else cellAt ctx.space_size_x ctx.space_size_y data i j k := by
  intro n
  induction n with
  | zero =>
    intro rz data _ hlen
    refine ⟨data, rfl, hlen, ?_⟩
    intro i j k _ _ _
    rw [if_neg (by omega)]
  | succ n ih =>
    intro rz data hb hlen
    obtain ⟨data1, hr1, hr2, hr3⟩ := RemoveVoxels_spec ctx hid data hsx hx hry
      (show rz < ctx.space_size_z by omega) hlen
    obtain ⟨data', h1, h2, h3⟩ := ih (rz + 1) data1 (by omega) hr2
    refine ⟨data', ?_, h2, ?_⟩
    · rw [removeRows, hr1]
      exact h1
    · intro i j k hi hj hk
      rw [h3 i j k hi hj hk, hr3 i j k hi hj hk]
      by_cases hc : j = ry ∧ rz ≤ k ∧ k < rz + (n + 1) ∧ sx ≤ i ∧ i ≤ x
      · rw [if_pos hc]
        by_cases hc2 : j = ry ∧ rz + 1 ≤ k ∧ k < rz + 1 + n ∧ sx ≤ i ∧ i ≤ x
        · rw [if_pos hc2]
        · rw [if_neg hc2, if_pos (by omega)]
      · rw [if_neg hc, if_neg (by omega), if_neg (by omega)]

theorem removeCube_spec (ctx : MergeCtx) (hid : IdentityCtx ctx) {sx x sz ez : Nat}
    (hsx : sx ≤ x) (hx : x < ctx.space_size_x) (hsz : sz ≤ ez) (hez : ez < ctx.space_size_z) :
    ∀ (n ry : Nat) (data : List Nat), ry + n ≤ ctx.space_size_y →
      data.length = ctx.space_size_x * ctx.space_size_y * ctx.space_size_z →
      ∃ data', removeCube ctx sx x sz ez n ry data = some data'
        ∧ data'.length = ctx.space_size_x * ctx.space_size_y * ctx.space_size_z
        ∧ ∀ i j k, i < ctx.space_size_x → j < ctx.space_size_y → k < ctx.space_size_z →
            cellAt ctx.space_size_x ctx.space_size_y data' i j k
              = if ry ≤ j ∧ j < ry + n ∧ sz ≤ k ∧ k ≤ ez ∧ sx ≤ i ∧ i ≤ x then 0
                else cellAt ctx.space_size_x ctx.space_size_y data i j k := by
  intro n
  induction n with
  | zero =>
    intro ry data _ hlen
    refine ⟨data, rfl, hlen, ?_⟩
    intro i j k _ _ _
    rw [if_neg (by omega)]
  | succ n ih =>
    intro ry data hb hlen
    obtain ⟨data1, hr1, hr2, hr3⟩ := removeRows_spec ctx hid hsx hx
      (show ry < ctx.space_size_y by omega) (ez + 1 - sz) sz data (by omega) hlen
    obtain ⟨data', h1, h2, h3⟩ := ih (ry + 1) data1 (by omega) hr2
    refine ⟨data', ?_, h2, ?_⟩
    · rw [removeCube, hr1]
      exact h1
    · intro i j k hi hj hk
      rw [h3 i j k hi hj hk, hr3 i j k hi hj hk]
      by_cases hc : ry ≤ j ∧ j < ry + (n + 1) ∧ sz ≤ k ∧ k ≤ ez ∧ sx ≤ i ∧ i ≤ x
      · rw [if_pos hc]
        by_cases hc2 : ry + 1 ≤ j ∧ j < ry + 1 + n ∧ sz ≤ k ∧ k ≤ ez ∧ sx ≤ i ∧ i ≤ x
        · rw [if_pos hc2]
        · rw [if_neg hc2, if_pos (by omega)]
      · rw [if_neg hc, if_neg (by omega), if_neg (by omega)]

theorem edgeBranch_cube (ctx : MergeCtx) (hid : IdentityCtx ctx) (l r : Nat) {y z x : Nat}
    (c : Nat) (st : MergeState) (hx : x < ctx.space_size_x) (hy : y < ctx.space_size_y)
    (hz : z < ctx.space_size_z)
    (hlen : st.voxel_copy.length = ctx.space_size_x * ctx.space_size_y * ctx.space_size_z)
    (hc : cellAt ctx.space_size_x ctx.space_size_y st.voxel_copy x y z = c)
    {xe : Nat} {st' : MergeState} (h : edgeBranch ctx l r y z x c st = some (xe, st')) :
    ∃ ez ey e, x ≤ xe ∧ xe < ctx.space_size_x ∧ z ≤ ez ∧ ez < ctx.space_size_z ∧ y + 1 ≤ ey
      ∧ st'.m_edges = st.m_edges ++ [e] ∧ st'.m_voxels = st.m_voxels ∧ st'.en = st.en + 1
      ∧ EdgeOfCube ctx e ⟨x, xe, y, ey, z, ez⟩
      ∧ (∀ i k, x ≤ i → i ≤ xe → z ≤ k → k ≤ ez →
          cellAt ctx.space_size_x ctx.space_size_y st.voxel_copy i y k = c)
      ∧ (ey < ctx.space_size_y →
          st'.voxel_copy.length = ctx.space_size_x * ctx.space_size_y * ctx.space_size_z
          ∧ ∀ i j k, i < ctx.space_size_x → j < ctx.space_size_y → k < ctx.space_size_z →
              cellAt ctx.space_size_x ctx.space_size_y st'.voxel_copy i j k
                = if (LCube.mk x xe y ey z ez).contains i j k then 0
                  else cellAt ctx.space_size_x ctx.space_size_y st.voxel_copy i j k) := by
  obtain ⟨-, hmv, x', ez, e, ey, hl, hg, hm, hd, hxe, hed, hen⟩ :=
    edgeBranch_zeroed ctx l r y z x c st h
  subst hxe
  obtain ⟨x2, l1, l2, l3, l4, -⟩ := lineScan_spec ctx hid st.voxel_copy hlen c hy hz
    (ctx.space_size_x - 1 - x) x (by omega)
  rw [hl] at l1
  obtain rfl : xe = x2 := by simpa using l1
  have hxe : xe < ctx.space_size_x := by omega
  obtain ⟨ez2, g1, g2, g3, g4⟩ := edgeGrowZ_spec ctx hid st.voxel_copy hlen c l2 hxe hy
    (ctx.space_size_z - 1 - z) z (by omega)
  rw [hg] at g1
  obtain rfl : ez = ez2 := by simpa using g1
  have hez : ez < ctx.space_size_z := by omega
  obtain ⟨m1, m2, m3, m4, m5, m6, -, m8, -, -, -⟩ := edgeMeasure_spec ctx l r _ _ _ _ _ _ _ _ hm
  refine ⟨ez, ey, e, l2, hxe, g2, hez, m8, hed, hmv, hen, ⟨m1, m2, m3, m4, m5, m6⟩, ?_, ?_⟩
  · intro i k hi1 hi2 hk1 hk2
    by_cases hk : k = z
    · rw [hk]
      by_cases hi : i = x
      · rw [hi]; exact hc
      · exact l4 i (by omega) hi2
    · exact g4 k (by omega) hk2 i hi1 hi2
  · intro hey
    obtain ⟨data', d1, d2, d3⟩ := removeCube_spec ctx hid l2 hxe g2 hez (ey + 1 - y) y
      st.voxel_copy (by omega) hlen
    rw [hd] at d1
    obtain rfl : st'.voxel_copy = data' := by simpa using d1
    refine ⟨d2, ?_⟩
    intro i j k hi hj hk
    rw [d3 i j k hi hj hk]
    unfold LCube.contains
    simp only
    by_cases hq : x ≤ i ∧ i ≤ xe ∧ y ≤ j ∧ j ≤ ey ∧ z ≤ k ∧ k ≤ ez
    · rw [if_pos hq, if_pos (by omega)]
    · rw [if_neg hq, if_neg (by omega)]

theorem inCubes_append_singleton (C : List LCube) (q : LCube) (x y z : Nat) :
    inCubes (C ++ [q]) x y z ↔ inCubes C x y z ∨ q.contains x y z := by
  unfold inCubes
  constructor
  · rintro ⟨p, hp, hc⟩
    rw [List.mem_append, List.mem_singleton] at hp
    rcases hp with hp | hp
    · exact Or.inl ⟨p, hp, hc⟩
    · subst hp; exact Or.inr hc
  · rintro (⟨p, hp, hc⟩ | hc)
    · exact ⟨p, List.mem_append_left _ hp, hc⟩
    · exact ⟨q, List.mem_append_right _ (List.mem_singleton.mpr rfl), hc⟩

theorem EdgeInv_congr {ctx : MergeCtx} {G data : List Nat} {L : List LRect} {C : List LCube}
    {fx fy fz gx gy gz : Nat}
    (heq : ∀ i j k, i < ctx.space_size_x → j < ctx.space_size_y → k < ctx.space_size_z →
      (scannedBefore i j k fx fy fz ↔ scannedBefore i j k gx gy gz))
    (h : EdgeInv ctx G fx fy fz data L C) : EdgeInv ctx G gx gy gz data L C := by
  refine ⟨h.len, ?_, ?_, ?_, ?_⟩
  · intro i j k hi hj hk hs
    exact h.scanned i j k hi hj hk ((heq i j k hi hj hk).mpr hs)
  · intro i j k hi hj hk hs
    exact h.pending i j k hi hj hk (fun hs' => hs ((heq i j k hi hj hk).mp hs'))
  · intro r hr
    obtain ⟨r1, r2, r3, r4, r5, r6, r7, r8, r9⟩ := h.rects r hr
    exact ⟨r1, r2, r3, r4, r5, r6, r7, (heq r.sx r.y r.sz (by omega) r5 (by omega)).mp r8, r9⟩
  · intro q hq
    obtain ⟨q1, q2, q3, q4, q5, q6, q7⟩ := h.cubes q hq
    exact ⟨q1, q2, q3, q4, q5, q6, (heq q.sx q.sy q.sz (by omega) (by omega) (by omega)).mp q7⟩

theorem EdgeInv_init (ctx : MergeCtx) (G : List Nat)
    (hlen : G.length = ctx.space_size_x * ctx.space_size_y * ctx.space_size_z) :
    EdgeInv ctx G 0 0 0 G [] [] := by
  refine ⟨hlen, ?_, ?_, ?_, ?_⟩
  · intro i j k _ _ _ hs
    unfold scannedBefore at hs
    omega
  · intro i j k _ _ _ _
    left
    refine ⟨?_, rfl, rfl⟩
    rintro ⟨q, hq, -⟩
    simp at hq
  · intro r hr
    simp at hr
  · intro q hq
    simp at hq

theorem EdgeInv_skip {ctx : MergeCtx} {G data : List Nat} {L : List LRect} {C : List LCube}
    {x y z : Nat} (hinv : EdgeInv ctx G x y z data L C)
    (hc : cellAt ctx.space_size_x ctx.space_size_y data x y z = 0) :
    EdgeInv ctx G (x + 1) y z data L C := by
  refine ⟨hinv.len, ?_, ?_, ?_, ?_⟩
  · intro i j k hi hj hk hs
    by_cases hs0 : scannedBefore i j k x y z
    · exact hinv.scanned i j k hi hj hk hs0
    · have hijk : i = x ∧ j = y ∧ k = z := by
        unfold scannedBefore at hs hs0; omega
      obtain ⟨h1, h2, h3⟩ := hijk
      subst h1 h2 h3
      rcases hinv.pending i j k hi hj hk hs0 with ⟨h1, h2, h3⟩ | ⟨h1, h2, _, h4⟩ | ⟨h1, h2, _⟩
      · rw [h2, if_neg]
        rw [← h3, hc]
        simp
      · rw [h2, if_pos ⟨h4, h1⟩]
      · rw [h2, if_neg]
        exact fun hh => hh.2 h1
  · intro i j k hi hj hk hs
    exact hinv.pending i j k hi hj hk (by unfold scannedBefore at hs ⊢; omega)
  · intro r hrL
    obtain ⟨r1, r2, r3, r4, r5, r6, r7, r8, r9⟩ := hinv.rects r hrL
    exact ⟨r1, r2, r3, r4, r5, r6, r7, by unfold scannedBefore at r8 ⊢; omega, r9⟩
  · intro q hq
    obtain ⟨q1, q2, q3, q4, q5, q6, q7⟩ := hinv.cubes q hq
    exact ⟨q1, q2, q3, q4, q5, q6, by unfold scannedBefore at q7 ⊢; omega⟩

theorem EdgeInv_rect {ctx : MergeCtx} {G data data' : List Nat} {L : List LRect}
    {C : List LCube} {x y z xe ez : Nat} (hinv : EdgeInv ctx G x y z data L C)
    (hy : y < ctx.space_size_y)
    (hc : cellAt ctx.space_size_x ctx.space_size_y data x y z ≠ 0)
    (hmk : ctx.isMarker (cellAt ctx.space_size_x ctx.space_size_y data x y z) = false)
    (m2 : x ≤ xe) (m3 : xe < ctx.space_size_x) (m4 : z ≤ ez) (m5 : ez < ctx.space_size_z)
    (m6 : data'.length = ctx.space_size_x * ctx.space_size_y * ctx.space_size_z)
    (m7 : ∀ i j, x ≤ i → i ≤ xe → z ≤ j → j ≤ ez →
      cellAt ctx.space_size_x ctx.space_size_y data i y j
        = cellAt ctx.space_size_x ctx.space_size_y data x y z)
    (m8 : ∀ i j k, i < ctx.space_size_x → j < ctx.space_size_y → k < ctx.space_size_z →
      cellAt ctx.space_size_x ctx.space_size_y data' i j k
        = if j = y ∧ z < k ∧ k ≤ ez ∧ x ≤ i ∧ i ≤ xe then 0
          else cellAt ctx.space_size_x ctx.space_size_y data i j k) :
    EdgeInv ctx G (xe + 1) y z data'
      (L ++ [⟨cellAt ctx.space_size_x ctx.space_size_y data x y z, x, xe, y, z, ez⟩]) C := by
  -- every cell of the new rectangle is outside the cubes, uncovered so far and
  -- has the colour in `G`
  have hcells : ∀ i k, x ≤ i → i ≤ xe → z ≤ k → k ≤ ez →
      ¬ inCubes C i y k ∧ coverCount L i y k = 0
        ∧ cellAt ctx.space_size_x ctx.space_size_y G i y k
          = cellAt ctx.space_size_x ctx.space_size_y data x y z := by
    intro i k hi1 hi2 hk1 hk2
    have hD := m7 i k hi1 hi2 hk1 hk2
    have hns : ¬ scannedBefore i y k x y z := by unfold scannedBefore; omega
    rcases hinv.pending i y k (by omega) hy (by omega) hns with
      ⟨q0, q1, q2⟩ | ⟨_, _, q2, _⟩ | ⟨_, _, q2⟩
    · exact ⟨q0, q1, by rw [← q2, hD]⟩
    · rw [hD] at q2; exact absurd q2 hc
    · rw [hD] at q2; exact absurd q2 hc
  refine ⟨m6, ?_, ?_, ?_, ?_⟩
  · intro i j k hi hj hk hs
    rw [coverCount_append_singleton]
    by_cases hcov : (LRect.mk (cellAt ctx.space_size_x ctx.space_size_y data x y z)
        x xe y z ez).covers i j k
    · rw [if_pos hcov]
      unfold LRect.covers at hcov
      simp only at hcov
      obtain ⟨e1, e2, e3, e4, e5⟩ := hcov
      subst e1
      obtain ⟨c0, c1, c2⟩ := hcells i k e2 e3 e4 e5
      rw [c1, c2, if_pos ⟨hc, c0⟩]
    · rw [if_neg hcov, Nat.add_zero]
      apply hinv.scanned i j k hi hj hk
      unfold LRect.covers at hcov
      simp only at hcov
      unfold scannedBefore at hs ⊢
      omega
  · intro i j k hi hj hk hs
    have hs0 : ¬ scannedBefore i j k x y z := by
      unfold scannedBefore at hs ⊢; omega
    rw [coverCount_append_singleton, m8 i j k hi hj hk]
    by_cases hcov : (LRect.mk (cellAt ctx.space_size_x ctx.space_size_y data x y z)
        x xe y z ez).covers i j k
    · rw [if_pos hcov]
      unfold LRect.covers at hcov
      simp only at hcov
      obtain ⟨e1, e2, e3, e4, e5⟩ := hcov
      subst e1
      obtain ⟨c0, c1, c2⟩ := hcells i k e2 e3 e4 e5
      right; left
      refine ⟨c0, by rw [c1], ?_, by rw [c2]; exact hc⟩
      rw [if_pos]
      unfold scannedBefore at hs
      omega
    · rw [if_neg hcov, Nat.add_zero]
      unfold LRect.covers at hcov
      simp only at hcov
      rw [if_neg (by omega)]
      exact hinv.pending i j k hi hj hk hs0
  · intro r hrL
    rw [List.mem_append, List.mem_singleton] at hrL
    rcases hrL with hrL | hrL
    · obtain ⟨r1, r2, r3, r4, r5, r6, r7, r8, r9⟩ := hinv.rects r hrL
      exact ⟨r1, r2, r3, r4, r5, r6, r7, by unfold scannedBefore at r8 ⊢; omega, r9⟩
    · subst hrL
      have hsb : scannedBefore x y z (xe + 1) y z := by unfold scannedBefore; omega
      refine ⟨m2, m3, m4, m5, hy, hc, hmk, hsb, ?_⟩
      intro i k h1 h2 h3 h4
      exact (hcells i k h1 h2 h3 h4).2.2
  · intro q hq
    obtain ⟨q1, q2, q3, q4, q5, q6, q7⟩ := hinv.cubes q hq
    exact ⟨q1, q2, q3, q4, q5, q6, by unfold scannedBefore at q7 ⊢; omega⟩

theorem EdgeInv_cube {ctx : MergeCtx} {G data data' : List Nat} {L : List LRect}
    {C : List LCube} {x y z xe ez ey : Nat} (hinv : EdgeInv ctx G x y z data L C)
    (hy : y < ctx.space_size_y)
    (hc : cellAt ctx.space_size_x ctx.space_size_y data x y z ≠ 0)
    (m2 : x ≤ xe) (m3 : xe < ctx.space_size_x) (m4 : z ≤ ez) (m5 : ez < ctx.space_size_z)
    (hey1 : y + 1 ≤ ey) (hey : ey < ctx.space_size_y)
    (m6 : data'.length = ctx.space_size_x * ctx.space_size_y * ctx.space_size_z)
    (m7 : ∀ i k, x ≤ i → i ≤ xe → z ≤ k → k ≤ ez →
      cellAt ctx.space_size_x ctx.space_size_y data i y k
        = cellAt ctx.space_size_x ctx.space_size_y data x y z)
    (m8 : ∀ i j k, i < ctx.space_size_x → j < ctx.space_size_y → k < ctx.space_size_z →
      cellAt ctx.space_size_x ctx.space_size_y data' i j k
        = if (LCube.mk x xe y ey z ez).contains i j k then 0
          else cellAt ctx.space_size_x ctx.space_size_y data i j k) :
    EdgeInv ctx G (xe + 1) y z data' L (C ++ [⟨x, xe, y, ey, z, ez⟩]) := by
  -- the marker strip is uncovered so far
  have hstrip : ∀ i k, x ≤ i → i ≤ xe → z ≤ k → k ≤ ez → coverCount L i y k = 0 := by
    intro i k hi1 hi2 hk1 hk2
    have hD := m7 i k hi1 hi2 hk1 hk2
    have hns : ¬ scannedBefore i y k x y z := by unfold scannedBefore; omega
    rcases hinv.pending i y k (by omega) hy (by omega) hns with
      ⟨_, q1, _⟩ | ⟨_, _, q2, _⟩ | ⟨_, q1, _⟩
    · exact q1
    · rw [hD] at q2; exact absurd q2 hc
    · exact q1
  -- no rectangle lies in a layer above the current one
  have habove : ∀ i j k, y < j → coverCount L i j k = 0 := by
    intro i j k hj
    unfold coverCount
    rw [List.countP_eq_zero]
    intro r hr
    obtain ⟨-, -, -, -, -, -, -, r8, -⟩ := hinv.rects r hr
    simp only [decide_eq_true_eq]
    unfold LRect.covers
    unfold scannedBefore at r8
    omega
  have hcube : ∀ i j k, (LCube.mk x xe y ey z ez).contains i j k → coverCount L i j k = 0 := by
    intro i j k hq
    unfold LCube.contains at hq
    simp only at hq
    by_cases hj : j = y
    · subst hj
      exact hstrip i k hq.1 hq.2.1 hq.2.2.2.2.1 hq.2.2.2.2.2
    · exact habove i j k (by omega)
  have hmem : ∀ i j k, ¬ (LCube.mk x xe y ey z ez).contains i j k →
      (inCubes (C ++ [⟨x, xe, y, ey, z, ez⟩]) i j k ↔ inCubes C i j k) := by
    intro i j k hq
    rw [inCubes_append_singleton]
    constructor
    · rintro (h | h)
      · exact h
      · exact absurd h hq
    · exact Or.inl
  refine ⟨m6, ?_, ?_, ?_, ?_⟩
  · intro i j k hi hj hk hs
    by_cases hq : (LCube.mk x xe y ey z ez).contains i j k
    · rw [hcube i j k hq, if_neg]
      intro hh
      exact hh.2 ((inCubes_append_singleton _ _ _ _ _).mpr (Or.inr hq))
    · have hs0 : scannedBefore i j k x y z := by
        unfold LCube.contains at hq
        simp only at hq
        unfold scannedBefore at hs ⊢
        omega
      rw [hinv.scanned i j k hi hj hk hs0]
      by_cases hcond : cellAt ctx.space_size_x ctx.space_size_y G i j k ≠ 0 ∧ ¬ inCubes C i j k
      · rw [if_pos hcond, if_pos ⟨hcond.1, fun h => hcond.2 ((hmem i j k hq).mp h)⟩]
      · rw [if_neg hcond, if_neg]
        intro hh
        exact hcond ⟨hh.1, fun h => hh.2 ((hmem i j k hq).mpr h)⟩
  · intro i j k hi hj hk hs
    have hs0 : ¬ scannedBefore i j k x y z := by
      unfold scannedBefore at hs ⊢; omega
    rw [m8 i j k hi hj hk]
    by_cases hq : (LCube.mk x xe y ey z ez).contains i j k
    · rw [if_pos hq]
      right; right
      exact ⟨(inCubes_append_singleton _ _ _ _ _).mpr (Or.inr hq), hcube i j k hq, rfl⟩
    · rw [if_neg hq]
      rcases hinv.pending i j k hi hj hk hs0 with ⟨p0, p1, p2⟩ | ⟨p0, p1, p2, p3⟩ | ⟨p0, p1, p2⟩
      · left
        exact ⟨fun h => p0 ((hmem i j k hq).mp h), p1, p2⟩
      · right; left
        exact ⟨fun h => p0 ((hmem i j k hq).mp h), p1, p2, p3⟩
      · right; right
        exact ⟨(hmem i j k hq).mpr p0, p1, p2⟩
  · intro r hrL
    obtain ⟨r1, r2, r3, r4, r5, r6, r7, r8, r9⟩ := hinv.rects r hrL
    exact ⟨r1, r2, r3, r4, r5, r6, r7, by unfold scannedBefore at r8 ⊢; omega, r9⟩
  · intro q hq
    rw [List.mem_append, List.mem_singleton] at hq
    rcases hq with hq | hq
    · obtain ⟨q1, q2, q3, q4, q5, q6, q7⟩ := hinv.cubes q hq
      exact ⟨q1, q2, q3, q4, q5, q6, by unfold scannedBefore at q7 ⊢; omega⟩
    · subst hq
      have hsb : scannedBefore x y z (xe + 1) y z := by unfold scannedBefore; omega
      exact ⟨m2, m3, m4, m5, by simp only; omega, hey, hsb⟩

theorem cellBody_marker (ctx : MergeCtx) (y z x c : Nat) (st : MergeState)
    (h : readVoxel st.voxel_copy (ctx.off x y z) = some c) (hc : c ≠ 0)
    (hm : ctx.isMarker c = true) :
    ∃ l r, cellBody ctx y z x st = edgeBranch ctx l r y z x c st := by
  unfold cellBody
  rw [h]
  simp only [hc, if_false]
  unfold MergeCtx.isMarker isEdgeMarker at hm
  cases hmk : ctx.markers with
  | none =>
    rw [hmk] at hm
    exact absurd hm (by simp)
  | some lr =>
    obtain ⟨l, r⟩ := lr
    rw [hmk] at hm
    simp only [Bool.or_eq_true, beq_iff_eq] at hm
    exact ⟨l, r, by simp only [hm, if_true]⟩

theorem EdgesCubes_nil (ctx : MergeCtx) : EdgesCubes ctx [] [] := by
  constructor
  · intro e he; simp at he
  · intro q hq; simp at hq

theorem EdgesCubes_append {ctx : MergeCtx} {E1 E2 : List RVX_EDGE} {C1 C2 : List LCube}
    (h1 : EdgesCubes ctx E1 C1) (h2 : EdgesCubes ctx E2 C2) :
    EdgesCubes ctx (E1 ++ E2) (C1 ++ C2) := by
  constructor
  · intro e he
    rw [List.mem_append] at he
    rcases he with he | he
    · obtain ⟨q, hq, hh⟩ := h1.1 e he
      exact ⟨q, List.mem_append_left _ hq, hh⟩
    · obtain ⟨q, hq, hh⟩ := h2.1 e he
      exact ⟨q, List.mem_append_right _ hq, hh⟩
  · intro q hq
    rw [List.mem_append] at hq
    rcases hq with hq | hq
    · obtain ⟨e, he, hh⟩ := h1.2 q hq
      exact ⟨e, List.mem_append_left _ he, hh⟩
    · obtain ⟨e, he, hh⟩ := h2.2 q hq
      exact ⟨e, List.mem_append_right _ he, hh⟩

theorem cellBody_einv (ctx : MergeCtx) (hid : IdentityCtx ctx) (G : List Nat)
    {x y z : Nat} (hx : x < ctx.space_size_x) (hy : y < ctx.space_size_y)
    (hz : z < ctx.space_size_z) (st : MergeState) (L : List LRect) (C : List LCube)
    (hv : st.m_voxels = L.map (LRect.toVoxel ctx))
    (hinv : EdgeInv ctx G x y z st.voxel_copy L C)
    {xe : Nat} {st' : MergeState} (h : cellBody ctx y z x st = some (xe, st'))
    (hin : ∀ new, st'.m_edges = st.m_edges ++ new →
      ∀ e ∈ new, e.ey < ctx.space_size_y + ctx.dy) :
    x ≤ xe ∧ xe < ctx.space_size_x ∧ ∃ Lnew Cnew Enew,
      st'.m_voxels = (L ++ Lnew).map (LRect.toVoxel ctx)
      ∧ EdgeInv ctx G (xe + 1) y z st'.voxel_copy (L ++ Lnew) (C ++ Cnew)
      ∧ st'.m_edges = st.m_edges ++ Enew
      ∧ EdgesCubes ctx Enew Cnew := by
  have hr := read_cell ctx hid st.voxel_copy hinv.len hx hy hz
  by_cases hc : cellAt ctx.space_size_x ctx.space_size_y st.voxel_copy x y z = 0
  · rw [hc] at hr
    rw [cellBody_zero ctx y z x st hr] at h
    simp only [Option.some.injEq, Prod.mk.injEq] at h
    obtain ⟨h1, h2⟩ := h
    subst h1 h2
    refine ⟨le_refl _, hx, [], [], [], by simpa using hv, ?_, by simp, EdgesCubes_nil ctx⟩
    rw [List.append_nil, List.append_nil]
    exact EdgeInv_skip hinv hc
  · by_cases hmk : ctx.isMarker
        (cellAt ctx.space_size_x ctx.space_size_y st.voxel_copy x y z) = true
    · obtain ⟨l, r, hcb⟩ := cellBody_marker ctx y z x _ st hr hc hmk
      rw [hcb] at h
      obtain ⟨ez, ey, e, b1, b2, b3, b4, b5, hed, hmv, -, heq, hstrip, hcube⟩ :=
        edgeBranch_cube ctx hid l r _ st hx hy hz hinv.len rfl h
      have hey : ey < ctx.space_size_y := by
        have h1 := hin [e] hed e (List.mem_singleton.mpr rfl)
        have h2 := heq.2.2.2.1
        simp only at h2
        omega
      obtain ⟨hlen', hdata'⟩ := hcube hey
      refine ⟨b1, b2, [], [⟨x, xe, y, ey, z, ez⟩], [e], ?_, ?_, hed, ?_⟩
      · rw [hmv, List.append_nil]; exact hv
      · rw [List.append_nil]
        exact EdgeInv_cube hinv hy hc b1 b2 b3 b4 b5 hey hlen' hstrip hdata'
      · constructor
        · intro e' he'
          rw [List.mem_singleton] at he'
          subst he'
          exact ⟨_, List.mem_singleton.mpr rfl, heq⟩
        · intro q hq
          rw [List.mem_singleton] at hq
          subst hq
          exact ⟨e, List.mem_singleton.mpr rfl, heq⟩
    · have hmk' : ctx.isMarker
          (cellAt ctx.space_size_x ctx.space_size_y st.voxel_copy x y z) = false := by
        simpa using hmk
      obtain ⟨xe2, ez, data', m1, m2, m3, m4, m5, m6, m7, m8, -, -⟩ :=
        mergeRect_spec ctx hid st.voxel_copy hinv.len
          (cellAt ctx.space_size_x ctx.space_size_y st.voxel_copy x y z) hx hy hz rfl
      rw [cellBody_ordinary ctx y z x _ st hr hc hmk', pushRect, m1] at h
      simp only [Option.some.injEq, Prod.mk.injEq] at h
      obtain ⟨h1, h2⟩ := h
      subst h1 h2
      refine ⟨m2, m3,
        [⟨cellAt ctx.space_size_x ctx.space_size_y st.voxel_copy x y z, x, xe2, y, z, ez⟩],
        [], [], ?_, ?_, by simp, EdgesCubes_nil ctx⟩
      · simp only [List.map_append, List.map_cons, List.map_nil, hv]
        rfl
      · rw [List.append_nil]
        exact EdgeInv_rect hinv hy hc hmk' m2 m3 m4 m5 m6 m7 m8

theorem xLoop_einv (ctx : MergeCtx) (hid : IdentityCtx ctx) (G : List Nat)
    {y z : Nat} (hy : y < ctx.space_size_y) (hz : z < ctx.space_size_z) :
    ∀ (fuel x : Nat) (st : MergeState) (L : List LRect) (C : List LCube) (st' : MergeState),
      st.m_voxels = L.map (LRect.toVoxel ctx) →
      EdgeInv ctx G x y z st.voxel_copy L C →
      xLoop ctx y z fuel x st = some st' →
      (∀ new, st'.m_edges = st.m_edges ++ new →
        ∀ e ∈ new, e.ey < ctx.space_size_y + ctx.dy) →
      ∃ Lnew Cnew Enew, st'.m_voxels = (L ++ Lnew).map (LRect.toVoxel ctx)
        ∧ EdgeInv ctx G 0 y (z + 1) st'.voxel_copy (L ++ Lnew) (C ++ Cnew)
        ∧ st'.m_edges = st.m_edges ++ Enew
        ∧ EdgesCubes ctx Enew Cnew := by
  intro fuel
  induction fuel with
  | zero =>
    intro x st L C st' hv hinv h hin
    rw [xLoop] at h
    split at h
    · exact absurd h (by simp)
    · rename_i hx
      simp only [Option.some.injEq] at h
      subst h
      refine ⟨[], [], [], by simpa using hv, ?_, by simp, EdgesCubes_nil ctx⟩
      rw [List.append_nil, List.append_nil]
      refine EdgeInv_congr ?_ hinv
      intro i j k hi _ _
      unfold scannedBefore
      omega
  | succ n ih =>
    intro x st L C st' hv hinv h hin
    rw [xLoop] at h
    split at h
    · rename_i hx
      cases hcb : cellBody ctx y z x st with
      | none => rw [hcb] at h; exact absurd h (by simp)
      | some p =>
        obtain ⟨xe, st1⟩ := p
        rw [hcb] at h
        simp only at h
        obtain ⟨E1, a1, -⟩ := cellBody_edges ctx y z x st hcb
        obtain ⟨E2, a2, -⟩ := xLoop_edges ctx y z n (xe + 1) st1 st' h
        obtain ⟨-, -, L1, C1, E1', b1, b2, b3, b4⟩ := cellBody_einv ctx hid G hx hy hz st L C hv
          hinv hcb (by
            intro new hnew e he
            exact hin (new ++ E2) (by rw [a2, hnew, List.append_assoc]) e
              (List.mem_append_left _ he))
        obtain ⟨L2, C2, E2', c1, c2, c3, c4⟩ := ih (xe + 1) st1 (L ++ L1) (C ++ C1) st' b1 b2 h
          (by
            intro new hnew e he
            exact hin (E1 ++ new) (by rw [hnew, a1, List.append_assoc]) e
              (List.mem_append_right _ he))
        refine ⟨L1 ++ L2, C1 ++ C2, E1' ++ E2', ?_, ?_, ?_, EdgesCubes_append b4 c4⟩
        · rw [← List.append_assoc]; exact c1
        · rw [← List.append_assoc, ← List.append_assoc]; exact c2
        · rw [c3, b3, List.append_assoc]
    · rename_i hx
      simp only [Option.some.injEq] at h
      subst h
      refine ⟨[], [], [], by simpa using hv, ?_, by simp, EdgesCubes_nil ctx⟩
      rw [List.append_nil, List.append_nil]
      refine EdgeInv_congr ?_ hinv
      intro i j k hi _ _
      unfold scannedBefore
      omega

theorem zLoop_einv (ctx : MergeCtx) (hid : IdentityCtx ctx) (G : List Nat)
    {y : Nat} (hy : y < ctx.space_size_y) :
    ∀ (n z : Nat) (st : MergeState) (L : List LRect) (C : List LCube) (st' : MergeState),
      z + n ≤ ctx.space_size_z →
      st.m_voxels = L.map (LRect.toVoxel ctx) →
      EdgeInv ctx G 0 y z st.voxel_copy L C →
      zLoop ctx y n z st = some st' →
      (∀ new, st'.m_edges = st.m_edges ++ new →
        ∀ e ∈ new, e.ey < ctx.space_size_y + ctx.dy) →
      ∃ Lnew Cnew Enew, st'.m_voxels = (L ++ Lnew).map (LRect.toVoxel ctx)
        ∧ EdgeInv ctx G 0 y (z + n) st'.voxel_copy (L ++ Lnew) (C ++ Cnew)
        ∧ st'.m_edges = st.m_edges ++ Enew
        ∧ EdgesCubes ctx Enew Cnew := by
  intro n
  induction n with
  | zero =>
    intro z st L C st' _ hv hinv h hin
    simp only [zLoop, Option.some.injEq] at h
    subst h
    refine ⟨[], [], [], by simpa using hv, ?_, by simp, EdgesCubes_nil ctx⟩
    rw [List.append_nil, List.append_nil]
    exact hinv
  | succ n ih =>
    intro z st L C st' hzn hv hinv h hin
    rw [zLoop] at h
    cases hxl : xLoop ctx y z ctx.space_size_x 0 st with
    | none => rw [hxl] at h; exact absurd h (by simp)
    | some st1 =>
      rw [hxl] at h
      simp only at h
      obtain ⟨E1, a1, -⟩ := xLoop_edges ctx y z _ _ st st1 hxl
      obtain ⟨E2, a2, -⟩ := zLoop_edges ctx y n (z + 1) st1 st' h
      have hz : z < ctx.space_size_z := by omega
      obtain ⟨L1, C1, E1', b1, b2, b3, b4⟩ := xLoop_einv ctx hid G hy hz ctx.space_size_x 0
        st L C st1 hv hinv hxl (by
          intro new hnew e he
          exact hin (new ++ E2) (by rw [a2, hnew, List.append_assoc]) e
            (List.mem_append_left _ he))
      obtain ⟨L2, C2, E2', c1, c2, c3, c4⟩ := ih (z + 1) st1 (L ++ L1) (C ++ C1) st'
        (by omega) b1 b2 h (by
          intro new hnew e he
          exact hin (E1 ++ new) (by rw [hnew, a1, List.append_assoc]) e
            (List.mem_append_right _ he))
      refine ⟨L1 ++ L2, C1 ++ C2, E1' ++ E2', ?_, ?_, ?_, EdgesCubes_append b4 c4⟩
      · rw [← List.append_assoc]; exact c1
      · rw [← List.append_assoc, ← List.append_assoc]
        have e : z + (n + 1) = z + 1 + n := by omega
        rw [e]; exact c2
      · rw [c3, b3, List.append_assoc]

theorem yLoop_einv (ctx : MergeCtx) (hid : IdentityCtx ctx) (G : List Nat) :
    ∀ (n y : Nat) (st : MergeState) (L : List LRect) (C : List LCube) (st' : MergeState),
      y + n ≤ ctx.space_size_y →
      st.m_voxels = L.map (LRect.toVoxel ctx) →
      EdgeInv ctx G 0 y 0 st.voxel_copy L C →
      yLoop ctx n y st = some st' →
      (∀ new, st'.m_edges = st.m_edges ++ new →
        ∀ e ∈ new, e.ey < ctx.space_size_y + ctx.dy) →
      ∃ Lnew Cnew Enew, st'.m_voxels = (L ++ Lnew).map (LRect.toVoxel ctx)
        ∧ EdgeInv ctx G 0 (y + n) 0 st'.voxel_copy (L ++ Lnew) (C ++ Cnew)
        ∧ st'.m_edges = st.m_edges ++ Enew
        ∧ EdgesCubes ctx Enew Cnew := by
  intro n
  induction n with
  | zero =>
    intro y st L C st' _ hv hinv h hin
    simp only [yLoop, Option.some.injEq] at h
    subst h
    refine ⟨[], [], [], by simpa using hv, ?_, by simp, EdgesCubes_nil ctx⟩
    rw [List.append_nil, List.append_nil]
    exact hinv
  | succ n ih =>
    intro y st L C st' hyn hv hinv h hin
    rw [yLoop] at h
    cases hzl : zLoop ctx y ctx.space_size_z 0 st with
    | none => rw [hzl] at h; exact absurd h (by simp)
    | some st1 =>
      rw [hzl] at h
      simp only at h
      obtain ⟨E1, a1, -⟩ := zLoop_edges ctx y _ _ st st1 hzl
      obtain ⟨E2, a2, -⟩ := yLoop_edges ctx n (y + 1) st1 st' h
      have hy : y < ctx.space_size_y := by omega
      obtain ⟨L1, C1, E1', b1, b2, b3, b4⟩ := zLoop_einv ctx hid G hy ctx.space_size_z 0
        st L C st1 (by omega) hv hinv hzl (by
          intro new hnew e he
          exact hin (new ++ E2) (by rw [a2, hnew, List.append_assoc]) e
            (List.mem_append_left _ he))
      have b2' : EdgeInv ctx G 0 (y + 1) 0 st1.voxel_copy (L ++ L1) (C ++ C1) := by
        refine EdgeInv_congr ?_ b2
        intro i j k _ _ hk
        unfold scannedBefore
        omega
      obtain ⟨L2, C2, E2', c1, c2, c3, c4⟩ := ih (y + 1) st1 (L ++ L1) (C ++ C1) st'
        (by omega) b1 b2' h (by
          intro new hnew e he
          exact hin (E1 ++ new) (by rw [hnew, a1, List.append_assoc]) e
            (List.mem_append_right _ he))
      refine ⟨L1 ++ L2, C1 ++ C2, E1' ++ E2', ?_, ?_, ?_, EdgesCubes_append b4 c4⟩
      · rw [← List.append_assoc]; exact c1
      · rw [← List.append_assoc, ← List.append_assoc]
        have e : y + (n + 1) = y + 1 + n := by omega
        rw [e]; exact c2
      · rw [c3, b3, List.append_assoc]

theorem importInstance_identity_edges (markers : Option (Nat × Nat)) (fuel : Nat)
    (optimize : Bool) (inst : ogt_vox_instance) (inverse : Matrix) (m_no : Int)
    (edges : List RVX_EDGE) (en : Int)
    (hT : instanceMatrix inst.transform = identityMatrix) (hI : inverse = identityMatrix)
    (hlen : inst.model.voxel_data.length
      = inst.model.size_x * inst.model.size_y * inst.model.size_z)
    {area : Area} {es : List RVX_EDGE} {en' : Int}
    (h : importInstance markers fuel optimize inst inverse m_no edges en = some (area, es, en'))
    (hin : ∀ e ∈ es.drop edges.length,
      e.ey < inst.model.size_y + axisOrigin inst.model.size_y inst.transform.m31) :
    ∃ L C data', area = { m_no := m_no
                          m_sx := axisOrigin inst.model.size_x inst.transform.m30
                          m_sy := axisOrigin inst.model.size_y inst.transform.m31
                          m_sz := axisOrigin inst.model.size_z inst.transform.m32
                          m_voxels := L.map (LRect.toVoxel
                            (instanceCtx markers fuel optimize inst inverse m_no)) }
      ∧ EdgeInv (instanceCtx markers fuel optimize inst inverse m_no) inst.model.voxel_data
          0 inst.model.size_y 0 data' L C
      ∧ EdgesCubes (instanceCtx markers fuel optimize inst inverse m_no)
          (es.drop edges.length) C := by
  have hctx := instanceCtx_identity markers fuel optimize inst inverse m_no hT hI
  have hid : IdentityCtx (instanceCtx markers fuel optimize inst inverse m_no) := by
    rw [hctx]
    exact ⟨rfl, rfl, rfl⟩
  have hsx : (instanceCtx markers fuel optimize inst inverse m_no).space_size_x
      = inst.model.size_x := by rw [hctx]
  have hsy : (instanceCtx markers fuel optimize inst inverse m_no).space_size_y
      = inst.model.size_y := by rw [hctx]
  have hsz : (instanceCtx markers fuel optimize inst inverse m_no).space_size_z
      = inst.model.size_z := by rw [hctx]
  have hdx : (instanceCtx markers fuel optimize inst inverse m_no).dx
      = axisOrigin inst.model.size_x inst.transform.m30 := by rw [hctx]
  have hdy : (instanceCtx markers fuel optimize inst inverse m_no).dy
      = axisOrigin inst.model.size_y inst.transform.m31 := by rw [hctx]
  have hdz : (instanceCtx markers fuel optimize inst inverse m_no).dz
      = axisOrigin inst.model.size_z inst.transform.m32 := by rw [hctx]
  have hinit := EdgeInv_init (instanceCtx markers fuel optimize inst inverse m_no)
    inst.model.voxel_data (by rw [hsx, hsy, hsz]; exact hlen)
  unfold importInstance at h
  simp only [hsx, hsy, hsz, hdx, hdy, hdz, ← hlen, lt_irrefl, if_false, List.take_length] at h
  cases hrun : yLoop (instanceCtx markers fuel optimize inst inverse m_no) inst.model.size_y 0
      { voxel_copy := inst.model.voxel_data, m_voxels := [], m_edges := edges, en := en } with
  | none => rw [hrun] at h; exact absurd h (by simp)
  | some st =>
    rw [hrun] at h
    simp only [Option.some.injEq, Prod.mk.injEq] at h
    obtain ⟨h1, h2, -⟩ := h
    subst h2
    obtain ⟨L, C, E, c1, c2, c3, c4⟩ := yLoop_einv
      (instanceCtx markers fuel optimize inst inverse m_no) hid inst.model.voxel_data
      inst.model.size_y 0
      { voxel_copy := inst.model.voxel_data, m_voxels := [], m_edges := edges, en := en } [] []
      st (by rw [hsy]; omega) rfl hinit hrun (by
        intro new hnew e he
        rw [hsy, hdy]
        apply hin
        simp only at hnew
        rw [hnew, List.drop_left]
        exact he)
    simp only at c3
    rw [Nat.zero_add] at c2
    simp only [List.nil_append] at c1 c2
    refine ⟨L, C, st.voxel_copy, ?_, c2, ?_⟩
    · rw [← h1, c1]
    · rw [c3, List.drop_left]
      exact c4

theorem world_cover_count_edges (ctx : MergeCtx) (G data' : List Nat) (L : List LRect)
    (C : List LCube) (E : List RVX_EDGE)
    (hx : -32768 ≤ ctx.dx ∧ ctx.dx + ctx.space_size_x ≤ 32768)
    (hy : -32768 ≤ ctx.dy ∧ ctx.dy + ctx.space_size_y ≤ 32768)
    (hz : -32768 ≤ ctx.dz ∧ ctx.dz + ctx.space_size_z ≤ 32768)
    (hinv : EdgeInv ctx G 0 ctx.space_size_y 0 data' L C) (hec : EdgesCubes ctx E C)
    (x y z : Int) :
    (L.map (LRect.toVoxel ctx)).countP (fun v => decide (v.covers x y z))
      = if ((0 ≤ x - ctx.dx ∧ x - ctx.dx < ctx.space_size_x
              ∧ 0 ≤ y - ctx.dy ∧ y - ctx.dy < ctx.space_size_y
              ∧ 0 ≤ z - ctx.dz ∧ z - ctx.dz < ctx.space_size_z)
            ∧ cellAt ctx.space_size_x ctx.space_size_y G
                (x - ctx.dx).toNat (y - ctx.dy).toNat (z - ctx.dz).toNat ≠ 0)
          ∧ ¬ ∃ e ∈ E, e.cubeContains x y z
        then 1 else 0 := by
  rw [List.countP_map]
  by_cases hin : 0 ≤ x - ctx.dx ∧ x - ctx.dx < ctx.space_size_x
      ∧ 0 ≤ y - ctx.dy ∧ y - ctx.dy < ctx.space_size_y
      ∧ 0 ≤ z - ctx.dz ∧ z - ctx.dz < ctx.space_size_z
  · have hcount : L.countP ((fun v => decide (v.covers x y z)) ∘ LRect.toVoxel ctx)
        = coverCount L (x - ctx.dx).toNat (y - ctx.dy).toNat (z - ctx.dz).toNat := by
      unfold coverCount
      apply List.countP_congr
      intro r hr
      obtain ⟨r1, r2, r3, r4, r5, -, -, -, -⟩ := hinv.rects r hr
      simp only [Function.comp_apply, decide_eq_true_eq]
      rw [covers_toVoxel ctx r hx hy hz r1 r2 r3 r4 r5]
      constructor
      · intro h; exact h.2.2.2
      · intro h; exact ⟨hin.1, hin.2.2.1, hin.2.2.2.2.1, h⟩
    have hcub : inCubes C (x - ctx.dx).toNat (y - ctx.dy).toNat (z - ctx.dz).toNat
        ↔ ∃ e ∈ E, e.cubeContains x y z := by
      constructor
      · rintro ⟨q, hq, hc⟩
        obtain ⟨e, he, heq⟩ := hec.2 q hq
        refine ⟨e, he, ?_⟩
        unfold EdgeOfCube at heq
        unfold LCube.contains at hc
        unfold RVX_EDGE.cubeContains
        omega
      · rintro ⟨e, he, hc⟩
        obtain ⟨q, hq, heq⟩ := hec.1 e he
        refine ⟨q, hq, ?_⟩
        unfold EdgeOfCube at heq
        unfold RVX_EDGE.cubeContains at hc
        unfold LCube.contains
        omega
    rw [hcount, hinv.scanned _ _ _ (by omega) (by omega) (by omega)
      (by unfold scannedBefore; omega)]
    by_cases hcond : cellAt ctx.space_size_x ctx.space_size_y G
        (x - ctx.dx).toNat (y - ctx.dy).toNat (z - ctx.dz).toNat ≠ 0
        ∧ ¬ inCubes C (x - ctx.dx).toNat (y - ctx.dy).toNat (z - ctx.dz).toNat
    · rw [if_pos hcond, if_pos ⟨⟨hin, hcond.1⟩, fun h => hcond.2 (hcub.mpr h)⟩]
    · rw [if_neg hcond, if_neg]
      intro hh
      exact hcond ⟨hh.1.2, fun h => hh.2 (hcub.mp h)⟩
  · have hcount : L.countP ((fun v => decide (v.covers x y z)) ∘ LRect.toVoxel ctx) = 0 := by
      rw [List.countP_eq_zero]
      intro r hr
      obtain ⟨r1, r2, r3, r4, r5, -, -, -, -⟩ := hinv.rects r hr
      simp only [Function.comp_apply, decide_eq_true_eq]
      rw [covers_toVoxel ctx r hx hy hz r1 r2 r3 r4 r5]
      unfold LRect.covers
      omega
    rw [hcount, if_neg (fun h => hin h.1.1)]

theorem importInstance_origin {markers : Option (Nat × Nat)} {fuel : Nat} {optimize : Bool}
    {inst : ogt_vox_instance} {inverse : Matrix} {m_no : Int} {edges : List RVX_EDGE} {en : Int}
    {area : Area} {es : List RVX_EDGE} {en' : Int}
    (h : importInstance markers fuel optimize inst inverse m_no edges en = some (area, es, en')) :
    area.m_sx = (instanceCtx markers fuel optimize inst inverse m_no).dx
      ∧ area.m_sy = (instanceCtx markers fuel optimize inst inverse m_no).dy
      ∧ area.m_sz = (instanceCtx markers fuel optimize inst inverse m_no).dz := by
  unfold importInstance at h
  simp only at h
  split at h
  · exact absurd h (by simp)
  · split at h
    · exact absurd h (by simp)
    · simp only [Option.some.injEq, Prod.mk.injEq] at h
      rw [← h.1]
      exact ⟨rfl, rfl, rfl⟩

/-- The import of an instance with the identity transform whose edges all end
inside the grid: per world cell, the number of rectangles that cover it is `1`
if the source cell is non-empty and outside the cube of every new edge, and `0`
otherwise; and every covered cell has a colour that is not an edge marker. -/
theorem importInstance_edges_count (markers : Option (Nat × Nat)) (fuel : Nat)
    (optimize : Bool) (inst : ogt_vox_instance) (inverse : Matrix) (m_no : Int)
    (edges : List RVX_EDGE) (en : Int)
    (hT : instanceMatrix inst.transform = identityMatrix) (hI : inverse = identityMatrix)
    (hlen : inst.model.voxel_data.length
      = inst.model.size_x * inst.model.size_y * inst.model.size_z)
    (hfit : WorldFits inst) {area : Area} {es : List RVX_EDGE} {en' : Int}
    (h : importInstance markers fuel optimize inst inverse m_no edges en = some (area, es, en'))
    (hin : ∀ e ∈ es.drop edges.length, e.ey < area.m_sy + inst.model.size_y) :
    (∀ x y z : Int, area.m_voxels.countP (fun v => decide (v.covers x y z))
        = if sourceCell inst.model (x - area.m_sx) (y - area.m_sy) (z - area.m_sz) ≠ 0
              ∧ ¬ ∃ e ∈ es.drop edges.length, e.cubeContains x y z
          then 1 else 0)
      ∧ (∀ x y z : Int, (∃ v ∈ area.m_voxels, v.covers x y z) →
          isEdgeMarker markers
            (sourceCell inst.model (x - area.m_sx) (y - area.m_sy) (z - area.m_sz)) = false) := by
  have hctx := instanceCtx_identity markers fuel optimize inst inverse m_no hT hI
  have hsx : (instanceCtx markers fuel optimize inst inverse m_no).space_size_x
      = inst.model.size_x := by rw [hctx]
  have hsy : (instanceCtx markers fuel optimize inst inverse m_no).space_size_y
      = inst.model.size_y := by rw [hctx]
  have hsz : (instanceCtx markers fuel optimize inst inverse m_no).space_size_z
      = inst.model.size_z := by rw [hctx]
  have hdx : (instanceCtx markers fuel optimize inst inverse m_no).dx
      = axisOrigin inst.model.size_x inst.transform.m30 := by rw [hctx]
  have hdy : (instanceCtx markers fuel optimize inst inverse m_no).dy
      = axisOrigin inst.model.size_y inst.transform.m31 := by rw [hctx]
  have hdz : (instanceCtx markers fuel optimize inst inverse m_no).dz
      = axisOrigin inst.model.size_z inst.transform.m32 := by rw [hctx]
  have hmk : (instanceCtx markers fuel optimize inst inverse m_no).markers = markers := by
    rw [hctx]
  obtain ⟨o1, o2, o3⟩ := importInstance_origin h
  rw [hdx] at o1
  rw [hdy] at o2
  rw [hdz] at o3
  obtain ⟨L, C, data', ha, hinv, hec⟩ := importInstance_identity_edges markers fuel optimize
    inst inverse m_no edges en hT hI hlen h (by
      intro e he
      have := hin e he
      rw [o2] at this
      omega)
  obtain ⟨fx, fy, fz⟩ := hfit
  unfold AxisFits at fx fy fz
  have gx : -32768 ≤ (instanceCtx markers fuel optimize inst inverse m_no).dx
      ∧ (instanceCtx markers fuel optimize inst inverse m_no).dx
        + (instanceCtx markers fuel optimize inst inverse m_no).space_size_x ≤ 32768 := by
    rw [hdx, hsx]; exact fx
  have gy : -32768 ≤ (instanceCtx markers fuel optimize inst inverse m_no).dy
      ∧ (instanceCtx markers fuel optimize inst inverse m_no).dy
        + (instanceCtx markers fuel optimize inst inverse m_no).space_size_y ≤ 32768 := by
    rw [hdy, hsy]; exact fy
  have gz : -32768 ≤ (instanceCtx markers fuel optimize inst inverse m_no).dz
      ∧ (instanceCtx markers fuel optimize inst inverse m_no).dz
        + (instanceCtx markers fuel optimize inst inverse m_no).space_size_z ≤ 32768 := by
    rw [hdz, hsz]; exact fz
  have hv : area.m_voxels
      = L.map (LRect.toVoxel (instanceCtx markers fuel optimize inst inverse m_no)) := by
    rw [ha]
  constructor
  · intro x y z
    have hw := world_cover_count_edges (instanceCtx markers fuel optimize inst inverse m_no)
      inst.model.voxel_data data' L C (es.drop edges.length) gx gy gz
      (by rw [hsy]; exact hinv) hec x y z
    rw [hv, hw, o1, o2, o3]
    simp only [hsx, hsy, hsz, hdx, hdy, hdz]
    by_cases hs : sourceCell inst.model (x - axisOrigin inst.model.size_x inst.transform.m30)
        (y - axisOrigin inst.model.size_y inst.transform.m31)
        (z - axisOrigin inst.model.size_z inst.transform.m32) ≠ 0
        ∧ ¬ ∃ e ∈ es.drop edges.length, e.cubeContains x y z
    · rw [if_pos hs, if_pos ⟨(sourceCell_eq inst _ _ _).mp hs.1, hs.2⟩]
    · rw [if_neg hs, if_neg (fun h' => hs ⟨(sourceCell_eq inst _ _ _).mpr h'.1, h'.2⟩)]
  · rintro x y z ⟨v, hvm, hcov⟩
    rw [hv, List.mem_map] at hvm
    obtain ⟨r, hr, rfl⟩ := hvm
    obtain ⟨r1, r2, r3, r4, r5, r6, r7, -, r9⟩ := hinv.rects r hr
    have hcov' := (covers_toVoxel (instanceCtx markers fuel optimize inst inverse m_no) r
      gx gy gz r1 r2 r3 r4 r5 x y z).mp hcov
    simp only [hsx, hsy, hsz, hdx, hdy, hdz] at hcov' r2 r4 r5 r9
    obtain ⟨c1, c2, c3, c4⟩ := hcov'
    unfold LRect.covers at c4
    obtain ⟨c4, c5, c6, c7, c8⟩ := c4
    have hcell := r9 _ _ c5 c6 c7 c8
    rw [c4] at hcell
    have hsrc : sourceCell inst.model (x - area.m_sx) (y - area.m_sy) (z - area.m_sz) = r.c := by
      rw [o1, o2, o3]
      unfold sourceCell
      rw [if_pos (by omega)]
      exact hcell
    rw [hsrc]
    unfold MergeCtx.isMarker at r7
    rw [hmk] at r7
    exact r7

/-! ## Rectangles and edge cubes (claim C24) -/

/-- Counterexample to C24 as stated: with edge detection on (markers 254 and
255), the cell `(0, 1, 0)` of `gridEdgeStrip` is non-empty and its colour 5 is
not an edge marker, but it lies above the marker strip inside the cube of the
edge and no rectangle of the area covers it. -/
theorem ordinary_cell_above_marker_not_covered :
    ∃ area es en, importInstance (some (254, 255)) 20 true gridEdgeStrip identityMatrix 100 [] 0
        = some (area, es, en)
      ∧ sourceCell gridEdgeStrip.model 0 1 0 = 5
      ∧ isEdgeMarker (some (254, 255)) (sourceCell gridEdgeStrip.model 0 1 0) = false
      ∧ ¬ ∃ v ∈ area.m_voxels, v.covers (0 + area.m_sx) (1 + area.m_sy) (0 + area.m_sz) := by
  refine ⟨_, _, _, rfl, by decide, by decide, ?_⟩
  decide

/-- C24 (amended): with or without edge detection, when the import of an
instance with the identity transform returns and every edge it appends ends
inside the grid (`ey` below the top layer), then per world cell `(x, y, z)` the
number of rectangles of layer `y` whose `(sx..ex) x (sz..ez)` contains `(x, z)`
is `1` if the source cell is non-empty and outside the cube (marker layer
through `ey`) of every appended edge, and `0` otherwise.  So the union of the
rectangles at each layer is exactly the set of non-empty source cells outside
the edge cubes, no cell is covered twice, every covered cell has a colour that
is not an edge marker, and a grid without marker cells yields no edge. -/
theorem rects_cover_cells_outside_edge_cubes (markers : Option (Nat × Nat)) (fuel : Nat)
    (optimize : Bool) (inst : ogt_vox_instance) (inverse : Matrix) (m_no : Int)
    (edges : List RVX_EDGE) (en : Int)
    (hT : instanceMatrix inst.transform = identityMatrix) (hI : inverse = identityMatrix)
    (hlen : inst.model.voxel_data.length
      = inst.model.size_x * inst.model.size_y * inst.model.size_z)
    (hfit : WorldFits inst) {area : Area} {es : List RVX_EDGE} {en' : Int}
    (h : importInstance markers fuel optimize inst inverse m_no edges en = some (area, es, en'))
    (hin : ∀ e ∈ es.drop edges.length, e.ey < area.m_sy + inst.model.size_y) :
    (∀ x y z : Int, area.m_voxels.countP (fun v => decide (v.covers x y z))
        = if sourceCell inst.model (x - area.m_sx) (y - area.m_sy) (z - area.m_sz) ≠ 0
              ∧ ¬ ∃ e ∈ es.drop edges.length, e.cubeContains x y z
          then 1 else 0)
      ∧ (∀ x y z : Int, (∃ v ∈ area.m_voxels, v.covers x y z)
          ↔ (sourceCell inst.model (x - area.m_sx) (y - area.m_sy) (z - area.m_sz) ≠ 0
              ∧ ¬ ∃ e ∈ es.drop edges.length, e.cubeContains x y z))
      ∧ (∀ x y z : Int, (∃ v ∈ area.m_voxels, v.covers x y z) →
          isEdgeMarker markers
            (sourceCell inst.model (x - area.m_sx) (y - area.m_sy) (z - area.m_sz)) = false)
      ∧ ((∀ c ∈ inst.model.voxel_data, isEdgeMarker markers c = false) → es = edges) := by
  obtain ⟨hcount, hcol⟩ := importInstance_edges_count markers fuel optimize inst inverse m_no
    edges en hT hI hlen hfit h hin
  refine ⟨hcount, ?_, hcol, ?_⟩
  · intro x y z
    have hc := hcount x y z
    have hp := List.countP_pos_iff (p := fun v : Voxel => decide (v.covers x y z))
      (l := area.m_voxels)
    simp only [decide_eq_true_eq] at hp
    rw [← hp, hc]
    split_ifs with hs
    · simp [hs]
    · simp only [lt_irrefl, false_iff]
      exact hs
  · intro hnm
    obtain ⟨L, data', himp, -⟩ := importInstance_identity_local markers fuel optimize inst
      inverse m_no edges en hT hI hlen hnm
    rw [himp] at h
    simp only [Option.some.injEq, Prod.mk.injEq] at h
    exact h.2.1.symm

/-- Witness of C24 (amended): `gridEdgeBeside` yields one edge, which ends
inside the grid, and two rectangles beside its cube. -/
theorem rects_cover_cells_outside_edge_cubes_witness :
    ∃ area es en', importInstance (some (254, 255)) 20 true gridEdgeBeside identityMatrix 100 [] 0
        = some (area, es, en')
      ∧ area.m_voxels.length = 2 ∧ es.length = 1
      ∧ ∀ x y z : Int, area.m_voxels.countP (fun v => decide (v.covers x y z))
          = if sourceCell gridEdgeBeside.model (x - area.m_sx) (y - area.m_sy) (z - area.m_sz) ≠ 0
                ∧ ¬ ∃ e ∈ es.drop ([] : List RVX_EDGE).length, e.cubeContains x y z
            then 1 else 0 :=
  ⟨_, _, _, rfl, rfl, rfl,
    (rects_cover_cells_outside_edge_cubes (some (254, 255)) 20 true gridEdgeBeside identityMatrix
      100 [] 0 (by decide) rfl (by decide) (by decide) rfl (by decide)).1⟩

/-! ## After an edge is detected (claim C21) -/

theorem cellBody_cube_zero (ctx : MergeCtx) (hid : IdentityCtx ctx) {x y z : Nat}
    (hx : x < ctx.space_size_x) (hy : y < ctx.space_size_y) (hz : z < ctx.space_size_z)
    (st : MergeState)
    (hlen : st.voxel_copy.length = ctx.space_size_x * ctx.space_size_y * ctx.space_size_z)
    (hc : cellAt ctx.space_size_x ctx.space_size_y st.voxel_copy x y z ≠ 0)
    (hmk : ctx.isMarker (cellAt ctx.space_size_x ctx.space_size_y st.voxel_copy x y z) = true)
    {xe : Nat} {st' : MergeState} (h : cellBody ctx y z x st = some (xe, st')) :
    ∃ e, st'.m_edges = st.m_edges ++ [e] ∧ e.sx = x + ctx.dx ∧ e.sy = y + ctx.dy + 1
      ∧ e.sz = z + ctx.dz
      ∧ (e.ey < ctx.dy + ctx.space_size_y → ∀ X Y Z : Int, e.cubeContains X Y Z →
          cellAt ctx.space_size_x ctx.space_size_y st'.voxel_copy
            (X - ctx.dx).toNat (Y - ctx.dy).toNat (Z - ctx.dz).toNat = 0) := by
  have hr := read_cell ctx hid st.voxel_copy hlen hx hy hz
  obtain ⟨l, r, hcb⟩ := cellBody_marker ctx y z x _ st hr hc hmk
  rw [hcb] at h
  obtain ⟨ez, ey, e, b1, b2, b3, b4, b5, hed, -, -, heq, -, hcube⟩ :=
    edgeBranch_cube ctx hid l r _ st hx hy hz hlen rfl h
  unfold EdgeOfCube at heq
  simp only at heq
  refine ⟨e, hed, heq.1, heq.2.2.1, heq.2.2.2.2.1, ?_⟩
  intro hey X Y Z hq
  obtain ⟨-, hdata'⟩ := hcube (by omega)
  unfold RVX_EDGE.cubeContains at hq
  rw [hdata' _ _ _ (by omega) (by omega) (by omega), if_pos]
  unfold LCube.contains
  simp only
  omega

/-- C21: for an instance imported with the identity transform, (a) whenever
the loop body is entered at a non-empty cell of marker colour and returns, it
appends exactly one edge, and if that edge ends inside the grid (`ey` below the
top layer) every scratch cell in its columns `sx..ex`, rows `sz..ez` and layers
from the marker layer `sy - 1` through `ey` is zero in the state it returns;
(b) when the import returns and every appended edge ends inside the grid, no
rectangle of the area, whether emitted before or after the edge, covers a cell
of the cube of an appended edge. -/
theorem edge_cube_consumed (markers : Option (Nat × Nat)) (fuel : Nat)
    (optimize : Bool) (inst : ogt_vox_instance) (inverse : Matrix) (m_no : Int)
    (edges : List RVX_EDGE) (en : Int)
    (hT : instanceMatrix inst.transform = identityMatrix) (hI : inverse = identityMatrix)
    (hlen : inst.model.voxel_data.length
      = inst.model.size_x * inst.model.size_y * inst.model.size_z)
    (hfit : WorldFits inst) {area : Area} {es : List RVX_EDGE} {en' : Int}
    (h : importInstance markers fuel optimize inst inverse m_no edges en = some (area, es, en'))
    (hin : ∀ e ∈ es.drop edges.length, e.ey < area.m_sy + inst.model.size_y) :
    (∀ (st : MergeState) (x y z : Nat), x < inst.model.size_x → y < inst.model.size_y →
        z < inst.model.size_z →
        st.voxel_copy.length = inst.model.size_x * inst.model.size_y * inst.model.size_z →
        cellAt inst.model.size_x inst.model.size_y st.voxel_copy x y z ≠ 0 →
        isEdgeMarker markers (cellAt inst.model.size_x inst.model.size_y st.voxel_copy x y z)
          = true →
        ∀ (xe : Nat) (st' : MergeState),
          cellBody (instanceCtx markers fuel optimize inst inverse m_no) y z x st
            = some (xe, st') →
          ∃ e, st'.m_edges = st.m_edges ++ [e]
            ∧ e.sx = x + area.m_sx ∧ e.sy = y + area.m_sy + 1 ∧ e.sz = z + area.m_sz
            ∧ (e.ey < area.m_sy + inst.model.size_y → ∀ X Y Z : Int, e.cubeContains X Y Z →
                cellAt inst.model.size_x inst.model.size_y st'.voxel_copy
                  (X - area.m_sx).toNat (Y - area.m_sy).toNat (Z - area.m_sz).toNat = 0))
      ∧ (∀ e ∈ es.drop edges.length, ∀ v ∈ area.m_voxels, ∀ x y z : Int,
          e.cubeContains x y z → ¬ v.covers x y z) := by
  have hctx := instanceCtx_identity markers fuel optimize inst inverse m_no hT hI
  have hid : IdentityCtx (instanceCtx markers fuel optimize inst inverse m_no) := by
    rw [hctx]
    exact ⟨rfl, rfl, rfl⟩
  have hsx : (instanceCtx markers fuel optimize inst inverse m_no).space_size_x
      = inst.model.size_x := by rw [hctx]
  have hsy : (instanceCtx markers fuel optimize inst inverse m_no).space_size_y
      = inst.model.size_y := by rw [hctx]
  have hsz : (instanceCtx markers fuel optimize inst inverse m_no).space_size_z
      = inst.model.size_z := by rw [hctx]
  have hmk : (instanceCtx markers fuel optimize inst inverse m_no).markers = markers := by
    rw [hctx]
  obtain ⟨o1, o2, o3⟩ := importInstance_origin h
  constructor
  · intro st x y z hx hy hz hl hc hm xe st' hcb
    have := cellBody_cube_zero (instanceCtx markers fuel optimize inst inverse m_no) hid
      (by rw [hsx]; exact hx) (by rw [hsy]; exact hy) (by rw [hsz]; exact hz) st
      (by rw [hsx, hsy, hsz]; exact hl) (by rw [hsx, hsy]; exact hc)
      (by unfold MergeCtx.isMarker; rw [hmk, hsx, hsy]; exact hm) hcb
    rw [hsx, hsy, ← o1, ← o2, ← o3] at this
    exact this
  · intro e he v hv x y z hq hcov
    have hcount := (importInstance_edges_count markers fuel optimize inst inverse m_no
      edges en hT hI hlen hfit h hin).1 x y z
    rw [if_neg (fun hh => hh.2 ⟨e, he, hq⟩), List.countP_eq_zero] at hcount
    have := hcount v hv
    simp only [decide_eq_true_eq] at this
    exact this hcov

/-- Witness of C21: `gridEdgeBeside` yields one edge, which ends inside the
grid, and two rectangles, neither of which covers a cell of its cube. -/
theorem edge_cube_consumed_witness :
    ∃ area es en', importInstance (some (254, 255)) 20 true gridEdgeBeside identityMatrix 100 [] 0
        = some (area, es, en')
      ∧ area.m_voxels.length = 2 ∧ es.length = 1
      ∧ ∀ e ∈ es.drop ([] : List RVX_EDGE).length, ∀ v ∈ area.m_voxels, ∀ x y z : Int,
          e.cubeContains x y z → ¬ v.covers x y z :=
  ⟨_, _, _, rfl, rfl, rfl,
    (edge_cube_consumed (some (254, 255)) 20 true gridEdgeBeside identityMatrix
      100 [] 0 (by decide) rfl (by decide) (by decide) rfl (by decide)).2⟩

/-! ## The Y steps of an edge (claim C32) -/

theorem ySteps_lt_iff (sy ey s : Int) (hs : 1 ≤ s) (i : Nat) :
    i < ySteps sy ey s ↔ sy + i * s ≤ ey := by
  unfold ySteps
  have hi : (0 : Int) ≤ (i : Int) * s := mul_nonneg (Int.natCast_nonneg i) (by omega)
  by_cases h : sy ≤ ey
  · rw [if_pos h]
    have h3 : 0 ≤ (ey - sy) / s := Int.ediv_nonneg (by omega) (by omega)
    have h4 : (i : Int) ≤ (ey - sy) / s ↔ (i : Int) * s ≤ ey - sy :=
      Int.le_ediv_iff_mul_le (by omega)
    constructor
    · intro hlt
      have : (i : Int) ≤ (ey - sy) / s := by omega
      have := h4.mp this
      omega
    · intro hle
      have : (i : Int) ≤ (ey - sy) / s := h4.mpr (by omega)
      omega
  · rw [if_neg h]
    constructor
    · intro hlt; omega
    · intro hle; omega

/-- C32: for an edge with `spacing ≥ 1`, `rvx_get_edge_length` returns, and its
value is `24 * ((ey - sy) / spacing + 1)` (floor division) when `ey ≥ sy` and
`0` when `ey < sy`: 4 sub-quads of 6 vertices for each `y = sy + i * spacing`
not exceeding `ey` (so `ey` itself is visited when `spacing` divides
`ey - sy`); `rvx_update_edge_buffer` returns too and runs its loop body for
exactly the same values of `y`, in increasing order. -/
theorem edge_length_and_steps (e : RVX_EDGE) (palette : Palette) (buf : List Field)
    (hs : 1 ≤ e.spacing) :
    rvx_get_edge_length e
        = some (if e.sy ≤ e.ey then 24 * ((e.ey - e.sy) / e.spacing + 1) else 0)
      ∧ rvx_get_edge_length e = some (24 * (ySteps e.sy e.ey e.spacing : Nat))
      ∧ (∀ i : Nat, i < ySteps e.sy e.ey e.spacing ↔ e.sy + i * e.spacing ≤ e.ey)
      ∧ (e.sy ≤ e.ey → e.spacing ∣ e.ey - e.sy →
          ∃ i : Nat, i < ySteps e.sy e.ey e.spacing ∧ e.sy + i * e.spacing = e.ey)
      ∧ rvx_update_edge_buffer e buf palette
          = some ((List.range (ySteps e.sy e.ey e.spacing)).foldl
              (fun (b : List Field) (i : Nat) =>
                rvx_update_edge_buffer.body e palette (e.sy + (i : Int) * e.spacing) b) buf) := by
  have hlen := rvx_get_edge_length_eq e hs
  have hiff := ySteps_lt_iff e.sy e.ey e.spacing hs
  refine ⟨?_, ?_, hiff, ?_, ?_⟩
  · rw [hlen]
    congr 1
    unfold ySteps
    by_cases h : e.sy ≤ e.ey
    · rw [if_pos h, if_pos h]
      have h3 : 0 ≤ (e.ey - e.sy) / e.spacing := Int.ediv_nonneg (by omega) (by omega)
      push_cast
      rw [Int.toNat_of_nonneg h3]
      ring
    · rw [if_neg h, if_neg h]
      simp
  · rw [hlen]
    congr 1
    push_cast
    ring
  · intro hle hdvd
    obtain ⟨k, hk⟩ := hdvd
    have hk0 : 0 ≤ k := by
      by_contra hneg
      have : e.spacing * k < 0 := mul_neg_of_pos_of_neg (by omega) (by omega)
      omega
    refine ⟨k.toNat, ?_, ?_⟩
    · rw [hiff, Int.toNat_of_nonneg hk0]
      have : k * e.spacing = e.spacing * k := mul_comm _ _
      omega
    · rw [Int.toNat_of_nonneg hk0]
      have : k * e.spacing = e.spacing * k := mul_comm _ _
      omega
  · unfold rvx_update_edge_buffer edgeFuel
    exact update_edge_buffer_loop_fold e palette hs _ _ _ (ySteps_le _ _ _ hs)

/-- Witness of C32: `edgeThreeSteps` has 3 steps and length 72. -/
theorem edge_length_and_steps_witness :
    (1 : Int) ≤ edgeThreeSteps.spacing
      ∧ rvx_get_edge_length edgeThreeSteps = some 72
      ∧ rvx_get_edge_length edgeThreeSteps
          = some (if edgeThreeSteps.sy ≤ edgeThreeSteps.ey
              then 24 * ((edgeThreeSteps.ey - edgeThreeSteps.sy) / edgeThreeSteps.spacing + 1)
              else 0) :=
  ⟨by decide, by decide,
    (edge_length_and_steps edgeThreeSteps paletteOnlyOne [] (by decide)).1⟩

/-! ## The alignment flags of the edge vertices (claim C35) -/

theorem alignDir_cases (e : RVX_EDGE) :
    (e.edge_dir = -1 ∧ rvx_update_edge_buffer.alignDir e = ALIGN_RIGHT)
      ∨ (e.edge_dir ≠ -1 ∧ rvx_update_edge_buffer.alignDir e = ALIGN_LEFT) := by
  unfold rvx_update_edge_buffer.alignDir
  by_cases h : e.edge_dir = -1
  · left; exact ⟨h, by rw [if_pos h]⟩
  · right; exact ⟨h, by rw [if_neg h]⟩

theorem alignPart_set (side bit v : Nat) (h : side &&& bit ≠ 0) : alignPart side bit v = v := by
  unfold alignPart
  rw [if_pos h]

theorem alignPart_clear (side bit v : Nat) (h : side &&& bit = 0) : alignPart side bit v = 0 := by
  unfold alignPart
  rw [if_neg (by rw [h]; exact fun hh => hh rfl)]

theorem emit_topLeft_flags (v : Voxelf) (col : Color4) (w s h d : Nat) (b : List Field) :
    rvx_emit_voxelf v col w s h d (ALIGN_BOTTOM ||| ALIGN_RIGHT) b
      = edgeQuad v col w s h ALIGN_BOTTOM d 0 (ALIGN_BOTTOM ||| d) b := by
  unfold rvx_emit_voxelf edgeQuad
  simp only [alignPart_set (ALIGN_BOTTOM ||| ALIGN_RIGHT) ALIGN_BOTTOM _ (by decide),
    alignPart_set (ALIGN_BOTTOM ||| ALIGN_RIGHT) ALIGN_RIGHT _ (by decide),
    alignPart_clear (ALIGN_BOTTOM ||| ALIGN_RIGHT) ALIGN_TOP _ (by decide),
    alignPart_clear (ALIGN_BOTTOM ||| ALIGN_RIGHT) ALIGN_LEFT _ (by decide),
    Nat.zero_or, Nat.or_zero]

theorem emit_topRight_flags (v : Voxelf) (col : Color4) (w s h d : Nat) (b : List Field) :
    rvx_emit_voxelf v col w s h d (ALIGN_BOTTOM ||| ALIGN_LEFT) b
      = edgeQuad v col w s h (ALIGN_BOTTOM ||| d) 0 d ALIGN_BOTTOM b := by
  unfold rvx_emit_voxelf edgeQuad
  simp only [alignPart_set (ALIGN_BOTTOM ||| ALIGN_LEFT) ALIGN_BOTTOM _ (by decide),
    alignPart_set (ALIGN_BOTTOM ||| ALIGN_LEFT) ALIGN_LEFT _ (by decide),
    alignPart_clear (ALIGN_BOTTOM ||| ALIGN_LEFT) ALIGN_TOP _ (by decide),
    alignPart_clear (ALIGN_BOTTOM ||| ALIGN_LEFT) ALIGN_RIGHT _ (by decide),
    Nat.zero_or, Nat.or_zero]

theorem emit_bottomLeft_flags (v : Voxelf) (col : Color4) (w s h d : Nat) (b : List Field) :
    rvx_emit_voxelf v col w s h d (ALIGN_TOP ||| ALIGN_RIGHT) b
      = edgeQuad v col w s h 0 (ALIGN_TOP ||| d) ALIGN_TOP d b := by
  unfold rvx_emit_voxelf edgeQuad
  simp only [alignPart_set (ALIGN_TOP ||| ALIGN_RIGHT) ALIGN_TOP _ (by decide),
    alignPart_set (ALIGN_TOP ||| ALIGN_RIGHT) ALIGN_RIGHT _ (by decide),
    alignPart_clear (ALIGN_TOP ||| ALIGN_RIGHT) ALIGN_BOTTOM _ (by decide),
    alignPart_clear (ALIGN_TOP ||| ALIGN_RIGHT) ALIGN_LEFT _ (by decide),
    Nat.zero_or, Nat.or_zero]

theorem emit_bottomRight_flags (v : Voxelf) (col : Color4) (w s h d : Nat) (b : List Field) :
    rvx_emit_voxelf v col w s h d (ALIGN_TOP ||| ALIGN_LEFT) b
      = edgeQuad v col w s h d ALIGN_TOP (ALIGN_TOP ||| d) 0 b := by
  unfold rvx_emit_voxelf edgeQuad
  simp only [alignPart_set (ALIGN_TOP ||| ALIGN_LEFT) ALIGN_TOP _ (by decide),
    alignPart_set (ALIGN_TOP ||| ALIGN_LEFT) ALIGN_LEFT _ (by decide),
    alignPart_clear (ALIGN_TOP ||| ALIGN_LEFT) ALIGN_BOTTOM _ (by decide),
    alignPart_clear (ALIGN_TOP ||| ALIGN_LEFT) ALIGN_RIGHT _ (by decide),
    Nat.zero_or, Nat.or_zero]

/-- C35: with `d = ALIGN_RIGHT` (2) for a left edge (`edge_dir = -1`) and
`d = ALIGN_LEFT` (1) otherwise, each sub-quad that `rvx_update_edge_buffer`
writes (corner alpha not zero) is six vertices whose `alignFlags` are, at
`(startX, startZ)`, `(endX, endZ)`, `(startX, endZ)`, `(endX, startZ)`:
top-left `4, d, 0, 4|d`; top-right `4|d, 0, d, 4`; bottom-left
`0, 8|d, 8, d`; bottom-right `d, 8, 8|d, 0`.  So the vertical bit is
`ALIGN_BOTTOM` on the `startZ` vertices of the top sub-quads and `ALIGN_TOP` on
the `endZ` vertices of the bottom sub-quads, the horizontal bit is `d` on the
vertices of the inner X split (`endX` of the left, `startX` of the right
sub-quads), the outer corners have flags `0`, and every flag is one of
`0, 4, 8, d, 4|d, 8|d`, below 256, without both of bits 1, 2 or both of bits
4, 8. -/
theorem edge_align_flags (e : RVX_EDGE) (palette : Palette) (y : Int) (b : List Field) :
    ((e.edge_dir = -1 ∧ rvx_update_edge_buffer.alignDir e = ALIGN_RIGHT)
        ∨ (e.edge_dir ≠ -1 ∧ rvx_update_edge_buffer.alignDir e = ALIGN_LEFT))
      ∧ rvx_update_edge_buffer.emit e palette (rvx_update_edge_buffer.topLeftVoxel e y)
            e.top_left_col (ALIGN_BOTTOM ||| ALIGN_RIGHT) b
          = (if (palette e.top_left_col).a ≠ 0 then
              edgeQuad (rvx_update_edge_buffer.topLeftVoxel e y) (palette e.top_left_col)
                (rvx_update_edge_buffer.ew e) (toUInt8 e.spacing) (toUInt8 e.edge_height)
                ALIGN_BOTTOM (rvx_update_edge_buffer.alignDir e) 0
                (ALIGN_BOTTOM ||| rvx_update_edge_buffer.alignDir e) b
            else b)
      ∧ rvx_update_edge_buffer.emit e palette (rvx_update_edge_buffer.topRightVoxel e y)
            e.top_right_col (ALIGN_BOTTOM ||| ALIGN_LEFT) b
          = (if (palette e.top_right_col).a ≠ 0 then
              edgeQuad (rvx_update_edge_buffer.topRightVoxel e y) (palette e.top_right_col)
                (rvx_update_edge_buffer.ew e) (toUInt8 e.spacing) (toUInt8 e.edge_height)
                (ALIGN_BOTTOM ||| rvx_update_edge_buffer.alignDir e) 0
                (rvx_update_edge_buffer.alignDir e) ALIGN_BOTTOM b
            else b)
      ∧ rvx_update_edge_buffer.emit e palette (rvx_update_edge_buffer.bottomLeftVoxel e y)
            e.bottom_left_col (ALIGN_TOP ||| ALIGN_RIGHT) b
          = (if (palette e.bottom_left_col).a ≠ 0 then
              edgeQuad (rvx_update_edge_buffer.bottomLeftVoxel e y) (palette e.bottom_left_col)
                (rvx_update_edge_buffer.ew e) (toUInt8 e.spacing) (toUInt8 e.edge_height)
                0 (ALIGN_TOP ||| rvx_update_edge_buffer.alignDir e) ALIGN_TOP
                (rvx_update_edge_buffer.alignDir e) b
            else b)
      ∧ rvx_update_edge_buffer.emit e palette (rvx_update_edge_buffer.bottomRightVoxel e y)
            e.bottom_right_col (ALIGN_TOP ||| ALIGN_LEFT) b
          = (if (palette e.bottom_right_col).a ≠ 0 then
              edgeQuad (rvx_update_edge_buffer.bottomRightVoxel e y) (palette e.bottom_right_col)
                (rvx_update_edge_buffer.ew e) (toUInt8 e.spacing) (toUInt8 e.edge_height)
                (rvx_update_edge_buffer.alignDir e) ALIGN_TOP
                (ALIGN_TOP ||| rvx_update_edge_buffer.alignDir e) 0 b
            else b)
      ∧ (∀ f ∈ [0, ALIGN_BOTTOM, ALIGN_TOP, rvx_update_edge_buffer.alignDir e,
                ALIGN_BOTTOM ||| rvx_update_edge_buffer.alignDir e,
                ALIGN_TOP ||| rvx_update_edge_buffer.alignDir e],
          f < 256
          ∧ ¬ (f &&& ALIGN_LEFT ≠ 0 ∧ f &&& ALIGN_RIGHT ≠ 0)
          ∧ ¬ (f &&& ALIGN_BOTTOM ≠ 0 ∧ f &&& ALIGN_TOP ≠ 0)) := by
  have hemit : ∀ (v : Voxelf) (col side : Nat),
      rvx_update_edge_buffer.emit e palette v col side b
        = if (palette col).a ≠ 0 then
            rvx_emit_voxelf v (palette col) (rvx_update_edge_buffer.ew e) (toUInt8 e.spacing)
              (toUInt8 e.edge_height) (rvx_update_edge_buffer.alignDir e) side b
          else b := by
    intro v col side
    rfl
  refine ⟨alignDir_cases e, ?_, ?_, ?_, ?_, ?_⟩
  · rw [hemit, emit_topLeft_flags]
  · rw [hemit, emit_topRight_flags]
  · rw [hemit, emit_bottomLeft_flags]
  · rw [hemit, emit_bottomRight_flags]
  · rcases alignDir_cases e with ⟨-, hd⟩ | ⟨-, hd⟩
    · rw [hd]
      decide
    · rw [hd]
      decide

/-! ## Offsets with the identity transform (claim C36) -/

/-- C36: for an instance with the identity transform the import calls
`GetOffset` with the null inverse, and for every cell `(x, y, z)` of the grid
`GetOffset` returns `x + y * size_x + z * size_x * size_y`, which is below
`size_x * size_y * size_z`, and different cells of the grid have different
offsets.  So at every cell of the grid and for every scratch copy of the
grid's size the loop body reads inside the copy, and the rectangle merge for
the colour found there returns with a copy of the same size (no read or write
outside it); so do the two bounded scans of the edge branch (along X and along
Z) and the zeroing of a cube that ends inside the grid; the import of a grid
without edge-marker cells, where no edge scan runs, never leaves the copy and
returns. -/
theorem identity_offsets_stay_in_scratch (markers : Option (Nat × Nat)) (fuel : Nat)
    (optimize : Bool) (inst : ogt_vox_instance) (inverse : Matrix) (m_no : Int)
    (edges : List RVX_EDGE) (en : Int)
    (hT : instanceMatrix inst.transform = identityMatrix) (hI : inverse = identityMatrix)
    (hlen : inst.model.voxel_data.length
      = inst.model.size_x * inst.model.size_y * inst.model.size_z) :
    (instanceCtx markers fuel optimize inst inverse m_no).inversep = none
      ∧ (∀ x y z : Nat, x < inst.model.size_x → y < inst.model.size_y →
          z < inst.model.size_z →
          GetOffset x y z inst.model none (instanceCtx markers fuel optimize inst inverse m_no).sizes
              = ((x + y * inst.model.size_x + z * inst.model.size_x * inst.model.size_y : Nat)
                  : Int)
            ∧ x + y * inst.model.size_x + z * inst.model.size_x * inst.model.size_y
                < inst.model.size_x * inst.model.size_y * inst.model.size_z
            ∧ ∀ x' y' z' : Nat, x' < inst.model.size_x → y' < inst.model.size_y →
                z' < inst.model.size_z →
                GetOffset x' y' z' inst.model none
                    (instanceCtx markers fuel optimize inst inverse m_no).sizes
                  = GetOffset x y z inst.model none
                    (instanceCtx markers fuel optimize inst inverse m_no).sizes →
                x' = x ∧ y' = y ∧ z' = z)
      ∧ (∀ (st : MergeState) (x y z : Nat), x < inst.model.size_x → y < inst.model.size_y →
          z < inst.model.size_z →
          st.voxel_copy.length = inst.model.size_x * inst.model.size_y * inst.model.size_z →
          readVoxel st.voxel_copy ((instanceCtx markers fuel optimize inst inverse m_no).off x y z)
              = some (cellAt inst.model.size_x inst.model.size_y st.voxel_copy x y z)
            ∧ ∃ xe st', pushRect (instanceCtx markers fuel optimize inst inverse m_no) y z x
                  (cellAt inst.model.size_x inst.model.size_y st.voxel_copy x y z) st
                = some (xe, st')
              ∧ st'.voxel_copy.length
                  = inst.model.size_x * inst.model.size_y * inst.model.size_z)
      ∧ (∀ (st : MergeState) (x y z c : Nat), x < inst.model.size_x → y < inst.model.size_y →
          z < inst.model.size_z →
          st.voxel_copy.length = inst.model.size_x * inst.model.size_y * inst.model.size_z →
          ∃ x' ez, lineScan (instanceCtx markers fuel optimize inst inverse m_no) st.voxel_copy
                y z c (inst.model.size_x - 1 - x) x = some x'
            ∧ x ≤ x' ∧ x' < inst.model.size_x
            ∧ edgeGrowZ (instanceCtx markers fuel optimize inst inverse m_no) st.voxel_copy
                x x' y c (inst.model.size_z - 1 - z) z = some ez
            ∧ z ≤ ez ∧ ez < inst.model.size_z
            ∧ ∀ ey, y ≤ ey → ey < inst.model.size_y →
                ∃ data', removeCube (instanceCtx markers fuel optimize inst inverse m_no)
                    x x' z ez (ey + 1 - y) y st.voxel_copy = some data'
                  ∧ data'.length
                      = inst.model.size_x * inst.model.size_y * inst.model.size_z)
      ∧ ((∀ c ∈ inst.model.voxel_data, isEdgeMarker markers c = false) →
          ∃ area, importInstance markers fuel optimize inst inverse m_no edges en
            = some (area, edges, en)) := by
  have hctx := instanceCtx_identity markers fuel optimize inst inverse m_no hT hI
  have hid : IdentityCtx (instanceCtx markers fuel optimize inst inverse m_no) := by
    rw [hctx]
    exact ⟨rfl, rfl, rfl⟩
  have hmod : (instanceCtx markers fuel optimize inst inverse m_no).model = inst.model := by
    rw [hctx]
  have hsx : (instanceCtx markers fuel optimize inst inverse m_no).space_size_x
      = inst.model.size_x := by rw [hctx]
  have hsy : (instanceCtx markers fuel optimize inst inverse m_no).space_size_y
      = inst.model.size_y := by rw [hctx]
  have hsz : (instanceCtx markers fuel optimize inst inverse m_no).space_size_z
      = inst.model.size_z := by rw [hctx]
  have hoff : ∀ x y z : Nat,
      GetOffset x y z inst.model none (instanceCtx markers fuel optimize inst inverse m_no).sizes
        = ((x + y * inst.model.size_x + z * inst.model.size_x * inst.model.size_y : Nat)
            : Int) := by
    intro x y z
    have h := off_identity (instanceCtx markers fuel optimize inst inverse m_no) hid.inv x y z
    unfold MergeCtx.off at h
    rw [hid.inv, hmod] at h
    exact h
  refine ⟨hid.inv, ?_, ?_, ?_, ?_⟩
  · intro x y z hx hy hz
    refine ⟨hoff x y z, cell_index_lt hx hy hz, ?_⟩
    intro x' y' z' hx' hy' _ heq
    rw [hoff, hoff] at heq
    have heq' : x' + y' * inst.model.size_x + z' * inst.model.size_x * inst.model.size_y
        = x + y * inst.model.size_x + z * inst.model.size_x * inst.model.size_y := by
      exact_mod_cast heq
    exact cell_index_inj hx' hy' hx hy heq'
  · intro st x y z hx hy hz hl
    have hl' : st.voxel_copy.length
        = (instanceCtx markers fuel optimize inst inverse m_no).space_size_x
          * (instanceCtx markers fuel optimize inst inverse m_no).space_size_y
          * (instanceCtx markers fuel optimize inst inverse m_no).space_size_z := by
      rw [hsx, hsy, hsz]; exact hl
    have hr := read_cell (instanceCtx markers fuel optimize inst inverse m_no) hid st.voxel_copy
      hl' (by rw [hsx]; exact hx) (by rw [hsy]; exact hy) (by rw [hsz]; exact hz)
    rw [hsx, hsy] at hr
    refine ⟨hr, ?_⟩
    obtain ⟨xe, ez, data', m1, -, -, -, -, m6, -⟩ :=
      mergeRect_spec (instanceCtx markers fuel optimize inst inverse m_no) hid st.voxel_copy hl'
        (cellAt inst.model.size_x inst.model.size_y st.voxel_copy x y z)
        (by rw [hsx]; exact hx) (by rw [hsy]; exact hy) (by rw [hsz]; exact hz)
        (by rw [hsx, hsy])
    refine ⟨xe, _, by rw [pushRect, m1], ?_⟩
    simp only
    rw [m6, hsx, hsy, hsz]
  · intro st x y z c hx hy hz hl
    have hl' : st.voxel_copy.length
        = (instanceCtx markers fuel optimize inst inverse m_no).space_size_x
          * (instanceCtx markers fuel optimize inst inverse m_no).space_size_y
          * (instanceCtx markers fuel optimize inst inverse m_no).space_size_z := by
      rw [hsx, hsy, hsz]; exact hl
    obtain ⟨x', l1, l2, l3, -, -⟩ := lineScan_spec
      (instanceCtx markers fuel optimize inst inverse m_no) hid st.voxel_copy hl' c
      (by rw [hsy]; exact hy) (by rw [hsz]; exact hz)
      ((instanceCtx markers fuel optimize inst inverse m_no).space_size_x - 1 - x) x
      (by rw [hsx]; omega)
    rw [hsx] at l1 l3
    have hx' : x' < inst.model.size_x := by omega
    obtain ⟨ez, g1, g2, g3, -⟩ := edgeGrowZ_spec
      (instanceCtx markers fuel optimize inst inverse m_no) hid st.voxel_copy hl' c l2
      (by rw [hsx]; exact hx') (by rw [hsy]; exact hy)
      ((instanceCtx markers fuel optimize inst inverse m_no).space_size_z - 1 - z) z
      (by rw [hsz]; omega)
    rw [hsz] at g1 g3
    have hez : ez < inst.model.size_z := by omega
    refine ⟨x', ez, l1, l2, hx', g1, g2, hez, ?_⟩
    intro ey hey1 hey2
    obtain ⟨data', d1, d2, -⟩ := removeCube_spec
      (instanceCtx markers fuel optimize inst inverse m_no) hid l2 (by rw [hsx]; exact hx') g2
      (by rw [hsz]; exact hez) (ey + 1 - y) y st.voxel_copy (by rw [hsy]; omega) hl'
    rw [hsx, hsy, hsz] at d2
    exact ⟨data', d1, d2⟩
  · intro hnm
    obtain ⟨L, data', himp, -⟩ := importInstance_identity_local markers fuel optimize inst
      inverse m_no edges en hT hI hlen hnm
    exact ⟨_, himp⟩

/-- Witness of C36: the L-shaped grid, imported without edge detection. -/
theorem identity_offsets_stay_in_scratch_witness :
    (instanceCtx none 0 true gridLShape identityMatrix 100).inversep = none
      ∧ ∃ area, importInstance none 0 true gridLShape identityMatrix 100 [] 0
          = some (area, [], 0) :=
  match identity_offsets_stay_in_scratch none 0 true gridLShape identityMatrix 100 [] 0
      (by decide) rfl (by decide) with
  | ⟨h1, _, _, _, h4⟩ => ⟨h1, h4 (by decide)⟩

/-! ## The chunks of `GenerateBox` (claim C39) -/

theorem toInt32_of_fits {v : Int} (h1 : -2147483648 ≤ v) (h2 : v < 2147483648) :
    toInt32 v = v := by
  unfold toInt32
  omega

theorem chunk_lt_iff (n : Int) (k : Nat) : 256 * (k : Int) < n ↔ k < chunkCount n := by
  unfold chunkCount
  omega

theorem GenerateBox_size_eq (n : Int) (k : Nat) (hn : n + 256 < 2147483648)
    (hk : k < chunkCount n) : GenerateBox.size (256 * (k : Int)) n = chunkSize n k := by
  have := (chunk_lt_iff n k).mpr hk
  unfold GenerateBox.size chunkSize
  rw [toInt32_of_fits (v := 256 * (k : Int) + 256) (by omega) (by omega),
    toInt32_of_fits (v := n - 256 * (k : Int)) (by omega) (by omega)]

theorem chunkSize_bounds (n : Int) (k : Nat) (hk : k < chunkCount n) :
    1 ≤ chunkSize n k ∧ chunkSize n k ≤ 256 := by
  have := (chunk_lt_iff n k).mpr hk
  unfold chunkSize
  split_ifs <;> omega

theorem chunkSize_inner (n : Int) (k : Nat) (hk : k + 1 < chunkCount n) :
    chunkSize n k = 256 := by
  have := (chunk_lt_iff n (k + 1)).mpr hk
  unfold chunkSize
  push_cast at this
  rw [if_pos (by omega)]

theorem chunkSize_sum_le (n : Int) (hn : 0 ≤ n) :
    ∀ m : Nat, m ≤ chunkCount n →
      ((List.range m).map (chunkSize n)).sum = min (256 * (m : Int)) n := by
  intro m
  induction m with
  | zero =>
    intro _
    simp only [List.range_zero, List.map_nil, List.sum_nil, Nat.cast_zero, mul_zero]
    omega
  | succ m ih =>
    intro hm
    have hlt := (chunk_lt_iff n m).mpr (by omega)
    rw [List.range_succ, List.map_append, List.sum_append, ih (by omega)]
    simp only [List.map_cons, List.map_nil, List.sum_cons, List.sum_nil, add_zero]
    unfold chunkSize
    push_cast
    split_ifs <;> omega

theorem chunkSize_sum (n : Int) (hn : 0 ≤ n) :
    ((List.range (chunkCount n)).map (chunkSize n)).sum = n := by
  rw [chunkSize_sum_le n hn _ (le_refl _)]
  have : ¬ 256 * ((chunkCount n : Nat) : Int) < n := by
    rw [chunk_lt_iff]
    omega
  omega

theorem GenerateBox_loopZ_spec (x y z margin ix iy : Int) (hz : z + 256 < 2147483648) :
    ∀ (fuel k : Nat) (dims : List scene_dim), chunkCount z ≤ k + fuel →
      GenerateBox.loopZ x y z margin ix iy fuel (256 * (k : Int)) dims
        = some (dims ++ (List.range' k (chunkCount z - k)).map
            (fun (k' : Nat) => GenerateBox.dim x y z margin ix iy (256 * (k' : Int)))) := by
  intro fuel
  induction fuel with
  | zero =>
    intro k dims h
    have hk : ¬ 256 * (k : Int) < z := by rw [chunk_lt_iff]; omega
    have h0 : chunkCount z - k = 0 := by omega
    rw [GenerateBox.loopZ, if_neg hk, h0]
    simp
  | succ n ih =>
    intro k dims h
    by_cases hk : 256 * (k : Int) < z
    · have hk' := (chunk_lt_iff z k).mp hk
      have hstep : toInt32 (256 * (k : Int) + 256) = 256 * ((k + 1 : Nat) : Int) := by
        rw [toInt32_of_fits (by omega) (by omega)]
        push_cast
        ring
      have hcnt : chunkCount z - k = (chunkCount z - (k + 1)) + 1 := by omega
      rw [GenerateBox.loopZ, if_pos hk, hstep, ih (k + 1) _ (by omega), hcnt,
        List.range'_succ, List.map_cons, List.append_assoc]
      rfl
    · have h0 : chunkCount z - k = 0 := by
        have := (chunk_lt_iff z k).not.mp hk
        omega
      rw [GenerateBox.loopZ, if_neg hk, h0]
      simp

theorem GenerateBox_loopY_spec (x y z margin ix : Int) (hy : y + 256 < 2147483648)
    (hz : z + 256 < 2147483648) :
    ∀ (fuel j : Nat) (dims : List scene_dim), chunkCount y ≤ j + fuel →
      GenerateBox.loopY x y z margin ix fuel (256 * (j : Int)) dims
        = some (dims ++ (List.range' j (chunkCount y - j)).flatMap (fun (j' : Nat) =>
            (List.range (chunkCount z)).map
              (fun (k' : Nat) => GenerateBox.dim x y z margin ix (256 * (j' : Int)) (256 * (k' : Int))))) := by
  have hrow : ∀ (iy : Int) (dims : List scene_dim),
      GenerateBox.loopZ x y z margin ix iy z.toNat 0 dims
        = some (dims ++ (List.range (chunkCount z)).map
            (fun (k' : Nat) => GenerateBox.dim x y z margin ix iy (256 * (k' : Int)))) := by
    intro iy dims
    have h := GenerateBox_loopZ_spec x y z margin ix iy hz z.toNat 0 dims
      (by unfold chunkCount; omega)
    simp only [Nat.cast_zero, mul_zero, Nat.sub_zero] at h
    rw [h, List.range_eq_range']
  intro fuel
  induction fuel with
  | zero =>
    intro j dims h
    have hj : ¬ 256 * (j : Int) < y := by rw [chunk_lt_iff]; omega
    have h0 : chunkCount y - j = 0 := by omega
    rw [GenerateBox.loopY, if_neg hj, h0]
    simp
  | succ n ih =>
    intro j dims h
    by_cases hj : 256 * (j : Int) < y
    · have hj' := (chunk_lt_iff y j).mp hj
      have hstep : toInt32 (256 * (j : Int) + 256) = 256 * ((j + 1 : Nat) : Int) := by
        rw [toInt32_of_fits (by omega) (by omega)]
        push_cast
        ring
      have hcnt : chunkCount y - j = (chunkCount y - (j + 1)) + 1 := by omega
      rw [GenerateBox.loopY, if_pos hj, hrow]
      simp only []
      rw [hstep, ih (j + 1) _ (by omega), hcnt, List.range'_succ, List.flatMap_cons,
        List.append_assoc]
    · have h0 : chunkCount y - j = 0 := by
        have := (chunk_lt_iff y j).not.mp hj
        omega
      rw [GenerateBox.loopY, if_neg hj, h0]
      simp

theorem GenerateBox_loopX_spec (x y z margin : Int) (hx : x + 256 < 2147483648)
    (hy : y + 256 < 2147483648) (hz : z + 256 < 2147483648) :
    ∀ (fuel i : Nat) (dims : List scene_dim), chunkCount x ≤ i + fuel →
      GenerateBox.loopX x y z margin fuel (256 * (i : Int)) dims
        = some (dims ++ (List.range' i (chunkCount x - i)).flatMap (fun (i' : Nat) =>
            (List.range (chunkCount y)).flatMap (fun (j' : Nat) =>
              (List.range (chunkCount z)).map
                (fun (k' : Nat) => GenerateBox.dim x y z margin (256 * (i' : Int)) (256 * (j' : Int))
                  (256 * (k' : Int)))))) := by
  have hrow : ∀ (ix : Int) (dims : List scene_dim),
      GenerateBox.loopY x y z margin ix y.toNat 0 dims
        = some (dims ++ (List.range (chunkCount y)).flatMap (fun (j' : Nat) =>
            (List.range (chunkCount z)).map
              (fun (k' : Nat) => GenerateBox.dim x y z margin ix (256 * (j' : Int)) (256 * (k' : Int))))) := by
    intro ix dims
    have h := GenerateBox_loopY_spec x y z margin ix hy hz y.toNat 0 dims
      (by unfold chunkCount; omega)
    simp only [Nat.cast_zero, mul_zero, Nat.sub_zero] at h
    rw [h]
    simp only [List.range_eq_range']
  intro fuel
  induction fuel with
  | zero =>
    intro i dims h
    have hi : ¬ 256 * (i : Int) < x := by rw [chunk_lt_iff]; omega
    have h0 : chunkCount x - i = 0 := by omega
    rw [GenerateBox.loopX, if_neg hi, h0]
    simp
  | succ n ih =>
    intro i dims h
    by_cases hi : 256 * (i : Int) < x
    · have hi' := (chunk_lt_iff x i).mp hi
      have hstep : toInt32 (256 * (i : Int) + 256) = 256 * ((i + 1 : Nat) : Int) := by
        rw [toInt32_of_fits (by omega) (by omega)]
        push_cast
        ring
      have hcnt : chunkCount x - i = (chunkCount x - (i + 1)) + 1 := by omega
      rw [GenerateBox.loopX, if_pos hi, hrow]
      simp only []
      rw [hstep, ih (i + 1) _ (by omega), hcnt, List.range'_succ, List.flatMap_cons,
        List.append_assoc]
    · have h0 : chunkCount x - i = 0 := by
        have := (chunk_lt_iff x i).not.mp hi
        omega
      rw [GenerateBox.loopX, if_neg hi, h0]
      simp

theorem length_flatMap_range {α : Type} (n m : Nat) (f : Nat → List α)
    (h : ∀ i, i < n → (f i).length = m) : ((List.range n).flatMap f).length = n * m := by
  induction n with
  | zero => simp
  | succ n ih =>
    rw [List.range_succ, List.flatMap_append, List.length_append, ih (fun i hi => h i (by omega)),
      List.flatMap_singleton, h n (by omega)]
    ring

theorem chunkCount_ceil (n : Int) (hn : 0 ≤ n) :
    n ≤ 256 * (chunkCount n : Int) ∧ 256 * (chunkCount n : Int) < n + 256 := by
  unfold chunkCount
  omega

/-- C39: for box sizes `x, y, z ≥ 1` and a margin `≥ 0` whose padded extents
`X = x + 2 * margin`, `Y`, `Z` stay below `2^31 - 256` (no `int` overflow in
the loop counters), `GenerateBox` builds its chunk list: it has
`ceil(X/256) * ceil(Y/256) * ceil(Z/256)` entries, namely one for each chunk
position `(256 i, 256 j, 256 k)` in the order `x` outer, `z` inner, whose sizes
are the chunk sizes of the three axes; every size is between 1 and 256, along
each axis the chunk sizes sum to the padded extent, and every chunk but the
last of an axis is 256 wide. -/
theorem GenerateBox_chunk_list (x y z margin : Int) (hx : 1 ≤ x) (hy : 1 ≤ y) (hz : 1 ≤ z)
    (hm : 0 ≤ margin) (hX : x + 2 * margin + 256 < 2147483648)
    (hY : y + 2 * margin + 256 < 2147483648) (hZ : z + 2 * margin + 256 < 2147483648) :
    ∃ dims, GenerateBox.scene_dims x y z margin = some dims
      ∧ dims.length = chunkCount (x + 2 * margin) * chunkCount (y + 2 * margin)
          * chunkCount (z + 2 * margin)
      ∧ dims.map scene_dim.sizes
          = (List.range (chunkCount (x + 2 * margin))).flatMap (fun (i : Nat) =>
              (List.range (chunkCount (y + 2 * margin))).flatMap (fun (j : Nat) =>
                (List.range (chunkCount (z + 2 * margin))).map (fun (k : Nat) =>
                  (chunkSize (x + 2 * margin) i, chunkSize (y + 2 * margin) j,
                    chunkSize (z + 2 * margin) k))))
      ∧ (∀ d ∈ dims, 1 ≤ d.size_x ∧ d.size_x ≤ 256 ∧ 1 ≤ d.size_y ∧ d.size_y ≤ 256
          ∧ 1 ≤ d.size_z ∧ d.size_z ≤ 256)
      ∧ ((List.range (chunkCount (x + 2 * margin))).map (chunkSize (x + 2 * margin))).sum
          = x + 2 * margin
      ∧ ((List.range (chunkCount (y + 2 * margin))).map (chunkSize (y + 2 * margin))).sum
          = y + 2 * margin
      ∧ ((List.range (chunkCount (z + 2 * margin))).map (chunkSize (z + 2 * margin))).sum
          = z + 2 * margin
      ∧ (∀ (n : Int) (i : Nat), i + 1 < chunkCount n → chunkSize n i = 256)
      ∧ (∀ n : Int, 0 ≤ n →
          n ≤ 256 * (chunkCount n : Int) ∧ 256 * (chunkCount n : Int) < n + 256) := by
  have hmx : toInt32 (margin * 2) = 2 * margin := by
    rw [toInt32_of_fits (by omega) (by omega)]
    ring
  have hxx : toInt32 (x + toInt32 (margin * 2)) = x + 2 * margin := by
    rw [hmx, toInt32_of_fits (by omega) (by omega)]
  have hyy : toInt32 (y + toInt32 (margin * 2)) = y + 2 * margin := by
    rw [hmx, toInt32_of_fits (by omega) (by omega)]
  have hzz : toInt32 (z + toInt32 (margin * 2)) = z + 2 * margin := by
    rw [hmx, toInt32_of_fits (by omega) (by omega)]
  have hrun := GenerateBox_loopX_spec (x + 2 * margin) (y + 2 * margin) (z + 2 * margin) margin
    hX hY hZ (x + 2 * margin).toNat 0 [] (by unfold chunkCount; omega)
  simp only [Nat.cast_zero, mul_zero, Nat.sub_zero, List.nil_append] at hrun
  rw [← List.range_eq_range'] at hrun
  have hsizes : ∀ i j k : Nat, i < chunkCount (x + 2 * margin) →
      j < chunkCount (y + 2 * margin) → k < chunkCount (z + 2 * margin) →
      (GenerateBox.dim (x + 2 * margin) (y + 2 * margin) (z + 2 * margin) margin
          (256 * (i : Int)) (256 * (j : Int)) (256 * (k : Int))).sizes
        = (chunkSize (x + 2 * margin) i, chunkSize (y + 2 * margin) j,
            chunkSize (z + 2 * margin) k) := by
    intro i j k hi hj hk
    unfold scene_dim.sizes GenerateBox.dim
    simp only
    rw [GenerateBox_size_eq _ i hX hi, GenerateBox_size_eq _ j hY hj,
      GenerateBox_size_eq _ k hZ hk]
  have hsd : GenerateBox.scene_dims x y z margin = GenerateBox.loopX (x + 2 * margin)
      (y + 2 * margin) (z + 2 * margin) margin (x + 2 * margin).toNat 0 [] := by
    unfold GenerateBox.scene_dims
    simp only [hxx, hyy, hzz]
  rw [hsd, hrun]
  refine ⟨_, rfl, ?_, ?_, ?_, chunkSize_sum _ (by omega), chunkSize_sum _ (by omega),
    chunkSize_sum _ (by omega), chunkSize_inner, chunkCount_ceil⟩
  · rw [length_flatMap_range _ (chunkCount (y + 2 * margin) * chunkCount (z + 2 * margin))]
    · ring
    · intro i _
      rw [length_flatMap_range _ (chunkCount (z + 2 * margin))]
      intro j _
      rw [List.length_map, List.length_range]
  · rw [List.map_flatMap]
    apply List.flatMap_congr
    intro i hi
    rw [List.map_flatMap]
    apply List.flatMap_congr
    intro j hj
    rw [List.map_map]
    apply List.map_congr_left
    intro k hk
    rw [List.mem_range] at hi hj hk
    exact hsizes i j k hi hj hk
  · intro d hd
    rw [List.mem_flatMap] at hd
    obtain ⟨i, hi, hd⟩ := hd
    rw [List.mem_flatMap] at hd
    obtain ⟨j, hj, hd⟩ := hd
    rw [List.mem_map] at hd
    obtain ⟨k, hk, rfl⟩ := hd
    rw [List.mem_range] at hi hj hk
    have hs := hsizes i j k hi hj hk
    unfold scene_dim.sizes at hs
    simp only [Prod.mk.injEq] at hs
    obtain ⟨s1, s2, s3⟩ := hs
    rw [s1, s2, s3]
    have b1 := chunkSize_bounds _ i hi
    have b2 := chunkSize_bounds _ j hj
    have b3 := chunkSize_bounds _ k hk
    exact ⟨b1.1, b1.2, b2.1, b2.2, b3.1, b3.2⟩

/-- Witness of C39: a box of 300 x 10 x 600 cells with margin 4 gives
`2 * 1 * 3` chunks. -/
theorem GenerateBox_chunk_list_witness :
    ∃ dims, GenerateBox.scene_dims 300 10 600 4 = some dims
      ∧ dims.length = 6
      ∧ dims.map scene_dim.sizes
          = [(256, 18, 256), (256, 18, 256), (256, 18, 96),
             (52, 18, 256), (52, 18, 256), (52, 18, 96)] :=
  match GenerateBox_chunk_list 300 10 600 4 (by decide) (by decide) (by decide) (by decide)
      (by decide) (by decide) (by decide) with
  | ⟨dims, h1, _, _⟩ => ⟨dims, h1, by
      have h2 : GenerateBox.scene_dims 300 10 600 4
          = some [⟨256, 18, 256, 124, 5, 124⟩, ⟨256, 18, 256, 124, 5, 380⟩,
                  ⟨256, 18, 96, 124, 5, 556⟩, ⟨52, 18, 256, 278, 5, 124⟩,
                  ⟨52, 18, 256, 278, 5, 380⟩, ⟨52, 18, 96, 278, 5, 556⟩] := by
        decide
      rw [h2] at h1
      simp only [Option.some.injEq] at h1
      rw [← h1]
      exact ⟨rfl, rfl⟩⟩

/-! ## The rectangles are emitted in scan order (claim C31) -/

theorem pushRect_le (ctx : MergeCtx) (y z x c : Nat) (st : MergeState) {x' : Nat}
    {st' : MergeState} (h : pushRect ctx y z x c st = some (x', st')) : x ≤ x' := by
  unfold pushRect at h
  cases hm : mergeRect ctx st.voxel_copy y z x c with
  | none => rw [hm] at h; exact absurd h (by simp)
  | some p =>
    obtain ⟨xe, ez, data⟩ := p
    rw [hm] at h
    simp only [Option.some.injEq, Prod.mk.injEq] at h
    obtain ⟨hxe, -⟩ := h
    subst hxe
    unfold mergeRect at hm
    split at hm
    · cases hl : lineScan ctx st.voxel_copy y z c (ctx.space_size_x - 1 - x) x with
      | none => rw [hl] at hm; exact absurd hm (by simp)
      | some x1 =>
        rw [hl] at hm
        simp only at hm
        cases hg : growZ ctx x x1 y c (ctx.space_size_z - 1 - z) z st.voxel_copy with
        | none => rw [hg] at hm; exact absurd hm (by simp)
        | some q =>
          rw [hg] at hm
          simp only [Option.some.injEq, Prod.mk.injEq] at hm
          rw [← hm.1]
          exact lineScan_le ctx _ _ _ _ _ _ _ hl
    · simp only [Option.some.injEq, Prod.mk.injEq] at hm
      omega

theorem cellBody_order (ctx : MergeCtx) (y z x : Nat) (st : MergeState) {xe : Nat}
    {st' : MergeState} (h : cellBody ctx y z x st = some (xe, st')) :
    x ≤ xe ∧ ∃ Lnew : List LRect, st'.m_voxels = st.m_voxels ++ Lnew.map (LRect.toVoxel ctx)
      ∧ ∀ r ∈ Lnew, r.y = y ∧ r.sz = z ∧ r.sx = x := by
  have hpush : ∀ c, pushRect ctx y z x c st = some (xe, st') →
      x ≤ xe ∧ ∃ Lnew : List LRect, st'.m_voxels = st.m_voxels ++ Lnew.map (LRect.toVoxel ctx)
        ∧ ∀ r ∈ Lnew, r.y = y ∧ r.sz = z ∧ r.sx = x := by
    intro c hp
    obtain ⟨-, -, -, ez, hv, -⟩ := pushRect_zeroed ctx y z x c st hp
    refine ⟨pushRect_le ctx y z x c st hp, [⟨c, x, xe, y, z, ez⟩], by rw [hv]; rfl, ?_⟩
    intro r hr
    rw [List.mem_singleton] at hr
    subst hr
    exact ⟨rfl, rfl, rfl⟩
  unfold cellBody at h
  cases hr : readVoxel st.voxel_copy (ctx.off x y z) with
  | none => rw [hr] at h; exact absurd h (by simp)
  | some c =>
    rw [hr] at h
    simp only at h
    split at h
    · simp only [Option.some.injEq, Prod.mk.injEq] at h
      rw [← h.1, ← h.2]
      exact ⟨le_refl _, [], by simp, by simp⟩
    · split at h
      · split at h
        · obtain ⟨-, hmv, x', ez, e, ey, hl, -, -, -, hxe, -, -⟩ :=
            edgeBranch_zeroed ctx _ _ _ _ _ _ _ h
          rw [hxe]
          exact ⟨lineScan_le ctx _ _ _ _ _ _ _ hl, [], by simp [hmv], by simp⟩
        · exact hpush c h
      · exact hpush c h

theorem xLoop_order (ctx : MergeCtx) (y z : Nat) :
    ∀ (fuel x : Nat) (st st' : MergeState), xLoop ctx y z fuel x st = some st' →
      ∃ Lnew : List LRect, st'.m_voxels = st.m_voxels ++ Lnew.map (LRect.toVoxel ctx)
        ∧ (∀ r ∈ Lnew, r.y = y ∧ r.sz = z ∧ x ≤ r.sx ∧ r.sx < ctx.space_size_x)
        ∧ Lnew.Pairwise LRect.before := by
  intro fuel
  induction fuel with
  | zero =>
    intro x st st' h
    unfold xLoop at h
    split at h
    · exact absurd h (by simp)
    · simp only [Option.some.injEq] at h
      rw [← h]
      exact ⟨[], by simp, by simp, List.Pairwise.nil⟩
  | succ n ih =>
    intro x st st' h
    rw [xLoop] at h
    split at h
    · rename_i hx
      cases hb : cellBody ctx y z x st with
      | none => rw [hb] at h; exact absurd h (by simp)
      | some p =>
        obtain ⟨x', st1⟩ := p
        rw [hb] at h
        obtain ⟨hle, L1, a1, a2⟩ := cellBody_order ctx y z x st hb
        obtain ⟨L2, b1, b2, b3⟩ := ih (x' + 1) st1 st' h
        refine ⟨L1 ++ L2, by rw [b1, a1, List.map_append, List.append_assoc], ?_, ?_⟩
        · intro r hr
          rcases List.mem_append.mp hr with hr | hr
          · obtain ⟨r1, r2, r3⟩ := a2 r hr
            exact ⟨r1, r2, by omega, by omega⟩
          · obtain ⟨r1, r2, r3, r4⟩ := b2 r hr
            exact ⟨r1, r2, by omega, r4⟩
        · rw [List.pairwise_append]
          refine ⟨?_, b3, ?_⟩
          · cases L1 with
            | nil => exact List.Pairwise.nil
            | cons a t =>
              cases t with
              | nil => exact List.pairwise_singleton _ _
              | cons b t' =>
                exfalso
                -- the body appends at most one rectangle
                have hlen : (st.m_voxels ++ (a :: b :: t').map (LRect.toVoxel ctx)).length
                    ≤ st.m_voxels.length + 1 := by
                  rw [← a1]
                  unfold cellBody at hb
                  cases hr : readVoxel st.voxel_copy (ctx.off x y z) with
                  | none => rw [hr] at hb; exact absurd hb (by simp)
                  | some c =>
                    rw [hr] at hb
                    simp only at hb
                    have hpush : ∀ c, pushRect ctx y z x c st = some (x', st1) →
                        st1.m_voxels.length ≤ st.m_voxels.length + 1 := by
                      intro c hp
                      obtain ⟨-, -, -, ez, hv, -⟩ := pushRect_zeroed ctx y z x c st hp
                      rw [hv]
                      simp
                    split at hb
                    · simp only [Option.some.injEq, Prod.mk.injEq] at hb
                      rw [← hb.2]
                      omega
                    · split at hb
                      · split at hb
                        · rw [(edgeBranch_zeroed ctx _ _ _ _ _ _ _ hb).2.1]
                          omega
                        · exact hpush c hb
                      · exact hpush c hb
                simp at hlen
          · intro a ha b hb'
            obtain ⟨r1, r2, r3⟩ := a2 a ha
            obtain ⟨s1, s2, s3, -⟩ := b2 b hb'
            unfold LRect.before
            right
            refine ⟨by rw [r1, s1], Or.inr ⟨by rw [r2, s2], by omega⟩⟩
    · simp only [Option.some.injEq] at h
      rw [← h]
      exact ⟨[], by simp, by simp, List.Pairwise.nil⟩

theorem zLoop_order (ctx : MergeCtx) (y : Nat) :
    ∀ (n z : Nat) (st st' : MergeState), zLoop ctx y n z st = some st' →
      ∃ Lnew : List LRect, st'.m_voxels = st.m_voxels ++ Lnew.map (LRect.toVoxel ctx)
        ∧ (∀ r ∈ Lnew, r.y = y ∧ z ≤ r.sz ∧ r.sz < z + n ∧ r.sx < ctx.space_size_x)
        ∧ Lnew.Pairwise LRect.before := by
  intro n
  induction n with
  | zero =>
    intro z st st' h
    simp only [zLoop, Option.some.injEq] at h
    rw [← h]
    exact ⟨[], by simp, by simp, List.Pairwise.nil⟩
  | succ n ih =>
    intro z st st' h
    rw [zLoop] at h
    cases hb : xLoop ctx y z ctx.space_size_x 0 st with
    | none => rw [hb] at h; exact absurd h (by simp)
    | some st1 =>
      rw [hb] at h
      obtain ⟨L1, a1, a2, a3⟩ := xLoop_order ctx y z _ _ st st1 hb
      obtain ⟨L2, b1, b2, b3⟩ := ih (z + 1) st1 st' h
      refine ⟨L1 ++ L2, by rw [b1, a1, List.map_append, List.append_assoc], ?_, ?_⟩
      · intro r hr
        rcases List.mem_append.mp hr with hr | hr
        · obtain ⟨r1, r2, -, r4⟩ := a2 r hr
          exact ⟨r1, by omega, by omega, r4⟩
        · obtain ⟨r1, r2, r3, r4⟩ := b2 r hr
          exact ⟨r1, by omega, by omega, r4⟩
      · rw [List.pairwise_append]
        refine ⟨a3, b3, ?_⟩
        intro a ha b hb'
        obtain ⟨r1, r2, -, -⟩ := a2 a ha
        obtain ⟨s1, s2, -, -⟩ := b2 b hb'
        unfold LRect.before
        right
        exact ⟨by rw [r1, s1], Or.inl (by omega)⟩

theorem yLoop_order (ctx : MergeCtx) :
    ∀ (n y : Nat) (st st' : MergeState), yLoop ctx n y st = some st' →
      ∃ Lnew : List LRect, st'.m_voxels = st.m_voxels ++ Lnew.map (LRect.toVoxel ctx)
        ∧ (∀ r ∈ Lnew, y ≤ r.y ∧ r.y < y + n ∧ r.sz < ctx.space_size_z
            ∧ r.sx < ctx.space_size_x)
        ∧ Lnew.Pairwise LRect.before := by
  intro n
  induction n with
  | zero =>
    intro y st st' h
    simp only [yLoop, Option.some.injEq] at h
    rw [← h]
    exact ⟨[], by simp, by simp, List.Pairwise.nil⟩
  | succ n ih =>
    intro y st st' h
    rw [yLoop] at h
    cases hb : zLoop ctx y ctx.space_size_z 0 st with
    | none => rw [hb] at h; exact absurd h (by simp)
    | some st1 =>
      rw [hb] at h
      obtain ⟨L1, a1, a2, a3⟩ := zLoop_order ctx y _ _ st st1 hb
      obtain ⟨L2, b1, b2, b3⟩ := ih (y + 1) st1 st' h
      refine ⟨L1 ++ L2, by rw [b1, a1, List.map_append, List.append_assoc], ?_, ?_⟩
      · intro r hr
        rcases List.mem_append.mp hr with hr | hr
        · obtain ⟨r1, -, r3, r4⟩ := a2 r hr
          exact ⟨by omega, by omega, by omega, r4⟩
        · obtain ⟨r1, r2, r3, r4⟩ := b2 r hr
          exact ⟨by omega, by omega, r3, r4⟩
      · rw [List.pairwise_append]
        refine ⟨a3, b3, ?_⟩
        intro a ha b hb'
        obtain ⟨r1, -, -, -⟩ := a2 a ha
        obtain ⟨s1, -, -, -⟩ := b2 b hb'
        unfold LRect.before
        left
        omega

theorem toVoxel_before (ctx : MergeCtx) (hfit : SpaceFits ctx) {a b : LRect}
    (ha : a.sx < ctx.space_size_x ∧ a.y < ctx.space_size_y ∧ a.sz < ctx.space_size_z)
    (hb : b.sx < ctx.space_size_x ∧ b.y < ctx.space_size_y ∧ b.sz < ctx.space_size_z)
    (h : a.before b) : (a.toVoxel ctx).before (b.toVoxel ctx) := by
  obtain ⟨fx, fy, fz⟩ := hfit
  unfold LRect.before at h
  unfold Voxel.before LRect.toVoxel mkVoxel
  simp only
  rw [toInt16_of_fits (v := a.sx + ctx.dx) (by unfold FitsInt16; omega),
    toInt16_of_fits (v := b.sx + ctx.dx) (by unfold FitsInt16; omega),
    toInt16_of_fits (v := a.y + ctx.dy) (by unfold FitsInt16; omega),
    toInt16_of_fits (v := b.y + ctx.dy) (by unfold FitsInt16; omega),
    toInt16_of_fits (v := a.sz + ctx.dz) (by unfold FitsInt16; omega),
    toInt16_of_fits (v := b.sz + ctx.dz) (by unfold FitsInt16; omega)]
  omega

/-- C31: whenever the import of an instance returns (any transform, edge
detection on or off, optimize on or off) and the world coordinates of its merge
space fit the 16-bit fields, the rectangles of the area are in scan order: the
list is strictly increasing in the lexicographic order of `(y, sz, sx)`, every
rectangle comes before every later one. -/
theorem rects_in_scan_order (markers : Option (Nat × Nat)) (fuel : Nat)
    (optimize : Bool) (inst : ogt_vox_instance) (inverse : Matrix) (m_no : Int)
    (edges : List RVX_EDGE) (en : Int) {area : Area} {es : List RVX_EDGE} {en' : Int}
    (h : importInstance markers fuel optimize inst inverse m_no edges en = some (area, es, en'))
    (hfit : SpaceFits (instanceCtx markers fuel optimize inst inverse m_no)) :
    area.m_voxels.Pairwise Voxel.before
      ∧ area.m_voxels.Chain' Voxel.before := by
  have key : area.m_voxels.Pairwise Voxel.before := by
    unfold importInstance at h
    simp only at h
    split at h
    · exact absurd h (by simp)
    · split at h
      · exact absurd h (by simp)
      · rename_i st hrun
        simp only [Option.some.injEq, Prod.mk.injEq] at h
        obtain ⟨L, h1, h2, h3⟩ := yLoop_order _ _ _ _ st hrun
        rw [← h.1]
        simp only [List.nil_append] at h1
        simp only
        rw [h1, List.pairwise_map]
        refine List.Pairwise.imp_of_mem ?_ h3
        intro a b ha hb hab
        obtain ⟨-, a2, a3, a4⟩ := h2 a ha
        obtain ⟨-, b2, b3, b4⟩ := h2 b hb
        exact toVoxel_before _ hfit ⟨a4, by omega, a3⟩ ⟨b4, by omega, b3⟩ hab
  exact ⟨key, List.Pairwise.chain' key⟩

/-- Witness of C31: the L-shaped slab gives two rectangles, the first row and
then the rest of the first column. -/
theorem rects_in_scan_order_witness :
    ∃ area, importInstance none 0 true gridLShape identityMatrix 100 [] 0 = some (area, [], 0)
      ∧ area.m_voxels.length = 2
      ∧ area.m_voxels.Pairwise Voxel.before :=
  ⟨_, rfl, rfl,
    (rects_in_scan_order none 0 true gridLShape identityMatrix 100 [] 0 rfl (by decide)).1⟩

/-! ## Every edge is measured by the edge branch (claims C37, C38) -/

theorem lineScan_ub (ctx : MergeCtx) (data : List Nat) (y z c : Nat) :
    ∀ (n x x' : Nat), lineScan ctx data y z c n x = some x' → x' ≤ x + n := by
  intro n
  induction n with
  | zero =>
    intro x x' h
    simp only [lineScan, Option.some.injEq] at h
    omega
  | succ n ih =>
    intro x x' h
    rw [lineScan] at h
    cases hr : readVoxel data (ctx.off (x + 1 : Nat) y z) with
    | none => rw [hr] at h; exact absurd h (by simp)
    | some v =>
      rw [hr] at h
      simp only at h
      split at h
      · have := ih (x + 1) x' h
        omega
      · simp only [Option.some.injEq] at h
        omega

theorem edgeGrowZ_ub (ctx : MergeCtx) (data : List Nat) (sx x y c : Nat) :
    ∀ (n ez ez' : Nat), edgeGrowZ ctx data sx x y c n ez = some ez' → ez' ≤ ez + n := by
  intro n
  induction n with
  | zero =>
    intro ez ez' h
    simp only [edgeGrowZ, Option.some.injEq] at h
    omega
  | succ n ih =>
    intro ez ez' h
    rw [edgeGrowZ] at h
    cases hr : AllVoxelsSameColor data sx x y (ez + 1 : Nat) ctx.model ctx.inversep c ctx.sizes with
    | none => rw [hr] at h; exact absurd h (by simp)
    | some b =>
      rw [hr] at h
      cases b with
      | false =>
        simp only [Option.some.injEq] at h
        omega
      | true =>
        simp only at h
        have := ih (ez + 1) ez' h
        omega

theorem cellBody_found (ctx : MergeCtx) {y z x : Nat} (hx : x < ctx.space_size_x)
    (hy : y < ctx.space_size_y) (hz : z < ctx.space_size_z) (st : MergeState) {xe : Nat}
    {st' : MergeState} (h : cellBody ctx y z x st = some (xe, st')) :
    ∃ new, st'.m_edges = st.m_edges ++ new ∧ ∀ e ∈ new, EdgeFound ctx e := by
  have hpush : ∀ c, pushRect ctx y z x c st = some (xe, st') →
      ∃ new, st'.m_edges = st.m_edges ++ new ∧ ∀ e ∈ new, EdgeFound ctx e := by
    intro c hp
    exact ⟨[], by rw [(pushRect_zeroed ctx y z x c st hp).2.1, List.append_nil], by simp⟩
  unfold cellBody at h
  cases hr : readVoxel st.voxel_copy (ctx.off x y z) with
  | none => rw [hr] at h; exact absurd h (by simp)
  | some c =>
    rw [hr] at h
    simp only at h
    split at h
    · simp only [Option.some.injEq, Prod.mk.injEq] at h
      rw [← h.2]
      exact ⟨[], by rw [List.append_nil], by simp⟩
    · split at h
      · rename_i l r _
        split at h
        · rename_i hc
          obtain ⟨-, -, x', ez, e, ey, hl, hg, hm, -, -, hed, -⟩ :=
            edgeBranch_zeroed ctx _ _ _ _ _ _ _ h
          refine ⟨[e], hed, ?_⟩
          intro e' he'
          rw [List.mem_singleton] at he'
          subst he'
          have h1 := lineScan_le ctx _ _ _ _ _ _ _ hl
          have h2 := lineScan_ub ctx _ _ _ _ _ _ _ hl
          have h3 := edgeGrowZ_le ctx _ _ _ _ _ _ _ _ hg
          have h4 := edgeGrowZ_ub ctx _ _ _ _ _ _ _ _ hg
          exact ⟨_, _, st.voxel_copy, st.en, y, x, x', z, ez, c, ey, hc, h1, by omega, hy, h3,
            by omega, hm⟩
        · exact hpush c h
      · exact hpush c h

theorem xLoop_found (ctx : MergeCtx) {y z : Nat} (hy : y < ctx.space_size_y)
    (hz : z < ctx.space_size_z) :
    ∀ (fuel x : Nat) (st st' : MergeState), xLoop ctx y z fuel x st = some st' →
      ∃ new, st'.m_edges = st.m_edges ++ new ∧ ∀ e ∈ new, EdgeFound ctx e := by
  intro fuel
  induction fuel with
  | zero =>
    intro x st st' h
    unfold xLoop at h
    split at h
    · exact absurd h (by simp)
    · simp only [Option.some.injEq] at h
      rw [← h]
      exact ⟨[], by rw [List.append_nil], by simp⟩
  | succ n ih =>
    intro x st st' h
    rw [xLoop] at h
    split at h
    · rename_i hx
      cases hb : cellBody ctx y z x st with
      | none => rw [hb] at h; exact absurd h (by simp)
      | some p =>
        obtain ⟨x', st1⟩ := p
        rw [hb] at h
        obtain ⟨n1, a1, a2⟩ := cellBody_found ctx hx hy hz st hb
        obtain ⟨n2, b1, b2⟩ := ih (x' + 1) st1 st' h
        refine ⟨n1 ++ n2, by rw [b1, a1, List.append_assoc], ?_⟩
        intro e he
        rcases List.mem_append.mp he with he | he
        · exact a2 e he
        · exact b2 e he
    · simp only [Option.some.injEq] at h
      rw [← h]
      exact ⟨[], by rw [List.append_nil], by simp⟩

theorem zLoop_found (ctx : MergeCtx) {y : Nat} (hy : y < ctx.space_size_y) :
    ∀ (n z : Nat) (st st' : MergeState), z + n ≤ ctx.space_size_z →
      zLoop ctx y n z st = some st' →
      ∃ new, st'.m_edges = st.m_edges ++ new ∧ ∀ e ∈ new, EdgeFound ctx e := by
  intro n
  induction n with
  | zero =>
    intro z st st' _ h
    simp only [zLoop, Option.some.injEq] at h
    rw [← h]
    exact ⟨[], by rw [List.append_nil], by simp⟩
  | succ n ih =>
    intro z st st' hzn h
    rw [zLoop] at h
    cases hb : xLoop ctx y z ctx.space_size_x 0 st with
    | none => rw [hb] at h; exact absurd h (by simp)
    | some st1 =>
      rw [hb] at h
      obtain ⟨n1, a1, a2⟩ := xLoop_found ctx hy (show z < ctx.space_size_z by omega) _ _ st st1 hb
      obtain ⟨n2, b1, b2⟩ := ih (z + 1) st1 st' (by omega) h
      refine ⟨n1 ++ n2, by rw [b1, a1, List.append_assoc], ?_⟩
      intro e he
      rcases List.mem_append.mp he with he | he
      · exact a2 e he
      · exact b2 e he

theorem yLoop_found (ctx : MergeCtx) :
    ∀ (n y : Nat) (st st' : MergeState), y + n ≤ ctx.space_size_y →
      yLoop ctx n y st = some st' →
      ∃ new, st'.m_edges = st.m_edges ++ new ∧ ∀ e ∈ new, EdgeFound ctx e := by
  intro n
  induction n with
  | zero =>
    intro y st st' _ h
    simp only [yLoop, Option.some.injEq] at h
    rw [← h]
    exact ⟨[], by rw [List.append_nil], by simp⟩
  | succ n ih =>
    intro y st st' hyn h
    rw [yLoop] at h
    cases hb : zLoop ctx y ctx.space_size_z 0 st with
    | none => rw [hb] at h; exact absurd h (by simp)
    | some st1 =>
      rw [hb] at h
      obtain ⟨n1, a1, a2⟩ := zLoop_found ctx (show y < ctx.space_size_y by omega) _ _ st st1
        (by omega) hb
      obtain ⟨n2, b1, b2⟩ := ih (y + 1) st1 st' (by omega) h
      refine ⟨n1 ++ n2, by rw [b1, a1, List.append_assoc], ?_⟩
      intro e he
      rcases List.mem_append.mp he with he | he
      · exact a2 e he
      · exact b2 e he

theorem importInstance_found (markers : Option (Nat × Nat)) (fuel : Nat)
    (optimize : Bool) (inst : ogt_vox_instance) (inverse : Matrix) (m_no : Int)
    (edges : List RVX_EDGE) (en : Int) {area : Area} {es : List RVX_EDGE} {en' : Int}
    (h : importInstance markers fuel optimize inst inverse m_no edges en = some (area, es, en')) :
    ∃ new, es = edges ++ new
      ∧ ∀ e ∈ new, EdgeFound (instanceCtx markers fuel optimize inst inverse m_no) e := by
  unfold importInstance at h
  simp only at h
  split at h
  · exact absurd h (by simp)
  · split at h
    · exact absurd h (by simp)
    · rename_i st hrun
      simp only [Option.some.injEq, Prod.mk.injEq] at h
      obtain ⟨new, h1, h2⟩ := yLoop_found _ _ _ _ st (by omega) hrun
      exact ⟨new, by rw [← h.2.1, h1], h2⟩

/-! ## The width of an edge stays inside its span (claim C37) -/

theorem EdgeFound_width {ctx : MergeCtx} {e : RVX_EDGE} (h : EdgeFound ctx e) :
    0 ≤ e.edge_width ∧ e.edge_width ≤ e.ex - e.sx ∧ (e.edge_dir = -1 ∨ e.edge_dir = 1) := by
  obtain ⟨l, r, data, en, y, sx, x, sz, ez, c, ey, hc, hsx, -, -, -, -, hm⟩ := h
  obtain ⟨m1, m2, -, -, -, -, -, -, -, -, m11⟩ := edgeMeasure_spec ctx l r data en y sx x sz ez c hm
  obtain ⟨hL, hR⟩ := edgeMeasure_width ctx l r data en y sx x sz ez c hm
  have hw : ∃ w0 : Nat,
      e.edge_width = ((if w0 ≥ x - sx then (x - sx) / 2 else w0 : Nat) : Int) := by
    by_cases hl : c = l
    · obtain ⟨w0, -, hw⟩ := hL hl
      exact ⟨w0, hw⟩
    · obtain ⟨w0, -, hw⟩ := hR hl (hc.resolve_left hl)
      exact ⟨w0, hw⟩
  obtain ⟨w0, hw⟩ := hw
  refine ⟨?_, ?_, ?_⟩
  · rw [hw]
    exact Int.natCast_nonneg _
  · rw [hw, m1, m2]
    split_ifs <;> omega
  · rw [m11]
    split_ifs
    · left; rfl
    · right; rfl

/-- C37: every edge that the import of an instance appends has
`0 ≤ edge_width ≤ ex - sx` (and `edge_dir` is `-1` or `1`).  So for an edge
with `ex - sx ≤ 254` the bytes of `rvx_update_edge_buffer` are `ew = edge_width`
and `cw = ex - sx + 1 - edge_width ≥ 1`, the inner X split (`sx + ew` for a left
edge, `sx + cw` for a right edge) lies in `[sx, ex + 1]`, the left sub-quads of
a left edge are `edge_width` wide and the right sub-quads of a right edge are
`edge_width` wide. -/
theorem edge_width_within_span (markers : Option (Nat × Nat)) (fuel : Nat)
    (optimize : Bool) (inst : ogt_vox_instance) (inverse : Matrix) (m_no : Int)
    (edges : List RVX_EDGE) (en : Int) {area : Area} {es : List RVX_EDGE} {en' : Int}
    (h : importInstance markers fuel optimize inst inverse m_no edges en = some (area, es, en')) :
    ∃ new, es = edges ++ new
      ∧ ∀ e ∈ new, 0 ≤ e.edge_width ∧ e.edge_width ≤ e.ex - e.sx
        ∧ (e.edge_dir = -1 ∨ e.edge_dir = 1)
        ∧ (e.ex - e.sx ≤ 254 →
            (rvx_update_edge_buffer.ew e : Int) = e.edge_width
            ∧ (rvx_update_edge_buffer.cw e : Int) = e.ex - e.sx + 1 - e.edge_width
            ∧ 1 ≤ rvx_update_edge_buffer.cw e
            ∧ e.sx ≤ rvx_update_edge_buffer.split e
            ∧ rvx_update_edge_buffer.split e ≤ e.ex + 1
            ∧ (e.edge_dir = -1 → rvx_update_edge_buffer.split e - e.sx = e.edge_width)
            ∧ (e.edge_dir = 1 → e.ex + 1 - rvx_update_edge_buffer.split e = e.edge_width)) := by
  obtain ⟨new, h1, h2⟩ := importInstance_found markers fuel optimize inst inverse m_no edges en h
  refine ⟨new, h1, ?_⟩
  intro e he
  obtain ⟨w1, w2, w3⟩ := EdgeFound_width (h2 e he)
  refine ⟨w1, w2, w3, ?_⟩
  intro hspan
  have hew : (rvx_update_edge_buffer.ew e : Int) = e.edge_width := by
    unfold rvx_update_edge_buffer.ew toUInt8
    omega
  have hcw : (rvx_update_edge_buffer.cw e : Int) = e.ex - e.sx + 1 - e.edge_width := by
    unfold rvx_update_edge_buffer.cw toUInt8
    rw [hew]
    omega
  refine ⟨hew, hcw, by omega, ?_, ?_, ?_, ?_⟩
  · unfold rvx_update_edge_buffer.split
    rcases w3 with w3 | w3
    · rw [if_pos w3]; omega
    · rw [if_neg (by omega), if_pos w3]; omega
  · unfold rvx_update_edge_buffer.split
    rcases w3 with w3 | w3
    · rw [if_pos w3]; omega
    · rw [if_neg (by omega), if_pos w3]; omega
  · intro hd
    unfold rvx_update_edge_buffer.split
    rw [if_pos hd]
    omega
  · intro hd
    unfold rvx_update_edge_buffer.split
    rw [if_neg (by omega), if_pos hd]
    omega

/-- Witness of C37: the marker strip of `gridEdgeStrip` gives one edge. -/
theorem edge_width_within_span_witness :
    ∃ area es en', importInstance (some (254, 255)) 20 true gridEdgeStrip identityMatrix 100 [] 0
        = some (area, es, en')
      ∧ es.length = 1
      ∧ ∃ new, es = [] ++ new
        ∧ ∀ e ∈ new, 0 ≤ e.edge_width ∧ e.edge_width ≤ e.ex - e.sx :=
  ⟨_, _, _, rfl, rfl,
    match edge_width_within_span (some (254, 255)) 20 true gridEdgeStrip identityMatrix 100
      [] 0 rfl with
    | ⟨new, h1, h2⟩ => ⟨new, h1, fun e he => ⟨(h2 e he).1, (h2 e he).2.1⟩⟩⟩

/-! ## World coordinates from the area origin (claim C38) -/

theorem axisOrigin_eq (size : Nat) (t : Int) : axisOrigin size t = t - ((size / 2 : Nat) : Int) := by
  unfold axisOrigin
  have h : Int.tdiv (-(size : Int)) 2 = -((size / 2 : Nat) : Int) := by
    rw [Int.neg_tdiv]
    congr 1
  rw [h]
  ring

/-- C38: for an instance with the identity transform and an integer translation
`(tx, ty, tz)` whose coordinates fit 16 bits, the area origin that `ImportVOX`
stores is `(tx - size_x / 2, ty - size_y / 2, tz - size_z / 2)` (floor
division; in the source the truncating division of the negated size), every
rectangle of the area has the coordinates of a rectangle of grid cells plus
that origin, and every edge that the import appends has the coordinates of a
marker rectangle `(sx .. ex) x (sz .. ez)` of the grid found in a layer `y` and
of a closing layer `ey > y` plus that origin, with `sy` one above the marker
layer. -/
theorem coordinates_are_local_plus_origin (markers : Option (Nat × Nat)) (fuel : Nat)
    (optimize : Bool) (inst : ogt_vox_instance) (inverse : Matrix) (m_no : Int)
    (edges : List RVX_EDGE) (en : Int)
    (hT : instanceMatrix inst.transform = identityMatrix) (hI : inverse = identityMatrix)
    (hlen : inst.model.voxel_data.length
      = inst.model.size_x * inst.model.size_y * inst.model.size_z)
    (hfit : WorldFits inst)
    {area : Area} {es : List RVX_EDGE} {en' : Int}
    (h : importInstance markers fuel optimize inst inverse m_no edges en = some (area, es, en')) :
    area.m_sx = inst.transform.m30 - ((inst.model.size_x / 2 : Nat) : Int)
      ∧ area.m_sy = inst.transform.m31 - ((inst.model.size_y / 2 : Nat) : Int)
      ∧ area.m_sz = inst.transform.m32 - ((inst.model.size_z / 2 : Nat) : Int)
      ∧ (∀ v ∈ area.m_voxels, ∃ r : LRect,
          (r.sx ≤ r.ex ∧ r.ex < inst.model.size_x ∧ r.sz ≤ r.ez ∧ r.ez < inst.model.size_z
            ∧ r.y < inst.model.size_y)
          ∧ v.sx = r.sx + area.m_sx ∧ v.ex = r.ex + area.m_sx ∧ v.y = r.y + area.m_sy
          ∧ v.sz = r.sz + area.m_sz ∧ v.ez = r.ez + area.m_sz)
      ∧ ∃ new, es = edges ++ new
        ∧ ∀ e ∈ new, ∃ q : LCube,
            (q.sx ≤ q.ex ∧ q.ex < inst.model.size_x ∧ q.sz ≤ q.ez ∧ q.ez < inst.model.size_z
              ∧ q.sy < inst.model.size_y ∧ q.sy < q.ey)
            ∧ e.sx = q.sx + area.m_sx ∧ e.ex = q.ex + area.m_sx
            ∧ e.sy = q.sy + area.m_sy + 1 ∧ e.ey = q.ey + area.m_sy
            ∧ e.sz = q.sz + area.m_sz ∧ e.ez = q.ez + area.m_sz := by
  obtain ⟨L, data', ha, hinv⟩ := importInstance_identity_colour markers fuel optimize inst
    inverse m_no edges en hT hI hlen h
  obtain ⟨new, hn1, hn2⟩ := importInstance_found markers fuel optimize inst inverse m_no
    edges en h
  have hctx := instanceCtx_identity markers fuel optimize inst inverse m_no hT hI
  have hsx : (instanceCtx markers fuel optimize inst inverse m_no).space_size_x
      = inst.model.size_x := by rw [hctx]
  have hsy : (instanceCtx markers fuel optimize inst inverse m_no).space_size_y
      = inst.model.size_y := by rw [hctx]
  have hsz : (instanceCtx markers fuel optimize inst inverse m_no).space_size_z
      = inst.model.size_z := by rw [hctx]
  have hdx : (instanceCtx markers fuel optimize inst inverse m_no).dx
      = axisOrigin inst.model.size_x inst.transform.m30 := by rw [hctx]
  have hdy : (instanceCtx markers fuel optimize inst inverse m_no).dy
      = axisOrigin inst.model.size_y inst.transform.m31 := by rw [hctx]
  have hdz : (instanceCtx markers fuel optimize inst inverse m_no).dz
      = axisOrigin inst.model.size_z inst.transform.m32 := by rw [hctx]
  obtain ⟨fx, fy, fz⟩ := hfit
  unfold AxisFits at fx fy fz
  subst ha
  refine ⟨axisOrigin_eq _ _, axisOrigin_eq _ _, axisOrigin_eq _ _, ?_, new, hn1, ?_⟩
  · intro v hv
    simp only [List.mem_map] at hv
    obtain ⟨r, hr, hrv⟩ := hv
    obtain ⟨r1, r2, r3, r4, r5, -, -⟩ := hinv.rects r hr
    have htv := toVoxel_of_fits (instanceCtx markers fuel optimize inst inverse m_no) r
      (by rw [hdx, hsx]; exact fx) (by rw [hdy, hsy]; exact fy) (by rw [hdz, hsz]; exact fz) r1
      (by rw [hsx]; exact r2) r3 (by rw [hsz]; exact r4) (by rw [hsy]; exact r5)
    rw [htv] at hrv
    subst hrv
    simp only [hdx, hdy, hdz]
    exact ⟨r, ⟨r1, r2, r3, r4, r5⟩, rfl, rfl, rfl, rfl, rfl⟩
  · intro e he
    obtain ⟨l, r, data, en0, y, sx, x, sz, ez, c, ey, -, b1, b2, b3, b4, b5, hm⟩ := hn2 e he
    obtain ⟨m1, m2, m3, m4, m5, m6, -, m8, -⟩ := edgeMeasure_spec _ l r data en0 y sx x sz ez c hm
    rw [hdx] at m1 m2
    rw [hdy] at m3 m4
    rw [hdz] at m5 m6
    rw [hsx] at b2
    rw [hsy] at b3
    rw [hsz] at b5
    exact ⟨⟨sx, x, y, ey, sz, ez⟩, ⟨b1, b2, b4, b5, b3, by simp only; omega⟩,
      m1, m2, m3, m4, m5, m6⟩

/-- Witness of C38: the translated 2 x 1 x 2 grid has its origin at
`(10 - 1, 20 - 0, 30 - 1)`. -/
theorem coordinates_are_local_plus_origin_witness :
    ∃ area, importInstance none 0 true gridTranslated identityMatrix 100 [] 0
        = some (area, [], 0)
      ∧ area.m_sx = 9 ∧ area.m_sy = 20 ∧ area.m_sz = 29
      ∧ area.m_sx = gridTranslated.transform.m30 - ((gridTranslated.model.size_x / 2 : Nat) : Int)
      ∧ area.m_voxels = [⟨3, 9, 10, 20, 29, 30, 0⟩] :=
  ⟨_, rfl, rfl, rfl, rfl,
    (coordinates_are_local_plus_origin none 0 true gridTranslated identityMatrix 100 [] 0
      (by decide) rfl (by decide) (by decide) rfl).1, rfl⟩

/-! ## The spacing scan and the closing-layer scan leave the grid (claims C33, C34) -/

theorem edgeMeasure_scans (ctx : MergeCtx) (l r : Nat) (data : List Nat) (en : Int)
    (y sx x sz ez c : Nat) {e : RVX_EDGE} {ey : Nat}
    (h : edgeMeasure ctx l r data en y sx x sz ez c = some (e, ey)) :
    (∃ s : Nat, e.spacing = s ∧ 1 ≤ s
        ∧ (∃ v, readVoxel data (ctx.off x (y + 1 + s : Nat) ez) = some v ∧ v ≠ 0)
        ∧ ∀ t, 1 ≤ t → t < s → readVoxel data (ctx.off x (y + 1 + t : Nat) ez) = some 0)
      ∧ y + 1 ≤ ey ∧ readVoxel data (ctx.off sx ey sz) = some c
      ∧ ∀ j, y + 1 ≤ j → j < ey →
          ∃ v, readVoxel data (ctx.off sx j sz) = some v ∧ v ≠ c := by
  unfold edgeMeasure at h
  have key : ∀ (spacing ey' : Nat),
      scanWhile (fun s => (readVoxel data (ctx.off x (y + 1 + s : Nat) ez)).map
        (fun v => v == 0)) ctx.fuel 1 = some spacing →
      scanWhile (fun ey => (readVoxel data (ctx.off sx ey sz)).map (fun v => v != c))
        ctx.fuel (y + 1) = some ey' →
      (∃ s : Nat, ((spacing : Nat) : Int) = s ∧ 1 ≤ s
          ∧ (∃ v, readVoxel data (ctx.off x (y + 1 + s : Nat) ez) = some v ∧ v ≠ 0)
          ∧ ∀ t, 1 ≤ t → t < s → readVoxel data (ctx.off x (y + 1 + t : Nat) ez) = some 0)
        ∧ y + 1 ≤ ey' ∧ readVoxel data (ctx.off sx ey' sz) = some c
        ∧ ∀ j, y + 1 ≤ j → j < ey' →
            ∃ v, readVoxel data (ctx.off sx j sz) = some v ∧ v ≠ c := by
    intro spacing ey' hsp hey
    obtain ⟨a1, a2, a3⟩ := scanWhile_spec _ _ _ _ hsp
    obtain ⟨b1, b2, b3⟩ := scanWhile_spec _ _ _ _ hey
    refine ⟨⟨spacing, rfl, a3, ?_, ?_⟩, b3, ?_, ?_⟩
    · simp only [Option.map_eq_some', beq_eq_false_iff_ne, ne_eq] at a2
      exact a2
    · intro t ht1 ht2
      have := a1 t ht1 ht2
      simp only [Option.map_eq_some', beq_iff_eq] at this
      obtain ⟨v, hv1, hv2⟩ := this
      rw [hv1, hv2]
    · simp only [Option.map_eq_some', bne_eq_false_iff_eq] at b2
      obtain ⟨v, hv1, hv2⟩ := b2
      rw [hv1, hv2]
    · intro j hj1 hj2
      have := b1 j hj1 hj2
      simp only [Option.map_eq_some', bne_iff_ne, ne_eq] at this
      exact this
  by_cases hl : c = l
  · simp only [if_pos hl, bind, Option.bind_eq_some, pure, Option.some.injEq,
      Prod.mk.injEq] at h
    obtain ⟨spacing, hsp, tl, -, tr, -, bl, -, br, -, w, -, ht, -, ey', hey, he, hey'⟩ := h
    subst hey'
    rw [← he]
    exact key spacing ey' hsp hey
  · by_cases hr : c = r
    · simp only [if_neg hl, if_pos hr, bind, Option.bind_eq_some, pure, Option.some.injEq,
        Prod.mk.injEq] at h
      obtain ⟨spacing, hsp, tl, -, tr, -, bl, -, br, -, w, -, ht, -, ey', hey, he, hey'⟩ := h
      subst hey'
      rw [← he]
      exact key spacing ey' hsp hey
    · simp only [if_neg hl, if_neg hr, bind, Option.bind_eq_some, pure, Option.some.injEq,
        Prod.mk.injEq, exists_eq_left'] at h
      obtain ⟨spacing, hsp, tl, -, tr, -, bl, -, br, -, ey', hey, he, hey'⟩ := h
      subst hey'
      rw [← he]
      exact key spacing ey' hsp hey

/-- C33, evaluated on the code: in `gridEdgeOpenAbove` the edge is detected at
marker layer `y = 0` with last column `ex = 2` and last row `ez = 0`.  The grid
has three layers, so exactly one cell lies above layer `y + 1` at that position,
`(2, 2, 0)`, and it is empty: no step `s >= 1` has a non-empty cell
`(2, 1 + s, 0)`, and one plus the number of consecutive empty cells above layer
`y + 1` is 2.  The spacing scan is not clamped to the top layer: for `s = 2` it
reads offset 11 for `(2, 3, 0)`, which is the cell `(2, 0, 1)` of the next row
and empty as well, for `s = 3` offset 14, the cell `(2, 1, 1)` of colour 7, and
the edge is emitted with `spacing = 3`. -/
theorem spacing_scan_reads_next_row :
    ∃ area e en, importInstance (some (254, 255)) 20 true gridEdgeOpenAbove identityMatrix
        100 [] 0 = some (area, [e], en)
      ∧ e.ex - area.m_sx = 2 ∧ e.sy - 1 - area.m_sy = 0 ∧ e.ez - area.m_sz = 0
      ∧ e.spacing = 3
      ∧ gridEdgeOpenAbove.model.size_y = 3
      ∧ (∀ s : Nat, 1 ≤ s → 0 + 1 + s < 3 →
          cellAt 3 3 gridEdgeOpenAbove.model.voxel_data 2 (0 + 1 + s) 0 = 0)
      ∧ (∀ s : Int, 1 ≤ s → sourceCell gridEdgeOpenAbove.model 2 (0 + 1 + s) 0 = 0)
      ∧ 1 + ((List.range (3 - (0 + 2))).takeWhile
          (fun t => cellAt 3 3 gridEdgeOpenAbove.model.voxel_data 2 (0 + 2 + t) 0 == 0)).length = 2
      ∧ (instanceCtx (some (254, 255)) 20 true gridEdgeOpenAbove identityMatrix 100).off 2
          (0 + 1 + 2) 0 = 11
      ∧ (instanceCtx (some (254, 255)) 20 true gridEdgeOpenAbove identityMatrix 100).off 2
          (0 + 1 + 3) 0 = 14
      ∧ ((2 + 0 * 3 + 1 * 3 * 3 : Nat) : Int) = 11
      ∧ ((2 + 1 * 3 + 1 * 3 * 3 : Nat) : Int) = 14
      ∧ readVoxel gridEdgeOpenAbove.model.voxel_data 11 = some 0
      ∧ readVoxel gridEdgeOpenAbove.model.voxel_data 14 = some 7
      ∧ cellAt 3 3 gridEdgeOpenAbove.model.voxel_data 2 0 1 = 0
      ∧ cellAt 3 3 gridEdgeOpenAbove.model.voxel_data 2 1 1 = 7 := by
  refine ⟨_, _, _, rfl, by decide, by decide, by decide, by decide, by decide, ?_, ?_,
    by decide, by decide, by decide, by decide, by decide, by decide, by decide, by decide,
    by decide⟩
  · intro s h1 h2
    have hs : s = 1 := by omega
    subst hs
    decide
  · intro s h1
    by_cases h2 : s = 1
    · subst h2
      decide
    · unfold sourceCell
      rw [if_neg]
      intro hh
      have : (gridEdgeOpenAbove.model.size_y : Int) = 3 := by decide
      omega

/-- C34, evaluated on the code: in `gridEdgeNoClosing` the edge is detected at
marker layer `y = 0` at the cell `(0, 0, 0)` of colour 254.  The only layer of
the grid above it holds colour 5 at `(0, 1, 0)`, so no layer `Y' > y` of the
grid has the marker colour there; the scan for `ey` is not clamped, reads
offset 2 for `(0, 2, 0)`, which is the cell `(0, 0, 1)` of the marker strip
itself, and the edge is emitted with `ey = 2`, a layer that the grid (layers 0
and 1) does not have. -/
theorem closing_scan_reads_next_row :
    ∃ area e en, importInstance (some (254, 255)) 20 true gridEdgeNoClosing identityMatrix
        100 [] 0 = some (area, [e], en)
      ∧ e.sx - area.m_sx = 0 ∧ e.sy - 1 - area.m_sy = 0 ∧ e.sz - area.m_sz = 0
      ∧ cellAt 1 2 gridEdgeNoClosing.model.voxel_data 0 0 0 = 254
      ∧ e.ey - area.m_sy = 2
      ∧ gridEdgeNoClosing.model.size_y = 2
      ∧ (∀ j : Nat, 0 < j → j < 2 →
          cellAt 1 2 gridEdgeNoClosing.model.voxel_data 0 j 0 ≠ 254)
      ∧ (∀ j : Int, 0 < j → sourceCell gridEdgeNoClosing.model 0 j 0 ≠ 254)
      ∧ (instanceCtx (some (254, 255)) 20 true gridEdgeNoClosing identityMatrix 100).off 0 2 0
          = 2
      ∧ ((0 + 0 * 1 + 1 * 1 * 2 : Nat) : Int) = 2
      ∧ readVoxel gridEdgeNoClosing.model.voxel_data 2 = some 254
      ∧ cellAt 1 2 gridEdgeNoClosing.model.voxel_data 0 0 1 = 254 := by
  refine ⟨_, _, _, rfl, by decide, by decide, by decide, by decide, by decide, by decide, ?_, ?_,
    by decide, by decide, by decide, by decide⟩
  · intro j h1 h2
    have hj : j = 1 := by omega
    subst hj
    decide
  · intro j h1
    by_cases h2 : j = 1
    · subst h2
      decide
    · unfold sourceCell
      rw [if_neg]
      · decide
      · intro hh
        have : (gridEdgeNoClosing.model.size_y : Int) = 2 := by decide
        omega

/-! ## The identity fast path (claim C16) -/

theorem scanWhile_agree (f g : Nat → Option Bool) (N : Nat) (hfg : ∀ i, i ≤ N → f i = g i) :
    ∀ (fuel i a b : Nat), scanWhile f fuel i = some a → scanWhile g fuel i = some b →
      a = b ∨ (N < a ∧ N < b) := by
  intro fuel
  induction fuel with
  | zero =>
    intro i a b h
    exact absurd h (by simp [scanWhile])
  | succ n ih =>
    intro i a b ha hb
    by_cases hi : i ≤ N
    · rw [scanWhile] at ha hb
      rw [← hfg i hi] at hb
      cases hc : f i with
      | none => rw [hc] at ha; exact absurd ha (by simp)
      | some v =>
        rw [hc] at ha hb
        cases v with
        | false =>
          simp only [Option.some.injEq] at ha hb
          left; omega
        | true => exact ih (i + 1) a b ha hb
    · right
      have h1 := (scanWhile_spec f _ _ _ ha).2.2
      have h2 := (scanWhile_spec g _ _ _ hb).2.2
      omega

theorem edgeMeasure_generalPath_left (ctx : MergeCtx) (hinv : ctx.inversep = none)
    (h0 : 0 ≤ ctx.sizes.x) (h1 : 0 ≤ ctx.sizes.y) (h2 : 0 ≤ ctx.sizes.z)
    (l r : Nat) (data : List Nat) (en : Int) (y sx x sz ez c : Nat) (hc : c = l) :
    edgeMeasure ctx.generalPath l r data en y sx x sz ez c
      = edgeMeasure ctx l r data en y sx x sz ez c := by
  have hoff : ∀ (a b : Nat) (z : Int),
      ctx.generalPath.off (a : Int) (b : Int) z = ctx.off (a : Int) (b : Int) z :=
    off_generalPath_nat ctx hinv h0 h1 h2
  have hf : ctx.generalPath.fuel = ctx.fuel := rfl
  have hdx : ctx.generalPath.dx = ctx.dx := rfl
  have hdy : ctx.generalPath.dy = ctx.dy := rfl
  have hdz : ctx.generalPath.dz = ctx.dz := rfl
  have hno : ctx.generalPath.area_no = ctx.area_no := rfl
  unfold edgeMeasure
  simp only [hoff, hf, hdx, hdy, hdz, hno, if_pos hc]

theorem edgeMeasure_generalPath_some (ctx : MergeCtx) (hinv : ctx.inversep = none)
    (h0 : 0 ≤ ctx.sizes.x) (h1 : 0 ≤ ctx.sizes.y) (h2 : 0 ≤ ctx.sizes.z)
    (l r : Nat) (data : List Nat) (en : Int) (y sx x sz ez c : Nat) {p q : RVX_EDGE × Nat}
    (hp : edgeMeasure ctx.generalPath l r data en y sx x sz ez c = some p)
    (hq : edgeMeasure ctx l r data en y sx x sz ez c = some q) : p = q := by
  by_cases hl : c = l
  · rw [edgeMeasure_generalPath_left ctx hinv h0 h1 h2 _ _ _ _ _ _ _ _ _ _ hl, hq] at hp
    exact (Option.some.inj hp).symm
  by_cases hr : c = r
  swap
  · rw [edgeMeasure_generalPath ctx hinv h0 h1 h2 _ _ _ _ _ _ _ _ _ _ hr, hq] at hp
    exact (Option.some.inj hp).symm
  have hoff : ∀ (a b : Nat) (z : Int),
      ctx.generalPath.off (a : Int) (b : Int) z = ctx.off (a : Int) (b : Int) z :=
    off_generalPath_nat ctx hinv h0 h1 h2
  have hf : ctx.generalPath.fuel = ctx.fuel := rfl
  have hdx : ctx.generalPath.dx = ctx.dx := rfl
  have hdy : ctx.generalPath.dy = ctx.dy := rfl
  have hdz : ctx.generalPath.dz = ctx.dz := rfl
  have hno : ctx.generalPath.area_no = ctx.area_no := rfl
  unfold edgeMeasure at hp hq
  simp only [hoff, hf, hdx, hdy, hdz, hno, if_neg hl, if_pos hr, bind, Option.bind_eq_some, pure,
    Option.some.injEq] at hp hq
  obtain ⟨s1, a1, tl1, a2, tr1, a3, bl1, a4, br1, a5, w1, a6, t1, a7, ey1, a8, a9⟩ := hp
  obtain ⟨s2, b1, tl2, b2, tr2, b3, bl2, b4, br2, b5, w2, b6, t2, b7, ey2, b8, b9⟩ := hq
  rw [a1] at b1
  rw [a2] at b2
  rw [a3] at b3
  rw [a4] at b4
  rw [a5] at b5
  rw [a8] at b8
  simp only [Option.some.injEq] at b1 b2 b3 b4 b5 b8
  subst b1 b2 b3 b4 b5 b8
  rw [a7] at b7
  simp only [Option.some.injEq] at b7
  subst b7
  have hw : (if w1 ≥ x - sx then (x - sx) / 2 else w1)
      = (if w2 ≥ x - sx then (x - sx) / 2 else w2) := by
    have hagree : ∀ i, i ≤ x →
        (fun width : Nat => (readVoxel data (ctx.generalPath.off ((x : Int) - width)
            ((y + 1 : Nat) : Int) ez)).map (fun v => v == tr1)) i
        = (fun width : Nat => (readVoxel data (ctx.off ((x : Int) - width)
            ((y + 1 : Nat) : Int) ez)).map (fun v => v == tr1)) i := by
      intro i hi
      simp only
      rw [off_generalPath ctx hinv h0 h1 h2 _ _ _ (by omega) (Int.natCast_nonneg _)]
    rcases scanWhile_agree _ _ x hagree _ _ _ _ a6 b6 with h | h
    · rw [h]
    · rw [if_pos (by omega), if_pos (by omega)]
  rw [← a9, ← b9, hw]

theorem edgeBranch_generalPath_some (ctx : MergeCtx) (hinv : ctx.inversep = none)
    (h0 : 0 ≤ ctx.sizes.x) (h1 : 0 ≤ ctx.sizes.y) (h2 : 0 ≤ ctx.sizes.z)
    (l r y z x c : Nat) (st : MergeState) {p q : Nat × MergeState}
    (hp : edgeBranch ctx.generalPath l r y z x c st = some p)
    (hq : edgeBranch ctx l r y z x c st = some q) : p = q := by
  have hsx : ctx.generalPath.space_size_x = ctx.space_size_x := rfl
  have hsz : ctx.generalPath.space_size_z = ctx.space_size_z := rfl
  unfold edgeBranch at hp hq
  simp only [lineScan_generalPath ctx hinv h0 h1 h2, edgeGrowZ_generalPath ctx hinv h0 h1 h2,
    removeCube_generalPath ctx hinv h0 h1 h2, hsx, hsz] at hp
  cases hl : lineScan ctx st.voxel_copy y z c (ctx.space_size_x - 1 - x) x with
  | none => rw [hl] at hq; exact absurd hq (by simp)
  | some x' =>
    rw [hl] at hp hq
    simp only [] at hp hq
    cases hg : edgeGrowZ ctx st.voxel_copy x x' y c (ctx.space_size_z - 1 - z) z with
    | none => rw [hg] at hq; exact absurd hq (by simp)
    | some ez =>
      rw [hg] at hp hq
      simp only [] at hp hq
      cases hm1 : edgeMeasure ctx.generalPath l r st.voxel_copy st.en y x x' z ez c with
      | none => rw [hm1] at hp; exact absurd hp (by simp)
      | some m1 =>
        cases hm2 : edgeMeasure ctx l r st.voxel_copy st.en y x x' z ez c with
        | none => rw [hm2] at hq; exact absurd hq (by simp)
        | some m2 =>
          have hm := edgeMeasure_generalPath_some ctx hinv h0 h1 h2 _ _ _ _ _ _ _ _ _ _ hm1 hm2
          subst hm
          rw [hm1] at hp
          rw [hm2] at hq
          rw [hp] at hq
          exact Option.some.inj hq

theorem cellBody_generalPath_some (ctx : MergeCtx) (hinv : ctx.inversep = none)
    (h0 : 0 ≤ ctx.sizes.x) (h1 : 0 ≤ ctx.sizes.y) (h2 : 0 ≤ ctx.sizes.z)
    (y z x : Nat) (st : MergeState) {p q : Nat × MergeState}
    (hp : cellBody ctx.generalPath y z x st = some p)
    (hq : cellBody ctx y z x st = some q) : p = q := by
  have hm : ctx.generalPath.markers = ctx.markers := rfl
  unfold cellBody at hp hq
  rw [off_generalPath_nat ctx hinv h0 h1 h2, hm] at hp
  cases hr : readVoxel st.voxel_copy (ctx.off x y z) with
  | none => rw [hr] at hq; exact absurd hq (by simp)
  | some c =>
    rw [hr] at hp hq
    simp only [pushRect_generalPath ctx hinv h0 h1 h2] at hp hq
    by_cases hc0 : c = 0
    · simp only [hc0, if_true] at hp hq
      rw [hp] at hq
      exact Option.some.inj hq
    · simp only [hc0, if_false] at hp hq
      cases hmk : ctx.markers with
      | none =>
        rw [hmk] at hp hq
        simp only at hp hq
        rw [hp] at hq
        exact Option.some.inj hq
      | some lr =>
        obtain ⟨l, r⟩ := lr
        rw [hmk] at hp hq
        simp only at hp hq
        by_cases hc : c = l ∨ c = r
        · rw [if_pos hc] at hp hq
          exact edgeBranch_generalPath_some ctx hinv h0 h1 h2 _ _ _ _ _ _ _ hp hq
        · rw [if_neg hc] at hp hq
          rw [hp] at hq
          exact Option.some.inj hq

theorem xLoop_generalPath_some (ctx : MergeCtx) (hinv : ctx.inversep = none)
    (h0 : 0 ≤ ctx.sizes.x) (h1 : 0 ≤ ctx.sizes.y) (h2 : 0 ≤ ctx.sizes.z) (y z : Nat) :
    ∀ (fuel x : Nat) (st s1 s2 : MergeState),
      xLoop ctx.generalPath y z fuel x st = some s1 → xLoop ctx y z fuel x st = some s2 →
      s1 = s2 := by
  have hsx : ctx.generalPath.space_size_x = ctx.space_size_x := rfl
  intro fuel
  induction fuel with
  | zero =>
    intro x st s1 s2 hp hq
    simp only [xLoop, hsx] at hp hq
    rw [hp] at hq
    exact Option.some.inj hq
  | succ n ih =>
    intro x st s1 s2 hp hq
    simp only [xLoop, hsx] at hp hq
    by_cases hx : x < ctx.space_size_x
    · simp only [hx, if_true] at hp hq
      cases hb1 : cellBody ctx.generalPath y z x st with
      | none => rw [hb1] at hp; exact absurd hp (by simp)
      | some p =>
        cases hb2 : cellBody ctx y z x st with
        | none => rw [hb2] at hq; exact absurd hq (by simp)
        | some q =>
          have hpq := cellBody_generalPath_some ctx hinv h0 h1 h2 _ _ _ _ hb1 hb2
          subst hpq
          rw [hb1] at hp
          rw [hb2] at hq
          exact ih _ _ _ _ hp hq
    · simp only [hx, if_false] at hp hq
      rw [hp] at hq
      exact Option.some.inj hq

theorem zLoop_generalPath_some (ctx : MergeCtx) (hinv : ctx.inversep = none)
    (h0 : 0 ≤ ctx.sizes.x) (h1 : 0 ≤ ctx.sizes.y) (h2 : 0 ≤ ctx.sizes.z) (y : Nat) :
    ∀ (n z : Nat) (st s1 s2 : MergeState),
      zLoop ctx.generalPath y n z st = some s1 → zLoop ctx y n z st = some s2 → s1 = s2 := by
  have hsx : ctx.generalPath.space_size_x = ctx.space_size_x := rfl
  intro n
  induction n with
  | zero =>
    intro z st s1 s2 hp hq
    simp only [zLoop] at hp hq
    rw [hp] at hq
    exact Option.some.inj hq
  | succ n ih =>
    intro z st s1 s2 hp hq
    simp only [zLoop, hsx] at hp hq
    cases hb1 : xLoop ctx.generalPath y z ctx.space_size_x 0 st with
    | none => rw [hb1] at hp; exact absurd hp (by simp)
    | some p =>
      cases hb2 : xLoop ctx y z ctx.space_size_x 0 st with
      | none => rw [hb2] at hq; exact absurd hq (by simp)
      | some q =>
        have hpq := xLoop_generalPath_some ctx hinv h0 h1 h2 _ _ _ _ _ _ _ hb1 hb2
        subst hpq
        rw [hb1] at hp
        rw [hb2] at hq
        exact ih _ _ _ _ hp hq

theorem yLoop_generalPath_some (ctx : MergeCtx) (hinv : ctx.inversep = none)
    (h0 : 0 ≤ ctx.sizes.x) (h1 : 0 ≤ ctx.sizes.y) (h2 : 0 ≤ ctx.sizes.z) :
    ∀ (n y : Nat) (st s1 s2 : MergeState),
      yLoop ctx.generalPath n y st = some s1 → yLoop ctx n y st = some s2 → s1 = s2 := by
  have hsz : ctx.generalPath.space_size_z = ctx.space_size_z := rfl
  intro n
  induction n with
  | zero =>
    intro y st s1 s2 hp hq
    simp only [yLoop] at hp hq
    rw [hp] at hq
    exact Option.some.inj hq
  | succ n ih =>
    intro y st s1 s2 hp hq
    simp only [yLoop, hsz] at hp hq
    cases hb1 : zLoop ctx.generalPath y ctx.space_size_z 0 st with
    | none => rw [hb1] at hp; exact absurd hp (by simp)
    | some p =>
      cases hb2 : zLoop ctx y ctx.space_size_z 0 st with
      | none => rw [hb2] at hq; exact absurd hq (by simp)
      | some q =>
        have hpq := zLoop_generalPath_some ctx hinv h0 h1 h2 _ _ _ _ _ _ hb1 hb2
        subst hpq
        rw [hb1] at hp
        rw [hb2] at hq
        exact ih _ _ _ _ hp hq

/-- C16: for an instance with the identity transform, `GetOffset` with
`inverse = null` returns the same index as `GetOffset` with the identity matrix
as `inverse` for every `x >= 0`, `y >= 0` and every `z`, in particular for
every in-grid cell; and the merge loops give the same result through either
path: whenever both runs return, they return the same rectangles, edges, edge
counter and scratch copy, whatever marker cells the grid holds; and when no
cell of the voxel copy has the right-marker colour (in particular when edge
detection is off), either both runs return or neither does.  The two paths
read different cells only in the width scan of a right marker left of column
0, where the width is `>= x - sx` in both and is replaced by `(x - sx) / 2`. -/
theorem fast_path_refines_general_path (markers : Option (Nat × Nat)) (fuel : Nat)
    (optimize : Bool) (inst : ogt_vox_instance) (m_no : Int) (st : MergeState)
    (hT : instanceMatrix inst.transform = identityMatrix) :
    (instanceCtx markers fuel optimize inst identityMatrix m_no).inversep = none
    ∧ (∀ (x y : Nat) (z : Int),
        GetOffset x y z inst.model none
            (instanceCtx markers fuel optimize inst identityMatrix m_no).sizes
          = GetOffset x y z inst.model (some identityMatrix)
              (instanceCtx markers fuel optimize inst identityMatrix m_no).sizes)
    ∧ (∀ s1 s2 : MergeState,
        yLoop (instanceCtx markers fuel optimize inst identityMatrix m_no).generalPath
          (instanceCtx markers fuel optimize inst identityMatrix m_no).space_size_y 0 st
            = some s1 →
        yLoop (instanceCtx markers fuel optimize inst identityMatrix m_no)
          (instanceCtx markers fuel optimize inst identityMatrix m_no).space_size_y 0 st
            = some s2 →
        s1 = s2)
    ∧ ((∀ l r, markers = some (l, r) → ∀ v ∈ st.voxel_copy, v ≠ r) →
        yLoop (instanceCtx markers fuel optimize inst identityMatrix m_no).generalPath
            (instanceCtx markers fuel optimize inst identityMatrix m_no).space_size_y 0 st
          = yLoop (instanceCtx markers fuel optimize inst identityMatrix m_no)
            (instanceCtx markers fuel optimize inst identityMatrix m_no).space_size_y 0 st) := by
  have hctx := instanceCtx_identity markers fuel optimize inst identityMatrix m_no hT rfl
  have hinv : (instanceCtx markers fuel optimize inst identityMatrix m_no).inversep = none := by
    rw [hctx]
  have h0 : 0 ≤ (instanceCtx markers fuel optimize inst identityMatrix m_no).sizes.x := by
    rw [hctx]; exact Int.natCast_nonneg _
  have h1 : 0 ≤ (instanceCtx markers fuel optimize inst identityMatrix m_no).sizes.y := by
    rw [hctx]; exact Int.natCast_nonneg _
  have h2 : 0 ≤ (instanceCtx markers fuel optimize inst identityMatrix m_no).sizes.z := by
    rw [hctx]; exact Int.natCast_nonneg _
  have hmk : (instanceCtx markers fuel optimize inst identityMatrix m_no).markers = markers := by
    rw [hctx]
  refine ⟨hinv, ?_, ?_, ?_⟩
  · intro x y z
    exact (GetOffset_identity_eq x y z inst.model _ (Int.natCast_nonneg _)
      (Int.natCast_nonneg _) h0 h1 h2).symm
  · intro s1 s2 hp hq
    exact yLoop_generalPath_some _ hinv h0 h1 h2 _ _ _ _ _ hp hq
  · intro hfree
    exact (yLoop_generalPath _ hinv h0 h1 h2 _ 0 st
      (by rw [hmk]; exact RightFree_of_not_mem markers st.voxel_copy hfree)).1

/-- Witness of C16: on `gridRightEdge`, with edge detection on (right marker
255), the width scan of the right-marker rectangle steps from column 1 to
columns 0, -1, -2: the general path takes `abs(x)` and reads colour 5 three
times before an empty cell, the fast path reads colour 5 twice before a marker
cell; both widths are at least `x - sx = 1`, and both runs return the same
state with one edge of width `(x - sx) / 2 = 0`. -/
theorem fast_path_refines_general_path_witness :
    instanceMatrix gridRightEdge.transform = identityMatrix
    ∧ (List.range 4).map (fun w => readVoxel gridRightEdge.model.voxel_data
        ((instanceCtx (some (254, 255)) 20 true gridRightEdge identityMatrix 100).generalPath.off
          (1 - (w : Int)) 1 1))
      = [some 5, some 5, some 5, some 0]
    ∧ (List.range 4).map (fun w => readVoxel gridRightEdge.model.voxel_data
        ((instanceCtx (some (254, 255)) 20 true gridRightEdge identityMatrix 100).off
          (1 - (w : Int)) 1 1))
      = [some 5, some 5, some 255, some 255]
    ∧ ∃ s1 s2,
        yLoop (instanceCtx (some (254, 255)) 20 true gridRightEdge identityMatrix 100).generalPath
          (instanceCtx (some (254, 255)) 20 true gridRightEdge identityMatrix 100).space_size_y 0
          ⟨gridRightEdge.model.voxel_data, [], [], 0⟩ = some s1
        ∧ yLoop (instanceCtx (some (254, 255)) 20 true gridRightEdge identityMatrix 100)
          (instanceCtx (some (254, 255)) 20 true gridRightEdge identityMatrix 100).space_size_y 0
          ⟨gridRightEdge.model.voxel_data, [], [], 0⟩ = some s2
        ∧ s1 = s2 ∧ s2.m_edges.map (fun e => (e.edge_dir, e.edge_width)) = [(1, 0)] :=
  ⟨by decide, by decide, by decide, _, _, rfl, rfl,
    (fast_path_refines_general_path (some (254, 255)) 20 true gridRightEdge 100
      ⟨gridRightEdge.model.voxel_data, [], [], 0⟩ (by decide)).2.2.1 _ _ rfl rfl, by decide⟩

/-! ## A single marker strip (claim C20) -/

end rvx
